import Mathlib

/-!
# hobby-script: the stack VM, its embedding API and the built-in `print`

A shallow embedding of `src/state.c`, `src/core.c` and `src/vm.c`.

Conventions of the embedding.

* A C function that mutates `struct hs_State* H` becomes a function that takes the
  state and returns the new state.  A result in `Option` is `none` exactly where the C
  code has no defined behaviour (a read or write outside the addressed object, a
  pointer that leaves the value stack, a cast `AS_X` of a value of another kind, a
  dereference of `NULL`).
* The value stack is the memory `stack` together with the index `stackTop`; `pop`
  only decrements `stackTop`, so the slots at and above `stackTop` keep the values
  that were last stored there, as they do in C.  The capacity `STACK_MAX` is declared
  in a header that is not among the sources and is not modelled.
* `frames` holds the live call frames, oldest first; `frameCount` is its length.
* Heap objects live in `heap`; an object pointer is an index into it.  Allocation
  appends, the collector is not modelled (no object is ever freed).
* The open-upvalue list, singly linked through `next` in C, is the list
  `openUpvalues` of upvalue pointers, head first.
* A number is the bit pattern of an IEEE-754 double.  The conversions the VM performs
  itself (`(s32)x`, `(f64)byte`, unary minus) are computed on the bits; the results
  of the arithmetic operators and of `fmod` and `pow` are supplied by `Env`.
-/

namespace HobbyScript

/-! ## Values and heap objects -/

/-- Pointer to a heap object: its index in `hs_State.heap`. -/
abbrev Ref := Nat

/-- Bit pattern of an IEEE-754 binary64 number. -/
abbrev F64 := Nat

/-- The tagged union `Value`. -/
inductive Value where
  | nil
  | bool (b : Bool)
  | number (n : F64)
  | obj (r : Ref)
  deriving DecidableEq, Repr

/-- Modelled from the spec: `table.c` is not among the sources.  A table maps interned
string keys (compared by pointer) to values; here it is an association list with at
most one entry per key when built with `tableSet`. -/
abbrev Table := List (Ref × Value)

/-- A compiled function (`struct GcBcFunction`). -/
structure GcBcFunction where
  arity : Int
  upvalueCount : Nat
  bc : List Nat
  lines : List Nat
  constants : List Value
  name : Option Ref
  deriving DecidableEq, Repr

/-- Heap objects, one constructor per `OBJ_*` kind.  An upvalue is open when
`location` is `some slot` (it points at that stack slot) and closed when it is `none`
(it points at its own `closed` field). -/
inductive Obj where
  | string (chars : String)
  | array (values : List Value)
  | function (f : GcBcFunction)
  | closure (function : Ref) (upvalues : List (Option Ref))
  | upvalue (location : Option Nat) (closed : Value)
  | cFunction (cFunc : Nat) (arity : Int)
  | strooct (name : Ref) (methods staticMethods defaultFields : Table)
  | inst (strooct : Ref) (fields : Table)
  | boundMethod (receiver : Value) (method : Ref)
  | enoom (name : Ref) (values : Table)
  deriving DecidableEq, Repr

/-- One call frame: `func` and `ip` are `none` for the synthetic frame of a native
call (`NULL` in C); `ip` is an offset into the bytecode of the frame's function and
`slots` an index into the value stack. -/
structure CallFrame where
  func : Option Ref
  ip : Option Nat
  slots : Nat
  deriving DecidableEq, Repr

/-- The engine state `struct hs_State`, restricted to what the VM reads and writes,
plus the two output streams. -/
structure hs_State where
  stack : List Value
  stackTop : Nat
  frames : List CallFrame
  openUpvalues : List Ref
  globals : Table
  arrayMethods : Table
  heap : List Obj
  stdout : String
  stderr : String
  deriving DecidableEq, Repr

/-- The field `frameCount`. -/
def hs_State.frameCount (H : hs_State) : Nat := H.frames.length

/-- Result of `run` and `interpret`. -/
inductive InterpretResult where
  | INTERPRET_OK
  | COMPILE_ERR
  | RUNTIME_ERR
  deriving DecidableEq, Repr

/-! ## Numbers -/

/-- The C conversion `(s32)x` of a double: truncation toward zero; `none` when the
value is infinite, NaN or outside the range of `s32` (undefined in C). -/
def F64.toS32 (x : F64) : Option Int :=
  let sign := x / 2 ^ 63 % 2
  let e := x / 2 ^ 52 % 2048
  let m := x % 2 ^ 52
  if e = 2047 then none
  else
    let mag : Nat :=
      if e = 0 then 0
      else if e < 1075 then (2 ^ 52 + m) / 2 ^ (1075 - e)
      else (2 ^ 52 + m) * 2 ^ (e - 1075)
    let v : Int := if sign = 1 then -(mag : Int) else (mag : Int)
    if -(2 : Int) ^ 31 ≤ v ∧ v < (2 : Int) ^ 31 then some v else none

/-- Normalisation of the significand `M` with biased exponent `e` (value
`M * 2 ^ (e - 1075)`): `M` is doubled until its leading bit is bit 52. -/
def F64.normalize : Nat → Nat → Nat → F64
  | 0, M, e => e * 2 ^ 52 + (M - 2 ^ 52)
  | fuel + 1, M, e =>
    if M < 2 ^ 52 then F64.normalize fuel (2 * M) (e - 1)
    else e * 2 ^ 52 + (M - 2 ^ 52)

/-- The double that represents the natural number `n` exactly (`n < 2 ^ 53`); the
conversion `(f64)byte` of `BC_ENUM_VALUE` is the case `n < 256`. -/
def F64.ofNat (n : Nat) : F64 :=
  if n = 0 then 0 else F64.normalize 53 n 1075

/-- Unary minus on a double flips the sign bit. -/
def F64.neg (x : F64) : F64 :=
  if x / 2 ^ 63 % 2 = 1 then x - 2 ^ 63 else x + 2 ^ 63

/-- The arithmetic opcodes that produce a number. -/
inductive ArithOp where
  | add | sub | mul | div | fmod | pow
  deriving DecidableEq, Repr

/-- The comparison opcodes. -/
inductive CmpOp where
  | gt | ge | lt | le
  deriving DecidableEq, Repr

/-! ## state.c -/

/-- Memory write `mem[i] = v`; slots between the end of the initialised memory and
`i` are filled with nil. -/
def poke (mem : List Value) (i : Nat) (v : Value) : List Value :=
  if i < mem.length then mem.set i v
  else mem ++ List.replicate (i - mem.length) Value.nil ++ [v]

/-- Pointer arithmetic `p - d` on the value stack; `none` when the result lies before
the first slot. -/
def ptrSub (p : Nat) (d : Int) : Option Nat :=
  if 0 ≤ (p : Int) - d then some ((p : Int) - d).toNat else none

def resetStack (H : hs_State) : hs_State :=
  { H with stackTop := 0, frames := [], openUpvalues := [] }

/-- The outer `Option` is definedness, the inner one the returned pointer (`none` is
`NULL`). -/
def getValueAt (H : hs_State) (index : Int) : Option (Option Nat) :=
  if 0 ≤ index then
    match H.frames.getLast? with
    | none => none
    | some frame =>
      let value := frame.slots + index.toNat + 1
      some (if value > H.stackTop then none else some value)
  else
    match ptrSub H.stackTop (-index) with
    | none => none
    | some value => some (if value > H.stackTop then none else some value)

def push (H : hs_State) (value : Value) : hs_State :=
  { H with stack := poke H.stack H.stackTop value, stackTop := H.stackTop + 1 }

def pop (H : hs_State) : Option (Value × hs_State) :=
  if H.stackTop = 0 then none
  else
    match H.stack[H.stackTop - 1]? with
    | none => none
    | some v => some (v, { H with stackTop := H.stackTop - 1 })

def peek (H : hs_State) (distance : Int) : Option Value :=
  match ptrSub H.stackTop (1 + distance) with
  | none => none
  | some i => H.stack[i]?

def hs_pushNil (H : hs_State) : hs_State :=
  push H Value.nil

/-- Modelled from the spec: `tostring.c` is not among the sources; the coercion
`toString(H, v)` of a value to its text is the parameter `toStr`.  The result is the
returned `chars` (`none` is `NULL`, with `*length = 0`). -/
def hs_toString (toStr : hs_State → Value → String) (H : hs_State) (index : Int) :
    Option (Option String) :=
  match getValueAt H index with
  | none => none
  | some none => some none
  | some (some v) =>
    match H.stack[v]? with
    | none => none
    | some value => some (some (toStr H value))

/-! ## core.c -/

/-- The loop `for (s32 i = 1; i <= argCount; i++)` of `core_print`, with `n` the
number of iterations that remain. -/
def core_print_loop (toStr : hs_State → Value → String) (argCount : Int) :
    Nat → Int → hs_State → Option hs_State
  | 0, _, H => some H
  | n + 1, i, H =>
    match hs_toString toStr H i with
    | none => none
    | some str =>
      let H1 := { H with stdout := H.stdout ++ str.getD "" }
      let H2 := if i ≠ argCount then { H1 with stdout := H1.stdout ++ "\t" } else H1
      core_print_loop toStr argCount n (i + 1) H2

def core_print (toStr : hs_State → Value → String) (H : hs_State) (argCount : Int) :
    Option hs_State :=
  match core_print_loop toStr argCount argCount.toNat 1 H with
  | none => none
  | some H1 => some (hs_pushNil { H1 with stdout := H1.stdout ++ "\n" })

/-! ## Tables, objects and the parameters of the VM -/

/-- Modelled from the spec: `table.c` is not among the sources.  Lookup of a key. -/
def tableGet (t : Table) (key : Ref) : Option Value :=
  List.lookup key t

/-- Modelled from the spec: `table.c` is not among the sources.  `tableSet` stores the
value under the key, overwriting an existing entry, and returns whether the key is
new (the callers in `vm.c` test exactly that result). -/
def tableSet (t : Table) (key : Ref) (value : Value) : Table × Bool :=
  match List.lookup key t with
  | some _ => (t.map (fun e => if e.1 = key then (key, value) else e), false)
  | none => (t ++ [(key, value)], true)

/-- Modelled from the spec: `table.c` is not among the sources.  Removal of a key. -/
def tableDelete (t : Table) (key : Ref) : Table :=
  t.filter (fun e => e.1 ≠ key)

/-- The opcodes dispatched by `run` (`opcodes.h` is not among the sources). -/
inductive OpCode where
  | BC_CONSTANT | BC_NIL | BC_TRUE | BC_FALSE | BC_POP | BC_ARRAY
  | BC_GET_SUBSCRIPT | BC_SET_SUBSCRIPT
  | BC_GET_GLOBAL | BC_SET_GLOBAL | BC_DEFINE_GLOBAL
  | BC_GET_UPVALUE | BC_SET_UPVALUE | BC_GET_LOCAL | BC_SET_LOCAL
  | BC_INIT_PROPERTY | BC_GET_STATIC | BC_GET_PROPERTY | BC_PUSH_PROPERTY
  | BC_SET_PROPERTY | BC_DESTRUCT_ARRAY
  | BC_EQUAL | BC_NOT_EQUAL | BC_CONCAT
  | BC_GREATER | BC_GREATER_EQUAL | BC_LESSER | BC_LESSER_EQUAL
  | BC_ADD | BC_SUBTRACT | BC_MULTIPLY | BC_DIVIDE | BC_MODULO | BC_POW
  | BC_NEGATE | BC_NOT
  | BC_JUMP | BC_JUMP_IF_FALSE | BC_INEQUALITY_JUMP | BC_LOOP
  | BC_CALL | BC_INSTANCE | BC_CLOSURE | BC_CLOSE_UPVALUE | BC_RETURN
  | BC_ENUM | BC_ENUM_VALUE | BC_STRUCT | BC_METHOD | BC_STATIC_METHOD
  | BC_INVOKE | BC_STRUCT_FIELD | BC_BREAK
  deriving DecidableEq, Repr

/-- What the VM takes from outside `vm.c`: the constant `FRAMES_MAX` and the numbering
of the opcodes (both declared in headers that are not among the sources), the native
functions behind the `cFunc` pointers, and the floating-point unit: `arith op a b` is
the number the C expression for `op` yields on `a` and `b` (through `f32` for the
operators of `BINARY_OP`, through `fmod` and `pow` for the other two) and
`compare op a b` the truth value of the comparison.  `payload v` is the double read
through the member `number` of the union of a value `v` of another tag (the layout of
`Value` is declared in a header that is not among the sources). -/
structure Env where
  FRAMES_MAX : Nat
  decode : Nat → Option OpCode
  cFuncs : Nat → hs_State → Int → Option hs_State
  arith : ArithOp → F64 → F64 → F64
  compare : CmpOp → F64 → F64 → Bool
  payload : Value → F64

/-- Allocation of a heap object: it is appended to the heap. -/
def allocate (H : hs_State) (o : Obj) : Ref × hs_State :=
  (H.heap.length, { H with heap := H.heap ++ [o] })

/-- Write `*r = o`. -/
def store (H : hs_State) (r : Ref) (o : Obj) : hs_State :=
  { H with heap := H.heap.set r o }

/-- The `chars` of a string object, as printed in a diagnostic (empty when the pointer
does not address a string). -/
def stringChars (H : hs_State) (name : Ref) : String :=
  match H.heap[name]? with
  | some (Obj.string chars) => chars
  | _ => ""

/-- Modelled from the spec: `value.c` is not among the sources.  Two values are
equal iff tags match and payloads match. -/
def valuesEqual (a b : Value) : Bool :=
  decide (a = b)

/-- Modelled from the spec: `object.c` is not among the sources.  Strings with
identical bytes are the same object: `takeString` returns the string object with
these bytes when there is one and allocates it otherwise. -/
def takeString (H : hs_State) (chars : String) : Ref × hs_State :=
  match H.heap.indexOf? (Obj.string chars) with
  | some r => (r, H)
  | none => allocate H (Obj.string chars)

/-! ## vm.c -/

/-- One line of the traceback of `runtimeError`.  A frame whose closure, function or
line cannot be read (where the C code reads invalid memory) contributes line 0 or
nothing; the traceback is diagnostic output only. -/
def tracebackLine (H : hs_State) (frame : CallFrame) : String :=
  match frame.func with
  | none => ""
  | some c =>
    match H.heap[c]? with
    | some (Obj.closure fn _) =>
      match H.heap[fn]? with
      | some (Obj.function f) =>
        let line : Nat :=
          match frame.ip with
          | some (instruction + 1) => f.lines.getD instruction 0
          | _ => 0
        "[line #" ++ toString line ++ "] in " ++
          (match f.name with
           | none => "script\n"
           | some n => stringChars H n ++ "\n")
      | _ => ""
    | _ => ""

/-- The function `runtimeError(H, format, ...)`, with `message` the formatted text. -/
def runtimeError (H : hs_State) (message : String) : hs_State :=
  resetStack
    { H with stderr :=
        H.stderr ++ String.join (H.frames.map (tracebackLine H)) ++ message ++ "\n" }

/-- The text of the arity error of `call` and `callCFunc`. -/
def arityMessage (arity argCount : Int) : String :=
  "Expected " ++ toString arity ++ " arguments, but got " ++ toString argCount ++ "."

def call (env : Env) (H : hs_State) (closure : Ref) (argCount : Int) :
    Option (Bool × hs_State) :=
  match H.heap[closure]? with
  | some (Obj.closure fn _) =>
    match H.heap[fn]? with
    | some (Obj.function f) =>
      if argCount ≠ f.arity then
        some (false, runtimeError H (arityMessage f.arity argCount))
      else if H.frameCount = env.FRAMES_MAX then
        some (false, runtimeError H "Stack overflow.")
      else
        match ptrSub H.stackTop (argCount + 1) with
        | none => none
        | some slots =>
          some (true, { H with frames :=
            H.frames ++ [{ func := some closure, ip := some 0, slots := slots }] })
    | _ => none
  | _ => none

/-- The function `callCFunc` (vm.c:60-80).  The frame of the native function is taken
with `&H->frames[H->frameCount++]`, without the test against `FRAMES_MAX` that `call`
makes.  The frame array is a list here: with `frameCount = FRAMES_MAX` the frame is
appended where the C code writes `frames[FRAMES_MAX]`, past the end of the array, so
the result in such a state records the missing test and is no behaviour the C code
defines.  The statements on the defined behaviour of a native call assume
`frameCount < FRAMES_MAX`. -/
def callCFunc (env : Env) (H : hs_State) (func : Ref) (argCount : Int) :
    Option (Bool × hs_State) :=
  match H.heap[func]? with
  | some (Obj.cFunction cFunc arity) =>
    if argCount ≠ arity ∧ arity ≠ -1 then
      some (false, runtimeError H (arityMessage arity argCount))
    else
      match ptrSub H.stackTop (argCount + 1) with
      | none => none
      | some slots =>
        let H1 := { H with frames :=
          H.frames ++ [{ func := none, ip := none, slots := slots }] }
        match env.cFuncs cFunc H1 argCount with
        | none => none
        | some H2 =>
          match pop H2 with
          | none => none
          | some (v, H3) =>
            match H3.frames.getLast? with
            | none => none
            | some frame =>
              some (true,
                push { H3 with frames := H3.frames.dropLast, stackTop := frame.slots } v)
  | _ => none

def callValue (env : Env) (H : hs_State) (callee : Value) (argCount : Int) :
    Option (Bool × hs_State) :=
  match callee with
  | Value.obj r =>
    match H.heap[r]? with
    | none => none
    | some (Obj.boundMethod receiver method) =>
      match ptrSub H.stackTop (argCount + 1) with
      | none => none
      | some slot => call env { H with stack := poke H.stack slot receiver } method argCount
    | some (Obj.closure _ _) => call env H r argCount
    | some (Obj.cFunction _ _) => callCFunc env H r argCount
    | some _ => some (false, runtimeError H "Can only call functions.")
  | _ => some (false, runtimeError H "Can only call functions.")

/-- The cast `AS_OBJ` and its relatives: the pointer of an object value. -/
def asObj (v : Value) : Option Ref :=
  match v with
  | Value.obj r => some r
  | _ => none

/-- The message of `invokeFromStruct` formats the `chars` pointer with `%d`; the
number printed is the pointer, here the index of the string object. -/
def invokeFromStruct (env : Env) (H : hs_State) (strooct : Ref) (name : Ref)
    (argCount : Int) : Option (Bool × hs_State) :=
  match H.heap[strooct]? with
  | some (Obj.strooct _ methods _ _) =>
    match tableGet methods name with
    | none =>
      some (false, runtimeError H ("Undefined property \x27" ++ toString name ++ "\x27."))
    | some method =>
      match asObj method with
      | none => none
      | some closure => call env H closure argCount
  | _ => none

def invoke (env : Env) (H : hs_State) (name : Ref) (argCount : Int) :
    Option (Bool × hs_State) :=
  match peek H argCount with
  | none => none
  | some receiver =>
    match asObj receiver with
    | none => none
    | some r =>
      match H.heap[r]? with
      | none => none
      | some (Obj.inst strooct fields) =>
        match tableGet fields name with
        | some value =>
          match ptrSub H.stackTop (argCount + 1) with
          | none => none
          | some slot => callValue env { H with stack := poke H.stack slot value } value argCount
        | none => invokeFromStruct env H strooct name argCount
      | some (Obj.array _) =>
        match tableGet H.arrayMethods name with
        | some value =>
          match ptrSub H.stackTop (argCount + 1) with
          | none => none
          | some slot =>
            callValue env { H with stack := poke H.stack slot receiver } value argCount
        | none =>
          some (false,
            runtimeError
              (runtimeError H
                ("Array does not contain method \x27" ++ stringChars H name ++ "\x27."))
              "Invalid target to call.")
      | some _ => some (false, runtimeError H "Invalid target to call.")

def bindMethod (H : hs_State) (strooct : Ref) (name : Ref) : Option (Bool × hs_State) :=
  match H.heap[strooct]? with
  | some (Obj.strooct _ methods _ _) =>
    match tableGet methods name with
    | none =>
      some (false,
        runtimeError H ("Undefined property \x27" ++ stringChars H name ++ "\x27."))
    | some method =>
      match asObj method, peek H 0 with
      | some closure, some receiver =>
        let (bound, H1) := allocate H (Obj.boundMethod receiver closure)
        match pop H1 with
        | none => none
        | some (_, H2) => some (true, push H2 (Value.obj bound))
      | _, _ => none
  | _ => none

/-- The stack slot an open upvalue points at; `none` when `r` is not an open
upvalue. -/
def openLocation (H : hs_State) (r : Ref) : Option Nat :=
  match H.heap[r]? with
  | some (Obj.upvalue (some slot) _) => some slot
  | _ => none

/-- The traversal of `captureUpvalue`: the entries skipped by the `while` loop (those
above `local`) and the rest of the list, whose head is `current`. -/
def captureSplit (H : hs_State) (slot : Nat) : List Ref → Option (List Ref × List Ref)
  | [] => some ([], [])
  | u :: rest =>
    match openLocation H u with
    | none => none
    | some location =>
      if location > slot then
        match captureSplit H slot rest with
        | none => none
        | some (skipped, current) => some (u :: skipped, current)
      else some ([], u :: rest)

def captureUpvalue (H : hs_State) (slot : Nat) : Option (Ref × hs_State) :=
  match captureSplit H slot H.openUpvalues with
  | none => none
  | some (skipped, current) =>
    let found : Option Ref :=
      match current with
      | [] => none
      | u :: _ => if openLocation H u = some slot then some u else none
    match found with
    | some u => some (u, H)
    | none =>
      let (createdUpvalue, H1) := allocate H (Obj.upvalue (some slot) Value.nil)
      some (createdUpvalue, { H1 with openUpvalues := skipped ++ createdUpvalue :: current })

/-- The loop of `closeUpvalues` over the open-upvalue list. -/
def closeUpvaluesLoop (last : Nat) : List Ref → hs_State → Option hs_State
  | [], H => some { H with openUpvalues := [] }
  | u :: rest, H =>
    match openLocation H u with
    | none => none
    | some location =>
      if location ≥ last then
        match H.stack[location]? with
        | none => none
        | some v => closeUpvaluesLoop last rest (store H u (Obj.upvalue none v))
      else some { H with openUpvalues := u :: rest }

def closeUpvalues (H : hs_State) (last : Nat) : Option hs_State :=
  closeUpvaluesLoop last H.openUpvalues H

/-- Which table of a struct `defineMethod` writes: `isStatic` selects
`staticMethods`, otherwise `methods`. -/
def defineMethod (H : hs_State) (name : Ref) (strooct : Ref) (isStatic : Bool) :
    Option hs_State :=
  match peek H 0, H.heap[strooct]? with
  | some method, some (Obj.strooct n methods staticMethods defaultFields) =>
    let H1 :=
      if isStatic then
        store H strooct (Obj.strooct n methods (tableSet staticMethods name method).1 defaultFields)
      else
        store H strooct (Obj.strooct n (tableSet methods name method).1 staticMethods defaultFields)
    match pop H1 with
    | none => none
    | some (_, H2) => some H2
  | _, _ => none

def setProperty (H : hs_State) (name : Ref) : Option (Bool × hs_State) :=
  match peek H 1 with
  | none => none
  | some (Value.obj r) =>
    match H.heap[r]? with
    | none => none
    | some (Obj.inst strooct fields) =>
      match peek H 0 with
      | none => none
      | some value =>
        let H1 := store H r (Obj.inst strooct (tableSet fields name value).1)
        if (tableSet fields name value).2 then
          some (false,
            runtimeError H1 "Cannot create new properties on instances at runtime.")
        else some (true, H1)
    | some _ => some (false, runtimeError H "Can only use dot operator on instances.")
  | some _ => some (false, runtimeError H "Can only use dot operator on instances.")

def getProperty (H : hs_State) (object : Value) (name : Ref) (popValue : Bool) :
    Option (Bool × hs_State) :=
  match object with
  | Value.obj r =>
    match H.heap[r]? with
    | none => none
    | some (Obj.inst strooct fields) =>
      match tableGet fields name with
      | some value =>
        if popValue then
          match pop H with
          | none => none
          | some (_, H1) => some (true, push H1 value)
        else some (true, push H value)
      | none => bindMethod H strooct name
    | some _ => some (false, runtimeError H "Invalid target for the dot operator.")
  | _ => some (false, runtimeError H "Invalid target for the dot operator.")

def getStatic (H : hs_State) (object : Value) (name : Ref) : Option (Bool × hs_State) :=
  match object with
  | Value.obj r =>
    match H.heap[r]? with
    | none => none
    | some (Obj.strooct _ _ staticMethods _) =>
      match tableGet staticMethods name with
      | some value =>
        match pop H with
        | none => none
        | some (_, H1) => some (true, push H1 value)
      | none =>
        some (false,
          runtimeError H
            ("Static method \x27" ++ stringChars H name ++ "\x27 does not exist."))
    | some (Obj.enoom _ values) =>
      match tableGet values name with
      | some value =>
        match pop H with
        | none => none
        | some (_, H1) => some (true, push H1 value)
      | none =>
        some (false,
          runtimeError H
            ("Enum value \x27" ++ stringChars H name ++ "\x27 does not exist."))
    | some _ => some (false, runtimeError H "Invalid target for the static operator.")
  | _ => some (false, runtimeError H "Invalid target for the static operator.")

def isFalsey (value : Value) : Bool :=
  match value with
  | Value.nil => true
  | Value.bool b => !b
  | _ => false

/-- The chars of a string value (`AS_STRING(v)->chars`). -/
def asString (H : hs_State) (v : Value) : Option String :=
  match v with
  | Value.obj r =>
    match H.heap[r]? with
    | some (Obj.string chars) => some chars
    | _ => none
  | _ => none

def concatenate (H : hs_State) : Option hs_State :=
  match peek H 0, peek H 1 with
  | some vb, some va =>
    match asString H vb, asString H va with
    | some b, some a =>
      let (result, H1) := takeString H (a ++ b)
      match pop H1 with
      | none => none
      | some (_, H2) =>
        match pop H2 with
        | none => none
        | some (_, H3) => some (push H3 (Value.obj result))
    | _, _ => none
  | _, _ => none

/-! ## The interpreter loop `run` -/

/-- Outcome of one iteration of the loop of `run`: the `switch` ends with `break`
and the loop goes on, or `run` returns. -/
inductive Step where
  | next (H : hs_State)
  | ret (result : InterpretResult) (H : hs_State)
  deriving DecidableEq, Repr

/-- The function of a frame, `frame->func->function`. -/
def frameFunction (H : hs_State) (frame : CallFrame) : Option GcBcFunction :=
  match frame.func with
  | none => none
  | some c =>
    match H.heap[c]? with
    | some (Obj.closure fn _) =>
      match H.heap[fn]? with
      | some (Obj.function f) => some f
      | _ => none
    | _ => none

/-- The upvalue array of a frame, `frame->func->upvalues`. -/
def frameUpvalues (H : hs_State) (frame : CallFrame) : Option (List (Option Ref)) :=
  match frame.func with
  | none => none
  | some c =>
    match H.heap[c]? with
    | some (Obj.closure _ upvalues) => some upvalues
    | _ => none

/-- Assignment to `frame->ip` of the current frame. -/
def setIp (H : hs_State) (frame : CallFrame) (ip : Nat) : hs_State :=
  { H with frames := H.frames.dropLast ++ [{ frame with ip := some ip }] }

def READ_BYTE (H : hs_State) : Option (Nat × hs_State) :=
  match H.frames.getLast? with
  | none => none
  | some frame =>
    match frame.ip, frameFunction H frame with
    | some ip, some f =>
      match f.bc[ip]? with
      | none => none
      | some byte => some (byte, setIp H frame (ip + 1))
    | _, _ => none

def READ_SHORT (H : hs_State) : Option (Nat × hs_State) :=
  match READ_BYTE H with
  | none => none
  | some (hi, H1) =>
    match READ_BYTE H1 with
    | none => none
    | some (lo, H2) => some ((hi * 256 + lo) % 65536, H2)

def READ_CONSTANT (H : hs_State) : Option (Value × hs_State) :=
  match READ_BYTE H with
  | none => none
  | some (index, H1) =>
    match H1.frames.getLast? with
    | none => none
    | some frame =>
      match frameFunction H1 frame with
      | none => none
      | some f =>
        match f.constants[index]? with
        | none => none
        | some constant => some (constant, H1)

def READ_STRING (H : hs_State) : Option (Ref × hs_State) :=
  match READ_CONSTANT H with
  | none => none
  | some (constant, H1) =>
    match asObj constant with
    | none => none
    | some name => some (name, H1)

/-- The macro `AS_NUMBER`: the member `number` of the union. -/
def AS_NUMBER (payload : Value → F64) (v : Value) : F64 :=
  match v with
  | Value.number n => n
  | other => payload other

def IS_NUMBER (v : Value) : Bool :=
  match v with
  | Value.number _ => true
  | _ => false

/-- The macro `BINARY_OP(outType, op)`; `f a b` stands for `outType(a op b)`. -/
def BINARY_OP (H : hs_State) (f : F64 → F64 → Value) : Option Step :=
  match peek H 0 with
  | none => none
  | some v0 =>
    if !IS_NUMBER v0 then
      some (Step.ret InterpretResult.RUNTIME_ERR (runtimeError H "Operands must be numbers."))
    else
      match peek H 1 with
      | none => none
      | some v1 =>
        if !IS_NUMBER v1 then
          some (Step.ret InterpretResult.RUNTIME_ERR
            (runtimeError H "Operands must be numbers."))
        else
          match pop H with
          | some (Value.number b, H1) =>
            match pop H1 with
            | some (Value.number a, H2) => some (Step.next (push H2 (f a b)))
            | _ => none
          | _ => none

/-- The cases `BC_MODULO` and `BC_POW`: both tests of the guard read `peek(H, 0)`. -/
def case_BC_MODULO_POW (payload : Value → F64) (H : hs_State) (f : F64 → F64 → F64) :
    Option Step :=
  match peek H 0 with
  | none => none
  | some v0 =>
    if !IS_NUMBER v0 || !IS_NUMBER v0 then
      some (Step.ret InterpretResult.RUNTIME_ERR (runtimeError H "Operands must be numbers."))
    else
      match pop H with
      | none => none
      | some (vb, H1) =>
        match pop H1 with
        | none => none
        | some (va, H2) =>
          some (Step.next
            (push H2 (Value.number (f (AS_NUMBER payload va) (AS_NUMBER payload vb)))))

/-- The loop `for (u8 i = 1; i <= elementCount; i++)` of `BC_ARRAY`; the counter
wraps at 256 as a `u8` does.  The first argument bounds the number of tests of the
loop condition: `none` is returned when it is used up. -/
def arrayLoop (array : Ref) (elementCount : Nat) : Nat → Nat → hs_State → Option hs_State
  | 0, _, _ => none
  | fuel + 1, i, H =>
    if i ≤ elementCount then
      match peek H ((elementCount : Int) - (i : Int) + 1), H.heap[array]? with
      | some v, some (Obj.array values) =>
        arrayLoop array elementCount fuel ((i + 1) % 256)
          (store H array (Obj.array (values ++ [v])))
      | _, _ => none
    else some H

/-- The case `BC_ARRAY`.  A loop that ends does so within 256 tests of its
condition. -/
def case_BC_ARRAY (H : hs_State) : Option Step :=
  match READ_BYTE H with
  | none => none
  | some (elementCount, H1) =>
    let (array, H2) := allocate H1 (Obj.array [])
    match arrayLoop array elementCount 256 1 (push H2 (Value.obj array)) with
    | none => none
    | some H3 =>
      match ptrSub H3.stackTop ((elementCount : Int) + 1) with
      | none => none
      | some top => some (Step.next (push { H3 with stackTop := top } (Value.obj array)))

/-- The text of the out-of-bounds error of the subscript opcodes. -/
def boundsMessage (count : Nat) (index : Int) : String :=
  "Index out of bounds. Array size is " ++ toString count ++ ", but tried accessing " ++
    toString index

def case_BC_GET_SUBSCRIPT (H : hs_State) : Option Step :=
  match peek H 0 with
  | none => none
  | some (Value.number n) =>
    match F64.toS32 n with
    | none => none
    | some index =>
      match peek H 1 with
      | none => none
      | some (Value.obj r) =>
        match H.heap[r]? with
        | none => none
        | some (Obj.array values) =>
          if index < 0 ∨ index > (values.length : Int) then
            some (Step.ret InterpretResult.RUNTIME_ERR
              (runtimeError H (boundsMessage values.length index)))
          else
            match pop H with
            | none => none
            | some (_, H1) =>
              match pop H1 with
              | none => none
              | some (_, H2) =>
                match values[index.toNat]? with
                | none => none
                | some element => some (Step.next (push H2 element))
        | some _ =>
          some (Step.ret InterpretResult.RUNTIME_ERR
            (runtimeError H "Invalid target for subscript operator."))
      | some _ =>
        some (Step.ret InterpretResult.RUNTIME_ERR
          (runtimeError H "Invalid target for subscript operator."))
  | some _ =>
    some (Step.ret InterpretResult.RUNTIME_ERR
      (runtimeError H "Can only use subscript operator with numbers."))

def case_BC_SET_SUBSCRIPT (H : hs_State) : Option Step :=
  match peek H 1 with
  | none => none
  | some (Value.number n) =>
    match F64.toS32 n with
    | none => none
    | some index =>
      match peek H 2 with
      | none => none
      | some (Value.obj r) =>
        match H.heap[r]? with
        | none => none
        | some (Obj.array values) =>
          if index < 0 ∨ index > (values.length : Int) then
            some (Step.ret InterpretResult.RUNTIME_ERR
              (runtimeError H (boundsMessage values.length index)))
          else
            match pop H with
            | none => none
            | some (v, H1) =>
              if index.toNat < values.length then
                let H2 := store H1 r (Obj.array (values.set index.toNat v))
                match pop H2 with
                | none => none
                | some (_, H3) =>
                  match pop H3 with
                  | none => none
                  | some (_, H4) => some (Step.next (push H4 v))
              else none
        | some _ =>
          some (Step.ret InterpretResult.RUNTIME_ERR
            (runtimeError H "Invalid target for subscript operator."))
      | some _ =>
        some (Step.ret InterpretResult.RUNTIME_ERR
          (runtimeError H "Invalid target for subscript operator."))
  | some _ =>
    some (Step.ret InterpretResult.RUNTIME_ERR
      (runtimeError H "Can only use subscript operator with numbers."))

def case_BC_GET_GLOBAL (H : hs_State) : Option Step :=
  match READ_STRING H with
  | none => none
  | some (name, H1) =>
    match tableGet H1.globals name with
    | none =>
      some (Step.ret InterpretResult.RUNTIME_ERR
        (runtimeError H1 ("Undefined variable \x27" ++ stringChars H1 name ++ "\x27.")))
    | some value => some (Step.next (push H1 value))

def case_BC_SET_GLOBAL (H : hs_State) : Option Step :=
  match READ_STRING H with
  | none => none
  | some (name, H1) =>
    match peek H1 0 with
    | none => none
    | some value =>
      let H2 := { H1 with globals := (tableSet H1.globals name value).1 }
      if (tableSet H1.globals name value).2 then
        let H3 := { H2 with globals := tableDelete H2.globals name }
        some (Step.ret InterpretResult.RUNTIME_ERR
          (runtimeError H3 ("Undefined variable \x27" ++ stringChars H3 name ++ "\x27.")))
      else some (Step.next H2)

def case_BC_DEFINE_GLOBAL (H : hs_State) : Option Step :=
  match READ_STRING H with
  | none => none
  | some (name, H1) =>
    match peek H1 0 with
    | none => none
    | some value =>
      let H2 := { H1 with globals := (tableSet H1.globals name value).1 }
      if !(tableSet H1.globals name value).2 then
        let H3 := { H2 with globals := tableDelete H2.globals name }
        some (Step.ret InterpretResult.RUNTIME_ERR
          (runtimeError H3 ("Redefinition of \x27" ++ stringChars H3 name ++ "\x27.")))
      else
        match pop H2 with
        | none => none
        | some (_, H3) => some (Step.next H3)

/-- The value an upvalue designates, `*upvalue->location`. -/
def readUpvalue (H : hs_State) (u : Ref) : Option Value :=
  match H.heap[u]? with
  | some (Obj.upvalue (some slot) _) => H.stack[slot]?
  | some (Obj.upvalue none closed) => some closed
  | _ => none

/-- The assignment `*upvalue->location = v`. -/
def writeUpvalue (H : hs_State) (u : Ref) (v : Value) : Option hs_State :=
  match H.heap[u]? with
  | some (Obj.upvalue (some slot) _) => some { H with stack := poke H.stack slot v }
  | some (Obj.upvalue none _) => some (store H u (Obj.upvalue none v))
  | _ => none

def case_BC_GET_UPVALUE (H : hs_State) : Option Step :=
  match READ_BYTE H with
  | none => none
  | some (slot, H1) =>
    match H1.frames.getLast? with
    | none => none
    | some frame =>
      match frameUpvalues H1 frame with
      | none => none
      | some upvalues =>
        match upvalues[slot]? with
        | some (some u) =>
          match readUpvalue H1 u with
          | none => none
          | some v => some (Step.next (push H1 v))
        | _ => none

def case_BC_SET_UPVALUE (H : hs_State) : Option Step :=
  match READ_BYTE H with
  | none => none
  | some (slot, H1) =>
    match H1.frames.getLast?, peek H1 0 with
    | some frame, some v =>
      match frameUpvalues H1 frame with
      | none => none
      | some upvalues =>
        match upvalues[slot]? with
        | some (some u) =>
          match writeUpvalue H1 u v with
          | none => none
          | some H2 => some (Step.next H2)
        | _ => none
    | _, _ => none

def case_BC_GET_LOCAL (H : hs_State) : Option Step :=
  match READ_BYTE H with
  | none => none
  | some (slot, H1) =>
    match H1.frames.getLast? with
    | none => none
    | some frame =>
      match H1.stack[frame.slots + slot]? with
      | none => none
      | some v => some (Step.next (push H1 v))

def case_BC_SET_LOCAL (H : hs_State) : Option Step :=
  match READ_BYTE H with
  | none => none
  | some (slot, H1) =>
    match H1.frames.getLast?, peek H1 0 with
    | some frame, some v =>
      some (Step.next { H1 with stack := poke H1.stack (frame.slots + slot) v })
    | _, _ => none

def case_BC_INIT_PROPERTY (H : hs_State) : Option Step :=
  match READ_STRING H with
  | none => none
  | some (name, H1) =>
    match setProperty H1 name with
    | none => none
    | some (false, H2) => some (Step.ret InterpretResult.RUNTIME_ERR H2)
    | some (true, H2) =>
      match pop H2 with
      | none => none
      | some (_, H3) => some (Step.next H3)

def case_BC_GET_STATIC (H : hs_State) : Option Step :=
  match peek H 0, READ_STRING H with
  | some object, some (name, H1) =>
    match getStatic H1 object name with
    | none => none
    | some (false, H2) => some (Step.ret InterpretResult.RUNTIME_ERR H2)
    | some (true, H2) => some (Step.next H2)
  | _, _ => none

/-- The shared case of `BC_PUSH_PROPERTY` and `BC_GET_PROPERTY`; `isGet` is
`instruction == BC_GET_PROPERTY`. -/
def case_BC_GET_PROPERTY (H : hs_State) (isGet : Bool) : Option Step :=
  match peek H 0, READ_STRING H with
  | some object, some (name, H1) =>
    match getProperty H1 object name isGet with
    | none => none
    | some (false, H2) => some (Step.ret InterpretResult.RUNTIME_ERR H2)
    | some (true, H2) => some (Step.next H2)
  | _, _ => none

def case_BC_SET_PROPERTY (H : hs_State) : Option Step :=
  match READ_STRING H with
  | none => none
  | some (name, H1) =>
    match setProperty H1 name with
    | none => none
    | some (false, H2) => some (Step.ret InterpretResult.RUNTIME_ERR H2)
    | some (true, H2) =>
      match pop H2 with
      | none => none
      | some (value, H3) =>
        match pop H3 with
        | none => none
        | some (_, H4) => some (Step.next (push H4 value))

def case_BC_DESTRUCT_ARRAY (H : hs_State) : Option Step :=
  match READ_BYTE H with
  | none => none
  | some (index, H1) =>
    match peek H1 0 with
    | none => none
    | some (Value.obj r) =>
      match H1.heap[r]? with
      | none => none
      | some (Obj.array values) =>
        match values[index]? with
        | none => none
        | some element => some (Step.next (push H1 element))
      | some _ =>
        some (Step.ret InterpretResult.RUNTIME_ERR (runtimeError H1 "Can only destruct arrays"))
    | some _ =>
      some (Step.ret InterpretResult.RUNTIME_ERR (runtimeError H1 "Can only destruct arrays"))

/-- The cases `BC_EQUAL` (`negate = false`) and `BC_NOT_EQUAL` (`negate = true`). -/
def case_BC_EQUAL (H : hs_State) (negate : Bool) : Option Step :=
  match pop H with
  | none => none
  | some (b, H1) =>
    match pop H1 with
    | none => none
    | some (a, H2) => some (Step.next (push H2 (Value.bool (xor negate (valuesEqual a b)))))

/-- The macro `IS_STRING`; the outer `Option` is `none` for a dangling pointer. -/
def IS_STRING (H : hs_State) (v : Value) : Option Bool :=
  match v with
  | Value.obj r =>
    match H.heap[r]? with
    | none => none
    | some (Obj.string _) => some true
    | some _ => some false
  | _ => some false

def case_BC_CONCAT (H : hs_State) : Option Step :=
  match peek H 0 with
  | none => none
  | some v0 =>
    match IS_STRING H v0 with
    | none => none
    | some false =>
      some (Step.ret InterpretResult.RUNTIME_ERR (runtimeError H "Operands must be strings."))
    | some true =>
      match peek H 1 with
      | none => none
      | some v1 =>
        match IS_STRING H v1 with
        | none => none
        | some false =>
          some (Step.ret InterpretResult.RUNTIME_ERR
            (runtimeError H "Operands must be strings."))
        | some true =>
          match concatenate H with
          | none => none
          | some H1 => some (Step.next H1)

def case_BC_NEGATE (H : hs_State) : Option Step :=
  match peek H 0 with
  | none => none
  | some (Value.number _) =>
    match pop H with
    | some (Value.number n, H1) => some (Step.next (push H1 (Value.number (F64.neg n))))
    | _ => none
  | some _ =>
    some (Step.ret InterpretResult.RUNTIME_ERR (runtimeError H "Operand must be a number."))

def case_BC_NOT (H : hs_State) : Option Step :=
  match pop H with
  | none => none
  | some (v, H1) => some (Step.next (push H1 (Value.bool (isFalsey v))))

/-- The statement `frame->ip += offset`. -/
def jumpForward (H : hs_State) (offset : Nat) : Option hs_State :=
  match H.frames.getLast? with
  | none => none
  | some frame =>
    match frame.ip with
    | none => none
    | some ip => some (setIp H frame (ip + offset))

/-- The statement `frame->ip -= offset`; `none` when the pointer leaves the
bytecode. -/
def jumpBackward (H : hs_State) (offset : Nat) : Option hs_State :=
  match H.frames.getLast? with
  | none => none
  | some frame =>
    match frame.ip with
    | none => none
    | some ip => if offset ≤ ip then some (setIp H frame (ip - offset)) else none

def case_BC_JUMP (H : hs_State) : Option Step :=
  match READ_SHORT H with
  | none => none
  | some (offset, H1) =>
    match jumpForward H1 offset with
    | none => none
    | some H2 => some (Step.next H2)

def case_BC_JUMP_IF_FALSE (H : hs_State) : Option Step :=
  match READ_SHORT H with
  | none => none
  | some (offset, H1) =>
    match peek H1 0 with
    | none => none
    | some v =>
      if isFalsey v then
        match jumpForward H1 offset with
        | none => none
        | some H2 => some (Step.next H2)
      else some (Step.next H1)

def case_BC_INEQUALITY_JUMP (H : hs_State) : Option Step :=
  match READ_SHORT H with
  | none => none
  | some (offset, H1) =>
    match pop H1 with
    | none => none
    | some (b, H2) =>
      match peek H2 0 with
      | none => none
      | some a =>
        if !valuesEqual a b then
          match jumpForward H2 offset with
          | none => none
          | some H3 => some (Step.next H3)
        else some (Step.next H2)

def case_BC_LOOP (H : hs_State) : Option Step :=
  match READ_SHORT H with
  | none => none
  | some (offset, H1) =>
    match jumpBackward H1 offset with
    | none => none
    | some H2 => some (Step.next H2)

def case_BC_CALL (env : Env) (H : hs_State) : Option Step :=
  match READ_BYTE H with
  | none => none
  | some (argCount, H1) =>
    match peek H1 (argCount : Int) with
    | none => none
    | some callee =>
      match callValue env H1 callee (argCount : Int) with
      | none => none
      | some (false, H2) => some (Step.ret InterpretResult.RUNTIME_ERR H2)
      | some (true, H2) => some (Step.next H2)

/-- The case `BC_INSTANCE`.  Modelled from the spec: `object.c` is not among the
sources; `newInstance` allocates an instance whose fields table is a copy of the
struct's `defaultFields`. -/
def case_BC_INSTANCE (H : hs_State) : Option Step :=
  match peek H 0 with
  | none => none
  | some (Value.obj r) =>
    match H.heap[r]? with
    | none => none
    | some (Obj.strooct _ _ _ defaultFields) =>
      let (instance_, H1) := allocate H (Obj.inst r defaultFields)
      match pop H1 with
      | none => none
      | some (_, H2) => some (Step.next (push H2 (Value.obj instance_)))
    | some _ =>
      some (Step.ret InterpretResult.RUNTIME_ERR
        (runtimeError H "Can only use struct initialization on structs."))
  | some _ =>
    some (Step.ret InterpretResult.RUNTIME_ERR
      (runtimeError H "Can only use struct initialization on structs."))

/-- The assignment `closure->upvalues[i] = u`. -/
def setClosureUpvalue (H : hs_State) (closure : Ref) (i : Nat) (u : Option Ref) :
    Option hs_State :=
  match H.heap[closure]? with
  | some (Obj.closure fn upvalues) =>
    if i < upvalues.length then some (store H closure (Obj.closure fn (upvalues.set i u)))
    else none
  | _ => none

/-- The loop `for (s32 i = 0; i < closure->upvalueCount; i++)` of `BC_CLOSURE`, with
the number of iterations that remain as first argument. -/
def closureLoop (frame : CallFrame) (closure : Ref) : Nat → Nat → hs_State → Option hs_State
  | 0, _, H => some H
  | n + 1, i, H =>
    match READ_BYTE H with
    | none => none
    | some (isLocal, H1) =>
      match READ_BYTE H1 with
      | none => none
      | some (index, H2) =>
        if isLocal ≠ 0 then
          match captureUpvalue H2 (frame.slots + index) with
          | none => none
          | some (u, H3) =>
            match setClosureUpvalue H3 closure i (some u) with
            | none => none
            | some H4 => closureLoop frame closure n (i + 1) H4
        else
          match frameUpvalues H2 frame with
          | none => none
          | some upvalues =>
            match upvalues[index]? with
            | none => none
            | some u =>
              match setClosureUpvalue H2 closure i u with
              | none => none
              | some H3 => closureLoop frame closure n (i + 1) H3

/-- The case `BC_CLOSURE`.  Modelled from the spec: `object.c` is not among the
sources; `newClosure` allocates a closure with `upvalueCount` upvalue slots, all
`NULL`. -/
def case_BC_CLOSURE (H : hs_State) : Option Step :=
  match H.frames.getLast?, READ_CONSTANT H with
  | some frame, some (Value.obj fn, H1) =>
    match H1.heap[fn]? with
    | some (Obj.function f) =>
      let (closure, H2) := allocate H1 (Obj.closure fn (List.replicate f.upvalueCount none))
      match closureLoop frame closure f.upvalueCount 0 (push H2 (Value.obj closure)) with
      | none => none
      | some H3 => some (Step.next H3)
    | _ => none
  | _, _ => none

def case_BC_CLOSE_UPVALUE (H : hs_State) : Option Step :=
  match ptrSub H.stackTop 1 with
  | none => none
  | some last =>
    match closeUpvalues H last with
    | none => none
    | some H1 =>
      match pop H1 with
      | none => none
      | some (_, H2) => some (Step.next H2)

def case_BC_RETURN (H : hs_State) : Option Step :=
  match H.frames.getLast?, pop H with
  | some frame, some (result, H1) =>
    match closeUpvalues H1 frame.slots with
    | none => none
    | some H2 =>
      let H3 := { H2 with frames := H2.frames.dropLast }
      if H3.frameCount = 0 then
        match pop H3 with
        | none => none
        | some (_, H4) => some (Step.ret InterpretResult.INTERPRET_OK H4)
      else some (Step.next (push { H3 with stackTop := frame.slots } result))
  | _, _ => none

/-- The case `BC_ENUM`.  Modelled from the spec: `object.c` is not among the sources;
`newEnum` allocates an enum with an empty table of values. -/
def case_BC_ENUM (H : hs_State) : Option Step :=
  match READ_STRING H with
  | none => none
  | some (name, H1) =>
    let (enoom, H2) := allocate H1 (Obj.enoom name [])
    some (Step.next (push H2 (Value.obj enoom)))

def case_BC_ENUM_VALUE (H : hs_State) : Option Step :=
  match peek H 0 with
  | some (Value.obj enoom) =>
    match READ_STRING H with
    | none => none
    | some (name, H1) =>
      match READ_BYTE H1 with
      | none => none
      | some (byte, H2) =>
        match H2.heap[enoom]? with
        | some (Obj.enoom n values) =>
          some (Step.next
            (store H2 enoom
              (Obj.enoom n (tableSet values name (Value.number (F64.ofNat byte))).1)))
        | _ => none
  | _ => none

/-- The case `BC_STRUCT`.  Modelled from the spec: `object.c` is not among the
sources; `newStruct` allocates a struct with empty tables. -/
def case_BC_STRUCT (H : hs_State) : Option Step :=
  match READ_STRING H with
  | none => none
  | some (name, H1) =>
    let (strooct, H2) := allocate H1 (Obj.strooct name [] [] [])
    some (Step.next (push H2 (Value.obj strooct)))

/-- The cases `BC_METHOD` (`isStatic = false`) and `BC_STATIC_METHOD`
(`isStatic = true`). -/
def case_BC_METHOD (H : hs_State) (isStatic : Bool) : Option Step :=
  match peek H 1 with
  | some (Value.obj strooct) =>
    match READ_STRING H with
    | none => none
    | some (name, H1) =>
      match defineMethod H1 name strooct isStatic with
      | none => none
      | some H2 => some (Step.next H2)
  | _ => none

def case_BC_INVOKE (env : Env) (H : hs_State) : Option Step :=
  match READ_STRING H with
  | none => none
  | some (method, H1) =>
    match READ_BYTE H1 with
    | none => none
    | some (argCount, H2) =>
      match invoke env H2 method (argCount : Int) with
      | none => none
      | some (false, H3) => some (Step.ret InterpretResult.RUNTIME_ERR H3)
      | some (true, H3) => some (Step.next H3)

def case_BC_STRUCT_FIELD (H : hs_State) : Option Step :=
  match READ_STRING H with
  | none => none
  | some (key, H1) =>
    match pop H1 with
    | none => none
    | some (defaultValue, H2) =>
      match peek H2 0 with
      | some (Value.obj strooct) =>
        match H2.heap[strooct]? with
        | some (Obj.strooct n methods staticMethods defaultFields) =>
          some (Step.next
            (store H2 strooct
              (Obj.strooct n methods staticMethods (tableSet defaultFields key defaultValue).1)))
        | _ => none
      | _ => none

/-- The body of the `switch` of `run` for the decoded opcode `instruction`; `H` is the
state after `READ_BYTE()` has fetched the opcode. -/
def dispatch (env : Env) (instruction : OpCode) (H : hs_State) : Option Step :=
  match instruction with
  | OpCode.BC_CONSTANT =>
    match READ_CONSTANT H with
    | none => none
    | some (constant, H1) => some (Step.next (push H1 constant))
  | OpCode.BC_NIL => some (Step.next (push H Value.nil))
  | OpCode.BC_TRUE => some (Step.next (push H (Value.bool true)))
  | OpCode.BC_FALSE => some (Step.next (push H (Value.bool false)))
  | OpCode.BC_POP =>
    match pop H with
    | none => none
    | some (_, H1) => some (Step.next H1)
  | OpCode.BC_ARRAY => case_BC_ARRAY H
  | OpCode.BC_GET_SUBSCRIPT => case_BC_GET_SUBSCRIPT H
  | OpCode.BC_SET_SUBSCRIPT => case_BC_SET_SUBSCRIPT H
  | OpCode.BC_GET_GLOBAL => case_BC_GET_GLOBAL H
  | OpCode.BC_SET_GLOBAL => case_BC_SET_GLOBAL H
  | OpCode.BC_DEFINE_GLOBAL => case_BC_DEFINE_GLOBAL H
  | OpCode.BC_GET_UPVALUE => case_BC_GET_UPVALUE H
  | OpCode.BC_SET_UPVALUE => case_BC_SET_UPVALUE H
  | OpCode.BC_GET_LOCAL => case_BC_GET_LOCAL H
  | OpCode.BC_SET_LOCAL => case_BC_SET_LOCAL H
  | OpCode.BC_INIT_PROPERTY => case_BC_INIT_PROPERTY H
  | OpCode.BC_GET_STATIC => case_BC_GET_STATIC H
  | OpCode.BC_PUSH_PROPERTY => case_BC_GET_PROPERTY H false
  | OpCode.BC_GET_PROPERTY => case_BC_GET_PROPERTY H true
  | OpCode.BC_SET_PROPERTY => case_BC_SET_PROPERTY H
  | OpCode.BC_DESTRUCT_ARRAY => case_BC_DESTRUCT_ARRAY H
  | OpCode.BC_EQUAL => case_BC_EQUAL H false
  | OpCode.BC_NOT_EQUAL => case_BC_EQUAL H true
  | OpCode.BC_CONCAT => case_BC_CONCAT H
  | OpCode.BC_GREATER => BINARY_OP H (fun a b => Value.bool (env.compare CmpOp.gt a b))
  | OpCode.BC_GREATER_EQUAL => BINARY_OP H (fun a b => Value.bool (env.compare CmpOp.ge a b))
  | OpCode.BC_LESSER => BINARY_OP H (fun a b => Value.bool (env.compare CmpOp.lt a b))
  | OpCode.BC_LESSER_EQUAL => BINARY_OP H (fun a b => Value.bool (env.compare CmpOp.le a b))
  | OpCode.BC_ADD => BINARY_OP H (fun a b => Value.number (env.arith ArithOp.add a b))
  | OpCode.BC_SUBTRACT => BINARY_OP H (fun a b => Value.number (env.arith ArithOp.sub a b))
  | OpCode.BC_MULTIPLY => BINARY_OP H (fun a b => Value.number (env.arith ArithOp.mul a b))
  | OpCode.BC_DIVIDE => BINARY_OP H (fun a b => Value.number (env.arith ArithOp.div a b))
  | OpCode.BC_MODULO => case_BC_MODULO_POW env.payload H (env.arith ArithOp.fmod)
  | OpCode.BC_POW => case_BC_MODULO_POW env.payload H (env.arith ArithOp.pow)
  | OpCode.BC_NEGATE => case_BC_NEGATE H
  | OpCode.BC_NOT => case_BC_NOT H
  | OpCode.BC_JUMP => case_BC_JUMP H
  | OpCode.BC_JUMP_IF_FALSE => case_BC_JUMP_IF_FALSE H
  | OpCode.BC_INEQUALITY_JUMP => case_BC_INEQUALITY_JUMP H
  | OpCode.BC_LOOP => case_BC_LOOP H
  | OpCode.BC_CALL => case_BC_CALL env H
  | OpCode.BC_INSTANCE => case_BC_INSTANCE H
  | OpCode.BC_CLOSURE => case_BC_CLOSURE H
  | OpCode.BC_CLOSE_UPVALUE => case_BC_CLOSE_UPVALUE H
  | OpCode.BC_RETURN => case_BC_RETURN H
  | OpCode.BC_ENUM => case_BC_ENUM H
  | OpCode.BC_ENUM_VALUE => case_BC_ENUM_VALUE H
  | OpCode.BC_STRUCT => case_BC_STRUCT H
  | OpCode.BC_METHOD => case_BC_METHOD H false
  | OpCode.BC_STATIC_METHOD => case_BC_METHOD H true
  | OpCode.BC_INVOKE => case_BC_INVOKE env H
  | OpCode.BC_STRUCT_FIELD => case_BC_STRUCT_FIELD H
  | OpCode.BC_BREAK =>
    some (Step.ret InterpretResult.RUNTIME_ERR (runtimeError H "Invalid Opcode"))

/-- One iteration of the loop of `run`: fetch the opcode byte and execute the `switch`.
A byte that is no opcode matches no `case` and the loop goes on. -/
def step (env : Env) (H : hs_State) : Option Step :=
  match READ_BYTE H with
  | none => none
  | some (byte, H1) =>
    match env.decode byte with
    | none => some (Step.next H1)
    | some instruction => dispatch env instruction H1

/-- Outcome of `run` within a bounded number of iterations. -/
inductive RunResult where
  | returned (result : InterpretResult) (H : hs_State)
  | undefined
  | outOfFuel
  deriving DecidableEq, Repr

/-- The function `run`: the loop `while (true)`, with the number of iterations
bounded by the first argument. -/
def run (env : Env) : Nat → hs_State → RunResult
  | 0, _ => RunResult.outOfFuel
  | fuel + 1, H =>
    match step env H with
    | none => RunResult.undefined
    | some (Step.ret result H1) => RunResult.returned result H1
    | some (Step.next H1) => run env fuel H1

/-! ## Properties of states and objects used in the statements -/

/-- The state `resetStack` leaves: an empty value stack, no call frame and no open
upvalue. -/
def Reset (H : hs_State) : Prop :=
  H.stackTop = 0 ∧ H.frameCount = 0 ∧ H.openUpvalues = []

/-- The kinds of object `callValue` calls: bound methods, closures and native
functions. -/
def isCallable (o : Obj) : Bool :=
  match o with
  | Obj.boundMethod _ _ => true
  | Obj.closure _ _ => true
  | Obj.cFunction _ _ => true
  | _ => false

/-- The macro `IS_INSTANCE` on a value whose object, if any, is `o`. -/
def isInstance (o : Obj) : Bool :=
  match o with
  | Obj.inst _ _ => true
  | _ => false

/-- The field names of a table. -/
def Table.keys (t : Table) : List Ref :=
  t.map (fun e => e.1)

/-! ## A concrete environment and concrete programs

The theorems below hold for every `Env`; the instance `demoEnv` and the states that
follow serve to evaluate the code on concrete inputs. -/

/-- Modelled from the spec: `opcodes.h` is not among the sources.  The opcodes in the
order in which the spec lists them; `demoEnv` numbers them by position. -/
def opcodes : List OpCode :=
  [OpCode.BC_CONSTANT, OpCode.BC_NIL, OpCode.BC_TRUE, OpCode.BC_FALSE, OpCode.BC_POP,
   OpCode.BC_ARRAY, OpCode.BC_GET_SUBSCRIPT, OpCode.BC_SET_SUBSCRIPT, OpCode.BC_GET_GLOBAL,
   OpCode.BC_SET_GLOBAL, OpCode.BC_DEFINE_GLOBAL, OpCode.BC_GET_UPVALUE,
   OpCode.BC_SET_UPVALUE, OpCode.BC_GET_LOCAL, OpCode.BC_SET_LOCAL, OpCode.BC_INIT_PROPERTY,
   OpCode.BC_GET_STATIC, OpCode.BC_GET_PROPERTY, OpCode.BC_PUSH_PROPERTY,
   OpCode.BC_SET_PROPERTY, OpCode.BC_DESTRUCT_ARRAY, OpCode.BC_EQUAL, OpCode.BC_NOT_EQUAL,
   OpCode.BC_CONCAT, OpCode.BC_GREATER, OpCode.BC_GREATER_EQUAL, OpCode.BC_LESSER,
   OpCode.BC_LESSER_EQUAL, OpCode.BC_ADD, OpCode.BC_SUBTRACT, OpCode.BC_MULTIPLY,
   OpCode.BC_DIVIDE, OpCode.BC_MODULO, OpCode.BC_POW, OpCode.BC_NEGATE, OpCode.BC_NOT,
   OpCode.BC_JUMP, OpCode.BC_JUMP_IF_FALSE, OpCode.BC_INEQUALITY_JUMP, OpCode.BC_LOOP,
   OpCode.BC_CALL, OpCode.BC_INSTANCE, OpCode.BC_CLOSURE, OpCode.BC_CLOSE_UPVALUE,
   OpCode.BC_RETURN, OpCode.BC_ENUM, OpCode.BC_ENUM_VALUE, OpCode.BC_STRUCT,
   OpCode.BC_METHOD, OpCode.BC_STATIC_METHOD, OpCode.BC_INVOKE, OpCode.BC_STRUCT_FIELD,
   OpCode.BC_BREAK]

/-- The byte of an opcode in the numbering of `demoEnv`. -/
def OpCode.byte (o : OpCode) : Nat :=
  opcodes.indexOf o

/-- The double of an integer of magnitude below `2 ^ 53`. -/
def F64.ofInt (i : Int) : F64 :=
  if 0 ≤ i then F64.ofNat i.toNat else F64.neg (F64.ofNat (-i).toNat)

/-- The integer a double represents, when it is an integer in the range of `s32`. -/
def F64.toInt? (x : F64) : Option Int :=
  match F64.toS32 x with
  | some i => if F64.ofInt i = x then some i else none
  | none => none

/-- A quiet NaN. -/
def F64.nan : F64 := 0x7FF8000000000000

/-- The arithmetic of `demoEnv`: exact on integers in the range of `s32` whose result
is such an integer (there it agrees with C, also through `f32` when the magnitudes
are below `2 ^ 24`); every other result is NaN, which is not what C computes. -/
def integerArith (op : ArithOp) (a b : F64) : F64 :=
  match F64.toInt? a, F64.toInt? b with
  | some x, some y =>
    match op with
    | ArithOp.add => F64.ofInt (x + y)
    | ArithOp.sub => F64.ofInt (x - y)
    | ArithOp.mul => F64.ofInt (x * y)
    | ArithOp.div => if y ≠ 0 ∧ Int.tmod x y = 0 then F64.ofInt (Int.tdiv x y) else F64.nan
    | ArithOp.fmod => if y ≠ 0 then F64.ofInt (Int.tmod x y) else F64.nan
    | ArithOp.pow => if 0 ≤ y then F64.ofInt (x ^ y.toNat) else F64.nan
  | _, _ => F64.nan

/-- The comparisons of `demoEnv`: exact on integers in the range of `s32`, false on
every other pair. -/
def integerCompare (op : CmpOp) (a b : F64) : Bool :=
  match F64.toInt? a, F64.toInt? b with
  | some x, some y =>
    match op with
    | CmpOp.gt => decide (x > y)
    | CmpOp.ge => decide (x ≥ y)
    | CmpOp.lt => decide (x < y)
    | CmpOp.le => decide (x ≤ y)
  | _, _ => false

/-- Modelled from the spec: `tostring.c` is not among the sources.  The string
coercion of nil, of booleans, of strings and of numbers that are integers in the
range of `s32`; the text of every other value is not modelled and rendered `?`. -/
def coerce (H : hs_State) (v : Value) : String :=
  match v with
  | Value.nil => "nil"
  | Value.bool b => if b then "true" else "false"
  | Value.number n =>
    match F64.toInt? n with
    | some i => toString i
    | none => "?"
  | Value.obj r =>
    match H.heap[r]? with
    | some (Obj.string chars) => chars
    | _ => "?"

/-- A native function of a host that returns the `frameCount` it observes. -/
def frameCountProbe (H : hs_State) (_argCount : Int) : Option hs_State :=
  some (push H (Value.number (F64.ofNat H.frameCount)))

/-- A concrete environment: `FRAMES_MAX` is the 64 the spec recommends, the opcodes
are numbered in the order of `opcodes`, native 0 is `core_print`, native 1 is
`frameCountProbe`, and the payload of a value that is not a number reads as zero. -/
def demoEnv : Env where
  FRAMES_MAX := 64
  decode := fun byte => opcodes[byte]?
  cFuncs := fun f =>
    if f = 0 then core_print coerce
    else if f = 1 then frameCountProbe
    else fun _ _ => none
  arith := integerArith
  compare := integerCompare
  payload := fun _ => 0

/-- The state in which `run` executes a script: heap object 0 is the script function
with bytecode `bc` and constants `constants`, object 1 its closure, the objects
`objects` follow from index 2; the only frame is the script frame with `ip` the
offset of the next instruction; slot 0 holds the closure and `temporaries` are the
values above it. -/
def scriptState (bc : List Nat) (constants : List Value) (objects : List Obj) (ip : Nat)
    (temporaries : List Value) (globals : Table) : hs_State where
  stack := Value.obj 1 :: temporaries
  stackTop := temporaries.length + 1
  frames := [{ func := some 1, ip := some ip, slots := 0 }]
  openUpvalues := []
  globals := globals
  arrayMethods := []
  heap :=
    [Obj.function
       { arity := 0, upvalueCount := 0, bc := bc, lines := bc.map (fun _ => 1),
         constants := constants, name := none },
     Obj.closure 0 []] ++ objects
  stdout := ""
  stderr := ""

/-- The script `print(1 + 2 * 3);`: object 2 is the name `print`, object 3 the
native function, bound to the name in the globals. -/
def printProgram : hs_State :=
  scriptState
    [OpCode.BC_GET_GLOBAL.byte, 0, OpCode.BC_CONSTANT.byte, 1, OpCode.BC_CONSTANT.byte, 2,
     OpCode.BC_CONSTANT.byte, 3, OpCode.BC_MULTIPLY.byte, OpCode.BC_ADD.byte,
     OpCode.BC_CALL.byte, 1, OpCode.BC_POP.byte, OpCode.BC_NIL.byte, OpCode.BC_RETURN.byte]
    [Value.obj 2, Value.number (F64.ofNat 1), Value.number (F64.ofNat 2),
     Value.number (F64.ofNat 3)]
    [Obj.string "print", Obj.cFunction 0 (-1)]
    0 [] [(2, Value.obj 3)]

/-- The state of `print("a", "b")` at the call: the callee in slot 1, the arguments
in slots 2 and 3, and in slot 4, the first free slot, the value `"zz"` that an
earlier instruction left there. -/
def printCall : hs_State :=
  { scriptState [] [] [Obj.cFunction 0 (-1), Obj.string "a", Obj.string "b", Obj.string "zz"]
      0 [Value.obj 2, Value.obj 3, Value.obj 4] [] with
    stack := [Value.obj 1, Value.obj 2, Value.obj 3, Value.obj 4, Value.obj 5] }

/-- The state at `a[i]` for the array `a = [10]` (object 2): the array and the index
are on the stack and `BC_GET_SUBSCRIPT` is the next instruction. -/
def getSubscriptState (i : Nat) : hs_State :=
  scriptState [OpCode.BC_GET_SUBSCRIPT.byte] []
    [Obj.array [Value.number (F64.ofNat 10)]]
    0 [Value.obj 2, Value.number (F64.ofNat i)] []

/-- The state at `a[i] = 99` for the array `a = [10]` (object 2). -/
def setSubscriptState (i : Nat) : hs_State :=
  scriptState [OpCode.BC_SET_SUBSCRIPT.byte] []
    [Obj.array [Value.number (F64.ofNat 10)]]
    0 [Value.obj 2, Value.number (F64.ofNat i), Value.number (F64.ofNat 99)] []

/-- The state at `a op 2`, with the operands on the stack and the opcode `op` the next
instruction. -/
def binaryState (op : OpCode) (a : Value) : hs_State :=
  scriptState [op.byte] [] [] 0 [a, Value.number (F64.ofNat 2)] []

/-- A function of two parameters. -/
def twoArgs : GcBcFunction :=
  { arity := 2, upvalueCount := 0, bc := [], lines := [], constants := [], name := none }

/-- A state inside a script, after `CALL 1` has been decoded: object 3 is a closure of
`twoArgs`, object 4 a bound method of it, object 5 a native function of arity 1,
object 6 a native function declared variadic (`frameCountProbe`), object 7 a
string. -/
def callState : hs_State :=
  scriptState [OpCode.BC_CALL.byte, 1] []
    [Obj.function twoArgs, Obj.closure 2 [], Obj.boundMethod (Value.number (F64.ofNat 7)) 3,
     Obj.cFunction 2 1, Obj.cFunction 1 (-1), Obj.string "s"]
    2 [Value.obj 3, Value.number (F64.ofNat 5)] []

/-- The objects of a script with `struct P { x = 0; }` and an instance `p` of it:
object 2 is the name `x`, object 3 the name `y`, object 4 the name `P`, object 5 the
struct and object 6 the instance. -/
def structObjects : List Obj :=
  [Obj.string "x", Obj.string "y", Obj.string "P",
   Obj.strooct 4 [] [] [(2, Value.number (F64.ofNat 0))],
   Obj.inst 5 [(2, Value.number (F64.ofNat 0))]]

/-- The state at `receiver.<name> = 1`, at offset `ip` of the bytecode (offset 1 is
reached when the opcode has been decoded, offset 2 when its operand has been read);
the operand is constant 0, the name with object index `name`. -/
def propertyState (ip : Nat) (receiver : Value) (name : Ref) : hs_State :=
  scriptState [OpCode.BC_SET_PROPERTY.byte, 0] [Value.obj name] structObjects
    ip [receiver, Value.number (F64.ofNat 1)] []

/-- The state at `p.y = 1` with `BC_SET_PROPERTY` the next instruction; the instance is
also the value of the global `P` (object 4 as a name). -/
def setUndeclaredState : hs_State :=
  scriptState [OpCode.BC_SET_PROPERTY.byte, 0] [Value.obj 3] structObjects
    0 [Value.obj 6, Value.number (F64.ofNat 1)] [(4, Value.obj 6)]

/-- The bytecode of the script `var x = 1; var x = 2;`. -/
def redefinitionCode : List Nat :=
  [OpCode.BC_CONSTANT.byte, 1, OpCode.BC_DEFINE_GLOBAL.byte, 0,
   OpCode.BC_CONSTANT.byte, 2, OpCode.BC_DEFINE_GLOBAL.byte, 0,
   OpCode.BC_NIL.byte, OpCode.BC_RETURN.byte]

/-- States of the script `var x = 1; var x = 2;` (object 2 is the name `x`): at offset
`ip` of its bytecode, with `temporaries` on the stack and the globals `globals`. -/
def redefinitionState (ip : Nat) (temporaries : List Value) (globals : Table) : hs_State :=
  scriptState redefinitionCode
    [Value.obj 2, Value.number (F64.ofNat 1), Value.number (F64.ofNat 2)]
    [Obj.string "x"] ip temporaries globals

/-- A state with `FRAMES_MAX` call frames (a recursion 64 calls deep) in which a
native function (object 2, `frameCountProbe`) or a closure (object 4) is about to be
called without arguments. -/
def deepState : hs_State :=
  { scriptState [OpCode.BC_CALL.byte, 0] []
      [Obj.cFunction 1 0,
       Obj.function { arity := 0, upvalueCount := 0, bc := [], lines := [], constants := [],
                      name := none },
       Obj.closure 3 []]
      2 [Value.obj 2] [] with
    frames := List.replicate 64 { func := some 1, ip := some 2, slots := 0 } }

/-- The script `x;` (object 2 is the name `x`), started with the globals
`globals`. -/
def readerState (globals : Table) : hs_State :=
  scriptState
    [OpCode.BC_GET_GLOBAL.byte, 0, OpCode.BC_POP.byte, OpCode.BC_NIL.byte,
     OpCode.BC_RETURN.byte]
    [Value.obj 2] [Obj.string "x"] 0 [] globals


/-! ## tokenizer.c

The source buffer is the list `source` of its bytes, one `Char` per byte, without the
terminating NUL: every position at or after the end of the list reads as NUL.
`start` and `end_` are offsets into the buffer.  A loop of the tokenizer is a function
with a bound on its iterations as first argument; it returns `none` when the bound is
used up, and every caller passes `source.length + 1`.  The literal of a string token,
`copyString(H, chars, count)`, is represented by its characters (the heap of `H` is
not threaded through the tokenizer). -/

/-- The token types the tokenizer produces (`tokenizer.h` is not among the
sources). -/
inductive TokenType where
  | TOKEN_LPAREN | TOKEN_RPAREN | TOKEN_LBRACE | TOKEN_RBRACE | TOKEN_LBRACKET
  | TOKEN_RBRACKET | TOKEN_SEMICOLON | TOKEN_COMMA | TOKEN_DOT | TOKEN_DOT_DOT
  | TOKEN_DOT_DOT_EQUAL | TOKEN_COLON | TOKEN_PLUS | TOKEN_PLUS_EQUAL | TOKEN_MINUS
  | TOKEN_MINUS_EQUAL | TOKEN_STAR | TOKEN_STAR_EQUAL | TOKEN_STAR_STAR
  | TOKEN_STAR_STAR_EQUAL | TOKEN_SLASH | TOKEN_SLASH_EQUAL | TOKEN_PERCENT
  | TOKEN_PERCENT_EQUAL | TOKEN_AMP_AMP | TOKEN_PIPE_PIPE | TOKEN_BANG | TOKEN_BANG_EQUAL
  | TOKEN_EQUAL | TOKEN_EQUAL_EQUAL | TOKEN_RIGHT_ARROW | TOKEN_GREATER
  | TOKEN_GREATER_EQUAL | TOKEN_LESS | TOKEN_LESS_EQUAL
  | TOKEN_IDENTIFIER | TOKEN_STRING | TOKEN_NUMBER
  | TOKEN_GLOBAL | TOKEN_VAR | TOKEN_BREAK | TOKEN_CASE | TOKEN_CONTINUE | TOKEN_WHILE
  | TOKEN_FALSE | TOKEN_FOR | TOKEN_FUNC | TOKEN_LOOP | TOKEN_IF | TOKEN_ELSE | TOKEN_ENUM
  | TOKEN_MATCH | TOKEN_STATIC | TOKEN_STRUCT | TOKEN_SELF | TOKEN_TRUE | TOKEN_NIL
  | TOKEN_RETURN
  | TOKEN_ERROR | TOKEN_EOF
  deriving DecidableEq, Repr

/-- A token (`struct Token`): `lexeme` holds the `length` characters at `start` (a slice
of the source, or the static message of an error token) and `value` the characters of
the literal of a string token (`none` is `NEW_NIL`). -/
structure Token where
  type : TokenType
  lexeme : List Char
  line : Nat
  value : Option (List Char)
  deriving DecidableEq, Repr

/-- The tokenizer (`struct Tokenizer`). -/
structure Tokenizer where
  source : List Char
  start : Nat
  end_ : Nat
  line : Nat
  deriving DecidableEq, Repr

/-- The byte at offset `i` of the NUL-terminated buffer. -/
def charAt (source : List Char) (i : Nat) : Char :=
  source.getD i (Char.ofNat 0)

/-- The UTF-8 byte order mark. -/
def utf8Bom : List Char :=
  [Char.ofNat 0xEF, Char.ofNat 0xBB, Char.ofNat 0xBF]

def initTokenizer (source : List Char) : Tokenizer :=
  let offset := if source.take 3 = utf8Bom then 3 else 0
  { source := source, start := offset, end_ := offset, line := 1 }

def isDigit (c : Char) : Bool :=
  decide ('0' ≤ c) && decide (c ≤ '9')

def isAlpha (c : Char) : Bool :=
  (decide ('a' ≤ c) && decide (c ≤ 'z'))
    || (decide ('A' ≤ c) && decide (c ≤ 'Z'))
    || c == '_'

namespace Tokenizer

def isAtEnd (tokenizer : Tokenizer) : Bool :=
  charAt tokenizer.source tokenizer.end_ == Char.ofNat 0

def advance (tokenizer : Tokenizer) : Tokenizer × Char :=
  ({ tokenizer with end_ := tokenizer.end_ + 1 }, charAt tokenizer.source tokenizer.end_)

def peek (tokenizer : Tokenizer) : Char :=
  charAt tokenizer.source tokenizer.end_

def peekNext (tokenizer : Tokenizer) : Char :=
  if tokenizer.isAtEnd then Char.ofNat 0
  else charAt tokenizer.source (tokenizer.end_ + 1)

def match_ (tokenizer : Tokenizer) (expected : Char) : Tokenizer × Bool :=
  if tokenizer.isAtEnd then (tokenizer, false)
  else if charAt tokenizer.source tokenizer.end_ ≠ expected then (tokenizer, false)
  else ({ tokenizer with end_ := tokenizer.end_ + 1 }, true)

def makeToken (tokenizer : Tokenizer) (type : TokenType) : Token :=
  { type := type,
    lexeme := (tokenizer.source.drop tokenizer.start).take (tokenizer.end_ - tokenizer.start),
    line := tokenizer.line,
    value := none }

def errorToken (tokenizer : Tokenizer) (message : String) : Token :=
  { type := TokenType.TOKEN_ERROR, lexeme := message.toList, line := tokenizer.line,
    value := none }

/-- The inner loop of `skipWhitespace`:
`while (peek(tokenizer) != '\n' && !isAtEnd(tokenizer)) advance(tokenizer);`. -/
def skipComment : Nat → Tokenizer → Option Tokenizer
  | 0, _ => none
  | fuel + 1, tokenizer =>
    if tokenizer.peek ≠ '\n' && !tokenizer.isAtEnd then
      skipComment fuel tokenizer.advance.1
    else some tokenizer

/-- The loop `while (true)` of `skipWhitespace`. -/
def skipWhitespaceLoop : Nat → Tokenizer → Option Tokenizer
  | 0, _ => none
  | fuel + 1, tokenizer =>
    let c := tokenizer.peek
    if c = '\n' then
      skipWhitespaceLoop fuel { tokenizer with line := tokenizer.line + 1 }.advance.1
    else if c = ' ' ∨ c = '\r' ∨ c = '\t' then
      skipWhitespaceLoop fuel tokenizer.advance.1
    else if c = '/' then
      if tokenizer.peekNext = '/' then
        match skipComment (tokenizer.source.length + 1) tokenizer with
        | none => none
        | some tokenizer1 => skipWhitespaceLoop fuel tokenizer1
      else some tokenizer
    else some tokenizer

def skipWhitespace (tokenizer : Tokenizer) : Option Tokenizer :=
  skipWhitespaceLoop (tokenizer.source.length + 1) tokenizer

def checkKeyword (tokenizer : Tokenizer) (start length : Nat) (rest : String)
    (type : TokenType) : TokenType :=
  if tokenizer.end_ - tokenizer.start = start + length
      ∧ (tokenizer.source.drop (tokenizer.start + start)).take length = rest.toList then
    type
  else TokenType.TOKEN_IDENTIFIER

def identifierType (tokenizer : Tokenizer) : TokenType :=
  let c0 := charAt tokenizer.source tokenizer.start
  let c1 := charAt tokenizer.source (tokenizer.start + 1)
  let c2 := charAt tokenizer.source (tokenizer.start + 2)
  if c0 = 'g' then tokenizer.checkKeyword 1 5 "lobal" TokenType.TOKEN_GLOBAL
  else if c0 = 'v' then tokenizer.checkKeyword 1 2 "ar" TokenType.TOKEN_VAR
  else if c0 = 'b' then tokenizer.checkKeyword 1 4 "reak" TokenType.TOKEN_BREAK
  else if c0 = 'c' then
    if tokenizer.end_ - tokenizer.start > 1 then
      if c1 = 'a' then tokenizer.checkKeyword 2 2 "se" TokenType.TOKEN_CASE
      else if c1 = 'o' then tokenizer.checkKeyword 2 6 "ntinue" TokenType.TOKEN_CONTINUE
      else TokenType.TOKEN_IDENTIFIER
    else TokenType.TOKEN_IDENTIFIER
  else if c0 = 'w' then tokenizer.checkKeyword 1 4 "hile" TokenType.TOKEN_WHILE
  else if c0 = 'f' then
    if tokenizer.end_ - tokenizer.start > 1 then
      if c1 = 'a' then tokenizer.checkKeyword 2 3 "lse" TokenType.TOKEN_FALSE
      else if c1 = 'o' then tokenizer.checkKeyword 2 2 "or" TokenType.TOKEN_FOR
      else if c1 = 'u' then tokenizer.checkKeyword 2 2 "nc" TokenType.TOKEN_FUNC
      else TokenType.TOKEN_IDENTIFIER
    else TokenType.TOKEN_IDENTIFIER
  else if c0 = 'l' then tokenizer.checkKeyword 1 3 "oop" TokenType.TOKEN_LOOP
  else if c0 = 'i' then tokenizer.checkKeyword 1 1 "f" TokenType.TOKEN_IF
  else if c0 = 'e' then
    if tokenizer.end_ - tokenizer.start > 1 then
      if c1 = 'l' then tokenizer.checkKeyword 2 2 "se" TokenType.TOKEN_ELSE
      else if c1 = 'n' then tokenizer.checkKeyword 2 2 "um" TokenType.TOKEN_ENUM
      else TokenType.TOKEN_IDENTIFIER
    else TokenType.TOKEN_IDENTIFIER
  else if c0 = 'm' then tokenizer.checkKeyword 1 4 "atch" TokenType.TOKEN_MATCH
  else if c0 = 's' then
    if tokenizer.end_ - tokenizer.start > 1 then
      if c1 = 't' then
        if tokenizer.end_ - tokenizer.start > 1 then
          if c2 = 'a' then tokenizer.checkKeyword 3 3 "tic" TokenType.TOKEN_STATIC
          else if c2 = 'r' then tokenizer.checkKeyword 3 3 "uct" TokenType.TOKEN_STRUCT
          else TokenType.TOKEN_IDENTIFIER
        else TokenType.TOKEN_IDENTIFIER
      else if c1 = 'e' then tokenizer.checkKeyword 2 2 "lf" TokenType.TOKEN_SELF
      else TokenType.TOKEN_IDENTIFIER
    else TokenType.TOKEN_IDENTIFIER
  else if c0 = 't' then tokenizer.checkKeyword 1 3 "rue" TokenType.TOKEN_TRUE
  else if c0 = 'n' then tokenizer.checkKeyword 1 2 "il" TokenType.TOKEN_NIL
  else if c0 = 'r' then tokenizer.checkKeyword 1 5 "eturn" TokenType.TOKEN_RETURN
  else TokenType.TOKEN_IDENTIFIER

/-- The loop `while (isAlpha(peek(tokenizer)) || isDigit(peek(tokenizer)))` of
`identifierOrKeyword`. -/
def identifierLoop : Nat → Tokenizer → Option Tokenizer
  | 0, _ => none
  | fuel + 1, tokenizer =>
    if isAlpha tokenizer.peek || isDigit tokenizer.peek then
      identifierLoop fuel tokenizer.advance.1
    else some tokenizer

def identifierOrKeyword (tokenizer : Tokenizer) : Option (Token × Tokenizer) :=
  match identifierLoop (tokenizer.source.length + 1) tokenizer with
  | none => none
  | some tokenizer1 => some (tokenizer1.makeToken tokenizer1.identifierType, tokenizer1)

/-- The loop `while (isDigit(peek(tokenizer))) advance(tokenizer);` of `number`. -/
def digitLoop : Nat → Tokenizer → Option Tokenizer
  | 0, _ => none
  | fuel + 1, tokenizer =>
    if isDigit tokenizer.peek then digitLoop fuel tokenizer.advance.1
    else some tokenizer

def number (tokenizer : Tokenizer) : Option (Token × Tokenizer) :=
  match digitLoop (tokenizer.source.length + 1) tokenizer with
  | none => none
  | some tokenizer1 =>
    if tokenizer1.peek = '.' && isDigit tokenizer1.peekNext then
      match digitLoop (tokenizer1.source.length + 1) tokenizer1.advance.1 with
      | none => none
      | some tokenizer2 => some (tokenizer2.makeToken TokenType.TOKEN_NUMBER, tokenizer2)
    else some (tokenizer1.makeToken TokenType.TOKEN_NUMBER, tokenizer1)

/-- The `switch` on the character after a backslash in `string`: the byte the escape
denotes, `none` for the `default` label. -/
def escapeCode (c : Char) : Option Char :=
  if c = 'n' then some '\n'
  else if c = 't' then some '\t'
  else if c = 'r' then some '\r'
  else if c = 'a' then some (Char.ofNat 7)
  else if c = '\x22' ∨ c = '\x27' ∨ c = '\x5c' then some c
  else none

/-- The loop `while (peek(tokenizer) != terminator)` of `string`; `chars` is the
buffer filled so far (its growth is not modelled).  The result of a finished loop is
the error token returned from inside it, or the characters collected. -/
def stringLoop (terminator : Char) :
    Nat → Tokenizer → List Char → Option ((Token ⊕ List Char) × Tokenizer)
  | 0, _, _ => none
  | fuel + 1, tokenizer, chars =>
    if tokenizer.peek ≠ terminator then
      let c := tokenizer.peek
      if tokenizer.isAtEnd || c = '\n' then
        some (Sum.inl (tokenizer.errorToken "Unclosed string."), tokenizer)
      else if c = '\x5c' then
        let tokenizer1 := tokenizer.advance.1
        match escapeCode tokenizer1.peek with
        | none => some (Sum.inl (tokenizer1.errorToken "Invalid escape code."), tokenizer1)
        | some c1 => stringLoop terminator fuel tokenizer1.advance.1 (chars ++ [c1])
      else stringLoop terminator fuel tokenizer.advance.1 (chars ++ [c])
    else some (Sum.inr chars, tokenizer)

def string (tokenizer : Tokenizer) (terminator : Char) : Option (Token × Tokenizer) :=
  match stringLoop terminator (tokenizer.source.length + 1) tokenizer [] with
  | none => none
  | some (Sum.inl token, tokenizer1) => some (token, tokenizer1)
  | some (Sum.inr chars, tokenizer1) =>
    let tokenizer2 := tokenizer1.advance.1
    some ({ tokenizer2.makeToken TokenType.TOKEN_STRING with value := some chars }, tokenizer2)

/-- The statement `return makeToken(tokenizer, match(tokenizer, expected) ? yes : no)`. -/
def matchToken (tokenizer : Tokenizer) (expected : Char) (yes no : TokenType) :
    Token × Tokenizer :=
  let r := tokenizer.match_ expected
  (r.1.makeToken (if r.2 then yes else no), r.1)

def nextToken (tokenizer : Tokenizer) : Option (Token × Tokenizer) :=
  match tokenizer.skipWhitespace with
  | none => none
  | some tokenizer0 =>
    let tokenizer1 := { tokenizer0 with start := tokenizer0.end_ }
    if tokenizer1.isAtEnd then some (tokenizer1.makeToken TokenType.TOKEN_EOF, tokenizer1)
    else
      let c := tokenizer1.advance.2
      let t := tokenizer1.advance.1
      if isAlpha c then t.identifierOrKeyword
      else if isDigit c then t.number
      else if c = '(' then some (t.makeToken TokenType.TOKEN_LPAREN, t)
      else if c = ')' then some (t.makeToken TokenType.TOKEN_RPAREN, t)
      else if c = '\x7b' then some (t.makeToken TokenType.TOKEN_LBRACE, t)
      else if c = '\x7d' then some (t.makeToken TokenType.TOKEN_RBRACE, t)
      else if c = '[' then some (t.makeToken TokenType.TOKEN_LBRACKET, t)
      else if c = ']' then some (t.makeToken TokenType.TOKEN_RBRACKET, t)
      else if c = ';' then some (t.makeToken TokenType.TOKEN_SEMICOLON, t)
      else if c = ',' then some (t.makeToken TokenType.TOKEN_COMMA, t)
      else if c = '.' then
        if (t.match_ '.').2 then
          some (matchToken (t.match_ '.').1 '=' TokenType.TOKEN_DOT_DOT_EQUAL
            TokenType.TOKEN_DOT_DOT)
        else some (t.makeToken TokenType.TOKEN_DOT, t)
      else if c = ':' then some (t.makeToken TokenType.TOKEN_COLON, t)
      else if c = '+' then
        some (matchToken t '=' TokenType.TOKEN_PLUS_EQUAL TokenType.TOKEN_PLUS)
      else if c = '-' then
        some (matchToken t '=' TokenType.TOKEN_MINUS_EQUAL TokenType.TOKEN_MINUS)
      else if c = '*' then
        if (t.match_ '*').2 then
          some (matchToken (t.match_ '*').1 '=' TokenType.TOKEN_STAR_STAR_EQUAL
            TokenType.TOKEN_STAR_STAR)
        else some (matchToken t '=' TokenType.TOKEN_STAR_EQUAL TokenType.TOKEN_STAR)
      else if c = '/' then
        some (matchToken t '=' TokenType.TOKEN_SLASH_EQUAL TokenType.TOKEN_SLASH)
      else if c = '%' then
        some (matchToken t '=' TokenType.TOKEN_PERCENT_EQUAL TokenType.TOKEN_PERCENT)
      else if c = '&' then
        if (t.match_ '&').2 then
          some ((t.match_ '&').1.makeToken TokenType.TOKEN_AMP_AMP, (t.match_ '&').1)
        else
          some (t.errorToken "Did you mean \x27&&\x27? Bitwise operators not supported.", t)
      else if c = '|' then
        if (t.match_ '|').2 then
          some ((t.match_ '|').1.makeToken TokenType.TOKEN_PIPE_PIPE, (t.match_ '|').1)
        else
          some (t.errorToken "Did you mean \x27||\x27? Bitwise operators not supported.", t)
      else if c = '!' then
        some (matchToken t '=' TokenType.TOKEN_BANG_EQUAL TokenType.TOKEN_BANG)
      else if c = '=' then
        if (t.match_ '>').2 then
          some ((t.match_ '>').1.makeToken TokenType.TOKEN_RIGHT_ARROW, (t.match_ '>').1)
        else some (matchToken t '=' TokenType.TOKEN_EQUAL_EQUAL TokenType.TOKEN_EQUAL)
      else if c = '>' then
        some (matchToken t '=' TokenType.TOKEN_GREATER_EQUAL TokenType.TOKEN_GREATER)
      else if c = '<' then
        some (matchToken t '=' TokenType.TOKEN_LESS_EQUAL TokenType.TOKEN_LESS)
      else if c = '\x27' ∨ c = '\x22' then t.string c
      else some (t.errorToken "Unexpected character.", t)

end Tokenizer

/-- The tokens of a source: `nextToken` is called until it returns `TOKEN_EOF`, at
most `n` times; each token is given by its type and its lexeme. -/
def tokens : Nat → Tokenizer → List (TokenType × String)
  | 0, _ => []
  | n + 1, tokenizer =>
    match tokenizer.nextToken with
    | none => []
    | some (token, tokenizer1) =>
      if token.type = TokenType.TOKEN_EOF then [(token.type, String.mk token.lexeme)]
      else (token.type, String.mk token.lexeme) :: tokens n tokenizer1

/-! ### String literals as the spec describes them -/

/-- An element of the body of a string literal: a character that stands for itself, or
an escape, a backslash followed by the character `code`. -/
inductive StringItem where
  | plain (c : Char)
  | escape (code : Char)
  deriving DecidableEq, Repr

/-- The escapes the spec supports and the byte each denotes: newline, tab, carriage
return, bell, and the two quotes and the backslash, which denote themselves. -/
def escapeByte (code : Char) : Option Char :=
  List.lookup code
    [('n', Char.ofNat 10), ('t', Char.ofNat 9), ('r', Char.ofNat 13), ('a', Char.ofNat 7),
     ('\x22', '\x22'), ('\x27', '\x27'), ('\x5c', '\x5c')]

namespace StringItem

/-- The source text of an item. -/
def text : StringItem → List Char
  | plain c => [c]
  | escape code => ['\x5c', code]

/-- The byte an item denotes. -/
def byte : StringItem → Option Char
  | plain c => some c
  | escape code => escapeByte code

/-- An item that can stand between the quotes of a literal closed by `terminator`: a
character other than the closing quote, the backslash, the newline and NUL, or a
supported escape. -/
def ok (terminator : Char) : StringItem → Bool
  | plain c =>
    decide (c ≠ terminator) && decide (c ≠ '\x5c') && decide (c ≠ '\n')
      && decide (c ≠ Char.ofNat 0)
  | escape code => (escapeByte code).isSome

end StringItem

/-- The source text of a sequence of items. -/
def literalText : List StringItem → List Char
  | [] => []
  | item :: items => item.text ++ literalText items

/-- The bytes a sequence of items denotes. -/
def literalValue : List StringItem → List Char
  | [] => []
  | item :: items => item.byte.toList ++ literalValue items

/-! ## Further properties of objects and states used in the statements -/

/-- The kinds of object `getStatic` accepts: structs and enums. -/
def isStructOrEnum (o : Obj) : Bool :=
  match o with
  | Obj.strooct _ _ _ _ => true
  | Obj.enoom _ _ => true
  | _ => false

/-- The stack slots of the upvalues of a list, in order; `none` when an entry is not
an open upvalue. -/
def openSlots (H : hs_State) : List Ref → Option (List Nat)
  | [] => some []
  | u :: rest =>
    match openLocation H u, openSlots H rest with
    | some slot, some slots => some (slot :: slots)
    | _, _ => none

/-- The open-upvalue list is sorted by descending stack slot. -/
def Descending (H : hs_State) : Prop :=
  ∃ slots, openSlots H H.openUpvalues = some slots ∧ slots.Pairwise (fun a b => b ≤ a)

/-- The open-upvalue list is strictly descending by stack slot: every entry is an open
upvalue and the slots decrease strictly from the head on. -/
def StrictlyDescending (H : hs_State) : Prop :=
  ∃ slots, openSlots H H.openUpvalues = some slots ∧ slots.Pairwise (fun a b => b < a)

/-! ## Concrete states for properties, strings, enums and upvalues -/

/-- The state after `n` iterations of the loop of `run`, when none of them returns. -/
def runSteps (env : Env) : Nat → hs_State → Option hs_State
  | 0, H => some H
  | n + 1, H =>
    match step env H with
    | some (Step.next H1) => runSteps env n H1
    | _ => none

/-- The objects of a script with `struct P { x = 0; func m() {} }` and an instance `p`
of it: object 2 is the name `x`, object 3 the name `m`, object 4 the name `P`, object 5
the function of `m`, object 6 its closure, object 7 the struct and object 8 the
instance. -/
def methodObjects : List Obj :=
  [Obj.string "x", Obj.string "m", Obj.string "P",
   Obj.function { arity := 0, upvalueCount := 0, bc := [], lines := [], constants := [],
                  name := some 3 },
   Obj.closure 5 [],
   Obj.strooct 4 [(3, Value.obj 6)] [] [(2, Value.number (F64.ofNat 0))],
   Obj.inst 7 [(2, Value.number (F64.ofNat 0))]]

/-- The state at `p.<name>` with the instance `p` on top of the stack and the opcode
`op` (with operand constant 0, the name with object index `name`) the next
instruction. -/
def loadPropertyState (op : OpCode) (name : Ref) : hs_State :=
  scriptState [op.byte, 0] [Value.obj name] methodObjects 0 [Value.obj 8] []

/-- The state at `receiver.m()` with `BC_INVOKE` (name constant 0, no argument) the
next instruction; object 2 is the name `m`, object 3 a string. -/
def invokeState (receiver : Value) : hs_State :=
  scriptState [OpCode.BC_INVOKE.byte, 0, 0] [Value.obj 2] [Obj.string "m", Obj.string "s"]
    0 [receiver] []

/-- The state of `"hi" .. " " .. "there"` with the first two operands on the stack, at
offset `ip` of the bytecode `BC_CONCAT`, `BC_CONSTANT 0` (the string `"there"`),
`BC_CONCAT`. -/
def concatState (ip : Nat) : hs_State :=
  scriptState [OpCode.BC_CONCAT.byte, OpCode.BC_CONSTANT.byte, 0, OpCode.BC_CONCAT.byte]
    [Value.obj 4] [Obj.string "hi", Obj.string " ", Obj.string "there"]
    ip [Value.obj 2, Value.obj 3] []

/-- The state at `left .. right` once `BC_CONCAT` has been decoded; object 2 is a
string. -/
def concatOperands (left right : Value) : hs_State :=
  scriptState [OpCode.BC_CONCAT.byte] [] [Obj.string "hi"] 1 [left, right] []

/-- The script `enum Color { Red, Green, Blue } Color::Green;` at offset `ip` of its
bytecode; objects 2 to 5 are the names `Color`, `Red`, `Green` and `Blue`.  With
`created`, `BC_ENUM` has been executed: the enum is object 6 and on top of the
stack. -/
def enumState (ip : Nat) (created : Bool) : hs_State :=
  scriptState
    [OpCode.BC_ENUM.byte, 0,
     OpCode.BC_ENUM_VALUE.byte, 1, 0, OpCode.BC_ENUM_VALUE.byte, 2, 1,
     OpCode.BC_ENUM_VALUE.byte, 3, 2, OpCode.BC_GET_STATIC.byte, 2]
    [Value.obj 2, Value.obj 3, Value.obj 4, Value.obj 5]
    ([Obj.string "Color", Obj.string "Red", Obj.string "Green", Obj.string "Blue"]
      ++ (if created then [Obj.enoom 2 []] else []))
    ip (if created then [Value.obj 6] else []) []

/-- The state at `receiver::name` after `BC_GET_STATIC` has been decoded (offset 1) or
its operand read (offset 2): object 2 is a name, object 3 a struct with the static
method `name` (the closure 5), object 6 an enum with the value `name` = 1, object 7 a
struct and object 8 an enum without it. -/
def staticState (ip : Nat) (receiver : Value) : hs_State :=
  scriptState [OpCode.BC_GET_STATIC.byte, 0] [Value.obj 2]
    [Obj.string "name", Obj.strooct 2 [] [(2, Value.obj 5)] [],
     Obj.function { arity := 0, upvalueCount := 0, bc := [], lines := [], constants := [],
                    name := none },
     Obj.closure 4 [], Obj.enoom 2 [(2, Value.number (F64.ofNat 1))],
     Obj.strooct 2 [] [] [], Obj.enoom 2 []]
    ip [receiver] []

/-- The state at `!v` or at a conditional jump on `v`: `v` is on top of the stack, at
offset `ip` of the bytecode `BC_NOT`, `BC_JUMP_IF_FALSE 0 5`. -/
def truthState (ip : Nat) (v : Value) : hs_State :=
  scriptState [OpCode.BC_NOT.byte, OpCode.BC_JUMP_IF_FALSE.byte, 0, 5] [] [Obj.string ""]
    ip [v] []

/-- A state in which the function `mk` (object 2, closure 3), called from the script,
is about to return (`BC_RETURN` has been decoded): slot 1 is a local of the script,
slot 2 the frame base of `mk` with the callee, slot 3 a local of `mk`, and `result` is
on top.  Object 4 is an open upvalue of slot 3 and object 5 one of slot 1. -/
def returnState (result : Value) : hs_State :=
  { scriptState [OpCode.BC_CALL.byte, 0] []
      [Obj.function { arity := 0, upvalueCount := 0, bc := [OpCode.BC_RETURN.byte],
                      lines := [2], constants := [], name := none },
       Obj.closure 2 [], Obj.upvalue (some 3) Value.nil, Obj.upvalue (some 1) Value.nil]
      2 [Value.number (F64.ofNat 5), Value.obj 3, Value.number (F64.ofNat 10), result] [] with
    frames := [{ func := some 1, ip := some 2, slots := 0 },
               { func := some 3, ip := some 1, slots := 2 }],
    openUpvalues := [4, 5] }

/-- The state an iteration of the loop of `run` leaves, whether the loop goes on or
`run` returns. -/
def Step.state : Step → hs_State
  | Step.next H => H
  | Step.ret _ H => H

/-- The native functions of `env` leave the open-upvalue list and the upvalue objects
alone: they work on the stack through the `hs_` interface, which has no access to
upvalues. -/
def NativesKeepUpvalues (env : Env) : Prop :=
  ∀ (cFunc : Nat) (H H1 : hs_State) (argCount : Int), env.cFuncs cFunc H argCount = some H1 →
    H1.openUpvalues = H.openUpvalues ∧ ∀ x, openLocation H1 x = openLocation H x

/-- A script with two locals (slots 1 and 2, set to 10 and 20) that creates two closures
of the function in object 2, which has two upvalues: the first closure captures slot 1
and then slot 2, the second one slot 2 and then slot 1. -/
def closureState : hs_State :=
  scriptState
    [OpCode.BC_CONSTANT.byte, 0, OpCode.BC_CONSTANT.byte, 1,
     OpCode.BC_CLOSURE.byte, 2, 1, 1, 1, 2,
     OpCode.BC_CLOSURE.byte, 2, 1, 2, 1, 1]
    [Value.number (F64.ofNat 10), Value.number (F64.ofNat 20), Value.obj 2]
    [Obj.function { arity := 0, upvalueCount := 2, bc := [OpCode.BC_RETURN.byte],
                    lines := [2], constants := [], name := none }]
    0 [] []

/-! ## Concrete states for arrays, returns, invocations and upvalues after an error -/
/-! ## Concrete states for array destructuring and for upvalues after an error -/

/-- The state before `BC_DESTRUCT_ARRAY index` with the array `values` (object 2) on
top of the stack. -/
def destructState (values : List Value) (index : Nat) : hs_State :=
  scriptState [OpCode.BC_DESTRUCT_ARRAY.byte, index] [] [Obj.array values] 0 [Value.obj 2] []

/-- The script `{ var x = 7; func h() { return x; } g = h; -nil; }` with `g` a new
global: slot 1 holds `x`, the closure of `h` (function object 2) captures it, the
closure is bound to the global `g` (name object 3), and the negation of nil raises a
runtime error while `x` is still in scope. -/
def leakState : hs_State :=
  scriptState
    [OpCode.BC_CONSTANT.byte, 0, OpCode.BC_CLOSURE.byte, 1, 1, 1,
     OpCode.BC_DEFINE_GLOBAL.byte, 2, OpCode.BC_NIL.byte, OpCode.BC_NEGATE.byte]
    [Value.number (F64.ofNat 7), Value.obj 2, Value.obj 3]
    [Obj.function { arity := 0, upvalueCount := 1,
                    bc := [OpCode.BC_GET_UPVALUE.byte, 0, OpCode.BC_RETURN.byte],
                    lines := [1, 1, 1], constants := [], name := none },
     Obj.string "g"]
    0 [] []

/-- The function `interpret` from the point where `compile` has returned the function
object `function` (`compiler.c` is not among the sources): the function is pushed, its
closure is created, the function is popped, the closure is pushed and called with no
argument, and `run` is entered whatever `call` returned.  Modelled from the spec:
`newClosure` (`object.c` is not among the sources) allocates a closure with
`upvalueCount` upvalue slots, all `NULL`. -/
def interpret (env : Env) (fuel : Nat) (H : hs_State) (function : Ref) : RunResult :=
  match H.heap[function]? with
  | some (Obj.function f) =>
    let H1 := push H (Value.obj function)
    let (closure, H2) := allocate H1 (Obj.closure function (List.replicate f.upvalueCount none))
    match pop H2 with
    | none => RunResult.undefined
    | some (_, H3) =>
      match call env (push H3 (Value.obj closure)) closure 0 with
      | none => RunResult.undefined
      | some (_, H4) => run env fuel H4
  | _ => RunResult.undefined

/-- The engine after `interpret` has run the script of `leakState` to its runtime
error. -/
def afterLeak : hs_State :=
  match run demoEnv 10 leakState with
  | RunResult.returned _ H => H
  | _ => leakState

/-- The engine of `afterLeak` with the compiled function of a second script,
`{ var y = 99; return g(); }`, as object 6. -/
def secondScript : hs_State :=
  { afterLeak with heap := afterLeak.heap ++
      [Obj.function { arity := 0, upvalueCount := 0,
                      bc := [OpCode.BC_CONSTANT.byte, 0, OpCode.BC_GET_GLOBAL.byte, 1,
                             OpCode.BC_CALL.byte, 0, OpCode.BC_RETURN.byte],
                      lines := [1, 1, 1, 1, 1, 1, 1],
                      constants := [Value.number (F64.ofNat 99), Value.obj 3],
                      name := none }] }

/-- The script frame alone, `BC_RETURN` decoded, with the script closure in slot 0 and
`result` on top. -/
def scriptReturnState (result : Value) : hs_State :=
  scriptState [OpCode.BC_RETURN.byte] [] [] 1 [result] []

/-- A state of the script with the objects of `methodObjects`, the field `x` of the
instance `p` (object 8) set to `x`, in which `p` is on top of the stack, as the receiver
of a call without arguments. -/
def receiverState (x : Value) : hs_State :=
  scriptState [] [] (methodObjects.dropLast ++ [Obj.inst 7 [(2, x)]]) 0 [Value.obj 8] []

/-- The state before `BC_ARRAY elementCount` with the values `values` on the stack
above the script closure. -/
def arrayState (elementCount : Nat) (values : List Value) : hs_State :=
  scriptState [OpCode.BC_ARRAY.byte, elementCount] [] [] 0 values []

/-! ## Successive calls of `nextToken` -/

/-- The result of call number `n`, counted from 0, of successive calls of `nextToken`,
with the tokenizer after that call. -/
def tokenAt : Nat → Tokenizer → Option (Token × Tokenizer)
  | 0, tokenizer => tokenizer.nextToken
  | n + 1, tokenizer =>
    match tokenizer.nextToken with
    | none => none
    | some (_, tokenizer1) => tokenAt n tokenizer1

/-- The number of newline bytes at the offsets `a ≤ i < b` of the buffer. -/
def newlines (source : List Char) (a b : Nat) : Nat :=
  ((source.drop a).take (b - a)).count '\n'

/-- The tokenizer `t1` is `t` after a scan: the buffer is the same, the scan position
has not moved back, no NUL byte was passed, and the line counter has grown by the
number of newline bytes passed. -/
def Scanned (t t1 : Tokenizer) : Prop :=
  t1.source = t.source ∧ t.end_ ≤ t1.end_
    ∧ (∀ i, t.end_ ≤ i → i < t1.end_ → charAt t.source i ≠ Char.ofNat 0)
    ∧ t1.line = t.line + newlines t.source t.end_ t1.end_

/-- The result `r` of a scanning function called on `t` is a token other than
`TOKEN_EOF` that carries the line of the tokenizer it is returned with, and that
tokenizer is `t` after a scan. -/
def ScansToken (t : Tokenizer) (r : Option (Token × Tokenizer)) : Prop :=
  ∃ token t1, r = some (token, t1) ∧ Scanned t t1 ∧ token.line = t1.line
    ∧ token.type ≠ TokenType.TOKEN_EOF

/-! ## Lemmas on the value stack -/

theorem ptrSub_natCast {p d i : Nat} (h : ptrSub p (d : Int) = some i) : d ≤ p ∧ i = p - d := by
  unfold ptrSub at h
  split at h
  · simp only [Option.some.injEq] at h
    omega
  · simp at h

theorem ptrSub_of_le {p d : Nat} (h : d ≤ p) : ptrSub p (d : Int) = some (p - d) := by
  unfold ptrSub
  rw [if_pos (by omega)]
  congr 1
  omega

theorem peek_natCast {H : hs_State} {d : Nat} {v : Value} (h : peek H (d : Int) = some v) :
    d + 1 ≤ H.stackTop ∧ H.stack[H.stackTop - (d + 1)]? = some v := by
  unfold peek at h
  have e : (1 : Int) + (d : Int) = ((d + 1 : Nat) : Int) := by omega
  rw [e] at h
  split at h
  · simp at h
  · rename_i i hi
    obtain ⟨h1, h2⟩ := ptrSub_natCast hi
    subst h2
    exact ⟨h1, h⟩

theorem peek_zero {H : hs_State} {v : Value} (h : peek H 0 = some v) :
    1 ≤ H.stackTop ∧ H.stack[H.stackTop - 1]? = some v := by
  have := @peek_natCast H 0 v (by simpa using h)
  simpa using this

theorem peek_one {H : hs_State} {v : Value} (h : peek H 1 = some v) :
    2 ≤ H.stackTop ∧ H.stack[H.stackTop - 2]? = some v := by
  have := @peek_natCast H 1 v (by simpa using h)
  simpa using this

theorem pop_of_peek {H : hs_State} {v : Value} (h : peek H 0 = some v) :
    pop H = some (v, { H with stackTop := H.stackTop - 1 }) := by
  obtain ⟨h1, h2⟩ := peek_zero h
  unfold pop
  rw [if_neg (by omega), h2]

theorem pop_pop_of_peek {H : hs_State} {w : Value} (h1 : peek H 1 = some w) :
    pop { H with stackTop := H.stackTop - 1 } = some (w, { H with stackTop := H.stackTop - 2 }) := by
  obtain ⟨h2, h3⟩ := peek_one h1
  unfold pop
  simp only
  rw [if_neg (by omega)]
  have e : H.stackTop - 1 - 1 = H.stackTop - 2 := by omega
  rw [e, h3]

/-! ## Lemmas on tables and the heap -/

theorem lookup_eq_none_iff (t : Table) (k : Ref) :
    List.lookup k t = none ↔ k ∉ t.keys := by
  induction t with
  | nil => simp [Table.keys]
  | cons e t ih =>
    obtain ⟨a, b⟩ := e
    simp only [Table.keys, List.map_cons, List.mem_cons, not_or] at ih ⊢
    by_cases h : k = a
    · subst h
      simp [List.lookup]
    · have hb : (k == a) = false := by simpa using h
      simp [List.lookup, hb, ih, h]

theorem lookup_replace (t : Table) (k : Ref) (v : Value) :
    List.lookup k (t.map (fun e => if e.1 = k then (k, v) else e))
      = (List.lookup k t).map (fun _ => v) := by
  induction t with
  | nil => rfl
  | cons e t ih =>
    obtain ⟨a, b⟩ := e
    rw [List.map_cons]
    by_cases h : a = k
    · subst h
      rw [if_pos rfl]
      simp [List.lookup]
    · have hb : (k == a) = false := by simpa using (Ne.symm h)
      rw [if_neg h]
      simp only [List.lookup, hb]
      exact ih

theorem keys_replace (t : Table) (k : Ref) (v : Value) :
    Table.keys (t.map (fun e => if e.1 = k then (k, v) else e)) = t.keys := by
  induction t with
  | nil => rfl
  | cons e t ih =>
    obtain ⟨a, b⟩ := e
    simp only [Table.keys, List.map_cons, List.cons.injEq] at ih ⊢
    refine ⟨?_, ih⟩
    by_cases h : a = k <;> simp [h]

theorem tableSet_isNew (t : Table) (k : Ref) (v : Value) :
    (tableSet t k v).2 = true ↔ k ∉ t.keys := by
  rw [← lookup_eq_none_iff]
  unfold tableSet
  cases h : List.lookup k t <;> simp

theorem tableGet_tableSet (t : Table) (k : Ref) (v : Value) :
    tableGet (tableSet t k v).1 k = some v := by
  unfold tableSet tableGet
  cases h : List.lookup k t with
  | none =>
    simp only
    induction t with
    | nil => simp [List.lookup]
    | cons e t ih =>
      obtain ⟨a, b⟩ := e
      by_cases hk : k = a
      · subst hk
        simp [List.lookup] at h
      · have hb : (k == a) = false := by simpa using hk
        simp only [List.lookup, hb] at h
        simp only [List.cons_append, List.lookup, hb]
        exact ih h
  | some w =>
    simp only
    rw [lookup_replace, h]
    rfl

theorem keys_tableSet_of_mem (t : Table) (k : Ref) (v : Value) (h : k ∈ t.keys) :
    (tableSet t k v).1.keys = t.keys := by
  unfold tableSet
  cases hl : List.lookup k t with
  | none => exact absurd h ((lookup_eq_none_iff t k).1 hl)
  | some w => exact keys_replace t k v

theorem heap_store_self {H : hs_State} {r : Ref} {o o1 : Obj} (h : H.heap[r]? = some o) :
    (store H r o1).heap[r]? = some o1 := by
  obtain ⟨hlt, -⟩ := List.getElem?_eq_some.1 h
  simp only [store]
  exact List.getElem?_set_self hlt

/-! ## Every failing path goes through `runtimeError` -/

theorem reset_runtimeError (H : hs_State) (message : String) :
    Reset (runtimeError H message) := by
  simp [Reset, runtimeError, resetStack, hs_State.frameCount]

theorem call_false {env : Env} {H H1 : hs_State} {closure : Ref} {argCount : Int}
    (h : call env H closure argCount = some (false, H1)) : Reset H1 := by
  unfold call at h
  repeat' split at h
  all_goals first
    | (simp at h; done)
    | (cases h; exact reset_runtimeError _ _)

theorem callCFunc_false {env : Env} {H H1 : hs_State} {func : Ref} {argCount : Int}
    (h : callCFunc env H func argCount = some (false, H1)) : Reset H1 := by
  unfold callCFunc at h
  dsimp only at h
  repeat' split at h
  all_goals first
    | (simp at h; done)
    | (cases h; exact reset_runtimeError _ _)

theorem callValue_false {env : Env} {H H1 : hs_State} {callee : Value} {argCount : Int}
    (h : callValue env H callee argCount = some (false, H1)) : Reset H1 := by
  unfold callValue at h
  repeat' split at h
  all_goals first
    | (simp at h; done)
    | exact call_false h
    | exact callCFunc_false h
    | (cases h; exact reset_runtimeError _ _)

theorem invokeFromStruct_false {env : Env} {H H1 : hs_State} {s name : Ref} {argCount : Int}
    (h : invokeFromStruct env H s name argCount = some (false, H1)) : Reset H1 := by
  unfold invokeFromStruct at h
  repeat' split at h
  all_goals first
    | (simp at h; done)
    | exact call_false h
    | (cases h; exact reset_runtimeError _ _)

theorem invoke_false {env : Env} {H H1 : hs_State} {name : Ref} {argCount : Int}
    (h : invoke env H name argCount = some (false, H1)) : Reset H1 := by
  unfold invoke at h
  repeat' split at h
  all_goals first
    | (simp at h; done)
    | exact callValue_false h
    | exact invokeFromStruct_false h
    | (cases h; exact reset_runtimeError _ _)

theorem bindMethod_false {H H1 : hs_State} {s name : Ref}
    (h : bindMethod H s name = some (false, H1)) : Reset H1 := by
  unfold bindMethod at h
  dsimp only [allocate] at h
  repeat' split at h
  all_goals first
    | (simp at h; done)
    | (cases h; exact reset_runtimeError _ _)

theorem setProperty_false {H H1 : hs_State} {name : Ref}
    (h : setProperty H name = some (false, H1)) : Reset H1 := by
  unfold setProperty at h
  dsimp only at h
  repeat' split at h
  all_goals first
    | (simp at h; done)
    | (cases h; exact reset_runtimeError _ _)

theorem getProperty_false {H H1 : hs_State} {object : Value} {name : Ref} {popValue : Bool}
    (h : getProperty H object name popValue = some (false, H1)) : Reset H1 := by
  unfold getProperty at h
  repeat' split at h
  all_goals first
    | (simp at h; done)
    | exact bindMethod_false h
    | (cases h; exact reset_runtimeError _ _)

theorem getStatic_false {H H1 : hs_State} {object : Value} {name : Ref}
    (h : getStatic H object name = some (false, H1)) : Reset H1 := by
  unfold getStatic at h
  repeat' split at h
  all_goals first
    | (simp at h; done)
    | (cases h; exact reset_runtimeError _ _)

theorem dispatch_error {env : Env} {instruction : OpCode} {H H1 : hs_State}
    (h : dispatch env instruction H = some (Step.ret InterpretResult.RUNTIME_ERR H1)) :
    Reset H1 := by
  cases instruction
  all_goals
    simp only [dispatch, BINARY_OP, case_BC_MODULO_POW, case_BC_ARRAY, case_BC_GET_SUBSCRIPT,
      case_BC_SET_SUBSCRIPT, case_BC_GET_GLOBAL, case_BC_SET_GLOBAL, case_BC_DEFINE_GLOBAL,
      case_BC_GET_UPVALUE, case_BC_SET_UPVALUE, case_BC_GET_LOCAL, case_BC_SET_LOCAL,
      case_BC_INIT_PROPERTY, case_BC_GET_STATIC, case_BC_GET_PROPERTY, case_BC_SET_PROPERTY,
      case_BC_DESTRUCT_ARRAY, case_BC_EQUAL, case_BC_CONCAT, case_BC_NEGATE, case_BC_NOT,
      case_BC_JUMP, case_BC_JUMP_IF_FALSE, case_BC_INEQUALITY_JUMP, case_BC_LOOP,
      case_BC_CALL, case_BC_INSTANCE, case_BC_CLOSURE, case_BC_CLOSE_UPVALUE, case_BC_RETURN,
      case_BC_ENUM, case_BC_ENUM_VALUE, case_BC_STRUCT, case_BC_METHOD, case_BC_INVOKE,
      case_BC_STRUCT_FIELD, allocate] at h
  all_goals repeat' split at h
  all_goals first
    | (simp at h; done)
    | (cases h
       first
        | exact reset_runtimeError _ _
        | exact setProperty_false (by assumption)
        | exact getProperty_false (by assumption)
        | exact getStatic_false (by assumption)
        | exact callValue_false (by assumption)
        | exact invoke_false (by assumption))

theorem run_error {env : Env} (fuel : Nat) {H H1 : hs_State}
    (h : run env fuel H = RunResult.returned InterpretResult.RUNTIME_ERR H1) :
    Reset H1 := by
  induction fuel generalizing H with
  | zero => simp [run] at h
  | succ n ih =>
    unfold run at h
    split at h
    · simp at h
    · rename_i r H2 hstep
      cases h
      unfold step at hstep
      split at hstep
      · simp at hstep
      · split at hstep
        · simp at hstep
        · exact dispatch_error hstep
    · exact ih h

/-! ## Property assignment -/

theorem setProperty_inst {H : hs_State} {name r strooct : Ref} {fields : Table}
    {value : Value} (h1 : peek H 1 = some (Value.obj r))
    (h2 : H.heap[r]? = some (Obj.inst strooct fields)) (h0 : peek H 0 = some value) :
    setProperty H name =
      if (tableSet fields name value).2 then
        some (false, runtimeError (store H r (Obj.inst strooct (tableSet fields name value).1))
          "Cannot create new properties on instances at runtime.")
      else some (true, store H r (Obj.inst strooct (tableSet fields name value).1)) := by
  simp only [setProperty, h1, h2, h0]

theorem setProperty_not_inst {H : hs_State} {name : Ref} {receiver : Value}
    (h1 : peek H 1 = some receiver)
    (h2 : ∀ r, receiver = Value.obj r → ∃ o, H.heap[r]? = some o ∧ isInstance o = false) :
    setProperty H name
      = some (false, runtimeError H "Can only use dot operator on instances.") := by
  cases receiver with
  | obj r =>
    obtain ⟨o, ho, hk⟩ := h2 r rfl
    cases o <;> simp_all [setProperty, isInstance]
  | nil => simp only [setProperty, h1]
  | bool b => simp only [setProperty, h1]
  | number n => simp only [setProperty, h1]

theorem case_SET_PROPERTY_existing {H H1 : hs_State} {name r strooct : Ref} {fields : Table}
    {value : Value} (hname : READ_STRING H = some (name, H1))
    (h1 : peek H1 1 = some (Value.obj r))
    (h2 : H1.heap[r]? = some (Obj.inst strooct fields)) (h0 : peek H1 0 = some value)
    (hk : name ∈ fields.keys) :
    case_BC_SET_PROPERTY H = some (Step.next
      (push { store H1 r (Obj.inst strooct (tableSet fields name value).1) with
              stackTop := H1.stackTop - 2 } value)) := by
  have hnew : (tableSet fields name value).2 = false := by
    have := (tableSet_isNew fields name value).not.2 (not_not.2 hk)
    simpa using this
  simp only [case_BC_SET_PROPERTY, hname, setProperty_inst h1 h2 h0, hnew]
  have p0 : peek (store H1 r (Obj.inst strooct (tableSet fields name value).1)) 0
      = some value := h0
  have p1 : peek (store H1 r (Obj.inst strooct (tableSet fields name value).1)) 1
      = some (Value.obj r) := h1
  simp only [Bool.false_eq_true, if_false, pop_of_peek p0, pop_pop_of_peek p1]
  rfl

theorem case_INIT_PROPERTY_existing {H H1 : hs_State} {name r strooct : Ref} {fields : Table}
    {value : Value} (hname : READ_STRING H = some (name, H1))
    (h1 : peek H1 1 = some (Value.obj r))
    (h2 : H1.heap[r]? = some (Obj.inst strooct fields)) (h0 : peek H1 0 = some value)
    (hk : name ∈ fields.keys) :
    case_BC_INIT_PROPERTY H = some (Step.next
      { store H1 r (Obj.inst strooct (tableSet fields name value).1) with
        stackTop := H1.stackTop - 1 }) := by
  have hnew : (tableSet fields name value).2 = false := by
    have := (tableSet_isNew fields name value).not.2 (not_not.2 hk)
    simpa using this
  simp only [case_BC_INIT_PROPERTY, hname, setProperty_inst h1 h2 h0, hnew]
  have p0 : peek (store H1 r (Obj.inst strooct (tableSet fields name value).1)) 0
      = some value := h0
  simp only [Bool.false_eq_true, if_false, pop_of_peek p0]
  rfl

theorem case_PROPERTY_missing {H H1 : hs_State} {name r strooct : Ref} {fields : Table}
    {value : Value} (hname : READ_STRING H = some (name, H1))
    (h1 : peek H1 1 = some (Value.obj r))
    (h2 : H1.heap[r]? = some (Obj.inst strooct fields)) (h0 : peek H1 0 = some value)
    (hk : name ∉ fields.keys) :
    case_BC_SET_PROPERTY H = some (Step.ret InterpretResult.RUNTIME_ERR
      (runtimeError (store H1 r (Obj.inst strooct (tableSet fields name value).1))
        "Cannot create new properties on instances at runtime."))
    ∧ case_BC_INIT_PROPERTY H = some (Step.ret InterpretResult.RUNTIME_ERR
      (runtimeError (store H1 r (Obj.inst strooct (tableSet fields name value).1))
        "Cannot create new properties on instances at runtime.")) := by
  have hnew : (tableSet fields name value).2 = true := (tableSet_isNew fields name value).2 hk
  constructor
  · simp only [case_BC_SET_PROPERTY, hname, setProperty_inst h1 h2 h0, hnew, if_true]
  · simp only [case_BC_INIT_PROPERTY, hname, setProperty_inst h1 h2 h0, hnew, if_true]

/-! ## The built-in `print` -/

/-- Claim C1, evaluated on the code.  `getValueAt` adds one to a non-negative index,
so `hs_toString(H, i)` reads slot `slotsBase[i + 1]`, not the `i`-th argument in
`slotsBase[i]`: inside the native frame of `print("a", "b")` (frame base 1, arguments
in slots 2 and 3) index 1 designates slot 3.  The call therefore prints the second
argument and then the value left in the first free slot, `b`, a tab, `zz`, instead of
`a`, a tab, `b`; and the script `print(1 + 2 * 3);` prints 6, the right operand that
`ADD` popped, instead of 7. -/
theorem core_print_reads_one_slot_too_high :
    getValueAt
        { printCall with
          frames := printCall.frames ++ [{ func := none, ip := none, slots := 1 }] } 1
      = some (some 3)
    ∧ (callCFunc demoEnv printCall 2 2).map (fun p => (p.1, p.2.stdout, peek p.2 0))
      = some (true, "b\tzz\n", some Value.nil)
    ∧ (match run demoEnv 20 printProgram with
       | RunResult.returned result H => some (result, H.stdout)
       | _ => none) = some (InterpretResult.INTERPRET_OK, "6\n") := by
  decide

/-! ## Subscripts and arithmetic -/

/-- Claim C2, evaluated on the code.  The bounds test of both subscript opcodes is
`index < 0 || index > count`: on the array `[10]` the index 1, equal to the length,
passes it, no runtime error is raised and element 1, which the array does not have,
is read (`BC_GET_SUBSCRIPT`) or written (`BC_SET_SUBSCRIPT`), an access with no defined
result; the error is raised from index 2 on. -/
theorem subscript_accepts_index_equal_to_length :
    step demoEnv (getSubscriptState 1) = none
    ∧ step demoEnv (setSubscriptState 1) = none
    ∧ (match step demoEnv (getSubscriptState 2) with
       | some (Step.ret result H) => some (result, H.stderr)
       | _ => none)
      = some (InterpretResult.RUNTIME_ERR,
          "[line #1] in script\nIndex out of bounds. Array size is 1, but tried accessing 2\n") := by
  decide

/-- Claim C3, evaluated on the code.  The guards of `BC_MODULO` and `BC_POW` test
`peek(H, 0)` twice and never the left operand: `nil % 2` and `true ** 2` raise no
error, read the payload of the left operand as a number and push a number, whereas
`nil + 2` raises "Operands must be numbers." through `BINARY_OP`. -/
theorem modulo_and_pow_check_one_operand :
    (match step demoEnv (binaryState OpCode.BC_MODULO Value.nil) with
     | some (Step.next H) => some (H.stackTop, (peek H 0).map IS_NUMBER, H.stderr)
     | _ => none) = some (2, some true, "")
    ∧ (match step demoEnv (binaryState OpCode.BC_POW (Value.bool true)) with
       | some (Step.next H) => some (H.stackTop, (peek H 0).map IS_NUMBER, H.stderr)
       | _ => none) = some (2, some true, "")
    ∧ (match step demoEnv (binaryState OpCode.BC_ADD Value.nil) with
       | some (Step.ret result H) => some (result, H.stderr)
       | _ => none)
      = some (InterpretResult.RUNTIME_ERR, "[line #1] in script\nOperands must be numbers.\n") := by
  decide

/-! ## Calls -/

/-- Claim C4.  For every state and every `argc`, `callValue` (1) on a closure whose
function has arity `k ≠ argc`, (2) on a bound method of such a closure, once the
receiver has been stored in the callee slot `stackTop - argc - 1`, and (3) on a native
function of declared arity `k ≠ -1`, `k ≠ argc`, returns false in the state
`runtimeError` leaves for the message "Expected k arguments, but got argc."; (4) on a
native function of declared arity -1, in a state with fewer than `FRAMES_MAX` frames
(`callCFunc` takes `frames[frameCount]` without a test, which is claim C9), it returns
true for every `argc`, as soon as the native function runs and leaves its result on
the stack; (5) on every callee that is
no object, or an object of another kind, it returns false with "Can only call
functions.".  The last two parts spell out what the failures leave: no call frame
(`frameCount = 0`) and, on the error stream, the traceback followed by the message. -/
theorem callValue_arity (env : Env) (H : hs_State) (argCount : Int) :
    (∀ (r fn : Ref) (upvalues : List (Option Ref)) (f : GcBcFunction),
        H.heap[r]? = some (Obj.closure fn upvalues) → H.heap[fn]? = some (Obj.function f) →
        argCount ≠ f.arity →
        callValue env H (Value.obj r) argCount
          = some (false, runtimeError H (arityMessage f.arity argCount)))
    ∧ (∀ (r m fn : Ref) (receiver : Value) (upvalues : List (Option Ref)) (f : GcBcFunction)
        (slot : Nat),
        H.heap[r]? = some (Obj.boundMethod receiver m) →
        H.heap[m]? = some (Obj.closure fn upvalues) → H.heap[fn]? = some (Obj.function f) →
        ptrSub H.stackTop (argCount + 1) = some slot → argCount ≠ f.arity →
        callValue env H (Value.obj r) argCount
          = some (false, runtimeError { H with stack := poke H.stack slot receiver }
              (arityMessage f.arity argCount)))
    ∧ (∀ (r cFunc : Nat) (arity : Int),
        H.heap[r]? = some (Obj.cFunction cFunc arity) → arity ≠ -1 → argCount ≠ arity →
        callValue env H (Value.obj r) argCount
          = some (false, runtimeError H (arityMessage arity argCount)))
    ∧ (∀ (r cFunc slots : Nat) (H2 H3 : hs_State) (v : Value) (frame : CallFrame),
        H.heap[r]? = some (Obj.cFunction cFunc (-1)) →
        H.frameCount < env.FRAMES_MAX →
        ptrSub H.stackTop (argCount + 1) = some slots →
        env.cFuncs cFunc
          { H with frames := H.frames ++ [{ func := none, ip := none, slots := slots }] }
          argCount = some H2 →
        pop H2 = some (v, H3) → H3.frames.getLast? = some frame →
        callValue env H (Value.obj r) argCount
          = some (true,
              push { H3 with frames := H3.frames.dropLast, stackTop := frame.slots } v))
    ∧ (∀ callee : Value,
        (∀ r, callee = Value.obj r → ∃ o, H.heap[r]? = some o ∧ isCallable o = false) →
        callValue env H callee argCount
          = some (false, runtimeError H "Can only call functions."))
    ∧ (∀ (H0 : hs_State) (message : String),
        (runtimeError H0 message).frameCount = 0 ∧
        (runtimeError H0 message).stderr
          = H0.stderr ++ String.join (H0.frames.map (tracebackLine H0)) ++ message ++ "\n")
    ∧ (∀ k n : Int,
        arityMessage k n
          = "Expected " ++ toString k ++ " arguments, but got " ++ toString n ++ ".") := by
  refine ⟨?_, ?_, ?_, ?_, ?_, ?_, ?_⟩
  · intro r fn upvalues f hr hfn hne
    simp only [callValue, hr, call, hfn, if_pos hne]
  · intro r m fn receiver upvalues f slot hr hm hfn hslot hne
    simp only [callValue, hr, hslot, call, hm, hfn, if_pos hne]
  · intro r cFunc arity hr h1 hne
    simp only [callValue, hr, callCFunc]
    rw [if_pos ⟨hne, h1⟩]
  · intro r cFunc slots H2 H3 v frame hr _ hslot hnat hpop hframe
    simp only [callValue, hr, callCFunc]
    rw [if_neg (by simp)]
    simp only [hslot, hnat, hpop, hframe]
  · intro callee hc
    cases callee with
    | obj r =>
      obtain ⟨o, ho, hk⟩ := hc r rfl
      cases o <;> simp_all [callValue, isCallable]
    | nil => rfl
    | bool b => rfl
    | number n => rfl
  · intro H0 message
    exact ⟨rfl, rfl⟩
  · intro k n
    rfl

/-- Claim C4 at concrete calls with one argument (none for the native function of
arity 1): the closure of a function of two parameters, a bound method of it, a
native function of arity 1, a native function declared variadic and a string. -/
theorem callValue_arity_witness :
    callValue demoEnv callState (Value.obj 3) 1
      = some (false, runtimeError callState (arityMessage twoArgs.arity 1))
    ∧ callValue demoEnv callState (Value.obj 4) 1
      = some (false, runtimeError
          { callState with stack := poke callState.stack 1 (Value.number (F64.ofNat 7)) }
          (arityMessage twoArgs.arity 1))
    ∧ callValue demoEnv callState (Value.obj 5) 0
      = some (false, runtimeError callState (arityMessage 1 0))
    ∧ (callValue demoEnv callState (Value.obj 6) 1).map
        (fun p => (p.1, p.2.stackTop, peek p.2 0, p.2.frameCount, p.2.stderr))
      = some (true, 2, some (Value.number (F64.ofNat 2)), 1, "")
    ∧ callValue demoEnv callState (Value.obj 7) 1
      = some (false, runtimeError callState "Can only call functions.")
    ∧ (runtimeError callState (arityMessage twoArgs.arity 1)).stderr
        = "[line #1] in script\nExpected 2 arguments, but got 1.\n" :=
  ⟨(callValue_arity demoEnv callState 1).1 3 2 [] twoArgs (by decide) (by decide) (by decide),
   (callValue_arity demoEnv callState 1).2.1 4 3 2 (Value.number (F64.ofNat 7)) [] twoArgs 1
     (by decide) (by decide) (by decide) (by decide) (by decide),
   (callValue_arity demoEnv callState 0).2.2.1 5 2 1 (by decide) (by decide) (by decide),
   by
     rw [(callValue_arity demoEnv callState 1).2.2.2.1 6 1 1
       (push { callState with
          frames := callState.frames ++ [{ func := none, ip := none, slots := 1 }] }
          (Value.number (F64.ofNat 2)))
       { callState with
          stack := poke callState.stack 3 (Value.number (F64.ofNat 2)),
          frames := callState.frames ++ [{ func := none, ip := none, slots := 1 }] }
       (Value.number (F64.ofNat 2)) { func := none, ip := none, slots := 1 }
       (by decide) (by decide) (by decide) (by decide) (by decide) (by decide)]
     decide,
   (callValue_arity demoEnv callState 1).2.2.2.2.1 (Value.obj 7)
     (fun r hr => ⟨Obj.string "s", by cases hr; decide, by decide⟩),
   by decide⟩

/-! ## Properties of instances -/

/-- Claim C5.  Let `name` be the operand of the instruction and `H1` the state once it
has been read.  When the receiver `peek(H1, 1)` is an instance with fields table
`fields` and `value` is on top of the stack, `BC_SET_PROPERTY` and `BC_INIT_PROPERTY`
succeed if and only if `name` is a key of `fields`; when it is, the field `name` of the
instance holds `value` afterwards; when it is not, both raise "Cannot create new
properties on instances at runtime." and `run` returns `RUNTIME_ERR`.  When the
receiver is no instance, both raise "Can only use dot operator on instances." and
`run` returns `RUNTIME_ERR`. -/
theorem setProperty_requires_existing_field (H H1 : hs_State) (name : Ref)
    (hname : READ_STRING H = some (name, H1)) :
    (∀ (r strooct : Ref) (fields : Table) (value : Value),
        peek H1 1 = some (Value.obj r) → H1.heap[r]? = some (Obj.inst strooct fields) →
        peek H1 0 = some value →
        ((∃ H2, case_BC_SET_PROPERTY H = some (Step.next H2)) ↔ name ∈ fields.keys)
        ∧ ((∃ H2, case_BC_INIT_PROPERTY H = some (Step.next H2)) ↔ name ∈ fields.keys)
        ∧ (name ∈ fields.keys →
            ∃ H2 H3 fields2,
              case_BC_SET_PROPERTY H = some (Step.next H2)
              ∧ case_BC_INIT_PROPERTY H = some (Step.next H3)
              ∧ H2.heap[r]? = some (Obj.inst strooct fields2)
              ∧ H3.heap[r]? = some (Obj.inst strooct fields2)
              ∧ tableGet fields2 name = some value)
        ∧ (name ∉ fields.keys →
            ∃ H0,
              case_BC_SET_PROPERTY H = some (Step.ret InterpretResult.RUNTIME_ERR
                (runtimeError H0 "Cannot create new properties on instances at runtime."))
              ∧ case_BC_INIT_PROPERTY H = some (Step.ret InterpretResult.RUNTIME_ERR
                (runtimeError H0 "Cannot create new properties on instances at runtime."))))
    ∧ (∀ receiver : Value, peek H1 1 = some receiver →
        (∀ r, receiver = Value.obj r → ∃ o, H1.heap[r]? = some o ∧ isInstance o = false) →
        case_BC_SET_PROPERTY H = some (Step.ret InterpretResult.RUNTIME_ERR
          (runtimeError H1 "Can only use dot operator on instances."))
        ∧ case_BC_INIT_PROPERTY H = some (Step.ret InterpretResult.RUNTIME_ERR
          (runtimeError H1 "Can only use dot operator on instances."))) := by
  constructor
  · intro r strooct fields value h1 h2 h0
    refine ⟨?_, ?_, ?_, ?_⟩
    · constructor
      · rintro ⟨H2, hs⟩
        by_contra hk
        rw [(case_PROPERTY_missing hname h1 h2 h0 hk).1] at hs
        cases hs
      · intro hk
        exact ⟨_, case_SET_PROPERTY_existing hname h1 h2 h0 hk⟩
    · constructor
      · rintro ⟨H2, hs⟩
        by_contra hk
        rw [(case_PROPERTY_missing hname h1 h2 h0 hk).2] at hs
        cases hs
      · intro hk
        exact ⟨_, case_INIT_PROPERTY_existing hname h1 h2 h0 hk⟩
    · intro hk
      exact ⟨_, _, _, case_SET_PROPERTY_existing hname h1 h2 h0 hk,
        case_INIT_PROPERTY_existing hname h1 h2 h0 hk, heap_store_self h2, heap_store_self h2,
        tableGet_tableSet fields name value⟩
    · intro hk
      exact ⟨_, case_PROPERTY_missing hname h1 h2 h0 hk⟩
  · intro receiver h1 h2
    constructor
    · simp only [case_BC_SET_PROPERTY, hname, setProperty_not_inst h1 h2]
    · simp only [case_BC_INIT_PROPERTY, hname, setProperty_not_inst h1 h2]

/-- Claim C5 on the instance `p` of `struct P { x = 0; }`: `p.x = 1` succeeds,
`p.y = 1` raises the error, and so does `4.x = 1`. -/
theorem setProperty_requires_existing_field_witness :
    (∃ H2 H3 fields2,
        case_BC_SET_PROPERTY (propertyState 1 (Value.obj 6) 2) = some (Step.next H2)
        ∧ case_BC_INIT_PROPERTY (propertyState 1 (Value.obj 6) 2) = some (Step.next H3)
        ∧ H2.heap[6]? = some (Obj.inst 5 fields2)
        ∧ H3.heap[6]? = some (Obj.inst 5 fields2)
        ∧ tableGet fields2 2 = some (Value.number (F64.ofNat 1)))
    ∧ (∃ H0,
        case_BC_SET_PROPERTY (propertyState 1 (Value.obj 6) 3)
          = some (Step.ret InterpretResult.RUNTIME_ERR
              (runtimeError H0 "Cannot create new properties on instances at runtime."))
        ∧ case_BC_INIT_PROPERTY (propertyState 1 (Value.obj 6) 3)
          = some (Step.ret InterpretResult.RUNTIME_ERR
              (runtimeError H0 "Cannot create new properties on instances at runtime.")))
    ∧ (case_BC_SET_PROPERTY (propertyState 1 (Value.number (F64.ofNat 4)) 2)
          = some (Step.ret InterpretResult.RUNTIME_ERR
              (runtimeError (propertyState 2 (Value.number (F64.ofNat 4)) 2)
                "Can only use dot operator on instances."))
        ∧ case_BC_INIT_PROPERTY (propertyState 1 (Value.number (F64.ofNat 4)) 2)
          = some (Step.ret InterpretResult.RUNTIME_ERR
              (runtimeError (propertyState 2 (Value.number (F64.ofNat 4)) 2)
                "Can only use dot operator on instances."))) :=
  ⟨((setProperty_requires_existing_field (propertyState 1 (Value.obj 6) 2)
        (propertyState 2 (Value.obj 6) 2) 2 (by decide)).1 6 5
        [(2, Value.number (F64.ofNat 0))] (Value.number (F64.ofNat 1))
        (by decide) (by decide) (by decide)).2.2.1 (by decide),
   ((setProperty_requires_existing_field (propertyState 1 (Value.obj 6) 3)
        (propertyState 2 (Value.obj 6) 3) 3 (by decide)).1 6 5
        [(2, Value.number (F64.ofNat 0))] (Value.number (F64.ofNat 1))
        (by decide) (by decide) (by decide)).2.2.2 (by decide),
   (setProperty_requires_existing_field (propertyState 1 (Value.number (F64.ofNat 4)) 2)
        (propertyState 2 (Value.number (F64.ofNat 4)) 2) 2 (by decide)).2
        (Value.number (F64.ofNat 4)) (by decide) (fun r hr => by cases hr)⟩

/-- Claim C6, evaluated on the code.  `setProperty` stores the value with `tableSet`
before it tests whether the key was new and does not take the key out again (as
`BC_SET_GLOBAL` does with `tableDelete`): on the instance `p` of
`struct P { x = 0; }`, which the global `P` keeps reachable, the failing `p.y = 1`
returns `RUNTIME_ERR` and leaves the instance with the two fields `x` and `y`. -/
theorem failed_property_set_adds_the_field :
    setUndeclaredState.heap[6]? = some (Obj.inst 5 [(2, Value.number (F64.ofNat 0))])
    ∧ (match step demoEnv setUndeclaredState with
       | some (Step.ret result H) => some (result, H.heap[6]?, tableGet H.globals 4)
       | _ => none)
      = some (InterpretResult.RUNTIME_ERR,
          some (Obj.inst 5 [(2, Value.number (F64.ofNat 0)), (3, Value.number (F64.ofNat 1))]),
          some (Value.obj 6)) := by
  decide

/-! ## Globals -/

/-- Claim C7.  Let `name` be the operand of `BC_DEFINE_GLOBAL`, `H1` the state once it
has been read and `value` the top of the stack.  If `name` is not defined in the
globals, the instruction binds it to `value` and pops the stack; if it is defined, the
instruction raises "Redefinition of '<name>'." and `run` returns `RUNTIME_ERR`. -/
theorem defineGlobal_binds_new_name_rejects_defined (H H1 : hs_State) (name : Ref)
    (value : Value) (hname : READ_STRING H = some (name, H1))
    (hvalue : peek H1 0 = some value) :
    (tableGet H1.globals name = none →
        case_BC_DEFINE_GLOBAL H
          = some (Step.next
              { H1 with globals := H1.globals ++ [(name, value)],
                        stackTop := H1.stackTop - 1 })
        ∧ tableGet (H1.globals ++ [(name, value)]) name = some value)
    ∧ (tableGet H1.globals name ≠ none →
        ∃ H0, H0.stderr = H1.stderr ∧ H0.frames = H1.frames ∧ H0.heap = H1.heap ∧
          case_BC_DEFINE_GLOBAL H
            = some (Step.ret InterpretResult.RUNTIME_ERR
                (runtimeError H0
                  ("Redefinition of \x27" ++ stringChars H1 name ++ "\x27.")))) := by
  constructor
  · intro hnone
    have hset : tableSet H1.globals name value = (H1.globals ++ [(name, value)], true) := by
      unfold tableSet
      unfold tableGet at hnone
      rw [hnone]
    have hp : peek { H1 with globals := H1.globals ++ [(name, value)] } 0 = some value :=
      hvalue
    constructor
    · simp only [case_BC_DEFINE_GLOBAL, hname, hvalue, hset, Bool.not_true, Bool.false_eq_true,
        if_false, pop_of_peek hp]
    · have h := tableGet_tableSet H1.globals name value
      rw [hset] at h
      exact h
  · intro hsome
    have hset : (tableSet H1.globals name value).2 = false := by
      unfold tableSet
      unfold tableGet at hsome
      cases h : List.lookup name H1.globals with
      | none => exact absurd h hsome
      | some w => rfl
    refine ⟨{ H1 with globals := tableDelete (tableSet H1.globals name value).1 name },
      rfl, rfl, rfl, ?_⟩
    simp only [case_BC_DEFINE_GLOBAL, hname, hvalue, hset, Bool.not_false, if_true]
    rfl

/-- Claim C7 on the script `var x = 1; var x = 2;`: the first `BC_DEFINE_GLOBAL` binds
`x`, the second one raises the error, and `run` on the script returns `RUNTIME_ERR`
with the message on the error stream. -/
theorem defineGlobal_witness :
    (case_BC_DEFINE_GLOBAL (redefinitionState 3 [Value.number (F64.ofNat 1)] [])
        = some (Step.next
            { redefinitionState 4 [Value.number (F64.ofNat 1)] [] with
              globals := (redefinitionState 4 [Value.number (F64.ofNat 1)] []).globals
                ++ [(2, Value.number (F64.ofNat 1))],
              stackTop := (redefinitionState 4 [Value.number (F64.ofNat 1)] []).stackTop - 1 })
      ∧ tableGet ((redefinitionState 4 [Value.number (F64.ofNat 1)] []).globals
          ++ [(2, Value.number (F64.ofNat 1))]) 2 = some (Value.number (F64.ofNat 1)))
    ∧ (∃ H0,
        H0.stderr
          = (redefinitionState 8 [Value.number (F64.ofNat 2)]
              [(2, Value.number (F64.ofNat 1))]).stderr
        ∧ H0.frames
          = (redefinitionState 8 [Value.number (F64.ofNat 2)]
              [(2, Value.number (F64.ofNat 1))]).frames
        ∧ H0.heap
          = (redefinitionState 8 [Value.number (F64.ofNat 2)]
              [(2, Value.number (F64.ofNat 1))]).heap
        ∧ case_BC_DEFINE_GLOBAL
            (redefinitionState 7 [Value.number (F64.ofNat 2)] [(2, Value.number (F64.ofNat 1))])
          = some (Step.ret InterpretResult.RUNTIME_ERR
              (runtimeError H0 ("Redefinition of \x27" ++
                stringChars
                  (redefinitionState 8 [Value.number (F64.ofNat 2)]
                    [(2, Value.number (F64.ofNat 1))]) 2 ++ "\x27."))))
    ∧ (match run demoEnv 10 (redefinitionState 0 [] []) with
       | RunResult.returned result H => some (result, H.stderr)
       | _ => none)
      = some (InterpretResult.RUNTIME_ERR, "[line #1] in script\nRedefinition of \x27x\x27.\n") :=
  ⟨(defineGlobal_binds_new_name_rejects_defined
      (redefinitionState 3 [Value.number (F64.ofNat 1)] [])
      (redefinitionState 4 [Value.number (F64.ofNat 1)] []) 2 (Value.number (F64.ofNat 1))
      (by decide) (by decide)).1 (by decide),
   (defineGlobal_binds_new_name_rejects_defined
      (redefinitionState 7 [Value.number (F64.ofNat 2)] [(2, Value.number (F64.ofNat 1))])
      (redefinitionState 8 [Value.number (F64.ofNat 2)] [(2, Value.number (F64.ofNat 1))])
      2 (Value.number (F64.ofNat 2)) (by decide) (by decide)).2 (by decide),
   by decide⟩

/-- Claim C8, evaluated on the code.  On a redefinition `BC_DEFINE_GLOBAL` has already
overwritten the binding with `tableSet` and then removes the name with `tableDelete`:
after the failure of the second `var x` of `var x = 1; var x = 2;` the global `x` is
not defined any more, and the script `x;`, which runs to `INTERPRET_OK` with the
globals as they were before the failure, returns `RUNTIME_ERR` with "Undefined
variable 'x'." when run with the globals the failure left. -/
theorem failed_redefinition_removes_the_global :
    (match step demoEnv
        (redefinitionState 6 [Value.number (F64.ofNat 2)] [(2, Value.number (F64.ofNat 1))]) with
     | some (Step.ret result H) =>
       some (result, tableGet H.globals 2,
         match run demoEnv 10 (readerState H.globals) with
         | RunResult.returned r H1 => some (r, H1.stderr)
         | _ => none)
     | _ => none)
      = some (InterpretResult.RUNTIME_ERR, none,
          some (InterpretResult.RUNTIME_ERR,
            "[line #1] in script\nUndefined variable \x27x\x27.\n"))
    ∧ (match run demoEnv 10 (readerState [(2, Value.number (F64.ofNat 1))]) with
       | RunResult.returned r _ => some r
       | _ => none) = some InterpretResult.INTERPRET_OK := by
  decide

/-! ## Frames and runtime errors -/

/-- Claim C9, evaluated on the code.  `call` tests `frameCount == FRAMES_MAX`,
`callCFunc` does not: with `FRAMES_MAX` (64) frames live, the call of a native
function pushes its frame all the same, the native function observes
`frameCount = 65`, and the call returns true without any message, whereas the call of
a closure in the same state raises "Stack overflow.". -/
theorem native_call_exceeds_FRAMES_MAX :
    deepState.frameCount = demoEnv.FRAMES_MAX
    ∧ (callValue demoEnv deepState (Value.obj 2) 0).map
        (fun p => (p.1, peek p.2 0, p.2.frameCount, p.2.stderr))
      = some (true, some (Value.number (F64.ofNat 65)), 64, "")
    ∧ callValue demoEnv deepState (Value.obj 4) 0
      = some (false, runtimeError deepState "Stack overflow.") := by
  refine ⟨by decide, by decide, by rfl⟩

/-- Claim C10.  Whenever `run` returns `RUNTIME_ERR`, whatever the opcode and the path
that failed, the state it leaves has `stackTop` at the base of the stack, no call
frame and no open upvalue. -/
theorem run_RUNTIME_ERR_resets_engine (env : Env) (fuel : Nat) (H H1 : hs_State)
    (h : run env fuel H = RunResult.returned InterpretResult.RUNTIME_ERR H1) :
    H1.stackTop = 0 ∧ H1.frameCount = 0 ∧ H1.openUpvalues = [] :=
  run_error fuel h

/-- Claim C10 on the script `var x = 1; var x = 2;`, which `run` leaves with
`RUNTIME_ERR`. -/
theorem run_RUNTIME_ERR_resets_engine_witness :
    run demoEnv 10 (redefinitionState 0 [] [])
      = RunResult.returned InterpretResult.RUNTIME_ERR
          (runtimeError (redefinitionState 8 [Value.number (F64.ofNat 2)] [])
            "Redefinition of \x27x\x27.")
    ∧ (runtimeError (redefinitionState 8 [Value.number (F64.ofNat 2)] [])
        "Redefinition of \x27x\x27.").stackTop = 0
    ∧ (runtimeError (redefinitionState 8 [Value.number (F64.ofNat 2)] [])
        "Redefinition of \x27x\x27.").frameCount = 0
    ∧ (runtimeError (redefinitionState 8 [Value.number (F64.ofNat 2)] [])
        "Redefinition of \x27x\x27.").openUpvalues = [] :=
  ⟨by decide,
   run_RUNTIME_ERR_resets_engine demoEnv 10 (redefinitionState 0 [] []) _ (by decide)⟩

/-! ## Lemmas on reading operands and on the stack memory -/

theorem READ_BYTE_eq {H H1 : hs_State} {byte : Nat} (h : READ_BYTE H = some (byte, H1)) :
    ∃ frame ip, H.frames.getLast? = some frame ∧ frame.ip = some ip
      ∧ H1 = setIp H frame (ip + 1) := by
  unfold READ_BYTE at h
  split at h
  · simp at h
  · rename_i frame hframe
    split at h
    · rename_i ip f hip hf
      split at h
      · simp at h
      · simp only [Option.some.injEq, Prod.mk.injEq] at h
        exact ⟨frame, ip, hframe, hip, h.2.symm⟩
    · simp at h

theorem setIp_getLast (H : hs_State) (frame : CallFrame) (ip : Nat) :
    (setIp H frame ip).frames.getLast? = some { frame with ip := some ip } := by
  simp [setIp]

theorem READ_BYTE_same {H H1 : hs_State} {byte : Nat} (h : READ_BYTE H = some (byte, H1)) :
    H1.stack = H.stack ∧ H1.stackTop = H.stackTop ∧ H1.heap = H.heap
      ∧ H1.openUpvalues = H.openUpvalues ∧ H1.globals = H.globals := by
  obtain ⟨frame, ip, -, -, rfl⟩ := READ_BYTE_eq h
  exact ⟨rfl, rfl, rfl, rfl, rfl⟩

theorem READ_SHORT_same {H H1 : hs_State} {offset : Nat}
    (h : READ_SHORT H = some (offset, H1)) :
    H1.stack = H.stack ∧ H1.stackTop = H.stackTop ∧ H1.heap = H.heap
      ∧ H1.openUpvalues = H.openUpvalues ∧ H1.globals = H.globals := by
  unfold READ_SHORT at h
  split at h
  · simp at h
  · rename_i hi Ha ha
    split at h
    · simp at h
    · rename_i lo Hb hb
      simp only [Option.some.injEq, Prod.mk.injEq] at h
      obtain ⟨a1, a2, a3, a4, a5⟩ := READ_BYTE_same ha
      obtain ⟨b1, b2, b3, b4, b5⟩ := READ_BYTE_same hb
      rw [← h.2]
      exact ⟨b1.trans a1, b2.trans a2, b3.trans a3, b4.trans a4, b5.trans a5⟩

theorem READ_SHORT_frame {H H1 : hs_State} {offset : Nat}
    (h : READ_SHORT H = some (offset, H1)) :
    ∃ frame ip, H1.frames.getLast? = some frame ∧ frame.ip = some ip := by
  unfold READ_SHORT at h
  split at h
  · simp at h
  · rename_i hi Ha ha
    split at h
    · simp at h
    · rename_i lo Hb hb
      simp only [Option.some.injEq, Prod.mk.injEq] at h
      obtain ⟨frame, ip, -, -, rfl⟩ := READ_BYTE_eq hb
      rw [← h.2]
      exact ⟨_, _, setIp_getLast _ _ _, rfl⟩

theorem READ_CONSTANT_same {H H1 : hs_State} {constant : Value}
    (h : READ_CONSTANT H = some (constant, H1)) :
    H1.stack = H.stack ∧ H1.stackTop = H.stackTop ∧ H1.heap = H.heap
      ∧ H1.openUpvalues = H.openUpvalues ∧ H1.globals = H.globals := by
  unfold READ_CONSTANT at h
  split at h
  · simp at h
  · rename_i index Ha ha
    repeat' split at h
    all_goals first
      | (simp at h; done)
      | (simp only [Option.some.injEq, Prod.mk.injEq] at h
         rw [← h.2]
         exact READ_BYTE_same ha)

theorem READ_STRING_same {H H1 : hs_State} {name : Ref}
    (h : READ_STRING H = some (name, H1)) :
    H1.stack = H.stack ∧ H1.stackTop = H.stackTop ∧ H1.heap = H.heap
      ∧ H1.openUpvalues = H.openUpvalues ∧ H1.globals = H.globals := by
  unfold READ_STRING at h
  split at h
  · simp at h
  · rename_i constant Ha ha
    split at h
    · simp at h
    · simp only [Option.some.injEq, Prod.mk.injEq] at h
      rw [← h.2]
      exact READ_CONSTANT_same ha

theorem peek_congr {H H1 : hs_State} (hs : H1.stack = H.stack)
    (ht : H1.stackTop = H.stackTop) (d : Int) : peek H1 d = peek H d := by
  unfold peek
  rw [hs, ht]

theorem poke_get_self (mem : List Value) (i : Nat) (v : Value) :
    (poke mem i v)[i]? = some v := by
  unfold poke
  split
  · rename_i h
    exact List.getElem?_set_self h
  · rename_i h
    rw [List.getElem?_append_right (by simp; omega)]
    have e : i - (mem ++ List.replicate (i - mem.length) Value.nil).length = 0 := by
      simp
      omega
    rw [e]
    rfl

theorem poke_get_of_ne (mem : List Value) {i j : Nat} (v x : Value) (hne : j ≠ i)
    (hx : mem[j]? = some x) : (poke mem i v)[j]? = some x := by
  obtain ⟨hlt, -⟩ := List.getElem?_eq_some.1 hx
  unfold poke
  split
  · rw [List.getElem?_set_ne (Ne.symm hne)]
    exact hx
  · rw [List.append_assoc, List.getElem?_append_left hlt]
    exact hx

theorem peek_push (H : hs_State) (v : Value) : peek (push H v) 0 = some v := by
  unfold peek
  have h : ptrSub (push H v).stackTop (1 + 0) = some H.stackTop := by
    have := @ptrSub_of_le (H.stackTop + 1) 1 (by omega)
    simpa [push] using this
  rw [h]
  exact poke_get_self _ _ _

/-! ## Lemmas on strings and allocation -/

theorem takeString_spec (H : hs_State) (chars : String) :
    (takeString H chars).2.heap[(takeString H chars).1]? = some (Obj.string chars)
    ∧ (takeString H chars).2.stack = H.stack
    ∧ (takeString H chars).2.stackTop = H.stackTop := by
  unfold takeString
  cases h : H.heap.indexOf? (Obj.string chars) with
  | none => simp [allocate]
  | some r =>
    refine ⟨?_, rfl, rfl⟩
    simp only
    unfold List.indexOf? at h
    obtain ⟨hlt, hp, -⟩ := List.findIdx?_eq_some_iff_getElem.1 h
    have he : H.heap[r] = Obj.string chars := by simpa using hp
    rw [List.getElem?_eq_getElem hlt, he]

theorem IS_STRING_true {H : hs_State} {v : Value} (h : IS_STRING H v = some true) :
    ∃ r chars, v = Value.obj r ∧ H.heap[r]? = some (Obj.string chars) := by
  unfold IS_STRING at h
  repeat' split at h
  all_goals first
    | (simp at h; done)
    | exact ⟨_, _, rfl, by assumption⟩

theorem IS_STRING_of_string {H : hs_State} {r : Ref} {chars : String}
    (h : H.heap[r]? = some (Obj.string chars)) : IS_STRING H (Value.obj r) = some true := by
  simp only [IS_STRING, h]

set_option maxRecDepth 3000 in
theorem ofNat_byte : ∀ k : Nat, k < 256 → F64.toInt? (F64.ofNat k) = some (k : Int) := by
  decide

/-! ## Property loads and invocation -/

/-- Claim C11, evaluated on the code.  `getProperty` honours `popValue` only when the
name is a field; a method goes through `bindMethod`, which always pops the receiver.
On the instance `p` of `struct P { x = 0; func m() {} }`, `BC_PUSH_PROPERTY x` leaves
`p` under the loaded value (depth 2 becomes 3), but `BC_PUSH_PROPERTY m` replaces `p` by
the bound method exactly as `BC_GET_PROPERTY m` does: the depth stays 2, slot 1 holds
the bound method and the receiver is no longer on the stack. -/
theorem push_property_drops_receiver_of_method :
    (match step demoEnv (loadPropertyState OpCode.BC_PUSH_PROPERTY 2) with
     | some (Step.next H) => some (H.stackTop, peek H 1, peek H 0)
     | _ => none)
      = some (3, some (Value.obj 8), some (Value.number (F64.ofNat 0)))
    ∧ (match step demoEnv (loadPropertyState OpCode.BC_GET_PROPERTY 2) with
       | some (Step.next H) => some (H.stackTop, peek H 1, peek H 0)
       | _ => none)
      = some (2, some (Value.obj 1), some (Value.number (F64.ofNat 0)))
    ∧ (match step demoEnv (loadPropertyState OpCode.BC_PUSH_PROPERTY 3) with
       | some (Step.next H) => some (H.stackTop, peek H 1, peek H 0, H.heap[9]?)
       | _ => none)
      = some (2, some (Value.obj 1), some (Value.obj 9),
          some (Obj.boundMethod (Value.obj 8) 6))
    ∧ (match step demoEnv (loadPropertyState OpCode.BC_GET_PROPERTY 3) with
       | some (Step.next H) => some (H.stackTop, peek H 1, peek H 0, H.heap[9]?)
       | _ => none)
      = some (2, some (Value.obj 1), some (Value.obj 9),
          some (Obj.boundMethod (Value.obj 8) 6)) := by
  refine ⟨by decide, by decide, by decide, by decide⟩

/-- Claim C12, evaluated on the code.  `invoke` switches on `OBJ_TYPE(receiver)` without
testing `IS_OBJ(receiver)` first: for the receivers nil, true and 1 the object header of
a value that is no object is read, which has no defined result, and no runtime error is
raised; only an object of another kind, here a string, reaches "Invalid target to
call." and `RUNTIME_ERR`.  (`OBJ_TYPE` reads the `type` field of the object a value
points at; `callValue`, `getProperty` and `getStatic` guard it with `IS_OBJ`.) -/
theorem invoke_reads_object_type_of_non_objects :
    step demoEnv (invokeState Value.nil) = none
    ∧ step demoEnv (invokeState (Value.bool true)) = none
    ∧ step demoEnv (invokeState (Value.number (F64.ofNat 1))) = none
    ∧ (match step demoEnv (invokeState (Value.obj 3)) with
       | some (Step.ret result H) => some (result, H.stderr)
       | _ => none)
      = some (InterpretResult.RUNTIME_ERR, "[line #1] in script\nInvalid target to call.\n") := by
  decide

/-! ## Lemmas on the open-upvalue list -/

theorem openSlots_cons {H : hs_State} {u : Ref} {rest : List Ref} {slots : List Nat}
    (h : openSlots H (u :: rest) = some slots) :
    ∃ s ss, openLocation H u = some s ∧ openSlots H rest = some ss ∧ slots = s :: ss := by
  unfold openSlots at h
  split at h
  · rename_i s ss hs hss
    simp only [Option.some.injEq] at h
    exact ⟨s, ss, hs, hss, h.symm⟩
  · simp at h

theorem openSlots_mem {H : hs_State} : ∀ {l : List Ref} {slots : List Nat},
    openSlots H l = some slots → ∀ x ∈ l, ∃ s, openLocation H x = some s ∧ s ∈ slots := by
  intro l
  induction l with
  | nil => intro slots _ x hx; cases hx
  | cons u rest ih =>
    intro slots h x hx
    obtain ⟨s, ss, hs, hss, rfl⟩ := openSlots_cons h
    rcases List.mem_cons.1 hx with rfl | hx
    · exact ⟨s, hs, List.mem_cons_self _ _⟩
    · obtain ⟨t, ht, hmem⟩ := ih hss x hx
      exact ⟨t, ht, List.mem_cons_of_mem _ hmem⟩

theorem openSlots_congr {H H1 : hs_State} : ∀ {l : List Ref},
    (∀ x ∈ l, openLocation H1 x = openLocation H x) → openSlots H1 l = openSlots H l := by
  intro l
  induction l with
  | nil => intro _; rfl
  | cons u rest ih =>
    intro h
    unfold openSlots
    rw [h u (List.mem_cons_self _ _), ih (fun x hx => h x (List.mem_cons_of_mem _ hx))]

theorem heap_store_of_ne (H : hs_State) {r u : Ref} (o : Obj) (h : r ≠ u) :
    (store H u o).heap[r]? = H.heap[r]? := by
  simp only [store]
  exact List.getElem?_set_ne (Ne.symm h)

theorem openLocation_store_of_ne (H : hs_State) {r u : Ref} (o : Obj) (h : r ≠ u) :
    openLocation (store H u o) r = openLocation H r := by
  unfold openLocation
  rw [heap_store_of_ne H o h]

theorem openLocation_heap {H : hs_State} {u : Ref} {s : Nat}
    (h : openLocation H u = some s) : ∃ c, H.heap[u]? = some (Obj.upvalue (some s) c) := by
  unfold openLocation at h
  split at h
  · rename_i slot c hc
    simp only [Option.some.injEq] at h
    subst h
    exact ⟨c, hc⟩
  · simp at h

theorem closeUpvaluesLoop_spec (last : Nat) : ∀ (l : List Ref) (H : hs_State)
    (slots : List Nat),
    openSlots H l = some slots → slots.Pairwise (fun a b => b ≤ a) → l.Nodup →
    (∀ s ∈ slots, last ≤ s → s < H.stack.length) →
    ∃ H1, closeUpvaluesLoop last l H = some H1
      ∧ H1.stack = H.stack ∧ H1.stackTop = H.stackTop ∧ H1.frames = H.frames
      ∧ H1.openUpvalues <:+ l
      ∧ (∀ u s, u ∈ l → openLocation H u = some s → last ≤ s →
          ∃ v, H.stack[s]? = some v ∧ H1.heap[u]? = some (Obj.upvalue none v)
            ∧ u ∉ H1.openUpvalues)
      ∧ (∀ u s, u ∈ l → openLocation H u = some s → s < last → u ∈ H1.openUpvalues)
      ∧ (∀ r, ¬(r ∈ l ∧ ∃ s, openLocation H r = some s ∧ last ≤ s) →
          H1.heap[r]? = H.heap[r]?) := by
  intro l
  induction l with
  | nil =>
    intro H slots _ _ _ _
    refine ⟨{ H with openUpvalues := [] }, rfl, rfl, rfl, rfl, List.suffix_refl _, ?_, ?_, ?_⟩
    · intro u s hu; cases hu
    · intro u s hu; cases hu
    · intro r _; rfl
  | cons u rest ih =>
    intro H slots hslots hsorted hnodup hread
    obtain ⟨s0, ss, hs0, hss, rfl⟩ := openSlots_cons hslots
    obtain ⟨hurest, hnodup1⟩ := List.nodup_cons.1 hnodup
    have hle : ∀ s ∈ ss, s ≤ s0 := fun s hs => List.rel_of_pairwise_cons hsorted hs
    by_cases hcmp : last ≤ s0
    · -- the head is closed
      have hlt : s0 < H.stack.length := hread s0 (List.mem_cons_self _ _) hcmp
      have hv : H.stack[s0]? = some H.stack[s0] := List.getElem?_eq_getElem hlt
      have hcongr : ∀ x ∈ rest,
          openLocation (store H u (Obj.upvalue none H.stack[s0])) x = openLocation H x := by
        intro x hx
        exact openLocation_store_of_ne H _ (fun e => hurest (e ▸ hx))
      obtain ⟨H1, h1, h2, h3, h4, h5, h6, h7, h8⟩ :=
        ih (store H u (Obj.upvalue none H.stack[s0])) ss
          (by rw [openSlots_congr hcongr]; exact hss)
          (List.Pairwise.of_cons hsorted) hnodup1
          (fun s hs hl => hread s (List.mem_cons_of_mem _ hs) hl)
      obtain ⟨c, hc⟩ := openLocation_heap hs0
      refine ⟨H1, ?_, h2, h3, h4, ?_, ?_, ?_, ?_⟩
      · simp only [closeUpvaluesLoop, hs0, hv]
        rw [if_pos (by exact hcmp)]
        exact h1
      · exact List.IsSuffix.trans h5 (List.suffix_cons _ _)
      · intro x s hx hxs hl
        rcases List.mem_cons.1 hx with rfl | hx
        · have e : s = s0 := by rw [hs0] at hxs; exact (Option.some.inj hxs).symm
          subst e
          refine ⟨H.stack[s], hv, ?_, fun hmem => hurest (h5.subset hmem)⟩
          rw [h8 x (fun hh => hurest hh.1)]
          exact heap_store_self hc
        · have := h6 x s hx (by rw [hcongr x hx]; exact hxs) hl
          exact this
      · intro x s hx hxs hl
        rcases List.mem_cons.1 hx with rfl | hx
        · have e : s = s0 := by rw [hs0] at hxs; exact (Option.some.inj hxs).symm
          omega
        · exact h7 x s hx (by rw [hcongr x hx]; exact hxs) hl
      · intro r hr
        have hne : r ≠ u := by
          intro e
          exact hr ⟨e ▸ List.mem_cons_self _ _, s0, e ▸ hs0, hcmp⟩
        rw [h8 r ?_, heap_store_of_ne H _ hne]
        rintro ⟨hmem, s, hs, hl⟩
        exact hr ⟨List.mem_cons_of_mem _ hmem, s, by rw [← hcongr r hmem]; exact hs, hl⟩
    · -- the head stays open and the loop ends
      refine ⟨{ H with openUpvalues := u :: rest }, ?_, rfl, rfl, rfl, List.suffix_refl _,
        ?_, ?_, ?_⟩
      · simp only [closeUpvaluesLoop, hs0]
        rw [if_neg (by exact hcmp)]
      · intro x s hx hxs hl
        exfalso
        obtain ⟨t, ht, hmem⟩ := openSlots_mem hslots x hx
        have e : t = s := by rw [hxs] at ht; exact (Option.some.inj ht).symm
        subst e
        rcases List.mem_cons.1 hmem with rfl | hmem
        · exact hcmp hl
        · have := hle t hmem
          omega
      · intro x s hx _ _
        exact hx
      · intro r _
        rfl

theorem openSlots_iff {H : hs_State} : ∀ {l : List Ref} {slots : List Nat},
    openSlots H l = some slots ↔ l.map (openLocation H) = slots.map some := by
  intro l
  induction l with
  | nil =>
    intro slots
    cases slots <;> simp [openSlots]
  | cons u rest ih =>
    intro slots
    constructor
    · intro h
      obtain ⟨s, ss, hs, hss, rfl⟩ := openSlots_cons h
      simp only [List.map_cons, hs, ih.1 hss]
    · intro h
      cases slots with
      | nil => simp at h
      | cons s ss =>
        simp only [List.map_cons, List.cons.injEq] at h
        unfold openSlots
        rw [h.1, ih.2 h.2]

theorem openSlots_append {H : hs_State} {a b : List Ref} {sa sb : List Nat}
    (ha : openSlots H a = some sa) (hb : openSlots H b = some sb) :
    openSlots H (a ++ b) = some (sa ++ sb) := by
  rw [openSlots_iff] at ha hb ⊢
  simp only [List.map_append, ha, hb]

theorem openSlots_mono {H H1 : hs_State}
    (hmono : ∀ x s, openLocation H x = some s → openLocation H1 x = some s) :
    ∀ {l : List Ref} {slots : List Nat},
    openSlots H l = some slots → openSlots H1 l = some slots := by
  intro l
  induction l with
  | nil => intro slots h; cases slots <;> simp_all [openSlots]
  | cons u rest ih =>
    intro slots h
    obtain ⟨s, ss, hs, hss, rfl⟩ := openSlots_cons h
    unfold openSlots
    rw [hmono u s hs, ih hss]

theorem openSlots_suffix {H : hs_State} : ∀ {l l1 : List Ref} {slots : List Nat},
    openSlots H l = some slots → l1 <:+ l →
    ∃ slots1, openSlots H l1 = some slots1 ∧ slots1 <:+ slots := by
  intro l
  induction l with
  | nil =>
    intro l1 slots h hsuf
    have := List.eq_nil_of_suffix_nil hsuf
    subst this
    exact ⟨slots, h, List.suffix_refl _⟩
  | cons u rest ih =>
    intro l1 slots h hsuf
    rcases List.suffix_cons_iff.1 hsuf with rfl | hsuf
    · exact ⟨slots, h, List.suffix_refl _⟩
    · obtain ⟨s, ss, -, hss, rfl⟩ := openSlots_cons h
      obtain ⟨slots1, h1, h2⟩ := ih hss hsuf
      exact ⟨slots1, h1, h2.trans (List.suffix_cons _ _)⟩

theorem openSlots_nodup {H : hs_State} : ∀ {l : List Ref} {slots : List Nat},
    openSlots H l = some slots → slots.Nodup → l.Nodup := by
  intro l
  induction l with
  | nil => intro _ _ _; exact List.nodup_nil
  | cons u rest ih =>
    intro slots h hn
    obtain ⟨s, ss, hs, hss, rfl⟩ := openSlots_cons h
    rw [List.nodup_cons] at hn ⊢
    refine ⟨?_, ih hss hn.2⟩
    intro hu
    obtain ⟨t, ht, hmem⟩ := openSlots_mem hss u hu
    rw [hs] at ht
    cases ht
    exact hn.1 hmem

theorem nodup_of_strict {slots : List Nat} (h : slots.Pairwise (fun a b => b < a)) :
    slots.Nodup :=
  h.imp (fun hab => by omega)

theorem openLocation_allocate {H : hs_State} (o : Obj) {x : Ref} {s : Nat}
    (h : openLocation H x = some s) : openLocation (allocate H o).2 x = some s := by
  unfold openLocation at h ⊢
  have hx : x < H.heap.length := by
    by_contra hge
    rw [List.getElem?_eq_none (not_lt.1 hge)] at h
    simp at h
  simp only [allocate]
  rw [List.getElem?_append_left hx]
  exact h

theorem openLocation_allocate_new (H : hs_State) (slot : Nat) (c : Value) :
    openLocation (allocate H (Obj.upvalue (some slot) c)).2 H.heap.length = some slot := by
  simp [openLocation, allocate]

theorem openSlots_mem_slots {H : hs_State} : ∀ {l : List Ref} {slots : List Nat},
    openSlots H l = some slots → ∀ s ∈ slots, ∃ x ∈ l, openLocation H x = some s := by
  intro l
  induction l with
  | nil =>
    intro slots h s hs
    cases slots with
    | nil => cases hs
    | cons _ _ => simp [openSlots] at h
  | cons u rest ih =>
    intro slots h s hs
    obtain ⟨t, ss, ht, hss, rfl⟩ := openSlots_cons h
    rcases List.mem_cons.1 hs with rfl | hs
    · exact ⟨u, List.mem_cons_self _ _, ht⟩
    · obtain ⟨x, hx, hxs⟩ := ih hss s hs
      exact ⟨x, List.mem_cons_of_mem _ hx, hxs⟩

theorem captureSplit_spec (H : hs_State) (slot : Nat) : ∀ (l : List Ref) (slots : List Nat),
    openSlots H l = some slots →
    ∃ skipped current above below, captureSplit H slot l = some (skipped, current)
      ∧ l = skipped ++ current ∧ slots = above ++ below
      ∧ openSlots H skipped = some above ∧ openSlots H current = some below
      ∧ (∀ s ∈ above, slot < s) ∧ (∀ s, below.head? = some s → s ≤ slot) := by
  intro l
  induction l with
  | nil =>
    intro slots h
    have : slots = [] := by
      unfold openSlots at h
      exact (Option.some.inj h).symm
    subst this
    exact ⟨[], [], [], [], rfl, rfl, rfl, rfl, rfl, by simp, by simp⟩
  | cons u rest ih =>
    intro slots h
    obtain ⟨s, ss, hs, hss, rfl⟩ := openSlots_cons h
    by_cases hgt : s > slot
    · obtain ⟨skipped, current, above, below, h1, h2, h3, h4, h5, h6, h7⟩ := ih ss hss
      refine ⟨u :: skipped, current, s :: above, below, ?_, ?_, ?_, ?_, h5, ?_, h7⟩
      · simp only [captureSplit, hs, if_pos hgt, h1]
      · rw [h2]; rfl
      · rw [h3]; rfl
      · unfold openSlots
        rw [hs, h4]
      · intro t ht
        rcases List.mem_cons.1 ht with rfl | ht
        · exact hgt
        · exact h6 t ht
    · refine ⟨[], u :: rest, [], s :: ss, ?_, rfl, rfl, rfl, h, by simp, ?_⟩
      · simp only [captureSplit, hs, if_neg hgt]
      · intro t ht
        simp only [List.head?_cons, Option.some.injEq] at ht
        omega

/-- The specification of `captureUpvalue` on a strictly descending list. -/
theorem captureUpvalue_spec (H : hs_State) (slot : Nat) (h : StrictlyDescending H) :
    ∃ u H1, captureUpvalue H slot = some (u, H1) ∧ StrictlyDescending H1
      ∧ (∀ x s, openLocation H x = some s → openLocation H1 x = some s)
      ∧ (∀ x ∈ H.openUpvalues, x ∈ H1.openUpvalues)
      ∧ u ∈ H1.openUpvalues ∧ openLocation H1 u = some slot
      ∧ (∀ x ∈ H1.openUpvalues, x = u ∨ x ∈ H.openUpvalues)
      ∧ (∀ x ∈ H.openUpvalues, openLocation H x = some slot → u = x ∧ H1 = H)
      ∧ ((∀ x ∈ H.openUpvalues, openLocation H x ≠ some slot) →
          u = H.heap.length ∧ H1.heap = H.heap ++ [Obj.upvalue (some slot) Value.nil])
      ∧ H1.stack = H.stack ∧ H1.stackTop = H.stackTop ∧ H1.frames = H.frames
      ∧ H1.globals = H.globals := by
  obtain ⟨slots, hslots, hsorted⟩ := h
  obtain ⟨skipped, current, above, below, h1, h2, h3, h4, h5, h6, h7⟩ :=
    captureSplit_spec H slot H.openUpvalues slots hslots
  subst h3
  obtain ⟨pa, pb, pab⟩ := List.pairwise_append.1 hsorted
  have hdistinct : ∀ x ∈ H.openUpvalues, ∀ y ∈ H.openUpvalues,
      openLocation H x = openLocation H y → x = y := by
    have hnd := openSlots_nodup hslots (nodup_of_strict hsorted)
    have hmap : (H.openUpvalues.map (openLocation H)).Nodup := by
      rw [openSlots_iff.1 hslots]
      exact (nodup_of_strict hsorted).map (Option.some_injective _)
    intro x hx y hy hxy
    exact List.inj_on_of_nodup_map hmap hx hy hxy
  cases current with
  | nil =>
    have hb : below = [] := by
      unfold openSlots at h5
      exact (Option.some.inj h5).symm
    subst hb
    have hnone : ∀ x ∈ H.openUpvalues, openLocation H x ≠ some slot := by
      intro x hx hxs
      rw [h2, List.append_nil] at hx
      obtain ⟨t, ht, hmem⟩ := openSlots_mem h4 x hx
      rw [hxs] at ht
      cases ht
      exact absurd (h6 _ hmem) (by omega)
    refine ⟨H.heap.length,
      { (allocate H (Obj.upvalue (some slot) Value.nil)).2 with
        openUpvalues := skipped ++ H.heap.length :: [] }, ?_, ?_, ?_, ?_, ?_, ?_, ?_, ?_, ?_,
      rfl, rfl, rfl, rfl⟩
    · simp only [captureUpvalue, h1, allocate]
    · refine ⟨above ++ [slot], ?_, ?_⟩
      · apply openSlots_append
        · have hext : ∀ x s, openLocation H x = some s → openLocation
              { (allocate H (Obj.upvalue (some slot) Value.nil)).2 with
                openUpvalues := skipped ++ H.heap.length :: [] } x = some s :=
            fun x s hx => openLocation_allocate (Obj.upvalue (some slot) Value.nil) hx
          exact openSlots_mono hext h4
        · have hnew : openLocation
              { (allocate H (Obj.upvalue (some slot) Value.nil)).2 with
                openUpvalues := skipped ++ H.heap.length :: [] } H.heap.length = some slot :=
            openLocation_allocate_new H slot Value.nil
          rw [openSlots, hnew]
          rfl
      · rw [List.pairwise_append]
        refine ⟨pa, List.pairwise_singleton _ _, ?_⟩
        intro a ha b hb
        rw [List.mem_singleton] at hb
        subst hb
        exact h6 a ha
    · intro x s hx
      exact openLocation_allocate _ hx
    · intro x hx
      rw [h2] at hx
      simpa using Or.inl (by simpa using hx)
    · simp
    · exact openLocation_allocate_new H slot Value.nil
    · intro x hx
      rw [h2]
      simp only [List.mem_append, List.mem_singleton, List.not_mem_nil, or_false] at hx ⊢
      tauto
    · intro x hx hxs
      exact absurd hxs (hnone x hx)
    · intro _
      exact ⟨rfl, rfl⟩
  | cons c rest =>
    obtain ⟨s, ss, hs, hss, rfl⟩ := openSlots_cons h5
    have hle : s ≤ slot := h7 s rfl
    by_cases heq : openLocation H c = some slot
    · refine ⟨c, H, ?_, ⟨_, hslots, hsorted⟩, fun _ _ hx => hx, fun _ hx => hx, ?_, heq,
        fun _ hx => Or.inr hx, ?_, ?_, rfl, rfl, rfl, rfl⟩
      · simp only [captureUpvalue, h1, if_pos heq]
      · rw [h2]; simp
      · intro x hx hxs
        refine ⟨hdistinct c ?_ x hx (heq.trans hxs.symm), rfl⟩
        rw [h2]; simp
      · intro hno
        exact absurd heq (hno c (by rw [h2]; simp))
    · have hlt : s < slot := by
        rcases Nat.lt_or_ge s slot with hlt | hge
        · exact hlt
        · exfalso
          apply heq
          rw [hs]
          congr 1
          omega
      have hnone : ∀ x ∈ H.openUpvalues, openLocation H x ≠ some slot := by
        intro x hx hxs
        rw [h2] at hx
        rcases List.mem_append.1 hx with hx | hx
        · obtain ⟨t, ht, hmem⟩ := openSlots_mem h4 x hx
          rw [hxs] at ht
          cases ht
          exact absurd (h6 _ hmem) (by omega)
        · obtain ⟨t, ht, hmem⟩ := openSlots_mem h5 x hx
          rw [hxs] at ht
          cases ht
          rcases List.mem_cons.1 hmem with hm | hm
          · omega
          · have := List.rel_of_pairwise_cons pb hm
            omega
      refine ⟨H.heap.length,
        { (allocate H (Obj.upvalue (some slot) Value.nil)).2 with
          openUpvalues := skipped ++ H.heap.length :: c :: rest }, ?_, ?_, ?_, ?_, ?_, ?_, ?_,
        ?_, ?_, rfl, rfl, rfl, rfl⟩
      · simp only [captureUpvalue, h1, if_neg heq, allocate]
      · refine ⟨above ++ slot :: s :: ss, ?_, ?_⟩
        · have hext : ∀ x s, openLocation H x = some s → openLocation
              { (allocate H (Obj.upvalue (some slot) Value.nil)).2 with
                openUpvalues := skipped ++ H.heap.length :: c :: rest } x = some s :=
            fun x s hx => openLocation_allocate (Obj.upvalue (some slot) Value.nil) hx
          apply openSlots_append
          · exact openSlots_mono hext h4
          · have hnew : openLocation
                { (allocate H (Obj.upvalue (some slot) Value.nil)).2 with
                  openUpvalues := skipped ++ H.heap.length :: c :: rest } H.heap.length
                  = some slot :=
              openLocation_allocate_new H slot Value.nil
            have hrest : openSlots
                { (allocate H (Obj.upvalue (some slot) Value.nil)).2 with
                  openUpvalues := skipped ++ H.heap.length :: c :: rest } (c :: rest)
                  = some (s :: ss) :=
              openSlots_mono hext h5
            rw [openSlots, hnew, hrest]
        · rw [List.pairwise_append]
          refine ⟨pa, ?_, ?_⟩
          · rw [List.pairwise_cons]
            refine ⟨?_, pb⟩
            intro b hb
            rcases List.mem_cons.1 hb with rfl | hb
            · exact hlt
            · have := List.rel_of_pairwise_cons pb hb
              omega
          · intro a ha b hb
            rcases List.mem_cons.1 hb with rfl | hb
            · exact h6 a ha
            · exact pab a ha b hb
      · intro x s hx
        exact openLocation_allocate _ hx
      · intro x hx
        rw [h2] at hx
        simp only [List.mem_append, List.mem_cons] at hx ⊢
        tauto
      · simp
      · exact openLocation_allocate_new H slot Value.nil
      · intro x hx
        rw [h2]
        simp only [List.mem_append, List.mem_cons] at hx ⊢
        tauto
      · intro x hx hxs
        exact absurd hxs (hnone x hx)
      · intro _
        exact ⟨rfl, rfl⟩

/-! ## Upvalues -/

/-- Claim C13.  Let the open-upvalue list of `H` be sorted by descending stack slot, let
no upvalue occur twice in it, and let every slot at or above `last` that an entry has be
a slot of the stack memory.  Then `closeUpvalues(H, last)` returns, it
leaves the stack as it is, every upvalue of the list whose slot is at or above `last` is
closed, holds the value its slot holds and is no longer in the list, and every upvalue
whose slot is below `last` is still in the list, open and unchanged.  `BC_RETURN` in a
frame that is not the outermost one does this with `last` the frame's `slots`: after the
instruction each upvalue of a slot of the returning frame reads the value the slot
held. -/
theorem closeUpvalues_closes_slots_from_last (H : hs_State) (last : Nat)
    (hdesc : Descending H) (hnodup : H.openUpvalues.Nodup)
    (hmem : ∀ u ∈ H.openUpvalues, ∀ s ∈ openLocation H u, last ≤ s → s < H.stack.length) :
    (∃ H1, closeUpvalues H last = some H1
      ∧ H1.stack = H.stack ∧ H1.stackTop = H.stackTop
      ∧ H1.openUpvalues <:+ H.openUpvalues
      ∧ (∀ u s, u ∈ H.openUpvalues → openLocation H u = some s → last ≤ s →
          ∃ v, H.stack[s]? = some v ∧ H1.heap[u]? = some (Obj.upvalue none v)
            ∧ readUpvalue H1 u = some v ∧ u ∉ H1.openUpvalues)
      ∧ (∀ u s, u ∈ H.openUpvalues → openLocation H u = some s → s < last →
          u ∈ H1.openUpvalues ∧ H1.heap[u]? = H.heap[u]? ∧ openLocation H1 u = some s))
    ∧ (∀ (frame : CallFrame) (result : Value),
        H.frames.getLast? = some frame → peek H 0 = some result → 2 ≤ H.frameCount →
        last = frame.slots →
        ∃ H2, case_BC_RETURN H = some (Step.next H2)
          ∧ H2.stackTop = frame.slots + 1 ∧ peek H2 0 = some result
          ∧ H2.frameCount + 1 = H.frameCount
          ∧ (∀ u s, u ∈ H.openUpvalues → openLocation H u = some s → frame.slots ≤ s →
              ∃ v, H.stack[s]? = some v ∧ readUpvalue H2 u = some v)) := by
  obtain ⟨slots, hslots, hsorted⟩ := hdesc
  have hread : ∀ s ∈ slots, last ≤ s → s < H.stack.length := by
    intro s hs hl
    obtain ⟨x, hx, hxs⟩ := openSlots_mem_slots hslots s hs
    exact hmem x hx s hxs hl
  constructor
  · obtain ⟨H1, h1, h2, h3, -, h5, h6, h7, h8⟩ :=
      closeUpvaluesLoop_spec last H.openUpvalues H slots hslots hsorted hnodup hread
    refine ⟨H1, h1, h2, h3, h5, ?_, ?_⟩
    · intro u s hu hs hl
      obtain ⟨v, hv, hheap, hnot⟩ := h6 u s hu hs hl
      exact ⟨v, hv, hheap, by simp only [readUpvalue, hheap], hnot⟩
    · intro u s hu hs hl
      have hsame : H1.heap[u]? = H.heap[u]? := by
        apply h8
        rintro ⟨-, t, ht, hlt⟩
        rw [hs] at ht
        have := Option.some.inj ht
        omega
      refine ⟨h7 u s hu hs hl, hsame, ?_⟩
      unfold openLocation at hs ⊢
      rw [hsame]
      exact hs
  · intro frame result hframe hresult hcount hlast
    subst hlast
    have hslots1 : openSlots { H with stackTop := H.stackTop - 1 } H.openUpvalues = some slots := by
      exact (@openSlots_congr H { H with stackTop := H.stackTop - 1 } H.openUpvalues
        (fun x _ => rfl)).trans hslots
    obtain ⟨H1, h1, h2, h3, h4, h5, h6, h7, h8⟩ :=
      closeUpvaluesLoop_spec frame.slots H.openUpvalues { H with stackTop := H.stackTop - 1 }
        slots hslots1 hsorted hnodup hread
    have hne : ¬ ({ H1 with frames := H1.frames.dropLast } : hs_State).frameCount = 0 := by
      simp only [hs_State.frameCount, h4, List.length_dropLast] at hcount ⊢
      omega
    refine ⟨push { H1 with frames := H1.frames.dropLast, stackTop := frame.slots } result,
      ?_, rfl, peek_push _ _, ?_, ?_⟩
    · simp only [case_BC_RETURN, hframe, pop_of_peek hresult]
      have h1c : closeUpvalues { H with stackTop := H.stackTop - 1 } frame.slots = some H1 := h1
      simp only [h1c]
      rw [if_neg hne]
    · simp only [hs_State.frameCount, push, h4, List.length_dropLast] at hcount ⊢
      omega
    · intro u s hu hs hl
      obtain ⟨v, hv, hheap, -⟩ := h6 u s hu hs hl
      refine ⟨v, hv, ?_⟩
      have : (push { H1 with frames := H1.frames.dropLast, stackTop := frame.slots }
          result).heap[u]? = some (Obj.upvalue none v) := hheap
      simp only [readUpvalue, this]

/-- Claim C13 on a function that returns 42 while one of its locals (slot 3, value 10)
and a local of the script (slot 1) are captured: the upvalue of slot 3 is closed with
the value 10, the upvalue of slot 1 stays open, and after `BC_RETURN` the closed upvalue
still reads 10. -/
theorem closeUpvalues_closes_slots_from_last_witness :
    (∃ H1, closeUpvalues (returnState (Value.number (F64.ofNat 42))) 2 = some H1
      ∧ H1.stack = (returnState (Value.number (F64.ofNat 42))).stack
      ∧ H1.stackTop = (returnState (Value.number (F64.ofNat 42))).stackTop
      ∧ H1.openUpvalues <:+ (returnState (Value.number (F64.ofNat 42))).openUpvalues
      ∧ (∀ u s, u ∈ (returnState (Value.number (F64.ofNat 42))).openUpvalues →
          openLocation (returnState (Value.number (F64.ofNat 42))) u = some s → 2 ≤ s →
          ∃ v, (returnState (Value.number (F64.ofNat 42))).stack[s]? = some v
            ∧ H1.heap[u]? = some (Obj.upvalue none v)
            ∧ readUpvalue H1 u = some v ∧ u ∉ H1.openUpvalues)
      ∧ (∀ u s, u ∈ (returnState (Value.number (F64.ofNat 42))).openUpvalues →
          openLocation (returnState (Value.number (F64.ofNat 42))) u = some s → s < 2 →
          u ∈ H1.openUpvalues
            ∧ H1.heap[u]? = (returnState (Value.number (F64.ofNat 42))).heap[u]?
            ∧ openLocation H1 u = some s))
    ∧ (∃ H2, case_BC_RETURN (returnState (Value.number (F64.ofNat 42))) = some (Step.next H2)
        ∧ H2.stackTop = 2 + 1 ∧ peek H2 0 = some (Value.number (F64.ofNat 42))
        ∧ H2.frameCount + 1 = (returnState (Value.number (F64.ofNat 42))).frameCount
        ∧ (∀ u s, u ∈ (returnState (Value.number (F64.ofNat 42))).openUpvalues →
            openLocation (returnState (Value.number (F64.ofNat 42))) u = some s → 2 ≤ s →
            ∃ v, (returnState (Value.number (F64.ofNat 42))).stack[s]? = some v
              ∧ readUpvalue H2 u = some v))
    ∧ (match case_BC_RETURN (returnState (Value.number (F64.ofNat 42))) with
       | some (Step.next H2) =>
         some (readUpvalue H2 4, readUpvalue H2 5, H2.openUpvalues, H2.heap[4]?)
       | _ => none)
      = some (some (Value.number (F64.ofNat 10)), some (Value.number (F64.ofNat 5)), [5],
          some (Obj.upvalue none (Value.number (F64.ofNat 10)))) :=
  ⟨(closeUpvalues_closes_slots_from_last (returnState (Value.number (F64.ofNat 42))) 2
      ⟨[3, 1], by decide, by decide⟩ (by decide) (by decide)).1,
   (closeUpvalues_closes_slots_from_last (returnState (Value.number (F64.ofNat 42))) 2
      ⟨[3, 1], by decide, by decide⟩ (by decide) (by decide)).2
      { func := some 3, ip := some 1, slots := 2 } (Value.number (F64.ofNat 42))
      (by decide) (by decide) (by decide) rfl,
   by decide⟩

/-! ## The ordering of the open-upvalue list is an invariant of `run` -/

theorem strict_of_heap {H H1 : hs_State} (hl : H1.openUpvalues = H.openUpvalues)
    (hh : ∀ x, openLocation H1 x = openLocation H x) (h : StrictlyDescending H) :
    StrictlyDescending H1 := by
  obtain ⟨slots, hs, hp⟩ := h
  refine ⟨slots, ?_, hp⟩
  rw [hl]
  exact (openSlots_congr (fun x _ => hh x)).trans hs

theorem strict_of_nil {H : hs_State} (h : H.openUpvalues = []) : StrictlyDescending H :=
  ⟨[], by rw [h]; rfl, List.Pairwise.nil⟩

theorem strict_runtimeError (H : hs_State) (message : String) :
    StrictlyDescending (runtimeError H message) :=
  strict_of_nil rfl

theorem strict_push {H : hs_State} (v : Value) (h : StrictlyDescending H) :
    StrictlyDescending (push H v) :=
  strict_of_heap (H := H) rfl (fun _ => rfl) h

theorem strict_setIp {H : hs_State} (frame : CallFrame) (ip : Nat) (h : StrictlyDescending H) :
    StrictlyDescending (setIp H frame ip) :=
  strict_of_heap (H := H) rfl (fun _ => rfl) h

theorem strict_stack {H : hs_State} (stack : List Value) (h : StrictlyDescending H) :
    StrictlyDescending { H with stack := stack } :=
  strict_of_heap (H := H) rfl (fun _ => rfl) h

theorem strict_stackTop {H : hs_State} (top : Nat) (h : StrictlyDescending H) :
    StrictlyDescending { H with stackTop := top } :=
  strict_of_heap (H := H) rfl (fun _ => rfl) h

theorem strict_frames {H : hs_State} (frames : List CallFrame) (h : StrictlyDescending H) :
    StrictlyDescending { H with frames := frames } :=
  strict_of_heap (H := H) rfl (fun _ => rfl) h

theorem strict_frames_stackTop {H : hs_State} (frames : List CallFrame) (top : Nat)
    (h : StrictlyDescending H) :
    StrictlyDescending { H with frames := frames, stackTop := top } :=
  strict_of_heap (H := H) rfl (fun _ => rfl) h

theorem strict_globals {H : hs_State} (globals : Table) (h : StrictlyDescending H) :
    StrictlyDescending { H with globals := globals } :=
  strict_of_heap (H := H) rfl (fun _ => rfl) h

theorem strict_pop {H H1 : hs_State} {v : Value} (hp : pop H = some (v, H1))
    (h : StrictlyDescending H) : StrictlyDescending H1 := by
  unfold pop at hp
  split at hp
  · simp at hp
  · split at hp
    · simp at hp
    · simp only [Option.some.injEq, Prod.mk.injEq] at hp
      rw [← hp.2]
      exact strict_stackTop _ h

theorem openLocation_append {H : hs_State} {o : Obj} (ho : ∀ s c, o ≠ Obj.upvalue (some s) c)
    (x : Ref) : openLocation { H with heap := H.heap ++ [o] } x = openLocation H x := by
  unfold openLocation
  simp only
  rcases Nat.lt_trichotomy x H.heap.length with hlt | heq | hgt
  · rw [List.getElem?_append_left hlt]
  · subst heq
    rw [List.getElem?_eq_none (Nat.le_refl _)]
    simp only [List.getElem?_concat_length]
    split
    · rename_i s c hc
      exact absurd (Option.some.inj hc) (ho s c)
    · rfl
  · rw [List.getElem?_eq_none (by simp; omega), List.getElem?_eq_none (by omega)]

theorem strict_allocate {H : hs_State} {o : Obj} (ho : ∀ s c, o ≠ Obj.upvalue (some s) c)
    (h : StrictlyDescending H) : StrictlyDescending (allocate H o).2 :=
  strict_of_heap (H := H) rfl (openLocation_append ho) h

theorem openLocation_store {H : hs_State} {r : Ref} {o0 o : Obj}
    (hr : H.heap[r]? = some o0) (h0 : ∀ s c, o0 ≠ Obj.upvalue (some s) c)
    (ho : ∀ s c, o ≠ Obj.upvalue (some s) c) (x : Ref) :
    openLocation (store H r o) x = openLocation H x := by
  by_cases hx : x = r
  · subst hx
    have hlt : x < H.heap.length := by
      by_contra hge
      rw [List.getElem?_eq_none (not_lt.1 hge)] at hr
      simp at hr
    unfold openLocation store
    simp only [List.getElem?_set_self hlt, hr]
    split
    · rename_i s c hc
      exact absurd (Option.some.inj hc) (ho s c)
    · split
      · rename_i s c hc
        exact absurd (Option.some.inj hc) (h0 s c)
      · rfl
  · exact openLocation_store_of_ne H o hx

theorem strict_store {H : hs_State} {r : Ref} {o0 : Obj} (o : Obj)
    (hr : H.heap[r]? = some o0) (h0 : ∀ s c, o0 ≠ Obj.upvalue (some s) c)
    (ho : ∀ s c, o ≠ Obj.upvalue (some s) c) (h : StrictlyDescending H) :
    StrictlyDescending (store H r o) :=
  strict_of_heap (H := H) rfl (openLocation_store hr h0 ho) h

theorem strict_READ_BYTE {H H1 : hs_State} {byte : Nat} (hr : READ_BYTE H = some (byte, H1))
    (h : StrictlyDescending H) : StrictlyDescending H1 := by
  obtain ⟨frame, ip, -, -, rfl⟩ := READ_BYTE_eq hr
  exact strict_setIp _ _ h

theorem strict_READ_SHORT {H H1 : hs_State} {offset : Nat}
    (hr : READ_SHORT H = some (offset, H1)) (h : StrictlyDescending H) :
    StrictlyDescending H1 := by
  unfold READ_SHORT at hr
  split at hr
  · simp at hr
  · rename_i hi H2 h1
    split at hr
    · simp at hr
    · rename_i lo H3 h2
      simp only [Option.some.injEq, Prod.mk.injEq] at hr
      rw [← hr.2]
      exact strict_READ_BYTE h2 (strict_READ_BYTE h1 h)

theorem strict_READ_CONSTANT {H H1 : hs_State} {constant : Value}
    (hr : READ_CONSTANT H = some (constant, H1)) (h : StrictlyDescending H) :
    StrictlyDescending H1 := by
  unfold READ_CONSTANT at hr
  repeat' split at hr
  all_goals first
    | (simp at hr; done)
    | (simp only [Option.some.injEq, Prod.mk.injEq] at hr
       rw [← hr.2]
       exact strict_READ_BYTE (by assumption) h)

theorem strict_READ_STRING {H H1 : hs_State} {name : Ref}
    (hr : READ_STRING H = some (name, H1)) (h : StrictlyDescending H) :
    StrictlyDescending H1 := by
  unfold READ_STRING at hr
  repeat' split at hr
  all_goals first
    | (simp at hr; done)
    | (simp only [Option.some.injEq, Prod.mk.injEq] at hr
       rw [← hr.2]
       exact strict_READ_CONSTANT (by assumption) h)

theorem closeUpvaluesLoop_keeps (last : Nat) : ∀ (l : List Ref) (H H1 : hs_State)
    (slots : List Nat), openSlots H l = some slots → l.Nodup →
    closeUpvaluesLoop last l H = some H1 →
    H1.openUpvalues <:+ l ∧ ∀ x ∈ H1.openUpvalues, openLocation H1 x = openLocation H x := by
  intro l
  induction l with
  | nil =>
    intro H H1 slots _ _ h
    simp only [closeUpvaluesLoop, Option.some.injEq] at h
    subst h
    exact ⟨List.suffix_refl _, fun x hx => by cases hx⟩
  | cons u rest ih =>
    intro H H1 slots hslots hnodup h
    obtain ⟨s, ss, hs, hss, rfl⟩ := openSlots_cons hslots
    rw [List.nodup_cons] at hnodup
    unfold closeUpvaluesLoop at h
    rw [hs] at h
    simp only at h
    split at h
    · split at h
      · simp at h
      · rename_i v hv
        have hss1 : openSlots (store H u (Obj.upvalue none v)) rest = some ss :=
          (openSlots_congr (fun x hx =>
            openLocation_store_of_ne H _
              (show x ≠ u from fun e => hnodup.1 (e ▸ hx)))).trans hss
        obtain ⟨h1, h2⟩ := ih _ H1 ss hss1 hnodup.2 h
        refine ⟨h1.trans (List.suffix_cons _ _), fun x hx => ?_⟩
        rw [h2 x hx]
        exact openLocation_store_of_ne H _
          (show x ≠ u from fun e => hnodup.1 (e ▸ h1.subset hx))
    · simp only [Option.some.injEq] at h
      subst h
      exact ⟨List.suffix_refl _, fun _ _ => rfl⟩

theorem strict_closeUpvalues {H H1 : hs_State} {last : Nat}
    (hc : closeUpvalues H last = some H1) (h : StrictlyDescending H) :
    StrictlyDescending H1 := by
  obtain ⟨slots, hslots, hsorted⟩ := h
  obtain ⟨h1, h2⟩ := closeUpvaluesLoop_keeps last H.openUpvalues H H1 slots hslots
    (openSlots_nodup hslots (nodup_of_strict hsorted)) hc
  obtain ⟨slots1, h3, h4⟩ := openSlots_suffix hslots h1
  exact ⟨slots1, (openSlots_congr h2).trans h3, hsorted.sublist h4.sublist⟩

theorem strict_captureUpvalue {H H1 : hs_State} {slot : Nat} {u : Ref}
    (hc : captureUpvalue H slot = some (u, H1)) (h : StrictlyDescending H) :
    StrictlyDescending H1 := by
  obtain ⟨u1, H2, h1, h2, -⟩ := captureUpvalue_spec H slot h
  rw [h1] at hc
  simp only [Option.some.injEq, Prod.mk.injEq] at hc
  rw [← hc.2]
  exact h2

theorem strict_setClosureUpvalue {H H1 : hs_State} {closure : Ref} {i : Nat} {u : Option Ref}
    (hc : setClosureUpvalue H closure i u = some H1) (h : StrictlyDescending H) :
    StrictlyDescending H1 := by
  unfold setClosureUpvalue at hc
  repeat' split at hc
  all_goals first
    | (simp at hc; done)
    | (simp only [Option.some.injEq] at hc
       subst hc
       exact strict_store _ (by assumption) (by simp) (by simp) h)

theorem strict_closureLoop (frame : CallFrame) (closure : Ref) : ∀ (n i : Nat)
    (H H1 : hs_State), closureLoop frame closure n i H = some H1 → StrictlyDescending H →
    StrictlyDescending H1 := by
  intro n
  induction n with
  | zero =>
    intro i H H1 hc h
    simp only [closureLoop, Option.some.injEq] at hc
    subst hc
    exact h
  | succ n ih =>
    intro i H H1 hc h
    unfold closureLoop at hc
    repeat' split at hc
    all_goals first
      | simp at hc
      | (refine ih _ _ _ hc ?_
         refine strict_setClosureUpvalue (by assumption) ?_
         refine strict_captureUpvalue (by assumption) ?_
         refine strict_READ_BYTE (by assumption) ?_
         exact strict_READ_BYTE (by assumption) h)
      | (refine ih _ _ _ hc ?_
         refine strict_setClosureUpvalue (by assumption) ?_
         refine strict_READ_BYTE (by assumption) ?_
         exact strict_READ_BYTE (by assumption) h)

theorem strict_arrayLoop (array : Ref) (elementCount : Nat) : ∀ (fuel i : Nat)
    (H H1 : hs_State), arrayLoop array elementCount fuel i H = some H1 →
    StrictlyDescending H → StrictlyDescending H1 := by
  intro fuel
  induction fuel with
  | zero =>
    intro i H H1 hc _
    simp [arrayLoop] at hc
  | succ fuel ih =>
    intro i H H1 hc h
    unfold arrayLoop at hc
    repeat' split at hc
    all_goals first
      | (simp at hc; done)
      | (refine ih _ _ _ hc ?_
         exact strict_store _ (by assumption) (by simp) (by simp) h)
      | (simp only [Option.some.injEq] at hc
         subst hc
         exact h)

theorem strict_writeUpvalue {H H1 : hs_State} {u : Ref} {v : Value}
    (hc : writeUpvalue H u v = some H1) (h : StrictlyDescending H) :
    StrictlyDescending H1 := by
  unfold writeUpvalue at hc
  repeat' split at hc
  all_goals first
    | (simp at hc; done)
    | (simp only [Option.some.injEq] at hc
       subst hc
       first
         | exact strict_stack _ h
         | exact strict_store _ (by assumption) (by simp) (by simp) h)

theorem strict_jumpForward {H H1 : hs_State} {offset : Nat}
    (hc : jumpForward H offset = some H1) (h : StrictlyDescending H) :
    StrictlyDescending H1 := by
  unfold jumpForward at hc
  repeat' split at hc
  all_goals first
    | (simp at hc; done)
    | (simp only [Option.some.injEq] at hc
       subst hc
       exact strict_setIp _ _ h)

theorem strict_jumpBackward {H H1 : hs_State} {offset : Nat}
    (hc : jumpBackward H offset = some H1) (h : StrictlyDescending H) :
    StrictlyDescending H1 := by
  unfold jumpBackward at hc
  repeat' split at hc
  all_goals first
    | (simp at hc; done)
    | (simp only [Option.some.injEq] at hc
       subst hc
       exact strict_setIp _ _ h)

theorem strict_takeString {H : hs_State} (chars : String) (h : StrictlyDescending H) :
    StrictlyDescending (takeString H chars).2 := by
  unfold takeString
  split
  · exact h
  · exact strict_allocate (by simp) h

theorem strict_allocate_eq {H H1 : hs_State} {o : Obj} {r : Ref}
    (ha : allocate H o = (r, H1)) (ho : ∀ s c, o ≠ Obj.upvalue (some s) c)
    (h : StrictlyDescending H) : StrictlyDescending H1 := by
  have := strict_allocate ho h
  rw [ha] at this
  exact this

theorem strict_takeString_eq {H H1 : hs_State} {chars : String} {r : Ref}
    (ha : takeString H chars = (r, H1)) (h : StrictlyDescending H) :
    StrictlyDescending H1 := by
  have := strict_takeString chars h
  rw [ha] at this
  exact this

theorem strict_call {env : Env} {H H1 : hs_State} {closure : Ref} {argCount : Int} {b : Bool}
    (hc : call env H closure argCount = some (b, H1)) (h : StrictlyDescending H) :
    StrictlyDescending H1 := by
  unfold call at hc
  repeat' split at hc
  all_goals first
    | (simp at hc; done)
    | (simp only [Option.some.injEq, Prod.mk.injEq] at hc
       obtain ⟨-, rfl⟩ := hc
       first
         | exact strict_runtimeError _ _
         | exact strict_frames _ h)

theorem strict_callCFunc {env : Env} (hn : NativesKeepUpvalues env) {H H1 : hs_State}
    {func : Ref} {argCount : Int} {b : Bool}
    (hc : callCFunc env H func argCount = some (b, H1)) (h : StrictlyDescending H) :
    StrictlyDescending H1 := by
  unfold callCFunc at hc
  simp only at hc
  repeat' split at hc
  all_goals first
    | (simp at hc; done)
    | (simp only [Option.some.injEq, Prod.mk.injEq] at hc
       obtain ⟨-, rfl⟩ := hc
       first
         | exact strict_runtimeError _ _
         | (apply strict_push
            apply strict_frames_stackTop
            refine strict_pop (by assumption) ?_
            have hnative := hn _ _ _ _ ‹env.cFuncs _ _ _ = some _›
            exact strict_of_heap hnative.1 hnative.2 (strict_frames _ h)))

theorem strict_callValue {env : Env} (hn : NativesKeepUpvalues env) {H H1 : hs_State}
    {callee : Value} {argCount : Int} {b : Bool}
    (hc : callValue env H callee argCount = some (b, H1)) (h : StrictlyDescending H) :
    StrictlyDescending H1 := by
  unfold callValue at hc
  repeat' split at hc
  all_goals first
    | (simp at hc; done)
    | exact strict_call hc (strict_stack _ h)
    | exact strict_call hc h
    | exact strict_callCFunc hn hc h
    | (simp only [Option.some.injEq, Prod.mk.injEq] at hc
       obtain ⟨-, rfl⟩ := hc
       exact strict_runtimeError _ _)

theorem strict_invokeFromStruct {env : Env} {H H1 : hs_State} {strooct name : Ref}
    {argCount : Int} {b : Bool}
    (hc : invokeFromStruct env H strooct name argCount = some (b, H1))
    (h : StrictlyDescending H) : StrictlyDescending H1 := by
  unfold invokeFromStruct at hc
  repeat' split at hc
  all_goals first
    | (simp at hc; done)
    | exact strict_call hc h
    | (simp only [Option.some.injEq, Prod.mk.injEq] at hc
       obtain ⟨-, rfl⟩ := hc
       exact strict_runtimeError _ _)

theorem strict_invoke {env : Env} (hn : NativesKeepUpvalues env) {H H1 : hs_State}
    {name : Ref} {argCount : Int} {b : Bool}
    (hc : invoke env H name argCount = some (b, H1)) (h : StrictlyDescending H) :
    StrictlyDescending H1 := by
  unfold invoke at hc
  repeat' split at hc
  all_goals first
    | (simp at hc; done)
    | exact strict_callValue hn hc (strict_stack _ h)
    | exact strict_invokeFromStruct hc h
    | (simp only [Option.some.injEq, Prod.mk.injEq] at hc
       obtain ⟨-, rfl⟩ := hc
       exact strict_runtimeError _ _)

theorem strict_bindMethod {H H1 : hs_State} {strooct name : Ref} {b : Bool}
    (hc : bindMethod H strooct name = some (b, H1)) (h : StrictlyDescending H) :
    StrictlyDescending H1 := by
  unfold bindMethod at hc
  repeat' split at hc
  all_goals first
    | (simp at hc; done)
    | (simp only [Option.some.injEq, Prod.mk.injEq] at hc
       obtain ⟨-, rfl⟩ := hc
       first
         | exact strict_runtimeError _ _
         | (apply strict_push
            refine strict_pop (by assumption) ?_
            refine strict_allocate_eq (by assumption) ?_ h
            simp))

theorem strict_setProperty {H H1 : hs_State} {name : Ref} {b : Bool}
    (hc : setProperty H name = some (b, H1)) (h : StrictlyDescending H) :
    StrictlyDescending H1 := by
  unfold setProperty at hc
  repeat' split at hc
  all_goals first
    | (simp at hc; done)
    | (simp only [Option.some.injEq, Prod.mk.injEq] at hc
       obtain ⟨-, rfl⟩ := hc
       first
         | exact strict_runtimeError _ _
         | exact strict_store _ (by assumption) (by simp) (by simp) h)

theorem strict_getProperty {H H1 : hs_State} {object : Value} {name : Ref}
    {popValue b : Bool}
    (hc : getProperty H object name popValue = some (b, H1)) (h : StrictlyDescending H) :
    StrictlyDescending H1 := by
  unfold getProperty at hc
  repeat' split at hc
  all_goals first
    | (simp at hc; done)
    | exact strict_bindMethod hc h
    | (simp only [Option.some.injEq, Prod.mk.injEq] at hc
       obtain ⟨-, rfl⟩ := hc
       first
         | exact strict_runtimeError _ _
         | exact strict_push _ h
         | exact strict_push _ (strict_pop (by assumption) h))

theorem strict_getStatic {H H1 : hs_State} {object : Value} {name : Ref} {b : Bool}
    (hc : getStatic H object name = some (b, H1)) (h : StrictlyDescending H) :
    StrictlyDescending H1 := by
  unfold getStatic at hc
  repeat' split at hc
  all_goals first
    | (simp at hc; done)
    | (simp only [Option.some.injEq, Prod.mk.injEq] at hc
       obtain ⟨-, rfl⟩ := hc
       first
         | exact strict_runtimeError _ _
         | exact strict_push _ (strict_pop (by assumption) h))

theorem strict_concatenate {H H1 : hs_State} (hc : concatenate H = some H1)
    (h : StrictlyDescending H) : StrictlyDescending H1 := by
  unfold concatenate at hc
  repeat' split at hc
  all_goals first
    | (simp at hc; done)
    | (simp only [Option.some.injEq] at hc
       subst hc
       apply strict_push
       refine strict_pop (by assumption) ?_
       refine strict_pop (by assumption) ?_
       exact strict_takeString_eq (by assumption) h)

theorem strict_defineMethod {H H1 : hs_State} {name strooct : Ref} {isStatic : Bool}
    (hc : defineMethod H name strooct isStatic = some H1) (h : StrictlyDescending H) :
    StrictlyDescending H1 := by
  unfold defineMethod at hc
  simp only at hc
  repeat' split at hc
  all_goals first
    | (simp at hc; done)
    | (simp only [Option.some.injEq] at hc
       subst hc
       refine strict_pop (by assumption) ?_
       split
       · exact strict_store _ (by assumption) (by simp) (by simp) h
       · exact strict_store _ (by assumption) (by simp) (by simp) h)

theorem strict_BINARY_OP {H : hs_State} {f : F64 → F64 → Value} {st : Step}
    (hc : BINARY_OP H f = some st) (h : StrictlyDescending H) :
    StrictlyDescending st.state := by
  unfold BINARY_OP at hc
  repeat' split at hc
  all_goals first
    | (simp at hc; done)
    | (simp only [Option.some.injEq] at hc
       subst hc
       first
         | exact strict_runtimeError _ _
         | exact strict_push _ (strict_pop (by assumption) (strict_pop (by assumption) h)))

theorem strict_MODULO_POW {payload : Value → F64} {H : hs_State} {f : F64 → F64 → F64}
    {st : Step} (hc : case_BC_MODULO_POW payload H f = some st) (h : StrictlyDescending H) :
    StrictlyDescending st.state := by
  unfold case_BC_MODULO_POW at hc
  repeat' split at hc
  all_goals first
    | (simp at hc; done)
    | (simp only [Option.some.injEq] at hc
       subst hc
       first
         | exact strict_runtimeError _ _
         | exact strict_push _ (strict_pop (by assumption) (strict_pop (by assumption) h)))

theorem strict_store_pop {H H1 : hs_State} {r : Ref} {o0 : Obj} {v : Value} (o : Obj)
    (hp : pop H = some (v, H1)) (hr : H.heap[r]? = some o0)
    (h0 : ∀ s c, o0 ≠ Obj.upvalue (some s) c) (ho : ∀ s c, o ≠ Obj.upvalue (some s) c)
    (h : StrictlyDescending H) : StrictlyDescending (store H1 r o) := by
  unfold pop at hp
  split at hp
  · simp at hp
  · split at hp
    · simp at hp
    · simp only [Option.some.injEq, Prod.mk.injEq] at hp
      rw [← hp.2]
      exact strict_store o hr h0 ho (strict_stackTop _ h)

theorem strict_ARRAY {H : hs_State} {st : Step}
    (hc : case_BC_ARRAY H = some st) (h : StrictlyDescending H) :
    StrictlyDescending st.state := by
  unfold case_BC_ARRAY at hc
  repeat' split at hc
  all_goals first
    | (simp at hc; done)
    | (simp only [Option.some.injEq] at hc
       subst hc
       simp only [Step.state]
       repeat (first
         | exact h
         | refine strict_READ_BYTE (by assumption) ?_
         | refine strict_arrayLoop _ _ _ _ _ _ (by assumption) ?_
         | (refine strict_allocate_eq (by assumption) ?_ ?_
            simp)
         | apply strict_push
         | apply strict_stackTop))

theorem strict_GET_SUBSCRIPT {H : hs_State} {st : Step}
    (hc : case_BC_GET_SUBSCRIPT H = some st) (h : StrictlyDescending H) :
    StrictlyDescending st.state := by
  unfold case_BC_GET_SUBSCRIPT at hc
  repeat' split at hc
  all_goals first
    | (simp at hc; done)
    | (simp only [Option.some.injEq] at hc
       subst hc
       simp only [Step.state]
       repeat (first
         | exact h
         | exact strict_runtimeError _ _
         | refine strict_pop (by assumption) ?_
         | apply strict_push))

theorem strict_SET_SUBSCRIPT {H : hs_State} {st : Step}
    (hc : case_BC_SET_SUBSCRIPT H = some st) (h : StrictlyDescending H) :
    StrictlyDescending st.state := by
  unfold case_BC_SET_SUBSCRIPT at hc
  simp only at hc
  repeat' split at hc
  all_goals first
    | (simp at hc; done)
    | (simp only [Option.some.injEq] at hc
       subst hc
       simp only [Step.state]
       repeat (first
         | exact h
         | exact strict_runtimeError _ _
         | refine strict_pop (by assumption) ?_
         | (refine strict_store_pop _ (by assumption) (by assumption) ?_ ?_ ?_
            simp
            simp)
         | apply strict_push))

theorem strict_GET_GLOBAL {H : hs_State} {st : Step}
    (hc : case_BC_GET_GLOBAL H = some st) (h : StrictlyDescending H) :
    StrictlyDescending st.state := by
  unfold case_BC_GET_GLOBAL at hc
  repeat' split at hc
  all_goals first
    | (simp at hc; done)
    | (simp only [Option.some.injEq] at hc
       subst hc
       simp only [Step.state]
       repeat (first
         | exact h
         | exact strict_runtimeError _ _
         | refine strict_READ_STRING (by assumption) ?_
         | apply strict_push))

theorem strict_SET_GLOBAL {H : hs_State} {st : Step}
    (hc : case_BC_SET_GLOBAL H = some st) (h : StrictlyDescending H) :
    StrictlyDescending st.state := by
  unfold case_BC_SET_GLOBAL at hc
  simp only at hc
  repeat' split at hc
  all_goals first
    | (simp at hc; done)
    | (simp only [Option.some.injEq] at hc
       subst hc
       simp only [Step.state]
       repeat (first
         | exact h
         | exact strict_runtimeError _ _
         | refine strict_READ_STRING (by assumption) ?_
         | apply strict_globals))

theorem strict_DEFINE_GLOBAL {H : hs_State} {st : Step}
    (hc : case_BC_DEFINE_GLOBAL H = some st) (h : StrictlyDescending H) :
    StrictlyDescending st.state := by
  unfold case_BC_DEFINE_GLOBAL at hc
  simp only at hc
  repeat' split at hc
  all_goals first
    | (simp at hc; done)
    | (simp only [Option.some.injEq] at hc
       subst hc
       simp only [Step.state]
       repeat (first
         | exact h
         | exact strict_runtimeError _ _
         | refine strict_pop (by assumption) ?_
         | refine strict_READ_STRING (by assumption) ?_
         | apply strict_globals))

theorem strict_GET_UPVALUE {H : hs_State} {st : Step}
    (hc : case_BC_GET_UPVALUE H = some st) (h : StrictlyDescending H) :
    StrictlyDescending st.state := by
  unfold case_BC_GET_UPVALUE at hc
  repeat' split at hc
  all_goals first
    | (simp at hc; done)
    | (simp only [Option.some.injEq] at hc
       subst hc
       simp only [Step.state]
       repeat (first
         | exact h
         | refine strict_READ_BYTE (by assumption) ?_
         | apply strict_push))

theorem strict_SET_UPVALUE {H : hs_State} {st : Step}
    (hc : case_BC_SET_UPVALUE H = some st) (h : StrictlyDescending H) :
    StrictlyDescending st.state := by
  unfold case_BC_SET_UPVALUE at hc
  repeat' split at hc
  all_goals first
    | (simp at hc; done)
    | (simp only [Option.some.injEq] at hc
       subst hc
       simp only [Step.state]
       repeat (first
         | exact h
         | refine strict_READ_BYTE (by assumption) ?_
         | refine strict_writeUpvalue (by assumption) ?_))

theorem strict_GET_LOCAL {H : hs_State} {st : Step}
    (hc : case_BC_GET_LOCAL H = some st) (h : StrictlyDescending H) :
    StrictlyDescending st.state := by
  unfold case_BC_GET_LOCAL at hc
  repeat' split at hc
  all_goals first
    | (simp at hc; done)
    | (simp only [Option.some.injEq] at hc
       subst hc
       simp only [Step.state]
       repeat (first
         | exact h
         | refine strict_READ_BYTE (by assumption) ?_
         | apply strict_push))

theorem strict_SET_LOCAL {H : hs_State} {st : Step}
    (hc : case_BC_SET_LOCAL H = some st) (h : StrictlyDescending H) :
    StrictlyDescending st.state := by
  unfold case_BC_SET_LOCAL at hc
  repeat' split at hc
  all_goals first
    | (simp at hc; done)
    | (simp only [Option.some.injEq] at hc
       subst hc
       simp only [Step.state]
       repeat (first
         | exact h
         | refine strict_READ_BYTE (by assumption) ?_
         | apply strict_stack))

theorem strict_INIT_PROPERTY {H : hs_State} {st : Step}
    (hc : case_BC_INIT_PROPERTY H = some st) (h : StrictlyDescending H) :
    StrictlyDescending st.state := by
  unfold case_BC_INIT_PROPERTY at hc
  repeat' split at hc
  all_goals first
    | (simp at hc; done)
    | (simp only [Option.some.injEq] at hc
       subst hc
       simp only [Step.state]
       repeat (first
         | exact h
         | refine strict_pop (by assumption) ?_
         | refine strict_READ_STRING (by assumption) ?_
         | refine strict_setProperty (by assumption) ?_))

theorem strict_GET_STATIC {H : hs_State} {st : Step}
    (hc : case_BC_GET_STATIC H = some st) (h : StrictlyDescending H) :
    StrictlyDescending st.state := by
  unfold case_BC_GET_STATIC at hc
  repeat' split at hc
  all_goals first
    | (simp at hc; done)
    | (simp only [Option.some.injEq] at hc
       subst hc
       simp only [Step.state]
       repeat (first
         | exact h
         | refine strict_READ_STRING (by assumption) ?_
         | refine strict_getStatic (by assumption) ?_))

theorem strict_GET_PROPERTY {H : hs_State} {isGet : Bool} {st : Step}
    (hc : case_BC_GET_PROPERTY H isGet = some st) (h : StrictlyDescending H) :
    StrictlyDescending st.state := by
  unfold case_BC_GET_PROPERTY at hc
  repeat' split at hc
  all_goals first
    | (simp at hc; done)
    | (simp only [Option.some.injEq] at hc
       subst hc
       simp only [Step.state]
       repeat (first
         | exact h
         | refine strict_READ_STRING (by assumption) ?_
         | refine strict_getProperty (by assumption) ?_))

theorem strict_SET_PROPERTY {H : hs_State} {st : Step}
    (hc : case_BC_SET_PROPERTY H = some st) (h : StrictlyDescending H) :
    StrictlyDescending st.state := by
  unfold case_BC_SET_PROPERTY at hc
  repeat' split at hc
  all_goals first
    | (simp at hc; done)
    | (simp only [Option.some.injEq] at hc
       subst hc
       simp only [Step.state]
       repeat (first
         | exact h
         | refine strict_pop (by assumption) ?_
         | refine strict_READ_STRING (by assumption) ?_
         | refine strict_setProperty (by assumption) ?_
         | apply strict_push))

theorem strict_DESTRUCT_ARRAY {H : hs_State} {st : Step}
    (hc : case_BC_DESTRUCT_ARRAY H = some st) (h : StrictlyDescending H) :
    StrictlyDescending st.state := by
  unfold case_BC_DESTRUCT_ARRAY at hc
  repeat' split at hc
  all_goals first
    | (simp at hc; done)
    | (simp only [Option.some.injEq] at hc
       subst hc
       simp only [Step.state]
       repeat (first
         | exact h
         | exact strict_runtimeError _ _
         | refine strict_READ_BYTE (by assumption) ?_
         | apply strict_push))

theorem strict_EQUAL {H : hs_State} {negate : Bool} {st : Step}
    (hc : case_BC_EQUAL H negate = some st) (h : StrictlyDescending H) :
    StrictlyDescending st.state := by
  unfold case_BC_EQUAL at hc
  repeat' split at hc
  all_goals first
    | (simp at hc; done)
    | (simp only [Option.some.injEq] at hc
       subst hc
       simp only [Step.state]
       repeat (first
         | exact h
         | refine strict_pop (by assumption) ?_
         | apply strict_push))

theorem strict_CONCAT {H : hs_State} {st : Step}
    (hc : case_BC_CONCAT H = some st) (h : StrictlyDescending H) :
    StrictlyDescending st.state := by
  unfold case_BC_CONCAT at hc
  repeat' split at hc
  all_goals first
    | (simp at hc; done)
    | (simp only [Option.some.injEq] at hc
       subst hc
       simp only [Step.state]
       repeat (first
         | exact h
         | exact strict_runtimeError _ _
         | refine strict_concatenate (by assumption) ?_))

theorem strict_NEGATE {H : hs_State} {st : Step}
    (hc : case_BC_NEGATE H = some st) (h : StrictlyDescending H) :
    StrictlyDescending st.state := by
  unfold case_BC_NEGATE at hc
  repeat' split at hc
  all_goals first
    | (simp at hc; done)
    | (simp only [Option.some.injEq] at hc
       subst hc
       simp only [Step.state]
       repeat (first
         | exact h
         | exact strict_runtimeError _ _
         | refine strict_pop (by assumption) ?_
         | apply strict_push))

theorem strict_NOT {H : hs_State} {st : Step}
    (hc : case_BC_NOT H = some st) (h : StrictlyDescending H) :
    StrictlyDescending st.state := by
  unfold case_BC_NOT at hc
  repeat' split at hc
  all_goals first
    | (simp at hc; done)
    | (simp only [Option.some.injEq] at hc
       subst hc
       simp only [Step.state]
       repeat (first
         | exact h
         | refine strict_pop (by assumption) ?_
         | apply strict_push))

theorem strict_JUMP {H : hs_State} {st : Step}
    (hc : case_BC_JUMP H = some st) (h : StrictlyDescending H) :
    StrictlyDescending st.state := by
  unfold case_BC_JUMP at hc
  repeat' split at hc
  all_goals first
    | (simp at hc; done)
    | (simp only [Option.some.injEq] at hc
       subst hc
       simp only [Step.state]
       repeat (first
         | exact h
         | refine strict_READ_SHORT (by assumption) ?_
         | refine strict_jumpForward (by assumption) ?_))

theorem strict_JUMP_IF_FALSE {H : hs_State} {st : Step}
    (hc : case_BC_JUMP_IF_FALSE H = some st) (h : StrictlyDescending H) :
    StrictlyDescending st.state := by
  unfold case_BC_JUMP_IF_FALSE at hc
  repeat' split at hc
  all_goals first
    | (simp at hc; done)
    | (simp only [Option.some.injEq] at hc
       subst hc
       simp only [Step.state]
       repeat (first
         | exact h
         | refine strict_READ_SHORT (by assumption) ?_
         | refine strict_jumpForward (by assumption) ?_))

theorem strict_INEQUALITY_JUMP {H : hs_State} {st : Step}
    (hc : case_BC_INEQUALITY_JUMP H = some st) (h : StrictlyDescending H) :
    StrictlyDescending st.state := by
  unfold case_BC_INEQUALITY_JUMP at hc
  repeat' split at hc
  all_goals first
    | (simp at hc; done)
    | (simp only [Option.some.injEq] at hc
       subst hc
       simp only [Step.state]
       repeat (first
         | exact h
         | refine strict_pop (by assumption) ?_
         | refine strict_READ_SHORT (by assumption) ?_
         | refine strict_jumpForward (by assumption) ?_))

theorem strict_LOOP {H : hs_State} {st : Step}
    (hc : case_BC_LOOP H = some st) (h : StrictlyDescending H) :
    StrictlyDescending st.state := by
  unfold case_BC_LOOP at hc
  repeat' split at hc
  all_goals first
    | (simp at hc; done)
    | (simp only [Option.some.injEq] at hc
       subst hc
       simp only [Step.state]
       repeat (first
         | exact h
         | refine strict_READ_SHORT (by assumption) ?_
         | refine strict_jumpBackward (by assumption) ?_))

theorem strict_CALL {env : Env} (hn : NativesKeepUpvalues env) {H : hs_State} {st : Step}
    (hc : case_BC_CALL env H = some st) (h : StrictlyDescending H) :
    StrictlyDescending st.state := by
  unfold case_BC_CALL at hc
  repeat' split at hc
  all_goals first
    | (simp at hc; done)
    | (simp only [Option.some.injEq] at hc
       subst hc
       simp only [Step.state]
       repeat (first
         | exact h
         | refine strict_READ_BYTE (by assumption) ?_
         | refine strict_callValue hn (by assumption) ?_))

theorem strict_INSTANCE {H : hs_State} {st : Step}
    (hc : case_BC_INSTANCE H = some st) (h : StrictlyDescending H) :
    StrictlyDescending st.state := by
  unfold case_BC_INSTANCE at hc
  repeat' split at hc
  all_goals first
    | (simp at hc; done)
    | (simp only [Option.some.injEq] at hc
       subst hc
       simp only [Step.state]
       repeat (first
         | exact h
         | exact strict_runtimeError _ _
         | refine strict_pop (by assumption) ?_
         | (refine strict_allocate_eq (by assumption) ?_ ?_
            simp)
         | apply strict_push))

theorem strict_CLOSURE {H : hs_State} {st : Step}
    (hc : case_BC_CLOSURE H = some st) (h : StrictlyDescending H) :
    StrictlyDescending st.state := by
  unfold case_BC_CLOSURE at hc
  repeat' split at hc
  all_goals first
    | (simp at hc; done)
    | (simp only [Option.some.injEq] at hc
       subst hc
       simp only [Step.state]
       repeat (first
         | exact h
         | refine strict_READ_CONSTANT (by assumption) ?_
         | refine strict_closureLoop _ _ _ _ _ _ (by assumption) ?_
         | (refine strict_allocate_eq (by assumption) ?_ ?_
            simp)
         | apply strict_push))

theorem strict_CLOSE_UPVALUE {H : hs_State} {st : Step}
    (hc : case_BC_CLOSE_UPVALUE H = some st) (h : StrictlyDescending H) :
    StrictlyDescending st.state := by
  unfold case_BC_CLOSE_UPVALUE at hc
  repeat' split at hc
  all_goals first
    | (simp at hc; done)
    | (simp only [Option.some.injEq] at hc
       subst hc
       simp only [Step.state]
       repeat (first
         | exact h
         | refine strict_pop (by assumption) ?_
         | refine strict_closeUpvalues (by assumption) ?_))

theorem strict_RETURN {H : hs_State} {st : Step}
    (hc : case_BC_RETURN H = some st) (h : StrictlyDescending H) :
    StrictlyDescending st.state := by
  unfold case_BC_RETURN at hc
  simp only at hc
  repeat' split at hc
  all_goals first
    | (simp at hc; done)
    | (simp only [Option.some.injEq] at hc
       subst hc
       simp only [Step.state]
       repeat (first
         | exact h
         | refine strict_pop (by assumption) ?_
         | refine strict_closeUpvalues (by assumption) ?_
         | apply strict_push
         | apply strict_frames_stackTop
         | apply strict_stackTop
         | apply strict_frames))

theorem strict_ENUM {H : hs_State} {st : Step}
    (hc : case_BC_ENUM H = some st) (h : StrictlyDescending H) :
    StrictlyDescending st.state := by
  unfold case_BC_ENUM at hc
  repeat' split at hc
  all_goals first
    | (simp at hc; done)
    | (simp only [Option.some.injEq] at hc
       subst hc
       simp only [Step.state]
       repeat (first
         | exact h
         | refine strict_READ_STRING (by assumption) ?_
         | (refine strict_allocate_eq (by assumption) ?_ ?_
            simp)
         | apply strict_push))

theorem strict_ENUM_VALUE {H : hs_State} {st : Step}
    (hc : case_BC_ENUM_VALUE H = some st) (h : StrictlyDescending H) :
    StrictlyDescending st.state := by
  unfold case_BC_ENUM_VALUE at hc
  repeat' split at hc
  all_goals first
    | (simp at hc; done)
    | (simp only [Option.some.injEq] at hc
       subst hc
       simp only [Step.state]
       repeat (first
         | exact h
         | refine strict_READ_BYTE (by assumption) ?_
         | refine strict_READ_STRING (by assumption) ?_
         | (refine strict_store _ (by assumption) ?_ ?_ ?_
            simp
            simp)))

theorem strict_STRUCT {H : hs_State} {st : Step}
    (hc : case_BC_STRUCT H = some st) (h : StrictlyDescending H) :
    StrictlyDescending st.state := by
  unfold case_BC_STRUCT at hc
  repeat' split at hc
  all_goals first
    | (simp at hc; done)
    | (simp only [Option.some.injEq] at hc
       subst hc
       simp only [Step.state]
       repeat (first
         | exact h
         | refine strict_READ_STRING (by assumption) ?_
         | (refine strict_allocate_eq (by assumption) ?_ ?_
            simp)
         | apply strict_push))

theorem strict_METHOD {H : hs_State} {isStatic : Bool} {st : Step}
    (hc : case_BC_METHOD H isStatic = some st) (h : StrictlyDescending H) :
    StrictlyDescending st.state := by
  unfold case_BC_METHOD at hc
  repeat' split at hc
  all_goals first
    | (simp at hc; done)
    | (simp only [Option.some.injEq] at hc
       subst hc
       simp only [Step.state]
       repeat (first
         | exact h
         | refine strict_READ_STRING (by assumption) ?_
         | refine strict_defineMethod (by assumption) ?_))

theorem strict_INVOKE {env : Env} (hn : NativesKeepUpvalues env) {H : hs_State} {st : Step}
    (hc : case_BC_INVOKE env H = some st) (h : StrictlyDescending H) :
    StrictlyDescending st.state := by
  unfold case_BC_INVOKE at hc
  repeat' split at hc
  all_goals first
    | (simp at hc; done)
    | (simp only [Option.some.injEq] at hc
       subst hc
       simp only [Step.state]
       repeat (first
         | exact h
         | refine strict_READ_BYTE (by assumption) ?_
         | refine strict_READ_STRING (by assumption) ?_
         | refine strict_invoke hn (by assumption) ?_))

theorem strict_STRUCT_FIELD {H : hs_State} {st : Step}
    (hc : case_BC_STRUCT_FIELD H = some st) (h : StrictlyDescending H) :
    StrictlyDescending st.state := by
  unfold case_BC_STRUCT_FIELD at hc
  repeat' split at hc
  all_goals first
    | (simp at hc; done)
    | (simp only [Option.some.injEq] at hc
       subst hc
       simp only [Step.state]
       repeat (first
         | exact h
         | refine strict_pop (by assumption) ?_
         | refine strict_READ_STRING (by assumption) ?_
         | (refine strict_store _ (by assumption) ?_ ?_ ?_
            simp
            simp)))

theorem strict_dispatch {env : Env} (hn : NativesKeepUpvalues env) {op : OpCode}
    {H : hs_State} {st : Step} (hc : dispatch env op H = some st)
    (h : StrictlyDescending H) : StrictlyDescending st.state := by
  cases op with
  | BC_CONSTANT =>
    simp only [dispatch] at hc
    split at hc
    · simp at hc
    · simp only [Option.some.injEq] at hc
      subst hc
      exact strict_push _ (strict_READ_CONSTANT (by assumption) h)
  | BC_NIL =>
    simp only [dispatch, Option.some.injEq] at hc
    subst hc
    exact strict_push _ h
  | BC_TRUE =>
    simp only [dispatch, Option.some.injEq] at hc
    subst hc
    exact strict_push _ h
  | BC_FALSE =>
    simp only [dispatch, Option.some.injEq] at hc
    subst hc
    exact strict_push _ h
  | BC_POP =>
    simp only [dispatch] at hc
    split at hc
    · simp at hc
    · simp only [Option.some.injEq] at hc
      subst hc
      exact strict_pop (by assumption) h
  | BC_ARRAY => exact strict_ARRAY hc h
  | BC_GET_SUBSCRIPT => exact strict_GET_SUBSCRIPT hc h
  | BC_SET_SUBSCRIPT => exact strict_SET_SUBSCRIPT hc h
  | BC_GET_GLOBAL => exact strict_GET_GLOBAL hc h
  | BC_SET_GLOBAL => exact strict_SET_GLOBAL hc h
  | BC_DEFINE_GLOBAL => exact strict_DEFINE_GLOBAL hc h
  | BC_GET_UPVALUE => exact strict_GET_UPVALUE hc h
  | BC_SET_UPVALUE => exact strict_SET_UPVALUE hc h
  | BC_GET_LOCAL => exact strict_GET_LOCAL hc h
  | BC_SET_LOCAL => exact strict_SET_LOCAL hc h
  | BC_INIT_PROPERTY => exact strict_INIT_PROPERTY hc h
  | BC_GET_STATIC => exact strict_GET_STATIC hc h
  | BC_GET_PROPERTY => exact strict_GET_PROPERTY hc h
  | BC_PUSH_PROPERTY => exact strict_GET_PROPERTY hc h
  | BC_SET_PROPERTY => exact strict_SET_PROPERTY hc h
  | BC_DESTRUCT_ARRAY => exact strict_DESTRUCT_ARRAY hc h
  | BC_EQUAL => exact strict_EQUAL hc h
  | BC_NOT_EQUAL => exact strict_EQUAL hc h
  | BC_CONCAT => exact strict_CONCAT hc h
  | BC_GREATER => exact strict_BINARY_OP hc h
  | BC_GREATER_EQUAL => exact strict_BINARY_OP hc h
  | BC_LESSER => exact strict_BINARY_OP hc h
  | BC_LESSER_EQUAL => exact strict_BINARY_OP hc h
  | BC_ADD => exact strict_BINARY_OP hc h
  | BC_SUBTRACT => exact strict_BINARY_OP hc h
  | BC_MULTIPLY => exact strict_BINARY_OP hc h
  | BC_DIVIDE => exact strict_BINARY_OP hc h
  | BC_MODULO => exact strict_MODULO_POW hc h
  | BC_POW => exact strict_MODULO_POW hc h
  | BC_NEGATE => exact strict_NEGATE hc h
  | BC_NOT => exact strict_NOT hc h
  | BC_JUMP => exact strict_JUMP hc h
  | BC_JUMP_IF_FALSE => exact strict_JUMP_IF_FALSE hc h
  | BC_INEQUALITY_JUMP => exact strict_INEQUALITY_JUMP hc h
  | BC_LOOP => exact strict_LOOP hc h
  | BC_CALL => exact strict_CALL hn hc h
  | BC_INSTANCE => exact strict_INSTANCE hc h
  | BC_CLOSURE => exact strict_CLOSURE hc h
  | BC_CLOSE_UPVALUE => exact strict_CLOSE_UPVALUE hc h
  | BC_RETURN => exact strict_RETURN hc h
  | BC_ENUM => exact strict_ENUM hc h
  | BC_ENUM_VALUE => exact strict_ENUM_VALUE hc h
  | BC_STRUCT => exact strict_STRUCT hc h
  | BC_METHOD => exact strict_METHOD hc h
  | BC_STATIC_METHOD => exact strict_METHOD hc h
  | BC_INVOKE => exact strict_INVOKE hn hc h
  | BC_STRUCT_FIELD => exact strict_STRUCT_FIELD hc h
  | BC_BREAK =>
    simp only [dispatch, Option.some.injEq] at hc
    subst hc
    exact strict_runtimeError _ _

theorem strict_step {env : Env} (hn : NativesKeepUpvalues env) {H : hs_State} {st : Step}
    (hc : step env H = some st) (h : StrictlyDescending H) :
    StrictlyDescending st.state := by
  unfold step at hc
  split at hc
  · simp at hc
  · rename_i byte H1 hbyte
    have h1 := strict_READ_BYTE hbyte h
    split at hc
    · simp only [Option.some.injEq] at hc
      subst hc
      exact h1
    · exact strict_dispatch hn hc h1

theorem strict_runSteps {env : Env} (hn : NativesKeepUpvalues env) : ∀ (n : Nat)
    (H H1 : hs_State), runSteps env n H = some H1 → StrictlyDescending H →
    StrictlyDescending H1 := by
  intro n
  induction n with
  | zero =>
    intro H H1 hc h
    simp only [runSteps, Option.some.injEq] at hc
    subst hc
    exact h
  | succ n ih =>
    intro H H1 hc h
    unfold runSteps at hc
    split at hc
    · rename_i H2 hstep
      exact ih _ _ hc (strict_step hn hstep h)
    · simp at hc

theorem strict_run {env : Env} (hn : NativesKeepUpvalues env) : ∀ (fuel : Nat)
    (H H1 : hs_State) (result : InterpretResult),
    run env fuel H = RunResult.returned result H1 → StrictlyDescending H →
    StrictlyDescending H1 := by
  intro fuel
  induction fuel with
  | zero =>
    intro H H1 result hc _
    simp [run] at hc
  | succ fuel ih =>
    intro H H1 result hc h
    unfold run at hc
    split at hc
    · simp at hc
    · rename_i r H2 hstep
      simp only [RunResult.returned.injEq] at hc
      rw [← hc.2]
      exact strict_step hn hstep h
    · rename_i H2 hstep
      exact ih _ _ _ hc (strict_step hn hstep h)

theorem core_print_loop_keeps (toStr : hs_State → Value → String) (argCount : Int) :
    ∀ (n : Nat) (i : Int) (H H1 : hs_State), core_print_loop toStr argCount n i H = some H1 →
    H1.openUpvalues = H.openUpvalues ∧ H1.heap = H.heap := by
  intro n
  induction n with
  | zero =>
    intro i H H1 hc
    simp only [core_print_loop, Option.some.injEq] at hc
    subst hc
    exact ⟨rfl, rfl⟩
  | succ n ih =>
    intro i H H1 hc
    unfold core_print_loop at hc
    split at hc
    · simp at hc
    · obtain ⟨h1, h2⟩ := ih _ _ _ hc
      rw [h1, h2]
      split <;> exact ⟨rfl, rfl⟩

theorem demoEnv_natives : NativesKeepUpvalues demoEnv := by
  intro cFunc H H1 argCount hc
  simp only [demoEnv] at hc
  split at hc
  · unfold core_print at hc
    split at hc
    · simp at hc
    · rename_i H2 hloop
      simp only [Option.some.injEq] at hc
      subst hc
      obtain ⟨h1, h2⟩ := core_print_loop_keeps _ _ _ _ _ _ hloop
      refine ⟨h1, fun x => ?_⟩
      unfold openLocation
      rw [← h2]
      rfl
  · split at hc
    · simp only [frameCountProbe, Option.some.injEq] at hc
      subst hc
      exact ⟨rfl, fun _ => rfl⟩
    · simp at hc

/-- Claim C14.  Let the open-upvalue list of `H` be strictly descending by stack slot.
Then no two entries of the list have the same slot.  `captureUpvalue(H, slot)` returns;
afterwards the list is still strictly descending, every previous entry is still in it
with the slot it had, the returned upvalue is in it and has the slot `slot`, nothing
else was added, the returned upvalue is the entry the list already had for `slot` when
there was one (the state is then unchanged), and a second capture of `slot` returns the
same upvalue.  `closeUpvalues` returns when the slots it closes are slots of the stack
memory, and whenever it returns the list is strictly descending.  `resetStack` leaves a
strictly descending list.  With native functions that leave upvalues alone, the state
after an iteration of the loop of `run`, after any number of iterations and at the
return of `run` has a strictly descending list. -/
theorem open_upvalues_stay_strictly_descending (env : Env) (H : hs_State)
    (hn : NativesKeepUpvalues env) (h : StrictlyDescending H) :
    (∀ x ∈ H.openUpvalues, ∀ y ∈ H.openUpvalues,
        openLocation H x = openLocation H y → x = y)
    ∧ (∀ slot, ∃ u H1, captureUpvalue H slot = some (u, H1) ∧ StrictlyDescending H1
        ∧ (∀ x ∈ H.openUpvalues, x ∈ H1.openUpvalues ∧ openLocation H1 x = openLocation H x)
        ∧ u ∈ H1.openUpvalues ∧ openLocation H1 u = some slot
        ∧ (∀ x ∈ H1.openUpvalues, x = u ∨ x ∈ H.openUpvalues)
        ∧ (∀ x ∈ H.openUpvalues, openLocation H x = some slot → u = x ∧ H1 = H)
        ∧ captureUpvalue H1 slot = some (u, H1))
    ∧ (∀ last, (∀ x ∈ H.openUpvalues, ∀ s, openLocation H x = some s → last ≤ s →
          s < H.stack.length) →
        ∃ H1, closeUpvalues H last = some H1 ∧ StrictlyDescending H1)
    ∧ (∀ last H1, closeUpvalues H last = some H1 → StrictlyDescending H1)
    ∧ StrictlyDescending (resetStack H)
    ∧ (∀ st, step env H = some st → StrictlyDescending st.state)
    ∧ (∀ n H1, runSteps env n H = some H1 → StrictlyDescending H1)
    ∧ (∀ fuel result H1, run env fuel H = RunResult.returned result H1 →
        StrictlyDescending H1) := by
  refine ⟨?_, ?_, ?_, fun last H1 hc => strict_closeUpvalues hc h, strict_of_nil rfl,
    fun st hc => strict_step hn hc h, fun n H1 hc => strict_runSteps hn n H H1 hc h,
    fun fuel result H1 hc => strict_run hn fuel H H1 result hc h⟩
  · obtain ⟨slots, hslots, hsorted⟩ := h
    have hmap : (H.openUpvalues.map (openLocation H)).Nodup := by
      rw [openSlots_iff.1 hslots]
      exact (nodup_of_strict hsorted).map (Option.some_injective _)
    intro x hx y hy hxy
    exact List.inj_on_of_nodup_map hmap hx hy hxy
  · intro slot
    obtain ⟨u, H1, h1, h2, h3, h4, h5, h6, h7, h8, -⟩ := captureUpvalue_spec H slot h
    refine ⟨u, H1, h1, h2, ?_, h5, h6, h7, h8, ?_⟩
    · intro x hx
      refine ⟨h4 x hx, ?_⟩
      obtain ⟨slots, hslots, -⟩ := h
      obtain ⟨s, hs, -⟩ := openSlots_mem hslots x hx
      rw [hs]
      exact h3 x s hs
    · obtain ⟨u1, H2, k1, -, -, -, -, -, -, k8, -⟩ := captureUpvalue_spec H1 slot h2
      obtain ⟨rfl, rfl⟩ := k8 u h5 h6
      exact k1
  · intro last hread
    obtain ⟨slots, hslots, hsorted⟩ := h
    obtain ⟨H1, h1, -⟩ := closeUpvaluesLoop_spec last H.openUpvalues H slots hslots
      (hsorted.imp (fun hab => Nat.le_of_lt hab))
      (openSlots_nodup hslots (nodup_of_strict hsorted))
      (fun s hs hl => by
        obtain ⟨x, hx, hxs⟩ := openSlots_mem_slots hslots s hs
        exact hread x hx s hxs hl)
    exact ⟨H1, h1, strict_closeUpvalues h1 ⟨slots, hslots, hsorted⟩⟩

/-- Claim C14 on two programs.  In the state of `returnState` (upvalues of the slots 3
and 1 are open) a capture of slot 2 returns and keeps the list strictly descending.
The script of `closureState` starts with an empty list; every state it reaches has a
strictly descending list, and after its four instructions the list is `[5, 4]` with the
slots 2 and 1, the two closures sharing the upvalues 4 and 5. -/
theorem open_upvalues_stay_strictly_descending_witness :
    NativesKeepUpvalues demoEnv ∧ StrictlyDescending closureState
    ∧ StrictlyDescending (returnState Value.nil)
    ∧ (∃ u H1, captureUpvalue (returnState Value.nil) 2 = some (u, H1)
        ∧ StrictlyDescending H1
        ∧ (∀ x ∈ (returnState Value.nil).openUpvalues,
            x ∈ H1.openUpvalues ∧ openLocation H1 x = openLocation (returnState Value.nil) x)
        ∧ u ∈ H1.openUpvalues ∧ openLocation H1 u = some 2
        ∧ (∀ x ∈ H1.openUpvalues, x = u ∨ x ∈ (returnState Value.nil).openUpvalues)
        ∧ (∀ x ∈ (returnState Value.nil).openUpvalues,
            openLocation (returnState Value.nil) x = some 2 →
              u = x ∧ H1 = returnState Value.nil)
        ∧ captureUpvalue H1 2 = some (u, H1))
    ∧ (∀ n H1, runSteps demoEnv n closureState = some H1 → StrictlyDescending H1)
    ∧ (runSteps demoEnv 4 closureState).map
        (fun H1 => (H1.openUpvalues, openSlots H1 H1.openUpvalues, H1.heap[3]?, H1.heap[6]?))
      = some ([5, 4], some [2, 1], some (Obj.closure 2 [some 4, some 5]),
          some (Obj.closure 2 [some 5, some 4]))
    ∧ (captureUpvalue (returnState Value.nil) 2).map
        (fun r => (r.1, r.2.openUpvalues, openSlots r.2 r.2.openUpvalues))
      = some (6, [4, 6, 5], some [3, 2, 1])
    ∧ (captureUpvalue (returnState Value.nil) 3).map (fun r => (r.1, r.2.openUpvalues))
      = some (4, [4, 5]) :=
  ⟨demoEnv_natives, strict_of_nil rfl, ⟨[3, 1], by decide, by decide⟩,
   (open_upvalues_stay_strictly_descending demoEnv (returnState Value.nil) demoEnv_natives
      ⟨[3, 1], by decide, by decide⟩).2.1 2,
   (open_upvalues_stay_strictly_descending demoEnv closureState demoEnv_natives
      (strict_of_nil rfl)).2.2.2.2.2.2.1,
   by decide, by decide, by decide⟩

/-! ## Concatenation -/

/-- Claim C15.  With the strings `a` (below) and `b` (on top) as operands, `BC_CONCAT`
takes both off the stack and pushes one string object whose characters are those of
`a` followed by those of `b`, of length `|a| + |b|`, and leaves the slots below the
operands as they were; when one of the two operands is not a string it raises
"Operands must be strings." and `run` returns `RUNTIME_ERR`.  Concatenation of
contents is associative. -/
theorem concat_appends_the_operands (H : hs_State) :
    (∀ (ra rb : Ref) (a b : String),
        peek H 1 = some (Value.obj ra) → peek H 0 = some (Value.obj rb) →
        H.heap[ra]? = some (Obj.string a) → H.heap[rb]? = some (Obj.string b) →
        ∃ r H1, case_BC_CONCAT H = some (Step.next H1)
          ∧ H1.stackTop + 1 = H.stackTop
          ∧ peek H1 0 = some (Value.obj r)
          ∧ H1.heap[r]? = some (Obj.string (a ++ b))
          ∧ (a ++ b).length = a.length + b.length
          ∧ (a ++ b).data = a.data ++ b.data
          ∧ (∀ i x, i + 2 < H.stackTop → H.stack[i]? = some x → H1.stack[i]? = some x))
    ∧ (∀ (v0 v1 : Value) (s0 s1 : Bool),
        peek H 0 = some v0 → peek H 1 = some v1 →
        IS_STRING H v0 = some s0 → IS_STRING H v1 = some s1 → (s0 = false ∨ s1 = false) →
        case_BC_CONCAT H
          = some (Step.ret InterpretResult.RUNTIME_ERR
              (runtimeError H "Operands must be strings.")))
    ∧ (∀ a b c : String, (a ++ b) ++ c = a ++ (b ++ c)) := by
  refine ⟨?_, ?_, ?_⟩
  · intro ra rb a b h1 h0 ha hb
    obtain ⟨t1, t2, t3⟩ := takeString_spec H (a ++ b)
    have q0 : peek (takeString H (a ++ b)).2 0 = some (Value.obj rb) := by
      rw [peek_congr t2 t3]; exact h0
    have q1 : peek (takeString H (a ++ b)).2 1 = some (Value.obj ra) := by
      rw [peek_congr t2 t3]; exact h1
    obtain ⟨hge, -⟩ := peek_one h1
    refine ⟨(takeString H (a ++ b)).1,
      push { (takeString H (a ++ b)).2 with stackTop := (takeString H (a ++ b)).2.stackTop - 2 }
        (Value.obj (takeString H (a ++ b)).1), ?_, ?_, peek_push _ _, t1, ?_, ?_, ?_⟩
    · simp only [case_BC_CONCAT, h0, h1, IS_STRING_of_string ha, IS_STRING_of_string hb,
        concatenate, asString, ha, hb, pop_of_peek q0, pop_pop_of_peek q1]
    · simp only [push, t3]
      omega
    · exact String.length_append a b
    · rfl
    · intro i x hi hx
      simp only [push, t3, t2]
      exact poke_get_of_ne _ _ _ (by omega) hx
  · intro v0 v1 s0 s1 h0 h1 hs0 hs1 hor
    cases s0 with
    | false => simp only [case_BC_CONCAT, h0, hs0]
    | true =>
      cases s1 with
      | false => simp only [case_BC_CONCAT, h0, hs0, h1, hs1]
      | true => simp at hor
  · intro a b c
    exact String.append_assoc a b c

/-- Claim C15 on `"hi" .. " "`, on `"hi" .. " " .. "there"`, which three iterations of
`run` turn into the string `"hi there"`, and on `"hi" .. 1` and `nil .. "hi"`, which
raise the error. -/
theorem concat_appends_the_operands_witness :
    (∃ r H1, case_BC_CONCAT (concatState 1) = some (Step.next H1)
        ∧ H1.stackTop + 1 = (concatState 1).stackTop
        ∧ peek H1 0 = some (Value.obj r)
        ∧ H1.heap[r]? = some (Obj.string ("hi" ++ " "))
        ∧ ("hi" ++ " ").length = "hi".length + " ".length
        ∧ ("hi" ++ " ").data = "hi".data ++ " ".data
        ∧ (∀ i x, i + 2 < (concatState 1).stackTop → (concatState 1).stack[i]? = some x →
            H1.stack[i]? = some x))
    ∧ case_BC_CONCAT (concatOperands (Value.obj 2) (Value.number (F64.ofNat 1)))
      = some (Step.ret InterpretResult.RUNTIME_ERR
          (runtimeError (concatOperands (Value.obj 2) (Value.number (F64.ofNat 1)))
            "Operands must be strings."))
    ∧ case_BC_CONCAT (concatOperands Value.nil (Value.obj 2))
      = some (Step.ret InterpretResult.RUNTIME_ERR
          (runtimeError (concatOperands Value.nil (Value.obj 2)) "Operands must be strings."))
    ∧ (match runSteps demoEnv 3 (concatState 0) with
       | some H => some (H.stackTop, (peek H 0).bind (asString H))
       | none => none) = some (2, some "hi there") :=
  ⟨(concat_appends_the_operands (concatState 1)).1 2 3 "hi" " "
      (by decide) (by decide) (by decide) (by decide),
   (concat_appends_the_operands (concatOperands (Value.obj 2) (Value.number (F64.ofNat 1)))).2.1
      (Value.number (F64.ofNat 1)) (Value.obj 2) false true
      (by decide) (by decide) (by decide) (by decide) (Or.inl rfl),
   (concat_appends_the_operands (concatOperands Value.nil (Value.obj 2))).2.1
      (Value.obj 2) Value.nil true false
      (by decide) (by decide) (by decide) (by decide) (Or.inr rfl),
   by decide⟩

/-! ## Static access -/

/-- Claim C16.  Let `name` be the operand of `BC_GET_STATIC`, `H1` the state once it
has been read and `object` the top of the stack.  On a struct the instruction replaces
`object` by the static method `name`, on an enum by the value `name`; it raises a
runtime error, and `run` returns `RUNTIME_ERR`, when the struct has no such static
method, when the enum has no such value, and when `object` is neither a struct nor an
enum.  `BC_ENUM_VALUE` with the operands `name` and `k` binds `name` to the number
`k` in the enum on top of the stack, for every byte `k`. -/
theorem getStatic_loads_static_methods_and_enum_values :
    (∀ (H H1 : hs_State) (name : Ref) (object : Value),
      READ_STRING H = some (name, H1) → peek H 0 = some object →
      (∀ (r n : Ref) (methods staticMethods defaultFields : Table) (value : Value),
          object = Value.obj r →
          H1.heap[r]? = some (Obj.strooct n methods staticMethods defaultFields) →
          tableGet staticMethods name = some value →
          case_BC_GET_STATIC H
            = some (Step.next (push { H1 with stackTop := H1.stackTop - 1 } value)))
      ∧ (∀ (r n : Ref) (values : Table) (value : Value),
          object = Value.obj r → H1.heap[r]? = some (Obj.enoom n values) →
          tableGet values name = some value →
          case_BC_GET_STATIC H
            = some (Step.next (push { H1 with stackTop := H1.stackTop - 1 } value)))
      ∧ (∀ (r n : Ref) (methods staticMethods defaultFields : Table),
          object = Value.obj r →
          H1.heap[r]? = some (Obj.strooct n methods staticMethods defaultFields) →
          tableGet staticMethods name = none →
          case_BC_GET_STATIC H
            = some (Step.ret InterpretResult.RUNTIME_ERR
                (runtimeError H1
                  ("Static method \x27" ++ stringChars H1 name ++ "\x27 does not exist."))))
      ∧ (∀ (r n : Ref) (values : Table),
          object = Value.obj r → H1.heap[r]? = some (Obj.enoom n values) →
          tableGet values name = none →
          case_BC_GET_STATIC H
            = some (Step.ret InterpretResult.RUNTIME_ERR
                (runtimeError H1
                  ("Enum value \x27" ++ stringChars H1 name ++ "\x27 does not exist."))))
      ∧ ((∀ r, object = Value.obj r →
            ∃ o, H1.heap[r]? = some o ∧ isStructOrEnum o = false) →
          case_BC_GET_STATIC H
            = some (Step.ret InterpretResult.RUNTIME_ERR
                (runtimeError H1 "Invalid target for the static operator."))))
    ∧ (∀ (H Ha Hb : hs_State) (enoom name n : Ref) (k : Nat) (values : Table),
        peek H 0 = some (Value.obj enoom) → READ_STRING H = some (name, Ha) →
        READ_BYTE Ha = some (k, Hb) → H.heap[enoom]? = some (Obj.enoom n values) →
        ∃ H1 values1,
          case_BC_ENUM_VALUE H = some (Step.next H1)
          ∧ H1.heap[enoom]? = some (Obj.enoom n values1)
          ∧ tableGet values1 name = some (Value.number (F64.ofNat k))
          ∧ H1.stack = H.stack ∧ H1.stackTop = H.stackTop)
    ∧ (∀ k : Nat, k < 256 → F64.toInt? (F64.ofNat k) = some (k : Int)) := by
  refine ⟨?_, ?_, ?_⟩
  · intro H H1 name object hname hobj
    obtain ⟨hs, ht, -, -, -⟩ := READ_STRING_same hname
    have hobj1 : peek H1 0 = some object := by rw [peek_congr hs ht]; exact hobj
    refine ⟨?_, ?_, ?_, ?_, ?_⟩
    · intro r n methods staticMethods defaultFields value ho hr hget
      subst ho
      simp only [case_BC_GET_STATIC, hobj, hname, getStatic, hr, hget, pop_of_peek hobj1]
    · intro r n values value ho hr hget
      subst ho
      simp only [case_BC_GET_STATIC, hobj, hname, getStatic, hr, hget, pop_of_peek hobj1]
    · intro r n methods staticMethods defaultFields ho hr hget
      subst ho
      simp only [case_BC_GET_STATIC, hobj, hname, getStatic, hr, hget]
    · intro r n values ho hr hget
      subst ho
      simp only [case_BC_GET_STATIC, hobj, hname, getStatic, hr, hget]
    · intro hother
      cases object with
      | obj r =>
        obtain ⟨o, ho, hk⟩ := hother r rfl
        cases o <;> simp_all [case_BC_GET_STATIC, getStatic, isStructOrEnum]
      | nil => simp only [case_BC_GET_STATIC, hobj, hname, getStatic]
      | bool b => simp only [case_BC_GET_STATIC, hobj, hname, getStatic]
      | number x => simp only [case_BC_GET_STATIC, hobj, hname, getStatic]
  · intro H Ha Hb enoom name n k values hpeek hname hbyte hheap
    obtain ⟨a1, a2, a3, -, -⟩ := READ_STRING_same hname
    obtain ⟨b1, b2, b3, -, -⟩ := READ_BYTE_same hbyte
    have hheapb : Hb.heap[enoom]? = some (Obj.enoom n values) := by
      rw [b3, a3]; exact hheap
    refine ⟨_, _, ?_, heap_store_self hheapb, tableGet_tableSet values name _, ?_, ?_⟩
    · simp only [case_BC_ENUM_VALUE, hpeek, hname, hbyte, hheapb]
    · exact b1.trans a1
    · exact b2.trans a2
  · exact ofNat_byte

/-- Claim C16 on a struct with and without the static method, an enum with and without
the value, a number as receiver, and on the script
`enum Color { Red, Green, Blue } Color::Green;`, whose value is the number 1. -/
theorem getStatic_loads_static_methods_and_enum_values_witness :
    case_BC_GET_STATIC (staticState 1 (Value.obj 3))
      = some (Step.next
          (push { staticState 2 (Value.obj 3) with
                  stackTop := (staticState 2 (Value.obj 3)).stackTop - 1 } (Value.obj 5)))
    ∧ case_BC_GET_STATIC (staticState 1 (Value.obj 6))
      = some (Step.next
          (push { staticState 2 (Value.obj 6) with
                  stackTop := (staticState 2 (Value.obj 6)).stackTop - 1 }
            (Value.number (F64.ofNat 1))))
    ∧ case_BC_GET_STATIC (staticState 1 (Value.obj 7))
      = some (Step.ret InterpretResult.RUNTIME_ERR
          (runtimeError (staticState 2 (Value.obj 7))
            ("Static method \x27" ++ stringChars (staticState 2 (Value.obj 7)) 2
              ++ "\x27 does not exist.")))
    ∧ case_BC_GET_STATIC (staticState 1 (Value.obj 8))
      = some (Step.ret InterpretResult.RUNTIME_ERR
          (runtimeError (staticState 2 (Value.obj 8))
            ("Enum value \x27" ++ stringChars (staticState 2 (Value.obj 8)) 2
              ++ "\x27 does not exist.")))
    ∧ case_BC_GET_STATIC (staticState 1 (Value.number (F64.ofNat 3)))
      = some (Step.ret InterpretResult.RUNTIME_ERR
          (runtimeError (staticState 2 (Value.number (F64.ofNat 3)))
            "Invalid target for the static operator."))
    ∧ (∃ H1 values1,
        case_BC_ENUM_VALUE (enumState 6 true) = some (Step.next H1)
        ∧ H1.heap[6]? = some (Obj.enoom 2 values1)
        ∧ tableGet values1 4 = some (Value.number (F64.ofNat 1))
        ∧ H1.stack = (enumState 6 true).stack ∧ H1.stackTop = (enumState 6 true).stackTop)
    ∧ F64.toInt? (F64.ofNat 1) = some ((1 : Nat) : Int)
    ∧ (match runSteps demoEnv 5 (enumState 0 false) with
       | some H => some (H.stackTop, peek H 0)
       | none => none) = some (2, some (Value.number (F64.ofNat 1))) :=
  ⟨(getStatic_loads_static_methods_and_enum_values.1 (staticState 1 (Value.obj 3))
      (staticState 2 (Value.obj 3)) 2 (Value.obj 3) (by decide) (by decide)).1
      3 2 [] [(2, Value.obj 5)] [] (Value.obj 5) rfl (by decide) (by decide),
   (getStatic_loads_static_methods_and_enum_values.1 (staticState 1 (Value.obj 6))
      (staticState 2 (Value.obj 6)) 2 (Value.obj 6) (by decide) (by decide)).2.1
      6 2 [(2, Value.number (F64.ofNat 1))] (Value.number (F64.ofNat 1)) rfl
      (by decide) (by decide),
   (getStatic_loads_static_methods_and_enum_values.1 (staticState 1 (Value.obj 7))
      (staticState 2 (Value.obj 7)) 2 (Value.obj 7) (by decide) (by decide)).2.2.1
      7 2 [] [] [] rfl (by decide) (by decide),
   (getStatic_loads_static_methods_and_enum_values.1 (staticState 1 (Value.obj 8))
      (staticState 2 (Value.obj 8)) 2 (Value.obj 8) (by decide) (by decide)).2.2.2.1
      8 2 [] rfl (by decide) (by decide),
   (getStatic_loads_static_methods_and_enum_values.1
      (staticState 1 (Value.number (F64.ofNat 3)))
      (staticState 2 (Value.number (F64.ofNat 3))) 2 (Value.number (F64.ofNat 3))
      (by decide) (by decide)).2.2.2.2 (fun r hr => by cases hr),
   getStatic_loads_static_methods_and_enum_values.2.1 (enumState 6 true) (enumState 7 true)
      (enumState 8 true) 6 4 2 1 [] (by decide) (by decide) (by decide) (by decide),
   getStatic_loads_static_methods_and_enum_values.2.2 1 (by decide),
   by decide⟩

/-! ## Truthiness -/

/-- Claim C17.  `isFalsey(v)` holds exactly for nil and the boolean false, so every
number and every object, the string included, is truthy; `BC_NOT` replaces the top of
the stack `v` by the boolean `isFalsey(v)`; `BC_JUMP_IF_FALSE`, once its 16-bit operand
`offset` has been read and `ip` points behind it, sets `ip` to `ip + offset` when the
top of the stack is falsey and leaves it otherwise, and in both cases the stack memory
and `stackTop` are those before the instruction. -/
theorem isFalsey_only_nil_and_false :
    (∀ v : Value, isFalsey v = true ↔ (v = Value.nil ∨ v = Value.bool false))
    ∧ (∀ n : F64, isFalsey (Value.number n) = false)
    ∧ (∀ r : Ref, isFalsey (Value.obj r) = false)
    ∧ (∀ (H : hs_State) (v : Value), peek H 0 = some v →
        case_BC_NOT H
          = some (Step.next
              (push { H with stackTop := H.stackTop - 1 } (Value.bool (isFalsey v)))))
    ∧ (∀ (H H1 : hs_State) (offset : Nat) (v : Value),
        READ_SHORT H = some (offset, H1) → peek H 0 = some v →
        ∃ frame ip H2,
          H1.frames.getLast? = some frame ∧ frame.ip = some ip
          ∧ case_BC_JUMP_IF_FALSE H = some (Step.next H2)
          ∧ H2 = (if isFalsey v then setIp H1 frame (ip + offset) else H1)
          ∧ H2.stack = H.stack ∧ H2.stackTop = H.stackTop) := by
  refine ⟨?_, fun _ => rfl, fun _ => rfl, ?_, ?_⟩
  · intro v
    cases v with
    | nil => simp [isFalsey]
    | bool b => cases b <;> simp [isFalsey]
    | number n => simp [isFalsey]
    | obj r => simp [isFalsey]
  · intro H v hv
    simp only [case_BC_NOT, pop_of_peek hv]
  · intro H H1 offset v hread hv
    obtain ⟨frame, ip, hframe, hip⟩ := READ_SHORT_frame hread
    obtain ⟨hs, ht, -, -, -⟩ := READ_SHORT_same hread
    have hv1 : peek H1 0 = some v := by rw [peek_congr hs ht]; exact hv
    refine ⟨frame, ip, _, hframe, hip, ?_, rfl, ?_, ?_⟩
    · simp only [case_BC_JUMP_IF_FALSE, hread, hv1, jumpForward, hframe, hip]
      split <;> rfl
    · split
      · exact hs
      · exact hs
    · split
      · exact ht
      · exact ht

/-- Claim C17 on the values nil, false, 0 and the empty string. -/
theorem isFalsey_only_nil_and_false_witness :
    ((isFalsey Value.nil, isFalsey (Value.bool false), isFalsey (Value.number (F64.ofNat 0)),
        isFalsey (Value.obj 2)) = (true, true, false, false))
    ∧ case_BC_NOT (truthState 1 (Value.number (F64.ofNat 0)))
      = some (Step.next
          (push { truthState 1 (Value.number (F64.ofNat 0)) with
                  stackTop := (truthState 1 (Value.number (F64.ofNat 0))).stackTop - 1 }
            (Value.bool (isFalsey (Value.number (F64.ofNat 0))))))
    ∧ (∃ frame ip H2,
        (truthState 4 Value.nil).frames.getLast? = some frame ∧ frame.ip = some ip
        ∧ case_BC_JUMP_IF_FALSE (truthState 2 Value.nil) = some (Step.next H2)
        ∧ H2 = (if isFalsey Value.nil then setIp (truthState 4 Value.nil) frame (ip + 5)
                else truthState 4 Value.nil)
        ∧ H2.stack = (truthState 2 Value.nil).stack
        ∧ H2.stackTop = (truthState 2 Value.nil).stackTop)
    ∧ (match step demoEnv (truthState 1 Value.nil), step demoEnv (truthState 1 (Value.obj 2)) with
       | some (Step.next Ha), some (Step.next Hb) =>
         some (Ha.frames.map (fun f => f.ip), Hb.frames.map (fun f => f.ip))
       | _, _ => none) = some ([some 9], [some 4]) :=
  ⟨by decide,
   isFalsey_only_nil_and_false.2.2.2.1 (truthState 1 (Value.number (F64.ofNat 0)))
     (Value.number (F64.ofNat 0)) (by decide),
   isFalsey_only_nil_and_false.2.2.2.2 (truthState 2 Value.nil) (truthState 4 Value.nil) 5
     Value.nil (by decide) (by decide),
   by decide⟩

/-! ## Keywords -/

theorem checkKeyword_eq {tokenizer : Tokenizer} {start length : Nat} {rest : String}
    {type result : TokenType} (h : tokenizer.checkKeyword start length rest type = result)
    (hne : result ≠ TokenType.TOKEN_IDENTIFIER) :
    type = result ∧ tokenizer.end_ - tokenizer.start = start + length := by
  unfold Tokenizer.checkKeyword at h
  split at h
  · rename_i hc
    exact ⟨h, hc.1⟩
  · exact absurd h.symm hne

/-- The type `TOKEN_FOR` is returned for lexemes of length four only. -/
theorem identifierType_for (tokenizer : Tokenizer)
    (h : tokenizer.identifierType = TokenType.TOKEN_FOR) :
    tokenizer.end_ - tokenizer.start = 4 := by
  unfold Tokenizer.identifierType at h
  dsimp only at h
  by_cases h1 : charAt tokenizer.source tokenizer.start = 'g'
  · rw [if_pos h1] at h
    exact absurd (checkKeyword_eq h (by decide)).1 (by decide)
  rw [if_neg h1] at h
  by_cases h2 : charAt tokenizer.source tokenizer.start = 'v'
  · rw [if_pos h2] at h
    exact absurd (checkKeyword_eq h (by decide)).1 (by decide)
  rw [if_neg h2] at h
  by_cases h3 : charAt tokenizer.source tokenizer.start = 'b'
  · rw [if_pos h3] at h
    exact absurd (checkKeyword_eq h (by decide)).1 (by decide)
  rw [if_neg h3] at h
  by_cases h4 : charAt tokenizer.source tokenizer.start = 'c'
  · rw [if_pos h4] at h
    by_cases h5 : tokenizer.end_ - tokenizer.start > 1
    · rw [if_pos h5] at h
      by_cases h6 : charAt tokenizer.source (tokenizer.start + 1) = 'a'
      · rw [if_pos h6] at h
        exact absurd (checkKeyword_eq h (by decide)).1 (by decide)
      rw [if_neg h6] at h
      by_cases h7 : charAt tokenizer.source (tokenizer.start + 1) = 'o'
      · rw [if_pos h7] at h
        exact absurd (checkKeyword_eq h (by decide)).1 (by decide)
      rw [if_neg h7] at h
      cases h
    · rw [if_neg h5] at h
      cases h
  rw [if_neg h4] at h
  by_cases h8 : charAt tokenizer.source tokenizer.start = 'w'
  · rw [if_pos h8] at h
    exact absurd (checkKeyword_eq h (by decide)).1 (by decide)
  rw [if_neg h8] at h
  by_cases h9 : charAt tokenizer.source tokenizer.start = 'f'
  · rw [if_pos h9] at h
    by_cases h10 : tokenizer.end_ - tokenizer.start > 1
    · rw [if_pos h10] at h
      by_cases h11 : charAt tokenizer.source (tokenizer.start + 1) = 'a'
      · rw [if_pos h11] at h
        exact absurd (checkKeyword_eq h (by decide)).1 (by decide)
      rw [if_neg h11] at h
      by_cases h12 : charAt tokenizer.source (tokenizer.start + 1) = 'o'
      · rw [if_pos h12] at h
        exact (checkKeyword_eq h (by decide)).2
      rw [if_neg h12] at h
      by_cases h13 : charAt tokenizer.source (tokenizer.start + 1) = 'u'
      · rw [if_pos h13] at h
        exact absurd (checkKeyword_eq h (by decide)).1 (by decide)
      rw [if_neg h13] at h
      cases h
    · rw [if_neg h10] at h
      cases h
  rw [if_neg h9] at h
  by_cases h14 : charAt tokenizer.source tokenizer.start = 'l'
  · rw [if_pos h14] at h
    exact absurd (checkKeyword_eq h (by decide)).1 (by decide)
  rw [if_neg h14] at h
  by_cases h15 : charAt tokenizer.source tokenizer.start = 'i'
  · rw [if_pos h15] at h
    exact absurd (checkKeyword_eq h (by decide)).1 (by decide)
  rw [if_neg h15] at h
  by_cases h16 : charAt tokenizer.source tokenizer.start = 'e'
  · rw [if_pos h16] at h
    by_cases h17 : tokenizer.end_ - tokenizer.start > 1
    · rw [if_pos h17] at h
      by_cases h18 : charAt tokenizer.source (tokenizer.start + 1) = 'l'
      · rw [if_pos h18] at h
        exact absurd (checkKeyword_eq h (by decide)).1 (by decide)
      rw [if_neg h18] at h
      by_cases h19 : charAt tokenizer.source (tokenizer.start + 1) = 'n'
      · rw [if_pos h19] at h
        exact absurd (checkKeyword_eq h (by decide)).1 (by decide)
      rw [if_neg h19] at h
      cases h
    · rw [if_neg h17] at h
      cases h
  rw [if_neg h16] at h
  by_cases h20 : charAt tokenizer.source tokenizer.start = 'm'
  · rw [if_pos h20] at h
    exact absurd (checkKeyword_eq h (by decide)).1 (by decide)
  rw [if_neg h20] at h
  by_cases h21 : charAt tokenizer.source tokenizer.start = 's'
  · rw [if_pos h21] at h
    by_cases h22 : tokenizer.end_ - tokenizer.start > 1
    · rw [if_pos h22] at h
      by_cases h23 : charAt tokenizer.source (tokenizer.start + 1) = 't'
      · rw [if_pos h23] at h
        by_cases h24 : tokenizer.end_ - tokenizer.start > 1
        · rw [if_pos h24] at h
          by_cases h25 : charAt tokenizer.source (tokenizer.start + 2) = 'a'
          · rw [if_pos h25] at h
            exact absurd (checkKeyword_eq h (by decide)).1 (by decide)
          rw [if_neg h25] at h
          by_cases h26 : charAt tokenizer.source (tokenizer.start + 2) = 'r'
          · rw [if_pos h26] at h
            exact absurd (checkKeyword_eq h (by decide)).1 (by decide)
          rw [if_neg h26] at h
          cases h
        · rw [if_neg h24] at h
          cases h
      rw [if_neg h23] at h
      by_cases h27 : charAt tokenizer.source (tokenizer.start + 1) = 'e'
      · rw [if_pos h27] at h
        exact absurd (checkKeyword_eq h (by decide)).1 (by decide)
      rw [if_neg h27] at h
      cases h
    · rw [if_neg h22] at h
      cases h
  rw [if_neg h21] at h
  by_cases h28 : charAt tokenizer.source tokenizer.start = 't'
  · rw [if_pos h28] at h
    exact absurd (checkKeyword_eq h (by decide)).1 (by decide)
  rw [if_neg h28] at h
  by_cases h29 : charAt tokenizer.source tokenizer.start = 'n'
  · rw [if_pos h29] at h
    exact absurd (checkKeyword_eq h (by decide)).1 (by decide)
  rw [if_neg h29] at h
  by_cases h30 : charAt tokenizer.source tokenizer.start = 'r'
  · rw [if_pos h30] at h
    exact absurd (checkKeyword_eq h (by decide)).1 (by decide)
  rw [if_neg h30] at h
  cases h

/-- Claim C18.  The lexeme `for` is scanned as an identifier, not as the keyword: the
`o` branch of `identifierType` calls `checkKeyword(tokenizer, 2, 2, "or", TOKEN_FOR)`,
which asks for a lexeme of length four whose last two characters are `or`, so that
`TOKEN_FOR` is returned for `foor`, and for no lexeme of another length.  The other
nineteen keywords get their own token type, and `st`, `sel`, `selfish`, `cas` and `fo`
are identifiers. -/
theorem identifierType_misses_keyword_for :
    tokens 2 (initTokenizer "for".toList)
      = [(TokenType.TOKEN_IDENTIFIER, "for"), (TokenType.TOKEN_EOF, "")]
    ∧ tokens 2 (initTokenizer "foor".toList)
      = [(TokenType.TOKEN_FOR, "foor"), (TokenType.TOKEN_EOF, "")]
    ∧ tokens 4 (initTokenizer "for i in".toList)
      = [(TokenType.TOKEN_IDENTIFIER, "for"), (TokenType.TOKEN_IDENTIFIER, "i"),
         (TokenType.TOKEN_IDENTIFIER, "in"), (TokenType.TOKEN_EOF, "")]
    ∧ (∀ tokenizer : Tokenizer, tokenizer.identifierType = TokenType.TOKEN_FOR →
        tokenizer.end_ - tokenizer.start = 4)
    ∧ (tokens 20 (initTokenizer
        ("global var break case continue while false func loop if else enum match " ++
         "static struct self true nil return").toList)).map Prod.fst
      = [TokenType.TOKEN_GLOBAL, TokenType.TOKEN_VAR, TokenType.TOKEN_BREAK,
         TokenType.TOKEN_CASE, TokenType.TOKEN_CONTINUE, TokenType.TOKEN_WHILE,
         TokenType.TOKEN_FALSE, TokenType.TOKEN_FUNC, TokenType.TOKEN_LOOP,
         TokenType.TOKEN_IF, TokenType.TOKEN_ELSE, TokenType.TOKEN_ENUM,
         TokenType.TOKEN_MATCH, TokenType.TOKEN_STATIC, TokenType.TOKEN_STRUCT,
         TokenType.TOKEN_SELF, TokenType.TOKEN_TRUE, TokenType.TOKEN_NIL,
         TokenType.TOKEN_RETURN, TokenType.TOKEN_EOF]
    ∧ tokens 6 (initTokenizer "st sel selfish cas fo".toList)
      = [(TokenType.TOKEN_IDENTIFIER, "st"), (TokenType.TOKEN_IDENTIFIER, "sel"),
         (TokenType.TOKEN_IDENTIFIER, "selfish"), (TokenType.TOKEN_IDENTIFIER, "cas"),
         (TokenType.TOKEN_IDENTIFIER, "fo"), (TokenType.TOKEN_EOF, "")] := by
  exact ⟨by decide, by decide, by decide, identifierType_for, by decide, by decide⟩

/-! ## Lemmas on the tokenizer -/

theorem charAt_of_drop {source : List Char} {pos : Nat} {c : Char} {rest : List Char}
    (h : source.drop pos = c :: rest) : charAt source pos = c := by
  have hlt : pos < source.length := by
    by_contra hge
    rw [List.drop_eq_nil_of_le (not_lt.1 hge)] at h
    cases h
  unfold charAt
  rw [List.getD_eq_getElem _ _ hlt]
  have := List.drop_eq_getElem_cons hlt
  rw [this] at h
  exact (List.cons.inj h).1

theorem drop_succ_of_drop {source : List Char} {pos : Nat} {c : Char} {rest : List Char}
    (h : source.drop pos = c :: rest) : source.drop (pos + 1) = rest := by
  rw [← List.drop_drop, h]
  rfl

theorem charAt_of_drop_nil {source : List Char} {pos : Nat} (h : source.drop pos = []) :
    charAt source pos = Char.ofNat 0 := by
  unfold charAt
  rw [List.getD_eq_default]
  exact List.drop_eq_nil_iff.1 h

theorem length_of_drop {source : List Char} {pos : Nat} {l : List Char}
    (h : source.drop pos = l) : l.length + pos ≤ source.length ∨ l = [] := by
  subst h
  by_cases hle : pos ≤ source.length
  · left
    rw [List.length_drop]
    omega
  · right
    exact List.drop_eq_nil_of_le (by omega)

theorem isDigit_ne {d c : Char} (hd : isDigit d = true) (hc : isDigit c = false) : d ≠ c := by
  rintro rfl
  rw [hd] at hc
  cases hc

theorem isDigit_bounds {d : Char} (hd : isDigit d = true) : '0' ≤ d ∧ d ≤ '9' := by
  simpa [isDigit] using hd

theorem isAlpha_of_isDigit {d : Char} (hd : isDigit d = true) : isAlpha d = false := by
  obtain ⟨h0, h9⟩ := isDigit_bounds hd
  have ha : ¬ 'a' ≤ d := fun h => absurd (le_trans h h9) (by decide)
  have hA : ¬ 'A' ≤ d := fun h => absurd (le_trans h h9) (by decide)
  have hu : d ≠ '_' := by
    rintro rfl
    exact absurd h9 (by decide)
  simp [isAlpha, ha, hA, hu]

theorem skipWhitespace_of_digit {tokenizer : Tokenizer} (hd : isDigit tokenizer.peek = true) :
    tokenizer.skipWhitespace = some tokenizer := by
  unfold Tokenizer.skipWhitespace Tokenizer.skipWhitespaceLoop
  simp only
  rw [if_neg (isDigit_ne hd (by decide)), if_neg, if_neg (isDigit_ne hd (by decide))]
  rintro (h | h | h)
  · exact isDigit_ne hd (by decide) h
  · exact isDigit_ne hd (by decide) h
  · exact isDigit_ne hd (by decide) h

theorem digitLoop_spec (source : List Char) (start line : Nat) (rest : List Char)
    (hrest : ∀ c, rest.head? = some c → isDigit c = false) :
    ∀ (ds : List Char) (pos fuel : Nat), (∀ c ∈ ds, isDigit c = true) →
    source.drop pos = ds ++ rest → ds.length + 1 ≤ fuel →
    Tokenizer.digitLoop fuel { source := source, start := start, end_ := pos, line := line }
      = some { source := source, start := start, end_ := pos + ds.length, line := line } := by
  intro ds
  induction ds with
  | nil =>
    intro pos fuel _ hdrop hfuel
    obtain ⟨fuel, rfl⟩ : ∃ k, fuel = k + 1 := ⟨fuel - 1, by simp at hfuel; omega⟩
    have hpeek : isDigit (charAt source pos) = false := by
      cases rest with
      | nil =>
        rw [charAt_of_drop_nil hdrop]
        decide
      | cons c r =>
        rw [charAt_of_drop hdrop]
        exact hrest c rfl
    simp [Tokenizer.digitLoop, Tokenizer.peek, hpeek]
  | cons d ds ih =>
    intro pos fuel hds hdrop hfuel
    obtain ⟨fuel, rfl⟩ : ∃ k, fuel = k + 1 := ⟨fuel - 1, by simp at hfuel; omega⟩
    have hpeek : isDigit (charAt source pos) = true := by
      rw [charAt_of_drop hdrop]
      exact hds d (List.mem_cons_self _ _)
    have := ih (pos + 1) fuel (fun c hc => hds c (List.mem_cons_of_mem _ hc))
      (drop_succ_of_drop hdrop) (by simp at hfuel; omega)
    simp only [Tokenizer.digitLoop, Tokenizer.peek, hpeek, if_true, Tokenizer.advance]
    rw [this]
    simp only [List.length_cons]
    congr 2
    omega

/-! ## String literals -/

theorem escapeCode_eq (c : Char) : Tokenizer.escapeCode c = escapeByte c := by
  unfold Tokenizer.escapeCode escapeByte
  by_cases h1 : c = 'n'
  · subst h1; rfl
  by_cases h2 : c = 't'
  · subst h2; rfl
  by_cases h3 : c = 'r'
  · subst h3; rfl
  by_cases h4 : c = 'a'
  · subst h4; rfl
  by_cases h5 : c = '\x22'
  · subst h5; rfl
  by_cases h6 : c = '\x27'
  · subst h6; rfl
  by_cases h7 : c = '\x5c'
  · subst h7; rfl
  simp only [List.lookup, beq_false_of_ne h1, beq_false_of_ne h2, beq_false_of_ne h3,
    beq_false_of_ne h4, beq_false_of_ne h5, beq_false_of_ne h6, beq_false_of_ne h7, h1, h2,
    h3, h4, h5, h6, h7, if_false, false_or]

theorem nextToken_of_quote {tokenizer : Tokenizer} {q : Char}
    (hq : q = '\x22' ∨ q = '\x27') (hp : tokenizer.peek = q) :
    tokenizer.nextToken
      = Tokenizer.string
          { tokenizer with start := tokenizer.end_, end_ := tokenizer.end_ + 1 } q := by
  have hskip : tokenizer.skipWhitespace = some tokenizer := by
    unfold Tokenizer.skipWhitespace Tokenizer.skipWhitespaceLoop
    rcases hq with rfl | rfl <;> simp [hp]
  have hadv : (Tokenizer.advance { tokenizer with start := tokenizer.end_ }).2 = q := hp
  have hend : Tokenizer.isAtEnd { tokenizer with start := tokenizer.end_ } = false := by
    have : charAt tokenizer.source tokenizer.end_ = q := hp
    simp only [Tokenizer.isAtEnd, this]
    rcases hq with rfl | rfl <;> decide
  unfold Tokenizer.nextToken
  rw [hskip]
  simp only [hend, hadv, Bool.false_eq_true, if_false]
  rcases hq with rfl | rfl <;> simp [Tokenizer.advance, isAlpha, isDigit]

theorem literalText_length (items : List StringItem) :
    items.length ≤ (literalText items).length := by
  induction items with
  | nil => simp [literalText]
  | cons item items ih =>
    cases item <;> simp [literalText, StringItem.text] <;> omega

theorem stringLoop_items (source : List Char) (start line : Nat) (q : Char)
    (hq : q = '\x22' ∨ q = '\x27') (rest : List Char) :
    ∀ (items : List StringItem) (pos fuel : Nat) (chars : List Char),
    (∀ item ∈ items, item.ok q = true) →
    source.drop pos = literalText items ++ rest →
    Tokenizer.stringLoop q (fuel + items.length)
        { source := source, start := start, end_ := pos, line := line } chars
      = Tokenizer.stringLoop q fuel
          { source := source, start := start, end_ := pos + (literalText items).length,
            line := line }
          (chars ++ literalValue items) := by
  have hq5c : ('\x5c' : Char) ≠ q := by rcases hq with rfl | rfl <;> decide
  intro items
  induction items with
  | nil =>
    intro pos fuel chars _ _
    simp [literalText, literalValue]
  | cons item items ih =>
    intro pos fuel chars hok hdrop
    have hitems : ∀ i ∈ items, i.ok q = true := fun i hi => hok i (List.mem_cons_of_mem _ hi)
    have hitem := hok item (List.mem_cons_self _ _)
    rw [show fuel + (item :: items).length = (fuel + items.length) + 1 by
      simp only [List.length_cons]; omega]
    cases item with
    | plain c =>
      simp only [StringItem.ok, Bool.and_eq_true, decide_eq_true_eq] at hitem
      obtain ⟨⟨⟨hcq, hc5c⟩, hcn⟩, hc0⟩ := hitem
      have hdrop1 : source.drop pos = c :: (literalText items ++ rest) := hdrop
      have hpeek : charAt source pos = c := charAt_of_drop hdrop1
      have hend : (c == Char.ofNat 0) = false := beq_false_of_ne hc0
      have := ih (pos + 1) fuel (chars ++ [c]) hitems (drop_succ_of_drop hdrop1)
      have e : pos + 1 + (literalText items).length
          = pos + ((literalText items).length + 1) := by omega
      simp only [Tokenizer.stringLoop, Tokenizer.peek, Tokenizer.isAtEnd, Tokenizer.advance,
        hpeek, ne_eq, hcq, not_false_eq_true, if_true, hend, hcn, decide_False,
        Bool.or_self, Bool.false_eq_true, if_false, hc5c]
      rw [this, e]
      simp only [literalText, literalValue, StringItem.text, StringItem.byte, Option.toList,
        List.length_append, List.length_cons, List.length_nil, List.append_assoc,
        List.singleton_append, Nat.zero_add]
    | escape code =>
      simp only [StringItem.ok, Option.isSome_iff_exists] at hitem
      obtain ⟨b, hb⟩ := hitem
      have hdrop1 : source.drop pos = '\x5c' :: code :: (literalText items ++ rest) := hdrop
      have hpeek : charAt source pos = '\x5c' := charAt_of_drop hdrop1
      have hpeek1 : charAt source (pos + 1) = code :=
        charAt_of_drop (drop_succ_of_drop hdrop1)
      have := ih (pos + 1 + 1) fuel (chars ++ [b]) hitems
        (drop_succ_of_drop (drop_succ_of_drop hdrop1))
      have e : pos + 1 + 1 + (literalText items).length
          = pos + ((literalText items).length + 1 + 1) := by omega
      simp only [Tokenizer.stringLoop, Tokenizer.peek, Tokenizer.isAtEnd, Tokenizer.advance,
        hpeek, hpeek1, ne_eq, hq5c, not_false_eq_true, if_true, escapeCode_eq, hb]
      rw [if_neg (by decide)]
      rw [this, e]
      simp only [literalText, literalValue, StringItem.text, StringItem.byte, hb,
        Option.toList, List.length_append, List.length_cons, List.length_nil,
        List.append_assoc, List.singleton_append, Nat.zero_add]
      exact congrArg (fun n => Tokenizer.stringLoop q fuel
        { source := source, start := start, end_ := pos + n, line := line } _) (by omega)

theorem stringLoop_body (source : List Char) (start line pos : Nat) (q : Char)
    (hq : q = '\x22' ∨ q = '\x27') (items : List StringItem) (rest : List Char)
    (hok : ∀ item ∈ items, item.ok q = true)
    (hdrop : source.drop pos = q :: (literalText items ++ rest)) :
    Tokenizer.stringLoop q (source.length + 1)
        { source := source, start := start, end_ := pos + 1, line := line } []
      = Tokenizer.stringLoop q (source.length - items.length + 1)
          { source := source, start := start, end_ := pos + 1 + (literalText items).length,
            line := line }
          (literalValue items) := by
  have hlen := congrArg List.length hdrop
  simp only [List.length_drop, List.length_cons, List.length_append] at hlen
  have hitems := literalText_length items
  have h := stringLoop_items source start line q hq rest items (pos + 1)
    (source.length - items.length + 1) [] hok (drop_succ_of_drop hdrop)
  rw [show source.length - items.length + 1 + items.length = source.length + 1 by omega] at h
  rw [h]
  rfl

theorem literal_split (q : Char) : ∀ (n : Nat) (l : List Char), l.length ≤ n →
    ∃ items rest, l = literalText items ++ rest ∧ (∀ item ∈ items, item.ok q = true)
      ∧ ((∃ r, rest = q :: r)
        ∨ (rest = [] ∨ ∃ c r, rest = c :: r ∧ (c = '\n' ∨ c = Char.ofNat 0))
        ∨ (∃ r, rest = '\x5c' :: r ∧ ∀ code, r.head? = some code → escapeByte code = none)) := by
  intro n
  induction n using Nat.strong_induction_on with
  | _ n ih =>
    intro l hl
    cases l with
    | nil => exact ⟨[], [], rfl, by simp, Or.inr (Or.inl (Or.inl rfl))⟩
    | cons c l1 =>
      simp only [List.length_cons] at hl
      by_cases hcq : c = q
      · exact ⟨[], c :: l1, rfl, by simp, Or.inl ⟨l1, by rw [hcq]⟩⟩
      by_cases hcn : c = '\n' ∨ c = Char.ofNat 0
      · exact ⟨[], c :: l1, rfl, by simp, Or.inr (Or.inl (Or.inr ⟨c, l1, rfl, hcn⟩))⟩
      by_cases hc5c : c = '\x5c'
      · subst hc5c
        cases l1 with
        | nil =>
          exact ⟨[], ['\x5c'], rfl, by simp, Or.inr (Or.inr ⟨[], rfl, by simp⟩)⟩
        | cons code l2 =>
          simp only [List.length_cons] at hl
          cases hb : escapeByte code with
          | none =>
            refine ⟨[], '\x5c' :: code :: l2, rfl, by simp,
              Or.inr (Or.inr ⟨code :: l2, rfl, ?_⟩)⟩
            intro code1 h1
            simp only [List.head?_cons, Option.some.injEq] at h1
            rw [← h1]
            exact hb
          | some b =>
            obtain ⟨items, rest, h1, h2, h3⟩ := ih (n - 2) (by omega) l2 (by omega)
            refine ⟨StringItem.escape code :: items, rest, ?_, ?_, h3⟩
            · rw [h1]
              rfl
            · intro item hitem
              rcases List.mem_cons.1 hitem with rfl | hitem
              · simp [StringItem.ok, hb]
              · exact h2 item hitem
      · obtain ⟨items, rest, h1, h2, h3⟩ := ih (n - 1) (by omega) l1 (by omega)
        refine ⟨StringItem.plain c :: items, rest, ?_, ?_, h3⟩
        · rw [h1]
          rfl
        · intro item hitem
          rcases List.mem_cons.1 hitem with rfl | hitem
          · rw [not_or] at hcn
            simp [StringItem.ok, hcq, hc5c, hcn.1, hcn.2]
          · exact h2 item hitem

/-- Claim C19.  Let the source hold at the position `pos` the quote `q`, then the text
of the items `items` (characters other than `q`, the backslash, the newline and NUL, and
supported escapes) and then `rest`.  If `rest` begins with `q`, `nextToken` returns the
`TOKEN_STRING` whose lexeme runs from the opening quote to this closing quote and whose
value is the bytes the items denote.  If `rest` is empty or begins with a newline or
NUL, it returns the `TOKEN_ERROR` with the lexeme `Unclosed string.`.  If `rest` begins
with a backslash that no supported escape character follows, it returns the
`TOKEN_ERROR` with the lexeme `Invalid escape code.`.  Every text splits in this way
into items and a `rest` of one of the three kinds. -/
theorem string_literal_token (source : List Char) (start line pos : Nat) (q : Char)
    (items : List StringItem) (rest : List Char)
    (hq : q = '\x22' ∨ q = '\x27')
    (hdrop : source.drop pos = q :: (literalText items ++ rest))
    (hok : ∀ item ∈ items, item.ok q = true) :
    ((∃ r, rest = q :: r) →
      Tokenizer.nextToken { source := source, start := start, end_ := pos, line := line }
        = some
            ({ type := TokenType.TOKEN_STRING, lexeme := q :: (literalText items ++ [q]),
               line := line, value := some (literalValue items) },
             { source := source, start := pos,
               end_ := pos + 1 + (literalText items).length + 1, line := line }))
    ∧ ((rest = [] ∨ ∃ c r, rest = c :: r ∧ (c = '\n' ∨ c = Char.ofNat 0)) →
      Tokenizer.nextToken { source := source, start := start, end_ := pos, line := line }
        = some
            ({ type := TokenType.TOKEN_ERROR, lexeme := "Unclosed string.".toList,
               line := line, value := none },
             { source := source, start := pos,
               end_ := pos + 1 + (literalText items).length, line := line }))
    ∧ ((∃ r, rest = '\x5c' :: r ∧ ∀ code, r.head? = some code → escapeByte code = none) →
      Tokenizer.nextToken { source := source, start := start, end_ := pos, line := line }
        = some
            ({ type := TokenType.TOKEN_ERROR, lexeme := "Invalid escape code.".toList,
               line := line, value := none },
             { source := source, start := pos,
               end_ := pos + 1 + (literalText items).length + 1, line := line }))
    ∧ (∀ text : List Char, ∃ items1 rest1, text = literalText items1 ++ rest1
        ∧ (∀ item ∈ items1, item.ok q = true)
        ∧ ((∃ r, rest1 = q :: r)
          ∨ (rest1 = [] ∨ ∃ c r, rest1 = c :: r ∧ (c = '\n' ∨ c = Char.ofNat 0))
          ∨ (∃ r, rest1 = '\x5c' :: r
              ∧ ∀ code, r.head? = some code → escapeByte code = none))) := by
  have hpeek : Tokenizer.peek { source := source, start := start, end_ := pos, line := line }
      = q := charAt_of_drop hdrop
  have hnext := nextToken_of_quote hq hpeek
  simp only at hnext
  have hbody := stringLoop_body source pos line pos q hq items rest hok hdrop
  have hrestdrop : source.drop (pos + 1 + (literalText items).length) = rest := by
    rw [← List.drop_drop, drop_succ_of_drop hdrop, List.drop_left]
  have hq5c : ('\x5c' : Char) ≠ q := by rcases hq with rfl | rfl <;> decide
  have hqn : ('\n' : Char) ≠ q := by rcases hq with rfl | rfl <;> decide
  have hq0 : Char.ofNat 0 ≠ q := by rcases hq with rfl | rfl <;> decide
  refine ⟨?_, ?_, ?_, fun text => literal_split q text.length text (Nat.le_refl _)⟩
  · rintro ⟨r, rfl⟩
    have hp : charAt source (pos + 1 + (literalText items).length) = q :=
      charAt_of_drop hrestdrop
    rw [hnext]
    unfold Tokenizer.string
    dsimp only
    rw [hbody]
    simp only [Tokenizer.stringLoop, Tokenizer.peek, hp, ne_eq, not_true_eq_false, if_false,
      Tokenizer.advance, Tokenizer.makeToken, hdrop, Option.some.injEq, Prod.mk.injEq,
      Token.mk.injEq, and_true, true_and]
    rw [show pos + 1 + (literalText items).length + 1 - pos
        = (q :: (literalText items ++ [q])).length by
      simp only [List.length_cons, List.length_append, List.length_nil]; omega]
    rw [show q :: (literalText items ++ q :: r) = (q :: (literalText items ++ [q])) ++ r by
      simp]
    exact List.take_left' rfl
  · intro hrest
    have hp : Tokenizer.isAtEnd
          { source := source, start := pos,
            end_ := pos + 1 + (literalText items).length, line := line } = true
        ∨ charAt source (pos + 1 + (literalText items).length) = '\n' := by
      rcases hrest with rfl | ⟨c, r, rfl, rfl | rfl⟩
      · left
        simp only [Tokenizer.isAtEnd, charAt_of_drop_nil hrestdrop, beq_self_eq_true]
      · right
        exact charAt_of_drop hrestdrop
      · left
        simp only [Tokenizer.isAtEnd, charAt_of_drop hrestdrop, beq_self_eq_true]
    have hne : charAt source (pos + 1 + (literalText items).length) ≠ q := by
      rcases hrest with rfl | ⟨c, r, rfl, rfl | rfl⟩
      · rw [charAt_of_drop_nil hrestdrop]
        exact hq0
      · rw [charAt_of_drop hrestdrop]
        exact hqn
      · rw [charAt_of_drop hrestdrop]
        exact hq0
    have hcond : (Tokenizer.isAtEnd
          { source := source, start := pos,
            end_ := pos + 1 + (literalText items).length, line := line }
        || decide (charAt source (pos + 1 + (literalText items).length) = '\n')) = true := by
      rcases hp with hp | hp
      · rw [hp]
        rfl
      · rw [hp]
        simp
    rw [hnext]
    unfold Tokenizer.string
    dsimp only
    rw [hbody]
    simp only [Tokenizer.stringLoop, Tokenizer.peek, ne_eq, hne, not_false_eq_true, if_true,
      hcond, Tokenizer.errorToken]
  · rintro ⟨r, rfl, hr⟩
    have hp : charAt source (pos + 1 + (literalText items).length) = '\x5c' :=
      charAt_of_drop hrestdrop
    have hnone : Tokenizer.escapeCode
        (charAt source (pos + 1 + (literalText items).length + 1)) = none := by
      rw [escapeCode_eq]
      cases r with
      | nil =>
        rw [charAt_of_drop_nil (drop_succ_of_drop hrestdrop)]
        decide
      | cons code r1 =>
        rw [charAt_of_drop (drop_succ_of_drop hrestdrop)]
        exact hr code rfl
    rw [hnext]
    unfold Tokenizer.string
    dsimp only
    rw [hbody]
    simp only [Tokenizer.stringLoop, Tokenizer.peek, Tokenizer.isAtEnd, Tokenizer.advance, hp,
      ne_eq, hq5c, not_false_eq_true, if_true, hnone, Tokenizer.errorToken]
    rw [if_neg (by decide)]

/-- Claim C19 on three literals.  The literal of the characters `a`, backslash, double
quote, `b` between double quotes is a `TOKEN_STRING` with the value `a`, double quote,
`b`: the escaped quote does not close it.  The text `ab` after a single quote, followed
by a newline, is an unclosed string, and a backslash followed by `q` is an invalid
escape code. -/
theorem string_literal_token_witness :
    Tokenizer.nextToken
        { source := ['\x22', 'a', '\x5c', '\x22', 'b', '\x22', ';'], start := 0, end_ := 0,
          line := 1 }
      = some
          ({ type := TokenType.TOKEN_STRING,
             lexeme := ['\x22', 'a', '\x5c', '\x22', 'b', '\x22'], line := 1,
             value := some ['a', '\x22', 'b'] },
           { source := ['\x22', 'a', '\x5c', '\x22', 'b', '\x22', ';'], start := 0, end_ := 6,
             line := 1 })
    ∧ Tokenizer.nextToken
        { source := ['\x27', 'a', 'b', '\n', '\x27'], start := 0, end_ := 0, line := 1 }
      = some
          ({ type := TokenType.TOKEN_ERROR, lexeme := "Unclosed string.".toList, line := 1,
             value := none },
           { source := ['\x27', 'a', 'b', '\n', '\x27'], start := 0, end_ := 3, line := 1 })
    ∧ Tokenizer.nextToken
        { source := ['\x22', 'a', '\x5c', 'q', 'b', '\x22'], start := 0, end_ := 0, line := 1 }
      = some
          ({ type := TokenType.TOKEN_ERROR, lexeme := "Invalid escape code.".toList,
             line := 1, value := none },
           { source := ['\x22', 'a', '\x5c', 'q', 'b', '\x22'], start := 0, end_ := 3,
             line := 1 })
    ∧ tokens 3 (initTokenizer ['\x22', 'a', 'b'])
      = [(TokenType.TOKEN_ERROR, "Unclosed string."), (TokenType.TOKEN_EOF, "")]
    ∧ tokens 2 (initTokenizer ['\x27', 'a', '\x5c'])
      = [(TokenType.TOKEN_ERROR, "Invalid escape code."), (TokenType.TOKEN_EOF, "")]
    ∧ (tokens 2 (initTokenizer ['\x27', '\x22', '\x5c', 'n', '\x5c', '\x27', '\x27'])).map
        Prod.fst
      = [TokenType.TOKEN_STRING, TokenType.TOKEN_EOF] :=
  ⟨(string_literal_token ['\x22', 'a', '\x5c', '\x22', 'b', '\x22', ';'] 0 1 0 '\x22'
      [StringItem.plain 'a', StringItem.escape '\x22', StringItem.plain 'b'] ['\x22', ';']
      (Or.inl rfl) (by decide) (by decide)).1 ⟨[';'], rfl⟩,
   (string_literal_token ['\x27', 'a', 'b', '\n', '\x27'] 0 1 0 '\x27'
      [StringItem.plain 'a', StringItem.plain 'b'] ['\n', '\x27']
      (Or.inr rfl) (by decide) (by decide)).2.1 (Or.inr ⟨'\n', ['\x27'], rfl, Or.inl rfl⟩),
   (string_literal_token ['\x22', 'a', '\x5c', 'q', 'b', '\x22'] 0 1 0 '\x22'
      [StringItem.plain 'a'] ['\x5c', 'q', 'b', '\x22']
      (Or.inl rfl) (by decide) (by decide)).2.2.1
      ⟨['q', 'b', '\x22'], rfl, fun code hc => by
        simp only [List.head?_cons, Option.some.injEq] at hc
        subst hc
        decide⟩,
   by decide, by decide, by decide⟩

/-! ## Number literals -/

theorem nextToken_of_digit {tokenizer : Tokenizer} (hd : isDigit tokenizer.peek = true) :
    tokenizer.nextToken
      = Tokenizer.number
          { tokenizer with start := tokenizer.end_, end_ := tokenizer.end_ + 1 } := by
  have hne : ¬ (Tokenizer.isAtEnd { tokenizer with start := tokenizer.end_ } = true) := by
    have := isDigit_ne hd (c := Char.ofNat 0) (by decide)
    simpa [Tokenizer.isAtEnd, Tokenizer.peek] using this
  unfold Tokenizer.nextToken
  rw [skipWhitespace_of_digit hd]
  simp only
  rw [if_neg hne]
  have hadv : (Tokenizer.advance { tokenizer with start := tokenizer.end_ }).2
      = tokenizer.peek := rfl
  rw [hadv, isAlpha_of_isDigit hd, hd]
  simp [Tokenizer.advance]

theorem number_spec_plain (source : List Char) (line pos : Nat) (ds rest : List Char)
    (hds : ∀ c ∈ ds, isDigit c = true)
    (hrest : ∀ c, rest.head? = some c → isDigit c = false)
    (hdrop : source.drop (pos + 1) = ds ++ rest)
    (hno : ¬ ∃ e r, rest = '.' :: e :: r ∧ isDigit e = true) :
    Tokenizer.number { source := source, start := pos, end_ := pos + 1, line := line }
      = some
          (Tokenizer.makeToken
            { source := source, start := pos, end_ := pos + 1 + ds.length, line := line }
            TokenType.TOKEN_NUMBER,
           { source := source, start := pos, end_ := pos + 1 + ds.length, line := line }) := by
  have hlen : ds.length + 1 ≤ source.length + 1 := by
    have := congrArg List.length hdrop
    simp only [List.length_drop, List.length_append] at this
    omega
  have hrestdrop : source.drop (pos + 1 + ds.length) = rest := by
    rw [← List.drop_drop, hdrop, List.drop_left]
  have hcond : (Tokenizer.peek
        { source := source, start := pos, end_ := pos + 1 + ds.length, line := line } = '.'
      && isDigit (Tokenizer.peekNext
        { source := source, start := pos, end_ := pos + 1 + ds.length, line := line }))
      = false := by
    rw [Bool.and_eq_false_iff]
    by_contra hcon
    rw [not_or] at hcon
    obtain ⟨hp, hn⟩ := hcon
    simp only [decide_eq_false_iff_not, not_not, Bool.not_eq_false, Tokenizer.peek] at hp hn
    apply hno
    cases hr : rest with
    | nil =>
      rw [hr] at hrestdrop
      rw [charAt_of_drop_nil hrestdrop] at hp
      exact absurd hp (by decide)
    | cons c r =>
      rw [hr] at hrestdrop
      rw [charAt_of_drop hrestdrop] at hp
      subst hp
      have hnotend : Tokenizer.isAtEnd
          { source := source, start := pos, end_ := pos + 1 + ds.length, line := line }
          = false := by
        simp only [Tokenizer.isAtEnd, charAt_of_drop hrestdrop]
        decide
      simp only [Tokenizer.peekNext, hnotend, Bool.false_eq_true, if_false] at hn
      cases hr2 : r with
      | nil =>
        rw [hr2] at hrestdrop
        rw [charAt_of_drop_nil (drop_succ_of_drop hrestdrop)] at hn
        exact absurd hn (by decide)
      | cons e r2 =>
        rw [hr2] at hrestdrop
        rw [charAt_of_drop (drop_succ_of_drop hrestdrop)] at hn
        exact ⟨e, r2, rfl, hn⟩
  unfold Tokenizer.number
  rw [digitLoop_spec source pos line rest hrest ds (pos + 1) (source.length + 1) hds hdrop hlen]
  simp only [hcond, Bool.false_eq_true, if_false]

theorem number_spec_fraction (source : List Char) (line pos : Nat) (ds1 ds2 rest : List Char)
    (e : Char) (h1 : ∀ c ∈ ds1, isDigit c = true) (he : isDigit e = true)
    (h2 : ∀ c ∈ ds2, isDigit c = true)
    (hrest : ∀ c, rest.head? = some c → isDigit c = false)
    (hdrop : source.drop (pos + 1) = ds1 ++ ('.' :: e :: ds2 ++ rest)) :
    Tokenizer.number { source := source, start := pos, end_ := pos + 1, line := line }
      = some
          (Tokenizer.makeToken
            { source := source, start := pos,
              end_ := pos + 1 + ds1.length + 1 + (e :: ds2).length, line := line }
            TokenType.TOKEN_NUMBER,
           { source := source, start := pos,
             end_ := pos + 1 + ds1.length + 1 + (e :: ds2).length, line := line }) := by
  have hlen := congrArg List.length hdrop
  simp only [List.length_drop, List.length_append, List.length_cons] at hlen
  have hdot : source.drop (pos + 1 + ds1.length) = '.' :: (e :: ds2 ++ rest) := by
    rw [← List.drop_drop, hdrop, List.drop_left]
    rfl
  have hfrac : source.drop (pos + 1 + ds1.length + 1) = (e :: ds2) ++ rest :=
    drop_succ_of_drop hdot
  have hnotend : Tokenizer.isAtEnd
      { source := source, start := pos, end_ := pos + 1 + ds1.length, line := line }
      = false := by
    simp only [Tokenizer.isAtEnd, charAt_of_drop hdot]
    decide
  have hcond : (Tokenizer.peek
        { source := source, start := pos, end_ := pos + 1 + ds1.length, line := line } = '.'
      && isDigit (Tokenizer.peekNext
        { source := source, start := pos, end_ := pos + 1 + ds1.length, line := line }))
      = true := by
    simp only [Tokenizer.peek, Tokenizer.peekNext, hnotend, charAt_of_drop hdot,
      charAt_of_drop hfrac, he, decide_True, Bool.and_self, Bool.false_eq_true, if_false]
  unfold Tokenizer.number
  rw [digitLoop_spec source pos line ('.' :: e :: ds2 ++ rest)
    (fun c hc => by
      simp only [List.cons_append, List.head?_cons, Option.some.injEq] at hc
      subst hc
      decide)
    ds1 (pos + 1) (source.length + 1) h1 hdrop (by omega)]
  simp only [hcond, if_true, Tokenizer.advance]
  rw [digitLoop_spec source pos line rest hrest (e :: ds2) (pos + 1 + ds1.length + 1)
    (source.length + 1)
    (fun c hc => by
      rcases List.mem_cons.1 hc with rfl | hc
      · exact he
      · exact h2 c hc)
    hfrac (by simp only [List.length_cons]; omega)]

theorem digits_split (l : List Char) : ∃ ds rest, l = ds ++ rest
    ∧ (∀ c ∈ ds, isDigit c = true) ∧ (∀ c, rest.head? = some c → isDigit c = false) := by
  induction l with
  | nil => exact ⟨[], [], rfl, by simp, by simp⟩
  | cons c l ih =>
    obtain ⟨ds, rest, h1, h2, h3⟩ := ih
    by_cases hc : isDigit c = true
    · refine ⟨c :: ds, rest, by rw [h1]; rfl, ?_, h3⟩
      intro x hx
      rcases List.mem_cons.1 hx with rfl | hx
      · exact hc
      · exact h2 x hx
    · refine ⟨[], c :: l, rfl, by simp, ?_⟩
      intro x hx
      simp only [List.head?_cons, Option.some.injEq] at hx
      subst hx
      simpa using hc

theorem nextToken_number_plain (source : List Char) (start line pos : Nat)
    (d : Char) (ds1 rest : List Char)
    (hdrop : source.drop pos = (d :: ds1) ++ rest) (hd : isDigit d = true)
    (h1 : ∀ c ∈ ds1, isDigit c = true)
    (hrest : ∀ c, rest.head? = some c → isDigit c = false)
    (hno : ¬ ∃ e r, rest = '.' :: e :: r ∧ isDigit e = true) :
    Tokenizer.nextToken { source := source, start := start, end_ := pos, line := line }
      = some
          ({ type := TokenType.TOKEN_NUMBER, lexeme := d :: ds1, line := line, value := none },
           { source := source, start := pos, end_ := pos + (d :: ds1).length,
             line := line }) := by
  have hpeek : isDigit (Tokenizer.peek
      { source := source, start := start, end_ := pos, line := line }) = true := by
    simp only [Tokenizer.peek, charAt_of_drop hdrop, hd]
  have hnext := nextToken_of_digit hpeek
  simp only at hnext
  rw [hnext, number_spec_plain source line pos ds1 rest h1 hrest (drop_succ_of_drop hdrop) hno]
  simp only [Tokenizer.makeToken, hdrop, List.length_cons, Option.some.injEq, Prod.mk.injEq,
    Token.mk.injEq, Tokenizer.mk.injEq, true_and, and_true]
  refine ⟨?_, by omega⟩
  rw [show pos + 1 + ds1.length - pos = (d :: ds1).length by
    simp only [List.length_cons]; omega]
  exact List.take_left' rfl

theorem nextToken_number_fraction (source : List Char) (start line pos : Nat)
    (d e : Char) (ds1 ds2 rest2 : List Char)
    (hdrop : source.drop pos = (d :: ds1) ++ ('.' :: e :: ds2 ++ rest2))
    (hd : isDigit d = true) (h1 : ∀ c ∈ ds1, isDigit c = true) (he : isDigit e = true)
    (h2 : ∀ c ∈ ds2, isDigit c = true)
    (hrest2 : ∀ c, rest2.head? = some c → isDigit c = false) :
    Tokenizer.nextToken { source := source, start := start, end_ := pos, line := line }
      = some
          ({ type := TokenType.TOKEN_NUMBER, lexeme := (d :: ds1) ++ '.' :: e :: ds2,
             line := line, value := none },
           { source := source, start := pos,
             end_ := pos + ((d :: ds1) ++ '.' :: e :: ds2).length, line := line }) := by
  have hpeek : isDigit (Tokenizer.peek
      { source := source, start := start, end_ := pos, line := line }) = true := by
    simp only [Tokenizer.peek, charAt_of_drop hdrop, hd]
  have hnext := nextToken_of_digit hpeek
  simp only at hnext
  rw [hnext, number_spec_fraction source line pos ds1 ds2 rest2 e h1 he h2 hrest2
    (drop_succ_of_drop hdrop)]
  simp only [Tokenizer.makeToken, hdrop, List.length_cons, List.length_append,
    Option.some.injEq, Prod.mk.injEq, Token.mk.injEq, Tokenizer.mk.injEq, true_and, and_true]
  refine ⟨?_, by omega⟩
  rw [show pos + 1 + ds1.length + 1 + (ds2.length + 1) - pos
      = ((d :: ds1) ++ '.' :: e :: ds2).length by
    simp only [List.length_cons, List.length_append]; omega]
  rw [show (d :: ds1) ++ ('.' :: e :: ds2 ++ rest2)
      = ((d :: ds1) ++ '.' :: e :: ds2) ++ rest2 by simp]
  exact List.take_left' rfl

/-- Claim C20.  Let the source hold, from the position `pos` on, a digit `d`, the digits
`ds1` and then `rest`, which does not begin with a digit.  If `rest` does not begin with
a dot that is followed by a digit, `nextToken` returns the `TOKEN_NUMBER` with the lexeme
`d ds1` and stops before `rest`; a dot at the head of `rest` is left for the next token.
If `rest` is a dot, the digits `e ds2` and a remainder that does not begin with a digit,
`nextToken` returns the `TOKEN_NUMBER` with the lexeme `d ds1 . e ds2` and stops before
the remainder.  One of the two cases applies at every position that holds a digit:
`nextToken` returns there a `TOKEN_NUMBER` whose lexeme is a slice of the source that
starts at the position, begins with a digit and holds digits and dots only. -/
theorem number_lexeme_is_longest_numeral (source : List Char) (start line pos : Nat)
    (d : Char) (ds1 rest : List Char)
    (hdrop : source.drop pos = (d :: ds1) ++ rest) (hd : isDigit d = true)
    (h1 : ∀ c ∈ ds1, isDigit c = true) :
    ((∀ c, rest.head? = some c → isDigit c = false) →
      (¬ ∃ e r, rest = '.' :: e :: r ∧ isDigit e = true) →
      Tokenizer.nextToken { source := source, start := start, end_ := pos, line := line }
        = some
            ({ type := TokenType.TOKEN_NUMBER, lexeme := d :: ds1, line := line, value := none },
             { source := source, start := pos, end_ := pos + (d :: ds1).length, line := line }))
    ∧ (∀ (e : Char) (ds2 rest2 : List Char), rest = '.' :: e :: ds2 ++ rest2 →
        isDigit e = true → (∀ c ∈ ds2, isDigit c = true) →
        (∀ c, rest2.head? = some c → isDigit c = false) →
        Tokenizer.nextToken { source := source, start := start, end_ := pos, line := line }
          = some
              ({ type := TokenType.TOKEN_NUMBER, lexeme := (d :: ds1) ++ '.' :: e :: ds2,
                 line := line, value := none },
               { source := source, start := pos,
                 end_ := pos + ((d :: ds1) ++ '.' :: e :: ds2).length, line := line }))
    ∧ (∃ token tokenizer1,
        Tokenizer.nextToken { source := source, start := start, end_ := pos, line := line }
          = some (token, tokenizer1)
        ∧ token.type = TokenType.TOKEN_NUMBER ∧ token.value = none
        ∧ tokenizer1.start = pos ∧ tokenizer1.end_ = pos + token.lexeme.length
        ∧ token.lexeme <+: source.drop pos ∧ token.lexeme.head? = some d
        ∧ ∀ c ∈ token.lexeme, isDigit c = true ∨ c = '.') := by
  refine ⟨fun hrest hno =>
      nextToken_number_plain source start line pos d ds1 rest hdrop hd h1 hrest hno,
    fun e ds2 rest2 hr he h2 hrest2 =>
      nextToken_number_fraction source start line pos d e ds1 ds2 rest2 (hr ▸ hdrop) hd h1 he
        h2 hrest2, ?_⟩
  obtain ⟨run, rest1, hsplit, hrun, hrest1⟩ := digits_split rest
  have hdrop2 : source.drop pos = (d :: (ds1 ++ run)) ++ rest1 := by
    rw [hdrop, hsplit]
    simp
  have hrun1 : ∀ c ∈ ds1 ++ run, isDigit c = true := by
    intro c hc
    rcases List.mem_append.1 hc with hc | hc
    · exact h1 c hc
    · exact hrun c hc
  by_cases hfrac : ∃ e r, rest1 = '.' :: e :: r ∧ isDigit e = true
  · obtain ⟨e, r, hr, he⟩ := hfrac
    obtain ⟨ds2, rest2, hsplit2, h2, hrest2⟩ := digits_split r
    have hdrop3 : source.drop pos = (d :: (ds1 ++ run)) ++ ('.' :: e :: ds2 ++ rest2) := by
      rw [hdrop2, hr, hsplit2]
      simp
    refine ⟨_, _, nextToken_number_fraction source start line pos d e (ds1 ++ run) ds2 rest2
      hdrop3 hd hrun1 he h2 hrest2, rfl, rfl, rfl, rfl, ?_, rfl, ?_⟩
    · rw [hdrop3]
      exact ⟨rest2, by simp⟩
    · intro c hc
      have hc1 : c ∈ (d :: (ds1 ++ run)) ++ '.' :: e :: ds2 := hc
      rcases List.mem_append.1 hc1 with hc2 | hc2
      · rcases List.mem_cons.1 hc2 with rfl | hc3
        · exact Or.inl hd
        · exact Or.inl (hrun1 c hc3)
      · rcases List.mem_cons.1 hc2 with rfl | hc3
        · exact Or.inr rfl
        · rcases List.mem_cons.1 hc3 with rfl | hc4
          · exact Or.inl he
          · exact Or.inl (h2 c hc4)
  · refine ⟨_, _, nextToken_number_plain source start line pos d (ds1 ++ run) rest1
      hdrop2 hd hrun1 hrest1 hfrac, rfl, rfl, rfl, rfl, ?_, rfl, ?_⟩
    · rw [hdrop2]
      exact ⟨rest1, rfl⟩
    · intro c hc
      have hc1 : c ∈ d :: (ds1 ++ run) := hc
      rcases List.mem_cons.1 hc1 with rfl | hc2
      · exact Or.inl hd
      · exact Or.inl (hrun1 c hc2)

/-- Claim C20 on `1..2` and `3.14+x`: the first token of `1..2` is the number `1`, the
two dots are left for the next token, and the first token of `3.14+x` is the number
`3.14`.  The token lists of `1.`, `1..2`, `-1`, `1.5e3` and `1.5.3` follow. -/
theorem number_lexeme_is_longest_numeral_witness :
    Tokenizer.nextToken { source := ['1', '.', '.', '2'], start := 0, end_ := 0, line := 1 }
      = some
          ({ type := TokenType.TOKEN_NUMBER, lexeme := ['1'], line := 1, value := none },
           { source := ['1', '.', '.', '2'], start := 0, end_ := 1, line := 1 })
    ∧ Tokenizer.nextToken
        { source := ['3', '.', '1', '4', '+', 'x'], start := 0, end_ := 0, line := 1 }
      = some
          ({ type := TokenType.TOKEN_NUMBER, lexeme := ['3', '.', '1', '4'], line := 1,
             value := none },
           { source := ['3', '.', '1', '4', '+', 'x'], start := 0, end_ := 4, line := 1 })
    ∧ tokens 3 (initTokenizer "1.".toList)
      = [(TokenType.TOKEN_NUMBER, "1"), (TokenType.TOKEN_DOT, "."), (TokenType.TOKEN_EOF, "")]
    ∧ tokens 4 (initTokenizer "1..2".toList)
      = [(TokenType.TOKEN_NUMBER, "1"), (TokenType.TOKEN_DOT_DOT, ".."),
         (TokenType.TOKEN_NUMBER, "2"), (TokenType.TOKEN_EOF, "")]
    ∧ tokens 3 (initTokenizer "-1".toList)
      = [(TokenType.TOKEN_MINUS, "-"), (TokenType.TOKEN_NUMBER, "1"),
         (TokenType.TOKEN_EOF, "")]
    ∧ tokens 3 (initTokenizer "1.5e3".toList)
      = [(TokenType.TOKEN_NUMBER, "1.5"), (TokenType.TOKEN_IDENTIFIER, "e3"),
         (TokenType.TOKEN_EOF, "")]
    ∧ tokens 4 (initTokenizer "1.5.3".toList)
      = [(TokenType.TOKEN_NUMBER, "1.5"), (TokenType.TOKEN_DOT, "."),
         (TokenType.TOKEN_NUMBER, "3"), (TokenType.TOKEN_EOF, "")] :=
  ⟨(number_lexeme_is_longest_numeral ['1', '.', '.', '2'] 0 1 0 '1' [] ['.', '.', '2']
      (by decide) (by decide) (by decide)).1
      (fun c hc => by
        simp only [List.head?_cons, Option.some.injEq] at hc
        subst hc
        decide)
      (by
        rintro ⟨e, r, h, he⟩
        simp only [List.cons.injEq, true_and] at h
        rw [← h.1] at he
        exact absurd he (by decide)),
   (number_lexeme_is_longest_numeral ['3', '.', '1', '4', '+', 'x'] 0 1 0 '3' []
      ['.', '1', '4', '+', 'x'] (by decide) (by decide) (by decide)).2.1
      '1' ['4'] ['+', 'x'] (by decide) (by decide) (by decide)
      (fun c hc => by
        simp only [List.head?_cons, Option.some.injEq] at hc
        subst hc
        decide),
   by decide, by decide, by decide, by decide, by decide⟩

/-! ## Further lemmas on the value stack -/

theorem poke_get_of_lt (mem : List Value) {i j : Nat} (v : Value) (hne : j ≠ i)
    (hlt : j < mem.length) : (poke mem i v)[j]? = mem[j]? := by
  rw [poke_get_of_ne mem v mem[j] hne (List.getElem?_eq_getElem hlt)]
  exact (List.getElem?_eq_getElem hlt).symm

theorem poke_poke_self (mem : List Value) {i : Nat} {v : Value} (x : Value)
    (h : mem[i]? = some v) : poke (poke mem i x) i v = mem := by
  obtain ⟨hlt, -⟩ := List.getElem?_eq_some.1 h
  unfold poke
  rw [if_pos hlt, if_pos (by simpa using hlt), List.set_set]
  apply List.ext_getElem?
  intro j
  rw [List.getElem?_set]
  by_cases hj : i = j
  · subst hj
    rw [if_pos rfl, if_pos hlt]
    exact h.symm
  · rw [if_neg hj]

theorem stack_length_of_peek {H : hs_State} {d : Nat} {v : Value}
    (h : peek H (d : Int) = some v) : H.stackTop - (d + 1) < H.stack.length := by
  obtain ⟨-, h2⟩ := peek_natCast h
  exact (List.getElem?_eq_some.1 h2).1

/-! ## Lemmas on scans of the tokenizer -/

theorem charAt_lt {source : List Char} {i : Nat} (h : charAt source i ≠ Char.ofNat 0) :
    i < source.length := by
  by_contra hlt
  apply h
  unfold charAt
  rw [List.getD_eq_default]
  exact Nat.le_of_not_lt hlt

theorem newlines_self (source : List Char) (a : Nat) : newlines source a a = 0 := by
  simp [newlines]

theorem newlines_add (source : List Char) {a b c : Nat} (hab : a ≤ b) (hbc : b ≤ c) :
    newlines source a c = newlines source a b + newlines source b c := by
  unfold newlines
  have h : c - a = (b - a) + (c - b) := by omega
  rw [h, List.take_add, List.count_append, List.drop_drop]
  have h2 : a + (b - a) = b := by omega
  rw [h2]

theorem newlines_succ (source : List Char) (a : Nat) :
    newlines source a (a + 1) = if charAt source a = '\n' then 1 else 0 := by
  unfold newlines
  have h1 : a + 1 - a = 1 := by omega
  rw [h1]
  cases h : source.drop a with
  | nil =>
    rw [charAt_of_drop_nil h, if_neg (by decide)]
    rfl
  | cons c rest =>
    rw [charAt_of_drop h]
    by_cases hc : c = '\n'
    · subst hc
      rfl
    · rw [if_neg hc]
      simp [List.count_cons, hc]

theorem Scanned.refl (t : Tokenizer) : Scanned t t :=
  ⟨rfl, le_refl _, fun i h1 h2 => absurd h2 (not_lt.2 h1), by rw [newlines_self]; rfl⟩

theorem Scanned.trans {t t1 t2 : Tokenizer} (h1 : Scanned t t1) (h2 : Scanned t1 t2) :
    Scanned t t2 := by
  obtain ⟨hs1, he1, hz1, hl1⟩ := h1
  obtain ⟨hs2, he2, hz2, hl2⟩ := h2
  rw [hs1] at hs2 hz2 hl2
  refine ⟨hs2, le_trans he1 he2, ?_, ?_⟩
  · intro i hi1 hi2
    by_cases h : i < t1.end_
    · exact hz1 i hi1 h
    · exact hz2 i (not_lt.1 h) hi2
  · rw [hl2, hl1, newlines_add t.source he1 he2, Nat.add_assoc]

theorem Scanned.start (t : Tokenizer) (start : Nat) : Scanned t { t with start := start } :=
  ⟨rfl, le_refl _, fun i h1 h2 => absurd h2 (not_lt.2 h1), by
    show t.line = t.line + newlines t.source t.end_ t.end_
    rw [newlines_self]; rfl⟩

theorem Scanned.advance (t : Tokenizer) (h0 : t.peek ≠ Char.ofNat 0) (hn : t.peek ≠ '\n') :
    Scanned t t.advance.1 := by
  refine ⟨rfl, Nat.le_succ _, ?_, ?_⟩
  · intro i h1 h2
    have : i = t.end_ := Nat.le_antisymm (Nat.lt_succ_iff.1 h2) h1
    rw [this]
    exact h0
  · show t.line = t.line + newlines t.source t.end_ (t.end_ + 1)
    have hn1 : charAt t.source t.end_ ≠ '\n' := hn
    rw [newlines_succ, if_neg hn1]
    rfl

theorem Scanned.newline (t : Tokenizer) (hn : t.peek = '\n') :
    Scanned t (Tokenizer.advance { t with line := t.line + 1 }).1 := by
  refine ⟨rfl, Nat.le_succ _, ?_, ?_⟩
  · intro i h1 h2
    have : i = t.end_ := Nat.le_antisymm (Nat.lt_succ_iff.1 h2) h1
    rw [this]
    show t.peek ≠ Char.ofNat 0
    rw [hn]
    decide
  · show t.line + 1 = t.line + newlines t.source t.end_ (t.end_ + 1)
    have hn1 : charAt t.source t.end_ = '\n' := hn
    rw [newlines_succ, if_pos hn1]

theorem Scanned.lt_length {t t1 : Tokenizer} (h : Scanned t t1) (hlt : t.end_ < t1.end_) :
    t.end_ < t.source.length :=
  charAt_lt (h.2.2.1 t.end_ (le_refl _) hlt)

theorem Scanned.le_length {t t1 : Tokenizer} (h : Scanned t t1)
    (hle : t.end_ ≤ t.source.length) : t1.end_ ≤ t1.source.length := by
  rw [h.1]
  by_contra hlt
  exact absurd (charAt_lt (h.2.2.1 t.source.length hle (not_le.1 hlt))) (lt_irrefl _)

theorem peek_lt {t : Tokenizer} (h : t.peek ≠ Char.ofNat 0) : t.end_ < t.source.length :=
  charAt_lt h

theorem isAtEnd_false {t : Tokenizer} (h : t.isAtEnd = false) : t.peek ≠ Char.ofNat 0 := by
  intro hp
  unfold Tokenizer.isAtEnd at h
  unfold Tokenizer.peek at hp
  rw [hp] at h
  simp at h

theorem isAtEnd_of_peek {t : Tokenizer} (h : t.peek ≠ Char.ofNat 0) : t.isAtEnd = false := by
  unfold Tokenizer.isAtEnd
  unfold Tokenizer.peek at h
  simp [h]

theorem skipComment_spec : ∀ (fuel : Nat) (t : Tokenizer), t.source.length - t.end_ < fuel →
    ∃ t1, Tokenizer.skipComment fuel t = some t1 ∧ Scanned t t1
      ∧ (t.peek ≠ '\n' → t.isAtEnd = false → t.end_ < t1.end_) := by
  intro fuel
  induction fuel with
  | zero =>
    intro t h
    exact absurd h (Nat.not_lt_zero _)
  | succ fuel ih =>
    intro t h
    unfold Tokenizer.skipComment
    split
    next hc =>
      simp only [Bool.and_eq_true, decide_eq_true_eq, Bool.not_eq_true'] at hc
      obtain ⟨hn, he⟩ := hc
      have h0 := isAtEnd_false he
      have hlt := peek_lt h0
      obtain ⟨t1, h1, h2, -⟩ := ih t.advance.1 (by
        show t.source.length - (t.end_ + 1) < fuel
        omega)
      exact ⟨t1, h1, (Scanned.advance t h0 hn).trans h2,
        fun _ _ => lt_of_lt_of_le (Nat.lt_succ_self _) h2.2.1⟩
    next hc =>
      refine ⟨t, rfl, Scanned.refl t, fun hn he => ?_⟩
      exfalso
      apply hc
      simp [hn, he]

theorem skipWhitespaceLoop_spec : ∀ (fuel : Nat) (t : Tokenizer),
    t.source.length - t.end_ < fuel →
    ∃ t1, Tokenizer.skipWhitespaceLoop fuel t = some t1 ∧ Scanned t t1
      ∧ t1.peek ≠ '\n' := by
  intro fuel
  induction fuel with
  | zero =>
    intro t h
    exact absurd h (Nat.not_lt_zero _)
  | succ fuel ih =>
    intro t h
    unfold Tokenizer.skipWhitespaceLoop
    simp only
    split
    next hc =>
      have hlt : t.end_ < t.source.length := peek_lt (by rw [hc]; decide)
      obtain ⟨t1, h1, h2, h3⟩ := ih (Tokenizer.advance { t with line := t.line + 1 }).1 (by
        show t.source.length - (t.end_ + 1) < fuel
        omega)
      exact ⟨t1, h1, (Scanned.newline t hc).trans h2, h3⟩
    next hn =>
      split
      next hc =>
        have h0 : t.peek ≠ Char.ofNat 0 := by
          rcases hc with hc | hc | hc <;> rw [hc] <;> decide
        have hlt := peek_lt h0
        obtain ⟨t1, h1, h2, h3⟩ := ih t.advance.1 (by
          show t.source.length - (t.end_ + 1) < fuel
          omega)
        exact ⟨t1, h1, (Scanned.advance t h0 hn).trans h2, h3⟩
      next =>
        split
        next hc =>
          have h0 : t.peek ≠ Char.ofNat 0 := by rw [hc]; decide
          have hlt := peek_lt h0
          split
          next =>
            obtain ⟨t1, h1, h2, h3⟩ := skipComment_spec (t.source.length + 1) t (by omega)
            rw [h1]
            simp only
            have hadv := h3 hn (isAtEnd_of_peek h0)
            obtain ⟨t2, k1, k2, k3⟩ := ih t1 (by
              rw [h2.1]
              omega)
            exact ⟨t2, k1, h2.trans k2, k3⟩
          next => exact ⟨t, rfl, Scanned.refl t, hn⟩
        next => exact ⟨t, rfl, Scanned.refl t, hn⟩

theorem skipWhitespace_spec (t : Tokenizer) :
    ∃ t1, t.skipWhitespace = some t1 ∧ Scanned t t1 ∧ t1.peek ≠ '\n' :=
  skipWhitespaceLoop_spec (t.source.length + 1) t (by omega)

theorem skipWhitespace_at_end {t : Tokenizer} (h : t.isAtEnd = true) :
    t.skipWhitespace = some t := by
  have hp : t.peek = Char.ofNat 0 := by
    unfold Tokenizer.isAtEnd at h
    unfold Tokenizer.peek
    simpa using h
  unfold Tokenizer.skipWhitespace Tokenizer.skipWhitespaceLoop
  simp only
  rw [hp, if_neg (by decide), if_neg (by decide), if_neg (by decide)]

theorem isDigit_plain {c : Char} (h : isDigit c = true) : c ≠ Char.ofNat 0 ∧ c ≠ '\n' := by
  constructor <;> rintro rfl <;> exact absurd h (by decide)

theorem isAlpha_plain {c : Char} (h : isAlpha c = true) : c ≠ Char.ofNat 0 ∧ c ≠ '\n' := by
  constructor <;> rintro rfl <;> exact absurd h (by decide)

theorem escapeCode_plain {c c1 : Char} (h : Tokenizer.escapeCode c = some c1) :
    c ≠ Char.ofNat 0 ∧ c ≠ '\n' := by
  have h1 : (Tokenizer.escapeCode c).isSome = true := by rw [h]; rfl
  constructor <;> rintro rfl <;> exact absurd h1 (by decide)

theorem identifierLoop_spec : ∀ (fuel : Nat) (t : Tokenizer),
    t.source.length - t.end_ < fuel →
    ∃ t1, Tokenizer.identifierLoop fuel t = some t1 ∧ Scanned t t1 := by
  intro fuel
  induction fuel with
  | zero =>
    intro t h
    exact absurd h (Nat.not_lt_zero _)
  | succ fuel ih =>
    intro t h
    unfold Tokenizer.identifierLoop
    split
    next hc =>
      have hp : t.peek ≠ Char.ofNat 0 ∧ t.peek ≠ '\n' := by
        rcases Bool.or_eq_true _ _ ▸ hc with hc | hc
        · exact isAlpha_plain hc
        · exact isDigit_plain hc
      have hlt := peek_lt hp.1
      obtain ⟨t1, h1, h2⟩ := ih t.advance.1 (by
        show t.source.length - (t.end_ + 1) < fuel
        omega)
      exact ⟨t1, h1, (Scanned.advance t hp.1 hp.2).trans h2⟩
    next => exact ⟨t, rfl, Scanned.refl t⟩

theorem digitLoop_scanned : ∀ (fuel : Nat) (t : Tokenizer),
    t.source.length - t.end_ < fuel →
    ∃ t1, Tokenizer.digitLoop fuel t = some t1 ∧ Scanned t t1 := by
  intro fuel
  induction fuel with
  | zero =>
    intro t h
    exact absurd h (Nat.not_lt_zero _)
  | succ fuel ih =>
    intro t h
    unfold Tokenizer.digitLoop
    split
    next hc =>
      have hp := isDigit_plain hc
      have hlt := peek_lt hp.1
      obtain ⟨t1, h1, h2⟩ := ih t.advance.1 (by
        show t.source.length - (t.end_ + 1) < fuel
        omega)
      exact ⟨t1, h1, (Scanned.advance t hp.1 hp.2).trans h2⟩
    next => exact ⟨t, rfl, Scanned.refl t⟩

theorem stringLoop_scanned (q : Char) : ∀ (fuel : Nat) (t : Tokenizer) (chars : List Char),
    t.source.length - t.end_ < fuel →
    ∃ r t1, Tokenizer.stringLoop q fuel t chars = some (r, t1) ∧ Scanned t t1
      ∧ (∀ token, r = Sum.inl token →
          token.line = t1.line ∧ token.type = TokenType.TOKEN_ERROR)
      ∧ (∀ cs, r = Sum.inr cs → t1.peek = q) := by
  intro fuel
  induction fuel with
  | zero =>
    intro t chars h
    exact absurd h (Nat.not_lt_zero _)
  | succ fuel ih =>
    intro t chars h
    unfold Tokenizer.stringLoop
    simp only
    split
    next hq =>
      split
      next hc =>
        refine ⟨_, t, rfl, Scanned.refl t, ?_, ?_⟩
        · intro token ht
          cases ht
          exact ⟨rfl, rfl⟩
        · intro cs ht
          cases ht
      next hc =>
        simp only [Bool.or_eq_true, decide_eq_true_eq, not_or, Bool.not_eq_true] at hc
        obtain ⟨he, hn⟩ := hc
        have h0 := isAtEnd_false he
        have hlt := peek_lt h0
        have hadv := Scanned.advance t h0 hn
        split
        next hb =>
          split
          next hesc =>
            refine ⟨_, t.advance.1, rfl, hadv, ?_, ?_⟩
            · intro token ht
              cases ht
              exact ⟨rfl, rfl⟩
            · intro cs ht
              cases ht
          next c1 hesc =>
            have hp := escapeCode_plain hesc
            have hlt1 := peek_lt hp.1
            have hlt2 : t.end_ + 1 < t.source.length := hlt1
            obtain ⟨r, t1, h1, h2, h3, h4⟩ := ih t.advance.1.advance.1 (chars ++ [c1]) (by
              show t.source.length - (t.end_ + 1 + 1) < fuel
              omega)
            exact ⟨r, t1, h1,
              (hadv.trans (Scanned.advance t.advance.1 hp.1 hp.2)).trans h2, h3, h4⟩
        next hb =>
          obtain ⟨r, t1, h1, h2, h3, h4⟩ := ih t.advance.1 (chars ++ [t.peek]) (by
            show t.source.length - (t.end_ + 1) < fuel
            omega)
          exact ⟨r, t1, h1, hadv.trans h2, h3, h4⟩
    next hq =>
      refine ⟨_, t, rfl, Scanned.refl t, ?_, ?_⟩
      · intro token ht
        cases ht
      · intro cs ht
        cases ht
        exact not_not.1 hq

theorem ne_ite {α : Type} {c : Prop} [Decidable c] {a b x : α} (ha : a ≠ x) (hb : b ≠ x) :
    (if c then a else b) ≠ x := by
  split <;> assumption

theorem identifierType_ne_eof (t : Tokenizer) : t.identifierType ≠ TokenType.TOKEN_EOF := by
  unfold Tokenizer.identifierType Tokenizer.checkKeyword
  dsimp only
  repeat' (first | apply ne_ite | decide)

theorem scansToken_ite {t : Tokenizer} {c : Prop} [Decidable c]
    {a b : Option (Token × Tokenizer)} (ha : c → ScansToken t a) (hb : ¬ c → ScansToken t b) :
    ScansToken t (if c then a else b) := by
  split
  next h => exact ha h
  next h => exact hb h

theorem scansToken_of_scanned {t t1 : Tokenizer} {r : Option (Token × Tokenizer)}
    (h : Scanned t t1) (hr : ScansToken t1 r) : ScansToken t r := by
  obtain ⟨token, t2, h1, h2, h3, h4⟩ := hr
  exact ⟨token, t2, h1, h.trans h2, h3, h4⟩

theorem scansToken_make (t : Tokenizer) (type : TokenType)
    (h : type ≠ TokenType.TOKEN_EOF) : ScansToken t (some (t.makeToken type, t)) :=
  ⟨_, _, rfl, Scanned.refl t, rfl, h⟩

theorem scansToken_error (t : Tokenizer) (message : String) :
    ScansToken t (some (t.errorToken message, t)) :=
  ⟨_, _, rfl, Scanned.refl t, rfl, by
    show TokenType.TOKEN_ERROR ≠ TokenType.TOKEN_EOF
    decide⟩

theorem scanned_match (t : Tokenizer) (c : Char) (hc : c ≠ '\n') :
    Scanned t (t.match_ c).1 := by
  unfold Tokenizer.match_
  split
  next => exact Scanned.refl t
  next he =>
    split
    next => exact Scanned.refl t
    next hp =>
      have he1 : t.isAtEnd = false := by simpa using he
      have hp1 : t.peek = c := not_not.1 hp
      exact Scanned.advance t (isAtEnd_false he1) (by rw [hp1]; exact hc)

theorem scansToken_matchToken (t : Tokenizer) (c : Char) (yes no : TokenType)
    (hc : c ≠ '\n') (hyes : yes ≠ TokenType.TOKEN_EOF) (hno : no ≠ TokenType.TOKEN_EOF) :
    ScansToken t (some (Tokenizer.matchToken t c yes no)) :=
  ⟨_, _, rfl, scanned_match t c hc, rfl, ne_ite hyes hno⟩

theorem scansToken_identifierOrKeyword (t : Tokenizer) :
    ScansToken t t.identifierOrKeyword := by
  obtain ⟨t1, h1, h2⟩ := identifierLoop_spec (t.source.length + 1) t (by omega)
  unfold Tokenizer.identifierOrKeyword
  rw [h1]
  exact ⟨_, _, rfl, h2, rfl, identifierType_ne_eof t1⟩

theorem scansToken_number (t : Tokenizer) : ScansToken t t.number := by
  obtain ⟨t1, h1, h2⟩ := digitLoop_scanned (t.source.length + 1) t (by omega)
  have scansNumber : TokenType.TOKEN_NUMBER ≠ TokenType.TOKEN_EOF := by decide
  unfold Tokenizer.number
  rw [h1]
  dsimp only
  split
  next hc =>
    simp only [Bool.and_eq_true, decide_eq_true_eq] at hc
    have h0 : t1.peek ≠ Char.ofNat 0 := by rw [hc.1]; decide
    have hn : t1.peek ≠ '\n' := by rw [hc.1]; decide
    obtain ⟨t2, k1, k2⟩ := digitLoop_scanned (t1.source.length + 1) t1.advance.1 (by
      show t1.source.length - (t1.end_ + 1) < t1.source.length + 1
      omega)
    rw [k1]
    exact ⟨_, _, rfl, (h2.trans (Scanned.advance t1 h0 hn)).trans k2, rfl,
      scansNumber⟩
  next => exact ⟨_, _, rfl, h2, rfl, scansNumber⟩

theorem scansToken_string (t : Tokenizer) (q : Char) (hq : q = '\x27' ∨ q = '\x22') :
    ScansToken t (t.string q) := by
  have h0 : q ≠ Char.ofNat 0 := by rcases hq with h | h <;> rw [h] <;> decide
  have hn : q ≠ '\n' := by rcases hq with h | h <;> rw [h] <;> decide
  obtain ⟨r, t1, h1, h2, h3, h4⟩ := stringLoop_scanned q (t.source.length + 1) t [] (by omega)
  unfold Tokenizer.string
  rw [h1]
  cases r with
  | inl token =>
    obtain ⟨k1, k2⟩ := h3 token rfl
    exact ⟨_, _, rfl, h2, k1, by rw [k2]; decide⟩
  | inr cs =>
    have hp := h4 cs rfl
    have hs : TokenType.TOKEN_STRING ≠ TokenType.TOKEN_EOF := by decide
    exact ⟨_, _, rfl,
      h2.trans (Scanned.advance t1 (by rw [hp]; exact h0) (by rw [hp]; exact hn)), rfl, hs⟩

theorem nextToken_of_scans {t : Tokenizer} (t0 : Tokenizer) {r : Option (Token × Tokenizer)}
    (hs : Scanned t t0) (hlt : t.end_ < t0.end_) (h : ScansToken t0 r) :
    ∃ token t1, r = some (token, t1) ∧ Scanned t t1 ∧ token.line = t1.line
      ∧ ((token = t1.makeToken TokenType.TOKEN_EOF ∧ t1.isAtEnd = true
            ∧ t1.start = t1.end_)
          ∨ (token.type ≠ TokenType.TOKEN_EOF ∧ t.end_ < t1.end_)) := by
  obtain ⟨token, t1, h1, h2, h3, h4⟩ := h
  exact ⟨token, t1, h1, hs.trans h2, h3, Or.inr ⟨h4, lt_of_lt_of_le hlt h2.2.1⟩⟩

theorem scansToken_match_matchToken (t : Tokenizer) (c d : Char) (yes no : TokenType)
    (hc : c ≠ '\n') (hd : d ≠ '\n') (hyes : yes ≠ TokenType.TOKEN_EOF)
    (hno : no ≠ TokenType.TOKEN_EOF) :
    ScansToken t (some (Tokenizer.matchToken (t.match_ c).1 d yes no)) :=
  scansToken_of_scanned (scanned_match t c hc) (scansToken_matchToken _ d yes no hd hyes hno)

theorem scansToken_match_make (t : Tokenizer) (c : Char) (type : TokenType)
    (hc : c ≠ '\n') (h : type ≠ TokenType.TOKEN_EOF) :
    ScansToken t (some ((t.match_ c).1.makeToken type, (t.match_ c).1)) :=
  scansToken_of_scanned (scanned_match t c hc) (scansToken_make _ type h)

/-- Every call of `nextToken` returns.  The tokenizer it leaves is the one it was called
on after a scan, the token carries the line of that tokenizer, and either the token is
the EOF token made at the terminating NUL or the scan position has advanced. -/
theorem nextToken_spec (t : Tokenizer) :
    ∃ token t1, t.nextToken = some (token, t1) ∧ Scanned t t1 ∧ token.line = t1.line
      ∧ ((token = t1.makeToken TokenType.TOKEN_EOF ∧ t1.isAtEnd = true
            ∧ t1.start = t1.end_)
          ∨ (token.type ≠ TokenType.TOKEN_EOF ∧ t.end_ < t1.end_)) := by
  obtain ⟨t0, h0, hs, hn⟩ := skipWhitespace_spec t
  unfold Tokenizer.nextToken
  rw [h0]
  dsimp only
  by_cases he : Tokenizer.isAtEnd { t0 with start := t0.end_ } = true
  · rw [if_pos he]
    exact ⟨_, _, rfl, hs.trans (Scanned.start t0 _), rfl, Or.inl ⟨rfl, he, rfl⟩⟩
  · rw [if_neg he]
    have hp0 : Tokenizer.peek { t0 with start := t0.end_ } ≠ Char.ofNat 0 :=
      isAtEnd_false (by simpa using he)
    have hadv := Scanned.advance { t0 with start := t0.end_ } hp0 hn
    refine nextToken_of_scans (Tokenizer.advance { t0 with start := t0.end_ }).1
      ((hs.trans (Scanned.start t0 _)).trans hadv)
      (lt_of_le_of_lt hs.2.1 (Nat.lt_succ_self _)) ?_
    repeat' (first
      | (with_reducible apply scansToken_ite) <;> intro _
      | (with_reducible exact scansToken_make _ _ (by decide))
      | (with_reducible exact scansToken_error _ _)
      | (with_reducible exact scansToken_matchToken _ _ _ _ (by decide) (by decide) (by decide))
      | (with_reducible exact scansToken_match_matchToken _ _ _ _ _ (by decide) (by decide)
                                (by decide) (by decide))
      | (with_reducible exact scansToken_match_make _ _ _ (by decide) (by decide))
      | (with_reducible exact scansToken_identifierOrKeyword _)
      | (with_reducible exact scansToken_number _)
      | (with_reducible exact scansToken_string _ _ (by assumption)))

theorem nextToken_at_end {t : Tokenizer} (he : t.isAtEnd = true) (hs : t.start = t.end_) :
    t.nextToken = some (t.makeToken TokenType.TOKEN_EOF, t) := by
  have ht : { t with start := t.end_ } = t := by
    cases t
    cases hs
    rfl
  unfold Tokenizer.nextToken
  rw [skipWhitespace_at_end he]
  dsimp only
  rw [ht, if_pos he]

theorem tokenAt_at_end {t : Tokenizer} (he : t.isAtEnd = true) (hs : t.start = t.end_) :
    ∀ n, tokenAt n t = some (t.makeToken TokenType.TOKEN_EOF, t) := by
  intro n
  induction n with
  | zero => exact nextToken_at_end he hs
  | succ n ih =>
    unfold tokenAt
    rw [nextToken_at_end he hs]
    exact ih

theorem tokenAt_spec : ∀ (n : Nat) (t : Tokenizer),
    ∃ token t1, tokenAt n t = some (token, t1) ∧ Scanned t t1 ∧ token.line = t1.line := by
  intro n
  induction n with
  | zero =>
    intro t
    obtain ⟨token, t1, h1, h2, h3, -⟩ := nextToken_spec t
    exact ⟨token, t1, h1, h2, h3⟩
  | succ n ih =>
    intro t
    obtain ⟨token, t1, h1, h2, -, -⟩ := nextToken_spec t
    obtain ⟨token2, t2, k1, k2, k3⟩ := ih t1
    refine ⟨token2, t2, ?_, h2.trans k2, k3⟩
    unfold tokenAt
    rw [h1]
    exact k1

theorem tokenAt_reaches_eof : ∀ (k : Nat) (t : Tokenizer), t.source.length - t.end_ ≤ k →
    ∃ n, n ≤ k ∧ ∃ token t1, tokenAt n t = some (token, t1)
      ∧ token.type = TokenType.TOKEN_EOF := by
  intro k
  induction k with
  | zero =>
    intro t h
    obtain ⟨token, t1, h1, h2, -, h4⟩ := nextToken_spec t
    rcases h4 with ⟨h4, -, -⟩ | ⟨-, hlt⟩
    · exact ⟨0, le_refl _, token, t1, h1, by rw [h4]; rfl⟩
    · have := h2.lt_length hlt
      omega
  | succ k ih =>
    intro t h
    obtain ⟨token, t1, h1, h2, -, h4⟩ := nextToken_spec t
    rcases h4 with ⟨h4, -, -⟩ | ⟨-, hlt⟩
    · exact ⟨0, Nat.zero_le _, token, t1, h1, by rw [h4]; rfl⟩
    · obtain ⟨n, hn, token2, t2, k1, k2⟩ := ih t1 (by
        rw [h2.1]
        omega)
      refine ⟨n + 1, Nat.succ_le_succ hn, token2, t2, ?_, k2⟩
      unfold tokenAt
      rw [h1]
      exact k1

/-- Claim C21.  Call number `n` of successive calls of `nextToken` on a tokenizer
initialised with `source` returns a token, whatever the source and whatever the type of
the token.  The line of the token is 1 plus the number of newline bytes between the
first offset after an optional byte order mark and the position `end_` at which the
scan of the token stopped.  No other byte counts: the blanks and the bytes of the
comments skipped by `skipWhitespace` change the line by the number of newline bytes
among them, each counted once. -/
theorem token_line_counts_newlines (source : List Char) (n : Nat) :
    (∃ token tokenizer, tokenAt n (initTokenizer source) = some (token, tokenizer)
      ∧ tokenizer.source = source
      ∧ (initTokenizer source).end_ = (if source.take 3 = utf8Bom then 3 else 0)
      ∧ (initTokenizer source).end_ ≤ tokenizer.end_
      ∧ tokenizer.line = token.line
      ∧ token.line = 1 + newlines source (initTokenizer source).end_ tokenizer.end_)
    ∧ (∀ tokenizer : Tokenizer, ∃ tokenizer1, tokenizer.skipWhitespace = some tokenizer1
        ∧ tokenizer1.line
            = tokenizer.line + newlines tokenizer.source tokenizer.end_ tokenizer1.end_) := by
  constructor
  · obtain ⟨token, t1, h1, h2, h3⟩ := tokenAt_spec n (initTokenizer source)
    exact ⟨token, t1, h1, h2.1, rfl, h2.2.1, h3.symm, h3.trans h2.2.2.2⟩
  · intro tokenizer
    obtain ⟨t1, h1, h2, -⟩ := skipWhitespace_spec tokenizer
    exact ⟨t1, h1, h2.2.2.2⟩

/-- Claim C21 on the source `a // b\n\r\n\tc`: the second token, the identifier `c`, is
on line 3, the two newlines before offset 11 counted once each; and on a source that
starts with a byte order mark, where the unclosed string after one newline gives an
error token on line 2. -/
theorem token_line_counts_newlines_witness :
    ((∃ token tokenizer,
        tokenAt 1 (initTokenizer "a // b\n\r\n\tc".toList) = some (token, tokenizer)
        ∧ tokenizer.source = "a // b\n\r\n\tc".toList
        ∧ (initTokenizer "a // b\n\r\n\tc".toList).end_
            = (if "a // b\n\r\n\tc".toList.take 3 = utf8Bom then 3 else 0)
        ∧ (initTokenizer "a // b\n\r\n\tc".toList).end_ ≤ tokenizer.end_
        ∧ tokenizer.line = token.line
        ∧ token.line = 1 + newlines "a // b\n\r\n\tc".toList
            (initTokenizer "a // b\n\r\n\tc".toList).end_ tokenizer.end_)
      ∧ (∀ tokenizer : Tokenizer, ∃ tokenizer1, tokenizer.skipWhitespace = some tokenizer1
          ∧ tokenizer1.line
              = tokenizer.line
                + newlines tokenizer.source tokenizer.end_ tokenizer1.end_))
    ∧ (tokenAt 1 (initTokenizer "a // b\n\r\n\tc".toList)).map
        (fun p => (p.1.type, p.1.lexeme, p.1.line, p.2.end_))
      = some (TokenType.TOKEN_IDENTIFIER, ['c'], 3, 11)
    ∧ newlines "a // b\n\r\n\tc".toList 0 11 = 2
    ∧ (tokenAt 2 (initTokenizer "a // b\n\r\n\tc".toList)).map
        (fun p => (p.1.type, p.1.line, p.2.end_))
      = some (TokenType.TOKEN_EOF, 3, 11)
    ∧ (tokenAt 0 (initTokenizer (utf8Bom ++ "\n\x22ab\nc".toList))).map
        (fun p => (p.1.type, p.1.line, p.2.end_))
      = some (TokenType.TOKEN_ERROR, 2, 7)
    ∧ newlines (utf8Bom ++ "\n\x22ab\nc".toList) 3 7 = 1 :=
  ⟨token_line_counts_newlines "a // b\n\r\n\tc".toList 1, by decide, by decide, by decide,
    by decide, by decide⟩

/-! ## The loop of `BC_ARRAY` -/

theorem store_self {H : hs_State} {r : Ref} {o : Obj} (h : H.heap[r]? = some o) :
    store H r o = H := by
  obtain ⟨hlt, -⟩ := List.getElem?_eq_some.1 h
  have e : H.heap.set r o = H.heap := by
    apply List.ext_getElem?
    intro j
    rw [List.getElem?_set]
    by_cases hj : r = j
    · subst hj
      rw [if_pos rfl, if_pos hlt]
      exact h.symm
    · rw [if_neg hj]
  unfold store
  rw [e]

theorem store_store (H : hs_State) (r : Ref) (o o1 : Obj) :
    store (store H r o) r o1 = store H r o1 := by
  unfold store
  simp only [List.set_set]

theorem peek_of_le {H : hs_State} {d : Nat} (h : d + 1 ≤ H.stackTop) :
    peek H (d : Int) = H.stack[H.stackTop - (d + 1)]? := by
  unfold peek
  have e : (1 : Int) + (d : Int) = ((d + 1 : Nat) : Int) := by omega
  rw [e, ptrSub_of_le h]

/-- For the element count 255 the condition `i <= elementCount` holds for every value
of the `u8` counter: the loop returns for no bound on its iterations. -/
theorem arrayLoop_255 (array : Ref) : ∀ (fuel i : Nat) (H : hs_State), i < 256 →
    arrayLoop array 255 fuel i H = none := by
  intro fuel
  induction fuel with
  | zero =>
    intro i H _
    rfl
  | succ fuel ih =>
    intro i H hi
    unfold arrayLoop
    rw [if_pos (by omega)]
    split
    · exact ih _ _ (Nat.mod_lt _ (by decide))
    · rfl

/-- For an element count up to 254 the loop appends the `m` values from the slot
`base + j` on, in the order of the slots. -/
theorem arrayLoop_spec (array elementCount base : Nat) (hn : elementCount ≤ 254) :
    ∀ (m j fuel : Nat) (H : hs_State) (values : List Value), j + m = elementCount →
    m + 1 ≤ fuel → H.stackTop = base + elementCount + 1 →
    base + elementCount ≤ H.stack.length → H.heap[array]? = some (Obj.array values) →
    arrayLoop array elementCount fuel (j + 1) H
      = some (store H array (Obj.array (values ++ (H.stack.drop (base + j)).take m))) := by
  intro m
  induction m with
  | zero =>
    intro j fuel H values hj hfuel _ _ hheap
    obtain ⟨fuel, rfl⟩ : ∃ k, fuel = k + 1 := ⟨fuel - 1, by omega⟩
    unfold arrayLoop
    rw [if_neg (by omega)]
    simp only [List.take_zero, List.append_nil]
    rw [store_self hheap]
  | succ m ih =>
    intro j fuel H values hj hfuel htop hlen hheap
    obtain ⟨fuel, rfl⟩ : ∃ k, fuel = k + 1 := ⟨fuel - 1, by omega⟩
    have hlt : base + j < H.stack.length := by omega
    have hpeek : peek H ((elementCount : Int) - ((j + 1 : Nat) : Int) + 1)
        = some H.stack[base + j] := by
      have e : (elementCount : Int) - ((j + 1 : Nat) : Int) + 1
          = ((elementCount - j : Nat) : Int) := by omega
      rw [e, peek_of_le (by omega)]
      have e1 : H.stackTop - (elementCount - j + 1) = base + j := by omega
      rw [e1]
      exact List.getElem?_eq_getElem hlt
    have hmod : (j + 1 + 1) % 256 = j + 1 + 1 := Nat.mod_eq_of_lt (by omega)
    unfold arrayLoop
    rw [if_pos (by omega), hpeek, hheap]
    simp only
    rw [hmod, ih (j + 1) fuel (store H array (Obj.array (values ++ [H.stack[base + j]])))
      (values ++ [H.stack[base + j]]) (by omega) (by omega) htop hlen
      (heap_store_self hheap), store_store]
    have hdrop : H.stack.drop (base + j) = H.stack[base + j] :: H.stack.drop (base + j + 1) :=
      List.drop_eq_getElem_cons hlt
    have hstack : (store H array (Obj.array (values ++ [H.stack[base + j]]))).stack
        = H.stack := rfl
    rw [hstack, hdrop, List.take_succ_cons, List.append_assoc]
    rfl

theorem poke_length (mem : List Value) (i : Nat) (v : Value) :
    i < (poke mem i v).length := by
  unfold poke
  split
  · rename_i h
    simpa using h
  · simp
    omega

theorem take_poke (mem : List Value) {i : Nat} (v : Value) (h : i ≤ mem.length) :
    (poke mem i v).take i = mem.take i := by
  apply List.ext_getElem?
  intro j
  rw [List.getElem?_take, List.getElem?_take]
  split
  · rename_i hj
    exact poke_get_of_lt mem v (by omega) (by omega)
  · rfl

/-- The case `BC_ARRAY` for an element count up to 254 and a stack that holds at least
that many values. -/
theorem case_BC_ARRAY_spec (H H1 : hs_State) (elementCount : Nat)
    (hread : READ_BYTE H = some (elementCount, H1)) (hn : elementCount ≤ 254)
    (hcount : elementCount ≤ H1.stackTop) (hlen : H1.stackTop ≤ H1.stack.length) :
    ∃ H2, case_BC_ARRAY H = some (Step.next H2)
      ∧ H2.stackTop = H1.stackTop - elementCount + 1
      ∧ H2.stack[H1.stackTop - elementCount]? = some (Value.obj H1.heap.length)
      ∧ (∀ i, i < H1.stackTop - elementCount → H2.stack[i]? = H1.stack[i]?)
      ∧ H2.heap[H1.heap.length]?
          = some (Obj.array ((H1.stack.drop (H1.stackTop - elementCount)).take elementCount))
      ∧ H2.heap.length = H1.heap.length + 1
      ∧ (∀ i, i < H1.heap.length → H2.heap[i]? = H1.heap[i]?)
      ∧ H2.frames = H1.frames ∧ H2.globals = H1.globals
      ∧ H2.openUpvalues = H1.openUpvalues := by
  have hbase : H1.stackTop - elementCount + elementCount = H1.stackTop := by omega
  have hloop := arrayLoop_spec H1.heap.length elementCount (H1.stackTop - elementCount) hn
    elementCount 0 256 (push (allocate H1 (Obj.array [])).2 (Value.obj H1.heap.length)) []
    (by omega) (by omega)
    (by simp only [push, allocate]; omega)
    (by
      have := poke_length H1.stack H1.stackTop (Value.obj H1.heap.length)
      simp only [push, allocate]
      omega)
    (by simp only [push, allocate, List.getElem?_concat_length])
  have hslice : ((push (allocate H1 (Obj.array [])).2 (Value.obj H1.heap.length)).stack.drop
        (H1.stackTop - elementCount + 0)).take elementCount
      = (H1.stack.drop (H1.stackTop - elementCount)).take elementCount := by
    simp only [push, allocate, Nat.add_zero]
    rw [List.take_drop, List.take_drop, hbase, take_poke _ _ hlen]
  rw [hslice] at hloop
  simp only [Nat.zero_add, List.nil_append] at hloop
  have hptr : ptrSub (H1.stackTop + 1) ((elementCount : Int) + 1)
      = some (H1.stackTop - elementCount) := by
    have := @ptrSub_of_le (H1.stackTop + 1) (elementCount + 1) (by omega)
    have e : H1.stackTop + 1 - (elementCount + 1) = H1.stackTop - elementCount := by omega
    rw [e] at this
    simpa using this
  refine ⟨push
      { store (push (allocate H1 (Obj.array [])).2 (Value.obj H1.heap.length)) H1.heap.length
          (Obj.array ((H1.stack.drop (H1.stackTop - elementCount)).take elementCount)) with
        stackTop := H1.stackTop - elementCount }
      (Value.obj H1.heap.length), ?_, rfl, ?_, ?_, ?_, ?_, ?_, rfl, rfl, rfl⟩
  · simp only [case_BC_ARRAY, hread]
    simp only [allocate] at hloop ⊢
    rw [hloop]
    simp only [store, push]
    rw [hptr]
  · simp only [push, store]
    exact poke_get_self _ _ _
  · intro i hi
    simp only [push, store, allocate]
    rw [poke_get_of_lt _ _ (by omega)
      (by have := poke_length H1.stack H1.stackTop (Value.obj H1.heap.length); omega)]
    exact poke_get_of_lt _ _ (by omega) (by omega)
  · simp only [push, store, allocate]
    exact List.getElem?_set_self (by simp)
  · simp only [push, store, allocate, List.length_set, List.length_append, List.length_singleton]
  · intro i hi
    simp only [push, store, allocate]
    rw [List.getElem?_set_ne (by omega), List.getElem?_append_left hi]

/-- Claim C22, evaluated on the code.  The loop of `BC_ARRAY` is
`for (u8 i = 1; i <= elementCount; i++)`.  With the operand 255 its condition holds for
every value of the counter, which wraps from 255 to 0: the loop returns for no bound on
its iterations, `BC_ARRAY` has no result and `run` does not return one.  For the
operands 0 to 254 and a stack that holds at least that many values the instruction does
what the claim says: it goes on with a state in which the values are replaced by one
new array that holds them in the order of their slots, the slots below unchanged. -/
theorem array_of_255_elements_never_ends :
    (∀ (array fuel i : Nat) (H : hs_State), i < 256 → arrayLoop array 255 fuel i H = none)
    ∧ (∀ H H1 : hs_State, READ_BYTE H = some (255, H1) → case_BC_ARRAY H = none)
    ∧ (∀ (env : Env) (H0 H H1 : hs_State) (byte fuel : Nat), READ_BYTE H0 = some (byte, H) →
        env.decode byte = some OpCode.BC_ARRAY → READ_BYTE H = some (255, H1) →
        run env (fuel + 1) H0 = RunResult.undefined)
    ∧ step demoEnv (arrayState 255 (List.replicate 255 Value.nil)) = none
    ∧ (∀ (H H1 : hs_State) (elementCount : Nat), READ_BYTE H = some (elementCount, H1) →
        elementCount ≤ 254 → elementCount ≤ H1.stackTop → H1.stackTop ≤ H1.stack.length →
        ∃ H2, case_BC_ARRAY H = some (Step.next H2)
          ∧ H2.stackTop = H1.stackTop - elementCount + 1
          ∧ H2.stack[H1.stackTop - elementCount]? = some (Value.obj H1.heap.length)
          ∧ (∀ i, i < H1.stackTop - elementCount → H2.stack[i]? = H1.stack[i]?)
          ∧ H2.heap[H1.heap.length]?
              = some (Obj.array
                  ((H1.stack.drop (H1.stackTop - elementCount)).take elementCount))
          ∧ H2.heap.length = H1.heap.length + 1
          ∧ (∀ i, i < H1.heap.length → H2.heap[i]? = H1.heap[i]?))
    ∧ (match step demoEnv (arrayState 2
          [Value.number (F64.ofNat 10), Value.number (F64.ofNat 20),
           Value.number (F64.ofNat 30)]) with
       | some (Step.next H) => some (H.stackTop, H.stack.take 3, H.heap[2]?)
       | _ => none)
      = some (3, [Value.obj 1, Value.number (F64.ofNat 10), Value.obj 2],
          some (Obj.array [Value.number (F64.ofNat 20), Value.number (F64.ofNat 30)]))
    ∧ (match step demoEnv (arrayState 0 [Value.number (F64.ofNat 10)]) with
       | some (Step.next H) => some (H.stackTop, H.stack.take 3, H.heap[2]?)
       | _ => none)
      = some (3, [Value.obj 1, Value.number (F64.ofNat 10), Value.obj 2],
          some (Obj.array [])) := by
  have h255 : ∀ H H1 : hs_State, READ_BYTE H = some (255, H1) → case_BC_ARRAY H = none := by
    intro H H1 hread
    simp only [case_BC_ARRAY, hread, allocate]
    rw [arrayLoop_255 _ 256 1 _ (by decide)]
  refine ⟨arrayLoop_255, h255, ?_, ?_, ?_, by decide, by decide⟩
  · intro env H0 H H1 byte fuel hfetch hdecode hread
    simp only [run, step, hfetch, hdecode, dispatch, h255 H H1 hread]
  · have hfetch : READ_BYTE (arrayState 255 (List.replicate 255 Value.nil))
        = some (OpCode.BC_ARRAY.byte,
            setIp (arrayState 255 (List.replicate 255 Value.nil))
              { func := some 1, ip := some 0, slots := 0 } 1) := by
      rfl
    have hread : READ_BYTE (setIp (arrayState 255 (List.replicate 255 Value.nil))
          { func := some 1, ip := some 0, slots := 0 } 1)
        = some (255, setIp (setIp (arrayState 255 (List.replicate 255 Value.nil))
            { func := some 1, ip := some 0, slots := 0 } 1)
            { func := some 1, ip := some 1, slots := 0 } 2) := by
      rfl
    have hdecode : demoEnv.decode OpCode.BC_ARRAY.byte = some OpCode.BC_ARRAY := by decide
    simp only [step, hfetch, hdecode, dispatch, h255 _ _ hread]
  · intro H H1 elementCount hread hn hcount hlen
    obtain ⟨H2, h1, h2, h3, h4, h5, h6, h7, -⟩ :=
      case_BC_ARRAY_spec H H1 elementCount hread hn hcount hlen
    exact ⟨H2, h1, h2, h3, h4, h5, h6, h7⟩

/-! ## Return -/

/-- Claim C23.  Let `frame` be the current frame of `H`, `r` the top of the stack, the
frame base a slot below the top, and the open-upvalue list sorted by descending slot,
without an upvalue twice, its slots from the frame base on slots of the stack memory.
With `frameCount >= 2`, `BC_RETURN` goes on with the next instruction in a state whose
upvalues are those `closeUpvalues(H, frame->slots)` leaves (each upvalue of a slot of the
frame is closed and reads the value its slot held), whose `frameCount` is one less,
whose `stackTop` is the frame base plus one with `r` in the slot of the frame base, and
whose slots below the frame base are unchanged.  With `frameCount = 1` and the slot of
the script closure under `r`, `BC_RETURN` ends `run` with `INTERPRET_OK`, both slots
popped and no frame left. -/
theorem return_replaces_the_frame_by_the_result (env : Env) (H : hs_State) (frame : CallFrame)
    (r : Value) (hframe : H.frames.getLast? = some frame) (hr : peek H 0 = some r)
    (hbase : frame.slots < H.stackTop) (hdesc : Descending H)
    (hnodup : H.openUpvalues.Nodup)
    (hmem : ∀ u ∈ H.openUpvalues, ∀ s ∈ openLocation H u,
      frame.slots ≤ s → s < H.stack.length) :
    (2 ≤ H.frameCount →
      ∃ H1 H2, closeUpvalues { H with stackTop := H.stackTop - 1 } frame.slots = some H1
        ∧ dispatch env OpCode.BC_RETURN H = some (Step.next H2)
        ∧ H2.heap = H1.heap ∧ H2.openUpvalues = H1.openUpvalues
        ∧ (∀ u ∈ H.openUpvalues, ∀ s, openLocation H u = some s → frame.slots ≤ s →
            u ∉ H2.openUpvalues ∧ readUpvalue H2 u = H.stack[s]?)
        ∧ H2.frameCount + 1 = H.frameCount ∧ H2.frames = H.frames.dropLast
        ∧ H2.stackTop = frame.slots + 1 ∧ H2.stack[frame.slots]? = some r
        ∧ peek H2 0 = some r
        ∧ (∀ i, i < frame.slots → H2.stack[i]? = H.stack[i]?))
    ∧ (H.frameCount = 1 → ∀ script, peek H 1 = some script →
      ∃ H4, dispatch env OpCode.BC_RETURN H = some (Step.ret InterpretResult.INTERPRET_OK H4)
        ∧ H4.stackTop + 2 = H.stackTop ∧ H4.frameCount = 0 ∧ H4.stack = H.stack
        ∧ (∀ (H0 : hs_State) (byte fuel : Nat), READ_BYTE H0 = some (byte, H) →
            env.decode byte = some OpCode.BC_RETURN →
            run env (fuel + 1) H0 = RunResult.returned InterpretResult.INTERPRET_OK H4)) := by
  obtain ⟨slots, hslots, hsorted⟩ := hdesc
  have hread : ∀ s ∈ slots, frame.slots ≤ s → s < H.stack.length := by
    intro s hs hl
    obtain ⟨x, hx, hxs⟩ := openSlots_mem_slots hslots s hs
    exact hmem x hx s hxs hl
  have hslots1 : openSlots { H with stackTop := H.stackTop - 1 } H.openUpvalues
      = some slots :=
    (@openSlots_congr H { H with stackTop := H.stackTop - 1 } H.openUpvalues
      (fun x _ => rfl)).trans hslots
  obtain ⟨H1, h1, h2, h3, h4, h5, h6, h7, h8⟩ :=
    closeUpvaluesLoop_spec frame.slots H.openUpvalues { H with stackTop := H.stackTop - 1 }
      slots hslots1 hsorted hnodup hread
  have h1c : closeUpvalues { H with stackTop := H.stackTop - 1 } frame.slots = some H1 := h1
  have hlen : H.stackTop - 1 < H.stack.length := by
    have := @stack_length_of_peek H 0 r (by simpa using hr)
    simpa using this
  constructor
  · intro hcount
    have hne : ¬ ({ H1 with frames := H1.frames.dropLast } : hs_State).frameCount = 0 := by
      simp only [hs_State.frameCount, h4, List.length_dropLast] at hcount ⊢
      omega
    refine ⟨H1, push { H1 with frames := H1.frames.dropLast, stackTop := frame.slots } r,
      h1c, ?_, rfl, rfl, ?_, ?_, ?_, rfl, ?_, peek_push _ _, ?_⟩
    · simp only [dispatch, case_BC_RETURN, hframe, pop_of_peek hr, h1c]
      rw [if_neg hne]
    · intro u hu s hs hl
      obtain ⟨v, hv, hheap, hnot⟩ := h6 u s hu hs hl
      refine ⟨hnot, ?_⟩
      have : (push { H1 with frames := H1.frames.dropLast, stackTop := frame.slots }
          r).heap[u]? = some (Obj.upvalue none v) := hheap
      simp only [readUpvalue, this, hv]
    · simp only [hs_State.frameCount, push, h4, List.length_dropLast] at hcount ⊢
      omega
    · simp only [push, h4]
    · simp only [push, h2]
      exact poke_get_self _ _ _
    · intro i hi
      simp only [push, h2]
      exact poke_get_of_lt _ _ (by omega) (by omega)
  · intro hcount script hscript
    have heq : ({ H1 with frames := H1.frames.dropLast } : hs_State).frameCount = 0 := by
      simp only [hs_State.frameCount, h4, List.length_dropLast] at hcount ⊢
      omega
    obtain ⟨hs1, hs2⟩ := peek_one hscript
    have hpop : pop ({ H1 with frames := H1.frames.dropLast } : hs_State)
        = some (script, { H1 with frames := H1.frames.dropLast, stackTop := H.stackTop - 2 }) := by
      unfold pop
      simp only [h2, h3]
      rw [if_neg (by omega)]
      have e : H.stackTop - 1 - 1 = H.stackTop - 2 := by omega
      rw [e, hs2]
    have hcase : dispatch env OpCode.BC_RETURN H
        = some (Step.ret InterpretResult.INTERPRET_OK
            { H1 with frames := H1.frames.dropLast, stackTop := H.stackTop - 2 }) := by
      simp only [dispatch, case_BC_RETURN, hframe, pop_of_peek hr, h1c]
      rw [if_pos heq, hpop]
    refine ⟨_, hcase, ?_, heq, h2, ?_⟩
    · simp only
      omega
    · intro H0 byte fuel hbyte hdecode
      simp only [run, step, hbyte, hdecode, hcase]

/-- Claim C23 on the function of `returnState`, which returns 42 to the script (the
frame base is slot 2, slot 1 is a local of the script): afterwards one frame is left, the
stack is the script closure, the local 5 and 42, and the upvalue of slot 3 is closed
with 10.  The script frame alone returns `INTERPRET_OK`. -/
theorem return_replaces_the_frame_by_the_result_witness :
    (∃ H1 H2, closeUpvalues
          { returnState (Value.number (F64.ofNat 42)) with
            stackTop := (returnState (Value.number (F64.ofNat 42))).stackTop - 1 }
          ({ func := some 3, ip := some 1, slots := 2 } : CallFrame).slots = some H1
        ∧ dispatch demoEnv OpCode.BC_RETURN (returnState (Value.number (F64.ofNat 42)))
            = some (Step.next H2)
        ∧ H2.heap = H1.heap ∧ H2.openUpvalues = H1.openUpvalues
        ∧ (∀ u ∈ (returnState (Value.number (F64.ofNat 42))).openUpvalues, ∀ s,
            openLocation (returnState (Value.number (F64.ofNat 42))) u = some s →
            ({ func := some 3, ip := some 1, slots := 2 } : CallFrame).slots ≤ s →
            u ∉ H2.openUpvalues
              ∧ readUpvalue H2 u = (returnState (Value.number (F64.ofNat 42))).stack[s]?)
        ∧ H2.frameCount + 1 = (returnState (Value.number (F64.ofNat 42))).frameCount
        ∧ H2.frames = (returnState (Value.number (F64.ofNat 42))).frames.dropLast
        ∧ H2.stackTop = ({ func := some 3, ip := some 1, slots := 2 } : CallFrame).slots + 1
        ∧ H2.stack[({ func := some 3, ip := some 1, slots := 2 } : CallFrame).slots]?
            = some (Value.number (F64.ofNat 42))
        ∧ peek H2 0 = some (Value.number (F64.ofNat 42))
        ∧ (∀ i, i < ({ func := some 3, ip := some 1, slots := 2 } : CallFrame).slots →
            H2.stack[i]? = (returnState (Value.number (F64.ofNat 42))).stack[i]?))
    ∧ (∃ H4, dispatch demoEnv OpCode.BC_RETURN (scriptReturnState Value.nil)
          = some (Step.ret InterpretResult.INTERPRET_OK H4)
        ∧ H4.stackTop + 2 = (scriptReturnState Value.nil).stackTop ∧ H4.frameCount = 0
        ∧ H4.stack = (scriptReturnState Value.nil).stack
        ∧ (∀ (H0 : hs_State) (byte fuel : Nat),
            READ_BYTE H0 = some (byte, scriptReturnState Value.nil) →
            demoEnv.decode byte = some OpCode.BC_RETURN →
            run demoEnv (fuel + 1) H0 = RunResult.returned InterpretResult.INTERPRET_OK H4))
    ∧ (match dispatch demoEnv OpCode.BC_RETURN (returnState (Value.number (F64.ofNat 42))) with
       | some (Step.next H2) =>
         some (H2.frameCount, H2.stackTop, H2.stack.take 3, H2.openUpvalues, readUpvalue H2 4)
       | _ => none)
      = some (1, 3,
          [Value.obj 1, Value.number (F64.ofNat 5), Value.number (F64.ofNat 42)], [5],
          some (Value.number (F64.ofNat 10)))
    ∧ run demoEnv 1 (scriptState [OpCode.BC_RETURN.byte] [] [] 0 [Value.nil] [])
      = RunResult.returned InterpretResult.INTERPRET_OK
          { scriptReturnState Value.nil with stackTop := 0, frames := [] } :=
  ⟨(return_replaces_the_frame_by_the_result demoEnv (returnState (Value.number (F64.ofNat 42)))
      { func := some 3, ip := some 1, slots := 2 } (Value.number (F64.ofNat 42))
      (by decide) (by decide) (by decide) ⟨[3, 1], by decide, by decide⟩ (by decide)
      (by decide)).1 (by decide),
   (return_replaces_the_frame_by_the_result demoEnv (scriptReturnState Value.nil)
      { func := some 1, ip := some 1, slots := 0 } Value.nil
      (by decide) (by decide) (by decide) ⟨[], by decide, by decide⟩ (by decide)
      (by decide)).2 (by decide) (Value.obj 1) (by decide),
   by decide, by decide⟩

/-! ## Native calls -/

/-- Claim C24.  Let the state have fewer than `FRAMES_MAX` frames, so that the frame
`callCFunc` takes without a test lies inside the frame array (at `FRAMES_MAX` frames
it does not, which is claim C9).  Let `func` be a native function whose declared arity
accepts `argCount`, let `slot` be the callee slot, `stackTop - argCount - 1`, and let
the native function, run in the state with its frame pushed, push exactly one value
`r`: it leaves `stackTop` one higher with `r` in the new slot, the slots below as they
were and the frames as they were.  Then the native function runs with at most
`FRAMES_MAX` frames, `callCFunc` returns true, the frames and `frameCount` are those
before the call, `stackTop` is `slot + 1`, the slot `slot` holds `r`, and the slots
below `slot` are unchanged. -/
theorem callCFunc_leaves_the_result_in_place (env : Env) (H H2 : hs_State) (func : Ref)
    (cFunc : Nat) (arity argCount : Int) (slot : Nat) (r : Value)
    (hroom : H.frameCount < env.FRAMES_MAX)
    (hfunc : H.heap[func]? = some (Obj.cFunction cFunc arity))
    (harity : argCount = arity ∨ arity = -1) (hargs : 0 ≤ argCount)
    (hslot : ptrSub H.stackTop (argCount + 1) = some slot)
    (hnative : env.cFuncs cFunc
        { H with frames := H.frames ++ [{ func := none, ip := none, slots := slot }] }
        argCount = some H2)
    (htop : H2.stackTop = H.stackTop + 1) (hresult : H2.stack[H.stackTop]? = some r)
    (hrest : ∀ i, i < H.stackTop → H2.stack[i]? = H.stack[i]?)
    (hframes : H2.frames = H.frames ++ [{ func := none, ip := none, slots := slot }]) :
    ∃ H3, callCFunc env H func argCount = some (true, H3)
      ∧ H3.frames = H.frames ∧ H3.frameCount = H.frameCount
      ∧ H3.stackTop = slot + 1 ∧ H3.stack[slot]? = some r ∧ peek H3 0 = some r
      ∧ (∀ i, i < slot → H3.stack[i]? = H.stack[i]?)
      ∧ H3.heap = H2.heap ∧ H3.globals = H2.globals ∧ H3.stdout = H2.stdout
      ∧ H2.frameCount ≤ env.FRAMES_MAX := by
  have hle : slot ≤ H.stackTop := by
    unfold ptrSub at hslot
    split at hslot
    · simp only [Option.some.injEq] at hslot
      omega
    · simp at hslot
  have hlen : H.stackTop < H2.stack.length := (List.getElem?_eq_some.1 hresult).1
  have hpop : pop H2 = some (r, { H2 with stackTop := H2.stackTop - 1 }) := by
    unfold pop
    rw [if_neg (by omega)]
    have e : H2.stackTop - 1 = H.stackTop := by omega
    rw [e, hresult]
  have hlast : ({ H2 with stackTop := H2.stackTop - 1 } : hs_State).frames.getLast?
      = some { func := none, ip := none, slots := slot } := by
    simp only [hframes, List.getLast?_append, List.getLast?_singleton]
    rfl
  have hnot : ¬ (argCount ≠ arity ∧ arity ≠ -1) := by
    rintro ⟨h1, h2⟩
    rcases harity with h | h
    · exact h1 h
    · exact h2 h
  have hcount : H2.frameCount ≤ env.FRAMES_MAX := by
    have e : H2.frameCount = H.frameCount + 1 := by
      simp only [hs_State.frameCount, hframes, List.length_append, List.length_singleton]
    omega
  refine ⟨push { H2 with frames := H2.frames.dropLast, stackTop := slot } r, ?_, ?_, ?_, rfl,
    ?_, peek_push _ _, ?_, rfl, rfl, rfl, hcount⟩
  · simp only [callCFunc, hfunc, hslot, hnative, hpop, hlast]
    rw [if_neg hnot]
  · simp only [push, hframes, List.dropLast_concat]
  · simp only [hs_State.frameCount, push, hframes, List.dropLast_concat]
  · simp only [push]
    exact poke_get_self _ _ _
  · intro i hi
    simp only [push]
    rw [poke_get_of_lt _ _ (by omega) (by omega)]
    exact hrest i (by omega)

/-- Claim C24 on the native function `frameCountProbe`, called with one argument from
the script of `callState` (callee slot 1): it runs with two frames and pushes 2; after
the call there is one frame again and the stack is the script closure followed by 2. -/
theorem callCFunc_leaves_the_result_in_place_witness :
    (∃ H3, callCFunc demoEnv callState 6 1 = some (true, H3)
      ∧ H3.frames = callState.frames ∧ H3.frameCount = callState.frameCount
      ∧ H3.stackTop = 1 + 1 ∧ H3.stack[1]? = some (Value.number (F64.ofNat 2))
      ∧ peek H3 0 = some (Value.number (F64.ofNat 2))
      ∧ (∀ i, i < 1 → H3.stack[i]? = callState.stack[i]?)
      ∧ H3.heap
          = (push { callState with frames := callState.frames ++
              [{ func := none, ip := none, slots := 1 }] }
              (Value.number (F64.ofNat 2))).heap
      ∧ H3.globals
          = (push { callState with frames := callState.frames ++
              [{ func := none, ip := none, slots := 1 }] }
              (Value.number (F64.ofNat 2))).globals
      ∧ H3.stdout
          = (push { callState with frames := callState.frames ++
              [{ func := none, ip := none, slots := 1 }] }
              (Value.number (F64.ofNat 2))).stdout
      ∧ (push { callState with frames := callState.frames ++
            [{ func := none, ip := none, slots := 1 }] }
            (Value.number (F64.ofNat 2))).frameCount ≤ demoEnv.FRAMES_MAX)
    ∧ (callCFunc demoEnv callState 6 1).map
        (fun p => (p.1, p.2.frameCount, p.2.stackTop, p.2.stack.take 2))
      = some (true, 1, 2, [Value.obj 1, Value.number (F64.ofNat 2)]) :=
  ⟨callCFunc_leaves_the_result_in_place demoEnv callState
      (push { callState with frames := callState.frames ++
        [{ func := none, ip := none, slots := 1 }] } (Value.number (F64.ofNat 2)))
      6 1 (-1) 1 1 (Value.number (F64.ofNat 2))
      (by decide) (by decide) (by decide) (by decide) (by decide) (by decide) (by decide)
      (by decide) (by decide) (by decide),
   by decide⟩

/-! ## Calls in a heap with one more bound method -/

theorem getElem?_append_one (heap : List Obj) (o : Obj) (i : Nat) :
    (heap ++ [o])[i]? = heap[i]? ∨ (heap[i]? = none ∧ (heap ++ [o])[i]? = some o) := by
  rcases Nat.lt_trichotomy i heap.length with hlt | heq | hgt
  · left
    exact List.getElem?_append_left hlt
  · right
    subst heq
    exact ⟨List.getElem?_eq_none (Nat.le_refl _), List.getElem?_concat_length _ _⟩
  · left
    rw [List.getElem?_eq_none (by simp; omega), List.getElem?_eq_none (by omega)]

theorem stringChars_append (H : hs_State) (receiver : Value) (method name : Ref) :
    stringChars { H with heap := H.heap ++ [Obj.boundMethod receiver method] } name
      = stringChars H name := by
  unfold stringChars
  rcases getElem?_append_one H.heap (Obj.boundMethod receiver method) name with h | ⟨h1, h2⟩
  · simp only [h]
  · simp only [h1, h2]

theorem tracebackLine_append (H : hs_State) (receiver : Value) (method : Ref)
    (frame : CallFrame) :
    tracebackLine { H with heap := H.heap ++ [Obj.boundMethod receiver method] } frame
      = tracebackLine H frame := by
  unfold tracebackLine
  cases frame.func with
  | none => rfl
  | some c =>
    simp only
    rcases getElem?_append_one H.heap (Obj.boundMethod receiver method) c with h | ⟨h1, h2⟩
    · rw [h]
      cases hc : H.heap[c]? with
      | none => rfl
      | some o =>
        cases o with
        | closure fn ups =>
          simp only
          rcases getElem?_append_one H.heap (Obj.boundMethod receiver method) fn
            with h3 | ⟨h3, h4⟩
          · rw [h3]
            cases hf : H.heap[fn]? with
            | none => rfl
            | some o1 =>
              cases o1 with
              | function f =>
                simp only
                cases f.name with
                | none => rfl
                | some n => simp only [stringChars_append]
              | _ => rfl
          · rw [h3, h4]
        | _ => rfl
    · rw [h1, h2]

theorem runtimeError_append (H : hs_State) (receiver : Value) (method : Ref)
    (message : String) :
    runtimeError { H with heap := H.heap ++ [Obj.boundMethod receiver method] } message
      = { runtimeError H message with
          heap := H.heap ++ [Obj.boundMethod receiver method] } := by
  have e : tracebackLine { H with heap := H.heap ++ [Obj.boundMethod receiver method] }
      = tracebackLine H := funext (tracebackLine_append H receiver method)
  unfold runtimeError resetStack
  simp only [e]

/-- A call in the heap extended by a bound method has the outcome of the call in the
heap without it, with the bound method added to the heap. -/
theorem call_append (env : Env) (H : hs_State) (receiver : Value) (method closure : Ref)
    (argCount : Int) :
    call env { H with heap := H.heap ++ [Obj.boundMethod receiver method] } closure argCount
      = (call env H closure argCount).map
          (fun p => (p.1, { p.2 with heap := p.2.heap ++ [Obj.boundMethod receiver method] })) := by
  unfold call
  simp only
  rcases getElem?_append_one H.heap (Obj.boundMethod receiver method) closure
    with h | ⟨h1, h2⟩
  · rw [h]
    cases hc : H.heap[closure]? with
    | none => rfl
    | some o =>
      cases o with
      | closure fn ups =>
        simp only
        rcases getElem?_append_one H.heap (Obj.boundMethod receiver method) fn
          with h3 | ⟨h3, h4⟩
        · rw [h3]
          cases hf : H.heap[fn]? with
          | none => rfl
          | some o1 =>
            cases o1 with
            | function f =>
              simp only
              by_cases ha : argCount ≠ f.arity
              · rw [if_pos ha, if_pos ha]
                simp only [runtimeError_append, Option.map_some']
                rfl
              · rw [if_neg ha, if_neg ha]
                by_cases hm : H.frameCount = env.FRAMES_MAX
                · have hm1 : ({ H with heap := H.heap ++ [Obj.boundMethod receiver method] }
                      : hs_State).frameCount = env.FRAMES_MAX := hm
                  rw [if_pos hm, if_pos hm1]
                  simp only [runtimeError_append, Option.map_some']
                  rfl
                · have hm1 : ¬ ({ H with heap := H.heap ++ [Obj.boundMethod receiver method] }
                      : hs_State).frameCount = env.FRAMES_MAX := hm
                  rw [if_neg hm, if_neg hm1]
                  cases ptrSub H.stackTop (argCount + 1) <;> rfl
            | _ => rfl
        · rw [h3, h4]
          rfl
      | _ => rfl
  · rw [h1, h2]
    rfl

/-! ## Invocation as property load and call -/

/-- Claim C25.  Let the instance `r` lie under `argCount` arguments.  If `name` is a
field with the value `value`, `GET_PROPERTY name` on the receiver loads `value`, and
`invoke` is the call of `value` in the state whose receiver slot holds `value`, the
state in which `CALL argCount` finds `value` as callee.  If `name` is not a field but a
method `closure` of the struct, `GET_PROPERTY name` loads a new bound method of `r` and
`closure`, and the call of that bound method in the state whose receiver slot holds it
has the outcome of `invoke` (the same result, frames, stack and messages), with the
bound method as one more object of the heap.  `BC_INVOKE` and `BC_CALL` continue or
return `RUNTIME_ERR` as `invoke` and `callValue` return true or false. -/
theorem invoke_is_property_load_then_call (env : Env) (H : hs_State) (name : Ref)
    (argCount : Nat) (r strooct : Ref) (fields : Table)
    (hreceiver : peek H (argCount : Int) = some (Value.obj r))
    (hinst : H.heap[r]? = some (Obj.inst strooct fields)) :
    (∀ value, tableGet fields name = some value →
      (∀ Ht : hs_State, Ht.heap = H.heap → peek Ht 0 = some (Value.obj r) →
        getProperty Ht (Value.obj r) name true
          = some (true, push { Ht with stackTop := Ht.stackTop - 1 } value))
      ∧ peek { H with stack := poke H.stack (H.stackTop - (argCount + 1)) value }
          (argCount : Int) = some value
      ∧ invoke env H name argCount
          = callValue env
              { H with stack := poke H.stack (H.stackTop - (argCount + 1)) value }
              value argCount)
    ∧ (∀ (n closure : Ref) (methods staticMethods defaultFields : Table),
      tableGet fields name = none →
      H.heap[strooct]? = some (Obj.strooct n methods staticMethods defaultFields) →
      tableGet methods name = some (Value.obj closure) →
      (∀ Ht : hs_State, Ht.heap = H.heap → peek Ht 0 = some (Value.obj r) →
        ∃ Hp, getProperty Ht (Value.obj r) name true = some (true, Hp)
          ∧ peek Hp 0 = some (Value.obj H.heap.length)
          ∧ Hp.heap = H.heap ++ [Obj.boundMethod (Value.obj r) closure])
      ∧ peek
          { H with heap := H.heap ++ [Obj.boundMethod (Value.obj r) closure],
                   stack := poke H.stack (H.stackTop - (argCount + 1))
                     (Value.obj H.heap.length) }
          (argCount : Int) = some (Value.obj H.heap.length)
      ∧ callValue env
          { H with heap := H.heap ++ [Obj.boundMethod (Value.obj r) closure],
                   stack := poke H.stack (H.stackTop - (argCount + 1))
                     (Value.obj H.heap.length) }
          (Value.obj H.heap.length) argCount
        = (invoke env H name argCount).map
            (fun p => (p.1, { p.2 with
              heap := p.2.heap ++ [Obj.boundMethod (Value.obj r) closure] })))
    ∧ (∀ Hi H1 : hs_State, READ_STRING Hi = some (name, H1) →
        READ_BYTE H1 = some (argCount, H) →
        case_BC_INVOKE env Hi
          = (invoke env H name argCount).map
              (fun p => if p.1 then Step.next p.2
                else Step.ret InterpretResult.RUNTIME_ERR p.2))
    ∧ (∀ (Hc Hg : hs_State) (callee : Value), READ_BYTE Hc = some (argCount, Hg) →
        peek Hg (argCount : Int) = some callee →
        case_BC_CALL env Hc
          = (callValue env Hg callee argCount).map
              (fun p => if p.1 then Step.next p.2
                else Step.ret InterpretResult.RUNTIME_ERR p.2)) := by
  obtain ⟨hle, hget⟩ := peek_natCast hreceiver
  have hslot : ptrSub H.stackTop ((argCount : Int) + 1) = some (H.stackTop - (argCount + 1)) := by
    have := @ptrSub_of_le H.stackTop (argCount + 1) hle
    simpa using this
  have hslot1 : ptrSub H.stackTop (1 + (argCount : Int))
      = some (H.stackTop - (argCount + 1)) := by
    rw [add_comm]
    exact hslot
  refine ⟨?_, ?_, ?_, ?_⟩
  · intro value hfield
    refine ⟨?_, ?_, ?_⟩
    · intro Ht hheap htop
      simp only [getProperty, hheap, hinst, hfield, pop_of_peek htop, if_true]
    · simp only [peek, hslot1]
      exact poke_get_self _ _ _
    · simp only [invoke, hreceiver, asObj, hinst, hfield, hslot]
  · intro n closure methods staticMethods defaultFields hfield hstruct hmethod
    have hinvoke : invoke env H name argCount = call env H closure argCount := by
      simp only [invoke, hreceiver, asObj, hinst, hfield, invokeFromStruct, hstruct, hmethod]
    refine ⟨?_, ?_, ?_⟩
    · intro Ht hheap htop
      have hpop : pop (allocate Ht (Obj.boundMethod (Value.obj r) closure)).2
          = some (Value.obj r,
              { (allocate Ht (Obj.boundMethod (Value.obj r) closure)).2 with
                stackTop := Ht.stackTop - 1 }) :=
        @pop_of_peek (allocate Ht (Obj.boundMethod (Value.obj r) closure)).2 (Value.obj r) htop
      refine ⟨push { (allocate Ht (Obj.boundMethod (Value.obj r) closure)).2 with
          stackTop := Ht.stackTop - 1 } (Value.obj Ht.heap.length), ?_, ?_, ?_⟩
      · simp only [getProperty, hheap, hinst, hfield, bindMethod, hstruct, hmethod, asObj, htop]
        simp only [allocate] at hpop ⊢
        rw [hpop]
        simp only [hheap]
      · rw [← hheap]
        exact peek_push _ _
      · simp only [push, allocate, hheap]
    · simp only [peek, hslot1]
      exact poke_get_self _ _ _
    · rw [hinvoke, ← call_append]
      simp only [callValue, List.getElem?_concat_length, hslot]
      rw [poke_poke_self _ _ hget]
  · intro Hi H1 h1 h2
    simp only [case_BC_INVOKE, h1, h2]
    cases invoke env H name argCount with
    | none => rfl
    | some p =>
      obtain ⟨b, X⟩ := p
      cases b <;> rfl
  · intro Hc Hg callee h1 h2
    simp only [case_BC_CALL, h1, h2]
    cases callValue env Hg callee argCount with
    | none => rfl
    | some p =>
      obtain ⟨b, X⟩ := p
      cases b <;> rfl

/-- Claim C25 on the instance `p` of `struct P { x; func m() {} }`.  With a closure in
the field `x`, `p.x()` is the call of that closure with the closure in the receiver
slot.  `p.m()` is the call of the bound method of `p` and `m`: a frame for the closure
of `m` with `p` in its slot 0.  With the number 0 in `x`, `p.x()` fails as the call of 0
does. -/
theorem invoke_is_property_load_then_call_witness :
    invoke demoEnv (receiverState (Value.obj 6)) 2 (0 : Nat)
      = callValue demoEnv
          { receiverState (Value.obj 6) with
            stack := poke (receiverState (Value.obj 6)).stack
              ((receiverState (Value.obj 6)).stackTop - (0 + 1)) (Value.obj 6) }
          (Value.obj 6) (0 : Nat)
    ∧ callValue demoEnv
          { receiverState Value.nil with
            heap := (receiverState Value.nil).heap ++ [Obj.boundMethod (Value.obj 8) 6],
            stack := poke (receiverState Value.nil).stack
              ((receiverState Value.nil).stackTop - (0 + 1))
              (Value.obj (receiverState Value.nil).heap.length) }
          (Value.obj (receiverState Value.nil).heap.length) (0 : Nat)
        = (invoke demoEnv (receiverState Value.nil) 3 (0 : Nat)).map
            (fun p => (p.1, { p.2 with
              heap := p.2.heap ++ [Obj.boundMethod (Value.obj 8) 6] }))
    ∧ (invoke demoEnv (receiverState Value.nil) 3 0).map
        (fun p => (p.1, p.2.frames, p.2.stackTop, p.2.stack))
      = some (true,
          [{ func := some 1, ip := some 0, slots := 0 },
           { func := some 6, ip := some 0, slots := 1 }],
          2, [Value.obj 1, Value.obj 8])
    ∧ (invoke demoEnv (receiverState (Value.obj 6)) 2 0).map
        (fun p => (p.1, p.2.frames, p.2.stackTop, p.2.stack))
      = some (true,
          [{ func := some 1, ip := some 0, slots := 0 },
           { func := some 6, ip := some 0, slots := 1 }],
          2, [Value.obj 1, Value.obj 6])
    ∧ (invoke demoEnv (receiverState (Value.number (F64.ofNat 0))) 2 0).map
        (fun p => (p.1, p.2.stderr))
      = some (false, "[line #0] in script\nCan only call functions.\n")
    ∧ (callValue demoEnv
          { receiverState (Value.number (F64.ofNat 0)) with
            stack := [Value.obj 1, Value.number (F64.ofNat 0)] }
          (Value.number (F64.ofNat 0)) 0).map (fun p => (p.1, p.2.stderr))
      = some (false, "[line #0] in script\nCan only call functions.\n") :=
  ⟨((invoke_is_property_load_then_call demoEnv (receiverState (Value.obj 6)) 2 0 8 7
      [(2, Value.obj 6)] (by decide) (by decide)).1 (Value.obj 6) (by decide)).2.2,
   ((invoke_is_property_load_then_call demoEnv (receiverState Value.nil) 3 0 8 7
      [(2, Value.nil)] (by decide) (by decide)).2.1 4 6 [(3, Value.obj 6)] []
      [(2, Value.number (F64.ofNat 0))] (by decide) (by decide) (by decide)).2.2,
   by decide, by decide, by decide, by decide⟩

/-- Claim C26.  Every call of `nextToken` returns a token.  A call that returns a token
other than EOF moves the scan position forward; no call moves it over a NUL byte, so a
position that is not past the terminating NUL stays so.  At an EOF token the position is
at a NUL byte, and every later call returns the same EOF token and leaves the tokenizer,
its position and its line, as it is.  Hence EOF is returned within
`source.length - end_ + 1` calls, and within `source.length + 1` calls of a tokenizer
initialised with `source`. -/
theorem nextToken_advances_until_eof (tokenizer : Tokenizer) :
    (∃ token tokenizer1, tokenizer.nextToken = some (token, tokenizer1)
      ∧ tokenizer1.source = tokenizer.source
      ∧ tokenizer.end_ ≤ tokenizer1.end_
      ∧ (token.type ≠ TokenType.TOKEN_EOF → tokenizer.end_ < tokenizer1.end_)
      ∧ (∀ i, tokenizer.end_ ≤ i → i < tokenizer1.end_ →
          charAt tokenizer.source i ≠ Char.ofNat 0)
      ∧ (tokenizer.end_ ≤ tokenizer.source.length →
          tokenizer1.end_ ≤ tokenizer.source.length)
      ∧ (token.type = TokenType.TOKEN_EOF →
          charAt tokenizer.source tokenizer1.end_ = Char.ofNat 0
          ∧ ∀ n, tokenAt n tokenizer1 = some (token, tokenizer1)))
    ∧ (∃ n, n ≤ tokenizer.source.length - tokenizer.end_
        ∧ ∃ token tokenizer1, tokenAt n tokenizer = some (token, tokenizer1)
          ∧ token.type = TokenType.TOKEN_EOF)
    ∧ (∀ source : List Char, ∃ n, n + 1 ≤ source.length + 1
        ∧ ∃ token tokenizer1, tokenAt n (initTokenizer source) = some (token, tokenizer1)
          ∧ token.type = TokenType.TOKEN_EOF ∧ tokenizer1.end_ ≤ source.length) := by
  refine ⟨?_, tokenAt_reaches_eof _ tokenizer (le_refl _), ?_⟩
  · obtain ⟨token, t1, h1, h2, -, h4⟩ := nextToken_spec tokenizer
    refine ⟨token, t1, h1, h2.1, h2.2.1, ?_, h2.2.2.1, ?_, ?_⟩
    · intro hne
      rcases h4 with ⟨h4, -, -⟩ | ⟨-, hlt⟩
      · exact absurd (by rw [h4]; rfl) hne
      · exact hlt
    · intro hle
      have := h2.le_length hle
      rw [h2.1] at this
      exact this
    · intro heof
      rcases h4 with ⟨h4, he, hs⟩ | ⟨hne, -⟩
      · constructor
        · have hp : charAt t1.source t1.end_ = Char.ofNat 0 := by
            unfold Tokenizer.isAtEnd at he
            simpa using he
          rw [← h2.1]
          exact hp
        · rw [h4]
          exact tokenAt_at_end he hs
      · exact absurd heof hne
  · intro source
    have hinit : (initTokenizer source).end_ ≤ source.length := by
      unfold initTokenizer
      dsimp only
      split
      next h =>
        have hl := congrArg List.length h
        rw [List.length_take] at hl
        have h3 : utf8Bom.length = 3 := rfl
        omega
      next => exact Nat.zero_le _
    obtain ⟨n, hn, token, t1, k1, k2⟩ :=
      tokenAt_reaches_eof _ (initTokenizer source) (le_refl _)
    obtain ⟨token2, t2, j1, j2, -⟩ := tokenAt_spec n (initTokenizer source)
    have heq : t2 = t1 := by
      rw [k1] at j1
      exact (congrArg Prod.snd (Option.some.inj j1)).symm
    subst heq
    have hle : t2.end_ ≤ t2.source.length := j2.le_length hinit
    rw [j2.1] at hle
    have hn1 : n ≤ source.length := le_trans hn (Nat.sub_le _ _)
    exact ⟨n, Nat.succ_le_succ hn1, token, t2, k1, k2, hle⟩

/-- Claim C26 on the source `x = 12`: the three tokens end at the offsets 1, 3 and 6, the
fourth call returns EOF at offset 6, and so does every call after it. -/
theorem nextToken_advances_until_eof_witness :
    ((∃ token tokenizer1,
        Tokenizer.nextToken (initTokenizer "x = 12".toList) = some (token, tokenizer1)
        ∧ tokenizer1.source = (initTokenizer "x = 12".toList).source
        ∧ (initTokenizer "x = 12".toList).end_ ≤ tokenizer1.end_
        ∧ (token.type ≠ TokenType.TOKEN_EOF →
            (initTokenizer "x = 12".toList).end_ < tokenizer1.end_)
        ∧ (∀ i, (initTokenizer "x = 12".toList).end_ ≤ i → i < tokenizer1.end_ →
            charAt (initTokenizer "x = 12".toList).source i ≠ Char.ofNat 0)
        ∧ ((initTokenizer "x = 12".toList).end_
              ≤ (initTokenizer "x = 12".toList).source.length →
            tokenizer1.end_ ≤ (initTokenizer "x = 12".toList).source.length)
        ∧ (token.type = TokenType.TOKEN_EOF →
            charAt (initTokenizer "x = 12".toList).source tokenizer1.end_ = Char.ofNat 0
            ∧ ∀ n, tokenAt n tokenizer1 = some (token, tokenizer1)))
      ∧ (∃ n, n ≤ (initTokenizer "x = 12".toList).source.length
            - (initTokenizer "x = 12".toList).end_
          ∧ ∃ token tokenizer1,
            tokenAt n (initTokenizer "x = 12".toList) = some (token, tokenizer1)
            ∧ token.type = TokenType.TOKEN_EOF)
      ∧ (∀ source : List Char, ∃ n, n + 1 ≤ source.length + 1
          ∧ ∃ token tokenizer1,
            tokenAt n (initTokenizer source) = some (token, tokenizer1)
            ∧ token.type = TokenType.TOKEN_EOF ∧ tokenizer1.end_ ≤ source.length))
    ∧ (List.range 6).map (fun n => (tokenAt n (initTokenizer "x = 12".toList)).map
        (fun p => (p.1.type, p.2.end_, p.2.line)))
      = [some (TokenType.TOKEN_IDENTIFIER, 1, 1), some (TokenType.TOKEN_EQUAL, 3, 1),
         some (TokenType.TOKEN_NUMBER, 6, 1), some (TokenType.TOKEN_EOF, 6, 1),
         some (TokenType.TOKEN_EOF, 6, 1), some (TokenType.TOKEN_EOF, 6, 1)] :=
  ⟨nextToken_advances_until_eof (initTokenizer "x = 12".toList), by decide⟩

/-! ## Array destructuring -/

/-- Claim C27, evaluated on the code.  `BC_DESTRUCT_ARRAY` tests that the top of the
stack is an array and then pushes `array->values.values[index]` without comparing
`index` with the length.  With an index below the length the element is pushed and the
array stays beneath it; with an index at or above the length the element past the
array's elements is read, which has no defined result, and no runtime error is raised:
so for the array `[10]` with index 1 and for the empty array with index 0. -/
theorem destruct_array_reads_past_the_elements :
    (match step demoEnv
        (destructState [Value.number (F64.ofNat 10), Value.number (F64.ofNat 20)] 1) with
     | some (Step.next H) => some (H.stackTop, peek H 1, peek H 0)
     | _ => none)
      = some (3, some (Value.obj 2), some (Value.number (F64.ofNat 20)))
    ∧ step demoEnv (destructState [Value.number (F64.ofNat 10)] 1) = none
    ∧ step demoEnv (destructState [] 0) = none
    ∧ (∀ (H H1 : hs_State) (index : Nat) (r : Ref) (values : List Value),
        READ_BYTE H = some (index, H1) → peek H1 0 = some (Value.obj r) →
        H1.heap[r]? = some (Obj.array values) →
        (∀ element, values[index]? = some element →
          case_BC_DESTRUCT_ARRAY H = some (Step.next (push H1 element)))
        ∧ (values.length ≤ index → case_BC_DESTRUCT_ARRAY H = none)) := by
  refine ⟨by decide, by decide, by decide, ?_⟩
  intro H H1 index r values hread hpeek hheap
  constructor
  · intro element helement
    simp only [case_BC_DESTRUCT_ARRAY, hread, hpeek, hheap, helement]
  · intro hlen
    simp only [case_BC_DESTRUCT_ARRAY, hread, hpeek, hheap, List.getElem?_eq_none hlen]

/-! ## Open upvalues after a runtime error -/

/-- Claim C28, evaluated on the code.  `runtimeError` ends with `resetStack`, which
sets `openUpvalues = NULL` and closes nothing: an upvalue that was open stays open.
The script of `leakState` binds a closure that captures the local `x` (slot 1) to the
global `g` and then fails; `run` returns `RUNTIME_ERR` with `stackTop` at 0 and an
empty open-upvalue list, while the closure (object 4) is still bound to `g` and its
upvalue (object 5) is still open at slot 1.  A second script that puts 99 in its slot 1
and calls `g` gets 99, the value of its own local, from the closure. -/
theorem runtime_error_leaves_upvalues_open :
    (∀ (H : hs_State) (message : String) (u : Ref),
        (runtimeError H message).openUpvalues = []
        ∧ (runtimeError H message).stackTop = 0
        ∧ openLocation (runtimeError H message) u = openLocation H u)
    ∧ (match run demoEnv 10 leakState with
       | RunResult.returned result H =>
         some (result, H.stackTop, H.openUpvalues, tableGet H.globals 3)
       | _ => none)
      = some (InterpretResult.RUNTIME_ERR, 0, [], some (Value.obj 4))
    ∧ (match run demoEnv 10 leakState with
       | RunResult.returned _ H => some (H.heap[4]?, H.heap[5]?, openLocation H 5)
       | _ => none)
      = some (some (Obj.closure 2 [some 5]), some (Obj.upvalue (some 1) Value.nil), some 1)
    ∧ (match runSteps demoEnv 3 leakState with
       | some H => some (H.openUpvalues, openLocation H 5, H.stackTop)
       | none => none)
      = some ([5], some 1, 2)
    ∧ (match interpret demoEnv 6 secondScript 6 with
       | RunResult.returned result H => some (result, H.stack[1]?, H.stack[2]?)
       | _ => none)
      = some (InterpretResult.INTERPRET_OK, some (Value.number (F64.ofNat 99)),
          some (Value.number (F64.ofNat 99))) := by
  refine ⟨fun H message u => ⟨rfl, rfl, rfl⟩, by decide, by decide, by decide, by decide⟩

end HobbyScript
